import Mathlib

/-!
# Ryo blockchain core (`src/cryptonote_core/blockchain.cpp`)

A shallow embedding of the block-acceptance paths of `cryptonote::Blockchain`:
`add_new_block`, `handle_block_to_main_chain`, `handle_alternative_block`,
`check_tx_inputs` and the two coinbase reward validators.

Conventions.
* `uint64_t` / `size_t` / `difficulty_type` values are natural numbers; every
  arithmetic operation the source performs on them is written with an explicit
  reduction modulo `2^64` (`add64`, `sub64`).
* 32-byte values (`crypto::hash`, `crypto::key_image`, `crypto::public_key`) are
  natural numbers.
* Reference out-parameters become components of the returned record.
* Everything this translation unit only calls (the store `BlockchainDB`, the
  hard-fork governor, checkpoints, the proof-of-work hash, key derivation, the
  reward schedule, ...) is a field of `Env`; theorems quantify over every `Env`.
-/

namespace crypto

/-- Type `crypto::hash`, a 32-byte digest. -/
abbrev hash := Nat

/-- Type `crypto::key_image`. -/
abbrev key_image := Nat

/-- Type `crypto::public_key`. -/
abbrev public_key := Nat

/-- Type `crypto::secret_key`. -/
abbrev secret_key := Nat

/-- Type `crypto::key_derivation`. -/
abbrev key_derivation := Nat

/-- Constant `crypto::null_hash` (all bytes zero). -/
def null_hash : hash := 0

/-- Constant `crypto::null_pkey` (all bytes zero). -/
def null_pkey : public_key := 0

end crypto

namespace cryptonote

/-! ## 64-bit machine arithmetic -/

/-- Number of values of a `uint64_t`. -/
def UINT64_RANGE : Nat := 18446744073709551616

/-- Addition of two `uint64_t` values (`a + b`, `a += b`). -/
def add64 (a b : Nat) : Nat := (a + b) % UINT64_RANGE

/-- Subtraction of two `uint64_t` values (`a - b`), wrapping below zero. -/
def sub64 (a b : Nat) : Nat :=
  (a % UINT64_RANGE + (UINT64_RANGE - b % UINT64_RANGE)) % UINT64_RANGE

/-! ## Data model (`cryptonote_basic.h`) -/

/-- Variant `txin_v`: the input kinds of a transaction. -/
inductive txin_v where
  | txin_gen (height : Nat)
  | txin_to_script
  | txin_to_scripthash
  | txin_to_key (amount : Nat) (key_offsets : List Nat) (k_image : crypto.key_image)
  deriving DecidableEq, Repr

/-- Variant `txout_target_v`: the destination kinds of an output. -/
inductive txout_target_v where
  | txout_to_script
  | txout_to_scripthash
  | txout_to_key (key : crypto.public_key)
  deriving DecidableEq, Repr

/-- Struct `tx_out`. -/
structure tx_out where
  amount : Nat
  target : txout_target_v
  deriving DecidableEq, Repr

/-- The `type` byte of `rct::rctSig`. -/
inductive RCTType where
  | RCTTypeNull
  | RCTTypeFull
  | RCTTypeSimple
  | RCTTypeBulletproof
  | RCTTypeUnknown (code : Nat)
  deriving DecidableEq, Repr

/-- Type `rct::ctkey`: a ring member as (destination key, commitment). -/
structure ctkey where
  dest : Nat
  mask : Nat
  deriving DecidableEq, Repr

/-- Type `rct::mgSig`, reduced to its key-image list `II`. -/
structure mgSig where
  II : List Nat
  deriving DecidableEq, Repr

/-- Type `rct::rctSig`, reduced to the members this file reads or writes. -/
structure rctSig where
  type : RCTType
  message : Nat
  mixRing : List (List ctkey)
  MGs : List mgSig
  bulletproofs : List Nat
  deriving DecidableEq, Repr

/-- Class `transaction`. -/
structure transaction where
  version : Nat
  unlock_time : Nat
  vin : List txin_v
  vout : List tx_out
  extra : List Nat
  rct_signatures : rctSig
  deriving DecidableEq, Repr

/-- Struct `block` (header and body). -/
structure block where
  major_version : Nat
  minor_version : Nat
  timestamp : Nat
  prev_id : crypto.hash
  nonce : Nat
  miner_tx : transaction
  tx_hashes : List crypto.hash
  deriving DecidableEq, Repr

/-- Struct `Blockchain::block_extended_info`. -/
structure block_extended_info where
  bl : block
  height : Nat
  block_cumulative_size : Nat
  cumulative_difficulty : Nat
  already_generated_coins : Nat
  deriving DecidableEq, Repr

/-- Struct `block_verification_context`. -/
structure block_verification_context where
  m_added_to_main_chain : Bool
  m_verifivation_failed : Bool
  m_marked_as_orphaned : Bool
  m_already_exists : Bool
  m_partial_block_reward : Bool
  deriving DecidableEq, Repr

/-- Struct `tx_verification_context`, reduced to the flags this file sets. -/
structure tx_verification_context where
  m_verifivation_failed : Bool
  m_low_mixin : Bool
  m_double_spend : Bool
  m_invalid_input : Bool
  m_invalid_output : Bool
  deriving DecidableEq, Repr

/-- Variant `tx_extra_field`: the parsed entries of `transaction::extra`. -/
inductive tx_extra_field where
  | tx_extra_padding
  | tx_extra_pub_key (pub_key : crypto.public_key)
  | tx_extra_nonce
  | tx_extra_merge_mining_tag
  | tx_extra_additional_pub_keys (data : List crypto.public_key)
  | tx_extra_mysterious_minergate
  | tx_extra_uniform_payment_id
  deriving DecidableEq, Repr

/-- The hard-fork feature tags queried through `check_hard_fork_feature`. -/
inductive fork_feature where
  | FORK_V2_DIFFICULTY
  | FORK_V3_DIFFICULTY
  | FORK_V4_DIFFICULTY
  | FORK_FIXED_FEE
  | FORK_NEED_V3_TXES
  | FORK_BULLETPROOFS
  | FORK_BULLETPROOFS_REQ
  | FORK_STRICT_TX_SEMANTICS
  | FORK_DEV_FUND
  | FORK_FEE_V2
  | FORK_RINGSIZE_INC_REQ
  | FORK_UNIFORM_IDS_REQ
  | FORK_CHECK_BLOCK_BACKDATE
  deriving DecidableEq, Repr

/-- Enum `network_type`. -/
inductive network_type where
  | MAINNET
  | TESTNET
  | STAGENET
  | FAKECHAIN
  deriving DecidableEq, Repr

/-! ## The persistent store -/

/-- One main-chain record of the store: the block with the metadata that
`BlockchainDB::add_block` is given (`block_size`, `cumulative_difficulty`,
`coins_generated`) and the block's non-coinbase transactions. -/
structure db_block where
  bl : block
  id : crypto.hash
  block_size : Nat
  cumulative_difficulty : Nat
  already_generated_coins : Nat
  txs : List transaction
  deriving DecidableEq, Repr

/-- Modelled from the spec: the store behind `m_db` (class `BlockchainDB`, whose
source is not part of this translation unit). Section 4.1 and section 3 of the
specification describe it as the height-indexed block records, the set of
stored transactions and the insertion-only key-image set. -/
structure BlockchainDB where
  m_blocks : List db_block
  m_tx_ids : List crypto.hash
  m_spent_keys : List crypto.key_image
  deriving DecidableEq, Repr

/-- The store errors that `add_block` can raise, as far as the caller tells
them apart: `KEY_IMAGE_EXISTS`, and every other `std::exception`. -/
inductive db_exception where
  | KEY_IMAGE_EXISTS
  | DB_ERROR
  deriving DecidableEq, Repr

/-- How a call ends: it returns a boolean, or an exception leaves it. -/
inductive call_outcome where
  | returned (r : Bool)
  | threw (e : db_exception)
  deriving DecidableEq, Repr

/-- Struct `output_data_t`: what the store keeps for one output. -/
structure output_data_t where
  pubkey : crypto.public_key
  unlock_time : Nat
  height : Nat
  commitment : Nat
  deriving DecidableEq, Repr

/-! ## The environment: everything this translation unit only calls -/

/-- Constants of `cryptonote_config.h`, the members fixed by `Blockchain::init`
and the functions defined in other translation units, each taken as given.
Hard-fork queries receive the store they are evaluated against. Two methods of
`blockchain.cpp` itself are parameters as well, `check_tx_input` (the output
scan of one input) and `expand_transaction_2`: the results below hold for every
behaviour of them. -/
structure Env where
  /-- Macro `MONEY_SUPPLY`. -/
  MONEY_SUPPLY : Nat
  /-- Macro `CRYPTONOTE_REWARD_BLOCKS_WINDOW`. -/
  CRYPTONOTE_REWARD_BLOCKS_WINDOW : Nat
  /-- Macro `CRYPTONOTE_MINED_MONEY_UNLOCK_WINDOW`. -/
  CRYPTONOTE_MINED_MONEY_UNLOCK_WINDOW : Nat
  /-- Constant `common_config::MAX_MIXIN`. -/
  MAX_MIXIN : Nat
  /-- Constant `common_config::MIN_MIXIN_V1`. -/
  MIN_MIXIN_V1 : Nat
  /-- Constant `common_config::MIN_MIXIN_V2`. -/
  MIN_MIXIN_V2 : Nat
  /-- Macro `MIN_TRANSACTION_VERSION`. -/
  MIN_TRANSACTION_VERSION : Nat
  /-- Macro `MAX_TRANSACTION_VERSION`. -/
  MAX_TRANSACTION_VERSION : Nat
  /-- Constant `common_config::DIFFICULTY_BLOCKS_COUNT_V1`. -/
  DIFFICULTY_BLOCKS_COUNT_V1 : Nat
  /-- Constant `common_config::DIFFICULTY_BLOCKS_COUNT_V2`. -/
  DIFFICULTY_BLOCKS_COUNT_V2 : Nat
  /-- Constant `common_config::DIFFICULTY_BLOCKS_COUNT_V3`. -/
  DIFFICULTY_BLOCKS_COUNT_V3 : Nat
  /-- Constant `common_config::DIFFICULTY_BLOCKS_COUNT_V4`. -/
  DIFFICULTY_BLOCKS_COUNT_V4 : Nat
  /-- Constant `common_config::BLOCKCHAIN_TIMESTAMP_CHECK_WINDOW_V1`. -/
  BLOCKCHAIN_TIMESTAMP_CHECK_WINDOW_V1 : Nat
  /-- Constant `common_config::BLOCKCHAIN_TIMESTAMP_CHECK_WINDOW_V2`. -/
  BLOCKCHAIN_TIMESTAMP_CHECK_WINDOW_V2 : Nat
  /-- Constant `common_config::BLOCKCHAIN_TIMESTAMP_CHECK_WINDOW_V3`. -/
  BLOCKCHAIN_TIMESTAMP_CHECK_WINDOW_V3 : Nat
  /-- Constant `common_config::BLOCK_FUTURE_TIME_LIMIT_V2`. -/
  BLOCK_FUTURE_TIME_LIMIT_V2 : Nat
  /-- Constant `common_config::BLOCK_FUTURE_TIME_LIMIT_V3`. -/
  BLOCK_FUTURE_TIME_LIMIT_V3 : Nat
  /-- Whether the build defines `PER_BLOCK_CHECKPOINT`. -/
  PER_BLOCK_CHECKPOINT : Bool
  /-- Member `m_nettype`. -/
  m_nettype : network_type
  /-- Member `m_dev_view_key`. -/
  m_dev_view_key : crypto.secret_key
  /-- Member `m_dev_spend_key`. -/
  m_dev_spend_key : crypto.public_key
  /-- Function `get_block_hash`. -/
  get_block_hash : block → crypto.hash
  /-- Function `get_transaction_hash`. -/
  get_transaction_hash : transaction → crypto.hash
  /-- Function `get_transaction_prefix_hash`. -/
  get_transaction_prefix_hash : transaction → crypto.hash
  /-- Function `get_object_blobsize` on a transaction. -/
  get_object_blobsize : transaction → Nat
  /-- Function `get_block_height`: the height carried by the coinbase input. -/
  get_block_height : block → Nat
  /-- Function `get_outs_money_amount`. -/
  get_outs_money_amount : transaction → Nat
  /-- Function `get_tx_pub_key_from_extra`. -/
  get_tx_pub_key_from_extra : transaction → crypto.public_key
  /-- Function `parse_tx_extra`, returning the parsed field list. -/
  parse_tx_extra : List Nat → List tx_extra_field
  /-- Function `generate_key_derivation`; `none` when it returns false. -/
  generate_key_derivation : crypto.public_key → crypto.secret_key → Option crypto.key_derivation
  /-- Function `derive_public_key`; `none` when it returns false. -/
  derive_public_key : crypto.key_derivation → Nat → crypto.public_key → Option crypto.public_key
  /-- Function `get_block_reward (nettype, median_size, current_block_size,
  already_generated_coins, reward, height)`; `none` when it returns false, else
  the value written to `reward`. -/
  get_block_reward : Nat → Nat → Nat → Nat → Option Nat
  /-- Function `get_dev_fund_amount (nettype, height, amount)`: the value written
  to `amount`. -/
  get_dev_fund_amount : Nat → Nat
  /-- Function `epee::misc_utils::median`, which takes its vector by non-const
  reference: the value returned and the vector as the call leaves it. -/
  median : List Nat → Nat × List Nat
  /-- Function `get_min_block_size`. -/
  get_min_block_size : Nat
  /-- Call `m_hardfork->check (b)`. -/
  hardfork_check : BlockchainDB → block → Bool
  /-- Call `m_hardfork->check_for_height (b, height)`. -/
  hardfork_check_for_height : BlockchainDB → block → Nat → Bool
  /-- Function `check_hard_fork_feature`. -/
  check_hard_fork_feature : BlockchainDB → fork_feature → Bool
  /-- Function `get_fork_v (m_nettype, feature)`. -/
  get_fork_v : fork_feature → Nat
  /-- Call `m_checkpoints.is_in_checkpoint_zone (height)`. -/
  is_in_checkpoint_zone : Nat → Bool
  /-- Call `m_checkpoints.check_block (height, id, is_a_checkpoint)`: the result
  and the value written to `is_a_checkpoint`. -/
  check_block : Nat → crypto.hash → Bool × Bool
  /-- Call `m_checkpoints.is_alternative_block_allowed (blockchain_height,
  block_height)`. -/
  is_alternative_block_allowed : Nat → Nat → Bool
  /-- Function `get_adjusted_time` (the wall clock, fixed during one call). -/
  get_adjusted_time : Nat
  /-- Function `next_difficulty_v1 (timestamps, cumulative_difficulties, target)`. -/
  next_difficulty_v1 : List Nat → List Nat → Nat
  /-- Function `next_difficulty_v2 (timestamps, cumulative_difficulties, target)`. -/
  next_difficulty_v2 : List Nat → List Nat → Nat
  /-- Function `next_difficulty_v3 (timestamps, cumulative_difficulties)`. -/
  next_difficulty_v3 : List Nat → List Nat → Nat
  /-- Function `next_difficulty_v4 (timestamps, cumulative_difficulties)`. -/
  next_difficulty_v4 : List Nat → List Nat → Nat
  /-- Function `get_block_longhash`: the proof-of-work hash of a block. -/
  get_block_longhash : block → crypto.hash
  /-- Function `check_hash (hash, difficulty)`. -/
  check_hash : crypto.hash → Nat → Bool
  /-- Whether `BlockchainDB::add_block` fails with a store error other than
  `KEY_IMAGE_EXISTS` (I/O, corruption, ...) on this store and block. -/
  db_add_block_fault : BlockchainDB → block → Bool
  /-- Whether `tx_memory_pool::add_tx` admits the transaction. -/
  pool_admits : transaction → Bool
  /-- The fee `tx_memory_pool::add_tx` records for a transaction. -/
  get_tx_fee : transaction → Nat
  /-- Method `Blockchain::check_tx_input`, evaluated against the store: `none`
  when it returns false, else the collected `output_keys` and the updated
  `*pmax_related_block_height` (when the pointer is not null). -/
  check_tx_input : BlockchainDB → Nat → txin_v → crypto.hash → rctSig → Option Nat →
    Option (List ctkey × Option Nat)
  /-- Method `Blockchain::expand_transaction_2`: `none` when it returns false,
  else the transaction with its ringCT signature expanded. -/
  expand_transaction_2 : transaction → crypto.hash → List (List ctkey) → Option transaction
  /-- Function `rct::verRctNonSemanticsSimple`. -/
  verRctNonSemanticsSimple : rctSig → Bool
  /-- Function `rct::verRct (rv, false)`. -/
  verRct : rctSig → Bool
  /-- Constant `common_config::POISSON_CHECK_TRIGGER`. -/
  POISSON_CHECK_TRIGGER : Nat
  /-- Constant `common_config::POISSON_CHECK_DEPTH`. -/
  POISSON_CHECK_DEPTH : Nat
  /-- The floating-point test `calc_poisson_ln (double (delta_t) / double
  (DIFFICULTY_TARGET), k) < POISSON_LOG_P_REJECT` of
  `switch_to_alternative_blockchain`, as a function of `delta_t` and `k`. -/
  poisson_ln_below_reject : Nat → Nat → Bool
  /-- Function `crypto::check_key`: whether a public key is a valid curve
  point. -/
  check_key : crypto.public_key → Bool
  /-- Constant `common_config::FEE_PER_KB`. -/
  FEE_PER_KB : Nat
  /-- Constant `common_config::FEE_PER_RING_MEMBER`. -/
  FEE_PER_RING_MEMBER : Nat
  /-- Macro `COIN_EMISSION_HEIGHT_INTERVAL`. -/
  COIN_EMISSION_HEIGHT_INTERVAL : Nat
  /-- Macro `CRYPTONOTE_COINBASE_BLOB_RESERVED_SIZE`. -/
  CRYPTONOTE_COINBASE_BLOB_RESERVED_SIZE : Nat
  /-- Constant `common_config::BLOCK_SIZE_GROWTH_FAVORED_ZONE`. -/
  BLOCK_SIZE_GROWTH_FAVORED_ZONE : Nat
  /-- Constant `common_config::DYNAMIC_FEE_PER_KB_BASE_FEE`. -/
  DYNAMIC_FEE_PER_KB_BASE_FEE : Nat
  /-- Constant `common_config::DYNAMIC_FEE_PER_KB_BASE_BLOCK_REWARD`. -/
  DYNAMIC_FEE_PER_KB_BASE_BLOCK_REWARD : Nat
  /-- The floating-point expression `(uint64_t) (kB * fee_per_kb)` of
  `check_fee`, with `kB = d * 1.0f / 1024`, as a function of the size difference
  `d` and of `fee_per_kb`. -/
  float_kb_fee : Nat → Nat → Nat
  /-- Call `m_db->get_block_blob_from_height (height)`: the bytes of the stored
  block blob. -/
  get_block_blob_from_height : BlockchainDB → Nat → List Nat
  /-- Call `m_db->get_tx_blob (hash, tx)`: the bytes of the stored transaction
  blob; `none` when it returns false. -/
  get_tx_blob : BlockchainDB → crypto.hash → Option (List Nat)
  /-- Function `parse_and_validate_block_from_blob`; `none` when it returns
  false. -/
  parse_and_validate_block_from_blob : List Nat → Option block
  /-- Macro `CRYPTONOTE_LOCKED_TX_ALLOWED_DELTA_BLOCKS`. -/
  CRYPTONOTE_LOCKED_TX_ALLOWED_DELTA_BLOCKS : Nat
  /-- Macro `CRYPTONOTE_DEFAULT_TX_SPENDABLE_AGE`. -/
  CRYPTONOTE_DEFAULT_TX_SPENDABLE_AGE : Nat
  /-- Call `m_db->get_output_key (amount, index)`; `none` when it throws
  (`OUTPUT_DNE`, ...). -/
  get_output_key : BlockchainDB → Nat → Nat → Option output_data_t
  /-- Call `m_db->get_output_key (amount, offsets, outputs, true)`, the bulk
  lookup with partial results allowed: the value written to `outputs`; `none`
  when it throws. -/
  get_output_keys : BlockchainDB → Nat → List Nat → Option (List output_data_t)
  /-- Macro `HASH_OF_HASHES_STEP`. -/
  HASH_OF_HASHES_STEP : Nat
  /-- Function `cn_fast_hash` on the concatenation of a list of block hashes. -/
  cn_fast_hash : List crypto.hash → crypto.hash

/-! ## Store operations -/

namespace BlockchainDB

/-- Modelled from the spec: `BlockchainDB::height`, the number of main-chain
blocks. -/
def height (db : BlockchainDB) : Nat := db.m_blocks.length

/-- Modelled from the spec: `BlockchainDB::top_block_hash`, the hash of the tip
(`null_hash` for an empty store). -/
def top_block_hash (db : BlockchainDB) : crypto.hash :=
  match db.m_blocks.getLast? with
  | some r => r.id
  | none => crypto.null_hash

/-- Modelled from the spec: `BlockchainDB::block_exists`. -/
def block_exists (db : BlockchainDB) (h : crypto.hash) : Bool :=
  db.m_blocks.any (fun r => r.id == h)

/-- Modelled from the spec: `BlockchainDB::get_block_height (hash)`; the height
of the first record with that hash (the store height when there is none, where
the store raises `BLOCK_DNE`). -/
def get_block_height (db : BlockchainDB) (h : crypto.hash) : Nat :=
  db.m_blocks.findIdx (fun r => r.id == h)

/-- Modelled from the spec: `BlockchainDB::get_block_hash_from_height`. -/
def get_block_hash_from_height (db : BlockchainDB) (h : Nat) : crypto.hash :=
  match db.m_blocks.get? h with
  | some r => r.id
  | none => crypto.null_hash

/-- Modelled from the spec: `BlockchainDB::get_block_cumulative_difficulty`. -/
def get_block_cumulative_difficulty (db : BlockchainDB) (h : Nat) : Nat :=
  match db.m_blocks.get? h with
  | some r => r.cumulative_difficulty
  | none => 0

/-- Modelled from the spec: `BlockchainDB::get_block_already_generated_coins`. -/
def get_block_already_generated_coins (db : BlockchainDB) (h : Nat) : Nat :=
  match db.m_blocks.get? h with
  | some r => r.already_generated_coins
  | none => 0

/-- Modelled from the spec: `BlockchainDB::get_block_timestamp`. -/
def get_block_timestamp (db : BlockchainDB) (h : Nat) : Nat :=
  match db.m_blocks.get? h with
  | some r => r.bl.timestamp
  | none => 0

/-- Modelled from the spec: `BlockchainDB::get_block_size`. -/
def get_block_size (db : BlockchainDB) (h : Nat) : Nat :=
  match db.m_blocks.get? h with
  | some r => r.block_size
  | none => 0

/-- Modelled from the spec: `BlockchainDB::get_block_header (hash)`, the record
of the main-chain block with that hash; `none` where the store raises
`BLOCK_DNE`. -/
def get_block_header (db : BlockchainDB) (h : crypto.hash) : Option db_block :=
  db.m_blocks.find? (fun r => r.id == h)

/-- Modelled from the spec: `BlockchainDB::tx_exists`. -/
def tx_exists (db : BlockchainDB) (h : crypto.hash) : Bool :=
  db.m_tx_ids.contains h

/-- Modelled from the spec: `BlockchainDB::has_key_image`, membership in the
spent key-image set. -/
def has_key_image (db : BlockchainDB) (k : crypto.key_image) : Bool :=
  db.m_spent_keys.contains k

end BlockchainDB

/-- The key-images spent by a transaction, in input order. -/
def tx_key_images (tx : transaction) : List crypto.key_image :=
  tx.vin.filterMap (fun i =>
    match i with
    | txin_v.txin_to_key _ _ k => some k
    | _ => none)

/-- Whether a list holds some value twice. -/
def has_duplicate : List Nat → Bool
  | [] => false
  | x :: xs => xs.contains x || has_duplicate xs

/-- Modelled from the spec: the exception, if any, that `BlockchainDB::add_block`
raises (section 4.1 and section 7): a store error (I/O, corruption, ...), or
`KEY_IMAGE_EXISTS` when a key-image of the block's transactions is already in
the spent set or occurs twice in the block. -/
def BlockchainDB.add_block_throws (env : Env) (db : BlockchainDB) (bl : block)
    (txs : List transaction) : Option db_exception :=
  let kis := (txs.map tx_key_images).flatten
  if env.db_add_block_fault db bl then some db_exception.DB_ERROR
  else if kis.any (fun k => db.has_key_image k) || has_duplicate kis then
    some db_exception.KEY_IMAGE_EXISTS
  else none

/-- Modelled from the spec: `BlockchainDB::add_block` (section 4.1: an atomic
append of the block, its transactions, their key-images and the metadata; a
thrown store error leaves the store unchanged). An `Except.error` result is a
thrown exception, with the store left as it was. -/
def BlockchainDB.add_block (env : Env) (db : BlockchainDB) (bl : block) (block_size : Nat)
    (cumulative_difficulty : Nat) (coins_generated : Nat) (txs : List transaction) :
    Except db_exception BlockchainDB :=
  match db.add_block_throws env bl txs with
  | some e => Except.error e
  | none =>
    Except.ok
      { m_blocks := db.m_blocks ++
          [{ bl := bl, id := env.get_block_hash bl, block_size := block_size,
             cumulative_difficulty := cumulative_difficulty,
             already_generated_coins := coins_generated, txs := txs }],
        m_tx_ids := db.m_tx_ids ++ env.get_transaction_hash bl.miner_tx ::
          txs.map env.get_transaction_hash,
        m_spent_keys := db.m_spent_keys ++ (txs.map tx_key_images).flatten }

/-! ## The transaction pool -/

/-- Struct `tx_memory_pool::tx_details`, reduced to what `take_tx` returns. -/
structure tx_details where
  id : crypto.hash
  tx : transaction
  blob_size : Nat
  fee : Nat
  deriving DecidableEq, Repr

/-- A call made on the transaction pool: `take_tx (id, ...)` with the
transaction it handed out (`none` when it returned false), or `add_tx (tx, ...)`. -/
inductive pool_call where
  | take_tx (id : crypto.hash) (taken : Option transaction)
  | add_tx (tx : transaction)
  deriving DecidableEq, Repr

/-- Modelled from the spec: the mempool behind `m_tx_pool` (class
`tx_memory_pool`, an external collaborator mutated only through `take_tx` and
`add_tx`): its transactions, and the history `m_calls` of the calls made on it. -/
structure tx_memory_pool where
  m_transactions : List tx_details
  m_calls : List pool_call
  deriving DecidableEq, Repr

/-- Modelled from the spec: `tx_memory_pool::take_tx`, removing the transaction
with this hash from the pool and returning it with its blob size and fee;
`none` in the first component when the pool does not hold it. -/
def tx_memory_pool.take_tx (pool : tx_memory_pool) (id : crypto.hash) :
    Option tx_details × tx_memory_pool :=
  match pool.m_transactions.find? (fun d => d.id == id) with
  | some d =>
    (some d, { m_transactions := pool.m_transactions.filter (fun e => !(e.id == id)),
               m_calls := pool.m_calls ++ [pool_call.take_tx id (some d.tx)] })
  | none => (none, { pool with m_calls := pool.m_calls ++ [pool_call.take_tx id none] })

/-- Modelled from the spec: `tx_memory_pool::add_tx (tx, tvc, true, true, false)`,
handing a transaction to the pool, which keeps it when it admits it. -/
def tx_memory_pool.add_tx (env : Env) (pool : tx_memory_pool) (tx : transaction) :
    Bool × tx_memory_pool :=
  if env.pool_admits tx then
    (true, { m_transactions := pool.m_transactions ++
               [{ id := env.get_transaction_hash tx, tx := tx,
                  blob_size := env.get_object_blobsize tx, fee := env.get_tx_fee tx }],
             m_calls := pool.m_calls ++ [pool_call.add_tx tx] })
  else
    (false, { pool with m_calls := pool.m_calls ++ [pool_call.add_tx tx] })

/-! ## The state of a `Blockchain` object -/

/-- The members of class `Blockchain` that the block-acceptance paths read or
write. Maps are association lists keyed by hash. -/
structure Blockchain where
  m_db : BlockchainDB
  m_tx_pool : tx_memory_pool
  m_alternative_chains : List (crypto.hash × block_extended_info)
  m_invalid_blocks : List (crypto.hash × block_extended_info)
  m_timestamps_and_difficulties_height : Nat
  m_timestamps : List Nat
  m_difficulties : List Nat
  m_blocks_longhash_table : List (crypto.hash × crypto.hash)
  m_blocks_hash_check : List crypto.hash
  m_blocks_txs_check : List crypto.hash
  m_check_txin_table : List (crypto.hash × List (crypto.key_image × Bool))
  m_current_block_cumul_sz_limit : Nat
  m_current_block_cumul_sz_median : Nat
  m_sync_counter : Nat
  deriving DecidableEq, Repr

/-! ## Coinbase validation -/

/-- Modelled from the spec: `check_outs_overflow` (section 4.5, S2 step 5,
"outputs don't overflow"): the total of the output amounts fits in 64 bits. -/
def check_outs_overflow (tx : transaction) : Bool :=
  decide ((tx.vout.map (fun o => o.amount)).sum < UINT64_RANGE)

/-- Method `Blockchain::get_last_n_blocks_sizes`: the sizes of the last `count`
main-chain blocks (fewer when the chain is shorter), oldest first. -/
def get_last_n_blocks_sizes (db : BlockchainDB) (count : Nat) : List Nat :=
  let h := db.height
  if h = 0 then []
  else
    let start_offset := h - min h count
    (List.range' start_offset (h - start_offset)).map (fun i => db.get_block_size i)

/-- What a coinbase reward validator leaves behind: its return value and the
two reference parameters `base_reward` and `partial_block_reward`. -/
structure miner_tx_validation where
  ok : Bool
  base_reward : Nat
  partial_block_reward : Bool
  deriving DecidableEq, Repr

/-- Method `Blockchain::validate_miner_transaction_v1`. -/
def validate_miner_transaction_v1 (env : Env) (db : BlockchainDB) (b : block)
    (cumulative_block_size fee base_reward already_generated_coins : Nat) :
    miner_tx_validation :=
  let money_in_use := b.miner_tx.vout.foldl (fun m o => add64 m o.amount) 0
  let last_blocks_sizes := get_last_n_blocks_sizes db env.CRYPTONOTE_REWARD_BLOCKS_WINDOW
  match env.get_block_reward (env.median last_blocks_sizes).1 cumulative_block_size
      already_generated_coins db.height with
  | none => { ok := false, base_reward := base_reward, partial_block_reward := false }
  | some reward =>
    if add64 reward fee < money_in_use then
      { ok := false, base_reward := reward, partial_block_reward := false }
    else if ¬ (sub64 money_in_use fee ≤ reward) then
      { ok := false, base_reward := reward, partial_block_reward := false }
    else
      { ok := true, base_reward := sub64 money_in_use fee,
        partial_block_reward := decide (add64 reward fee ≠ money_in_use) }

/-- The output loop of `validate_miner_transaction_v2`: for output `i` the
dev-fund key is derived, the output must be a key output with a non-zero
amount, and its amount goes to `dev_money` when its key is the derived key and
to `miner_money` otherwise. `none` when one of the three checks fails. -/
def miner_tx_v2_scan (env : Env) (deriv : crypto.key_derivation) :
    List tx_out → Nat → Nat → Nat → Option (Nat × Nat)
  | [], _, miner_money, dev_money => some (miner_money, dev_money)
  | o :: rest, i, miner_money, dev_money =>
    match env.derive_public_key deriv i env.m_dev_spend_key with
    | none => none
    | some pk =>
      match o.target with
      | txout_target_v.txout_to_key key =>
        if o.amount = 0 then none
        else if key = pk then
          miner_tx_v2_scan env deriv rest (i + 1) miner_money (add64 dev_money o.amount)
        else
          miner_tx_v2_scan env deriv rest (i + 1) (add64 miner_money o.amount) dev_money
      | _ => none

/-- Method `Blockchain::validate_miner_transaction_v2`. The incoming value of
`partial_block_reward` is kept when the call fails before writing it. -/
def validate_miner_transaction_v2 (env : Env) (db : BlockchainDB) (b : block)
    (height cumulative_block_size fee base_reward already_generated_coins : Nat)
    (partial_block_reward : Bool) : miner_tx_validation :=
  let tx_pub := env.get_tx_pub_key_from_extra b.miner_tx
  if tx_pub = crypto.null_pkey then
    { ok := false, base_reward := base_reward, partial_block_reward := partial_block_reward }
  else
    match env.generate_key_derivation tx_pub env.m_dev_view_key with
    | none =>
      { ok := false, base_reward := base_reward, partial_block_reward := partial_block_reward }
    | some deriv =>
      match miner_tx_v2_scan env deriv b.miner_tx.vout 0 0 0 with
      | none =>
        { ok := false, base_reward := base_reward,
          partial_block_reward := partial_block_reward }
      | some (miner_money, dev_money) =>
        let last_blocks_sizes :=
          get_last_n_blocks_sizes db env.CRYPTONOTE_REWARD_BLOCKS_WINDOW
        match env.get_block_reward (env.median last_blocks_sizes).1 cumulative_block_size
            already_generated_coins db.height with
        | none => { ok := false, base_reward := base_reward, partial_block_reward := false }
        | some reward =>
          if add64 reward fee < miner_money then
            { ok := false, base_reward := reward, partial_block_reward := false }
          else if env.get_dev_fund_amount height ≠ dev_money then
            { ok := false, base_reward := reward, partial_block_reward := false }
          else if ¬ (sub64 miner_money fee ≤ reward) then
            { ok := false, base_reward := reward, partial_block_reward := false }
          else
            { ok := true, base_reward := sub64 miner_money fee,
              partial_block_reward := decide (add64 reward fee ≠ miner_money) }

/-- Whether output `i` of a coinbase pays the dev fund: it is a key output whose
key is the one derived for index `i` from the dev-fund keys. -/
def is_dev_fund_output (env : Env) (deriv : crypto.key_derivation) (i : Nat) (o : tx_out) :
    Bool :=
  match env.derive_public_key deriv i env.m_dev_spend_key, o.target with
  | some pk, txout_target_v.txout_to_key key => decide (key = pk)
  | _, _ => false

/-- The amounts of the dev-fund outputs among the outputs numbered from `i`. -/
def dev_fund_amounts (env : Env) (deriv : crypto.key_derivation) : List tx_out → Nat → List Nat
  | [], _ => []
  | o :: rest, i =>
    (if is_dev_fund_output env deriv i o then [o.amount] else []) ++
      dev_fund_amounts env deriv rest (i + 1)

/-- The amounts of the remaining (miner) outputs among the outputs numbered
from `i`. -/
def miner_amounts (env : Env) (deriv : crypto.key_derivation) : List tx_out → Nat → List Nat
  | [], _ => []
  | o :: rest, i =>
    (if is_dev_fund_output env deriv i o then [] else [o.amount]) ++
      miner_amounts env deriv rest (i + 1)

/-! ## Transaction input verification (`check_tx_inputs`) -/

/-- Method `Blockchain::have_tx_keyimg_as_spent`. -/
def have_tx_keyimg_as_spent (db : BlockchainDB) (key_im : crypto.key_image) : Bool :=
  db.has_key_image key_im

/-- The ring-size loop of `check_tx_inputs` (lines 2895-2917): it tracks the
lowest and highest mixin over the key inputs; `none` when a ring exceeds
`MAX_MIXIN`. The mixin is `key_offsets.size() - 1` in `size_t` arithmetic. -/
def ring_size_scan (env : Env) : List txin_v → Nat → Nat → Option (Nat × Nat)
  | [], lowest_mixin, highest_mixin => some (lowest_mixin, highest_mixin)
  | txin_v.txin_to_key _ key_offsets _ :: rest, lowest_mixin, highest_mixin =>
    let vin_mixin := sub64 key_offsets.length 1
    let lowest := if vin_mixin < lowest_mixin then vin_mixin else lowest_mixin
    let highest := if vin_mixin > highest_mixin then vin_mixin else highest_mixin
    if vin_mixin > env.MAX_MIXIN then none
    else ring_size_scan env rest lowest highest
  | _ :: rest, lowest_mixin, highest_mixin =>
    ring_size_scan env rest lowest_mixin highest_mixin

/-- The extra-field loop of `check_tx_inputs` (lines 2945-2985) over the parsed
fields, carrying `has_pubkey`, `has_extrapubkeys` and `has_uniform_pid`; `none`
when a duplicate field or a size mismatch is met. -/
def tx_extra_scan (uids_required : Bool) (vout_size : Nat) :
    List tx_extra_field → Bool → Bool → Bool → Option (Bool × Bool × Bool)
  | [], has_pubkey, has_extrapubkeys, has_uniform_pid =>
    some (has_pubkey, has_extrapubkeys, has_uniform_pid)
  | tx_extra_field.tx_extra_pub_key _ :: rest, has_pubkey, has_extrapubkeys, has_uniform_pid =>
    if has_pubkey then none
    else tx_extra_scan uids_required vout_size rest true has_extrapubkeys has_uniform_pid
  | tx_extra_field.tx_extra_additional_pub_keys data :: rest, has_pubkey, has_extrapubkeys,
      has_uniform_pid =>
    if has_extrapubkeys then none
    else if data.length ≠ vout_size then none
    else tx_extra_scan uids_required vout_size rest has_pubkey true has_uniform_pid
  | tx_extra_field.tx_extra_uniform_payment_id :: rest, has_pubkey, has_extrapubkeys,
      has_uniform_pid =>
    if uids_required then
      if has_uniform_pid then none
      else tx_extra_scan uids_required vout_size rest has_pubkey has_extrapubkeys true
    else tx_extra_scan uids_required vout_size rest has_pubkey has_extrapubkeys has_uniform_pid
  | _ :: rest, has_pubkey, has_extrapubkeys, has_uniform_pid =>
    tx_extra_scan uids_required vout_size rest has_pubkey has_extrapubkeys has_uniform_pid

/-- The sorted-inputs loop of `check_tx_inputs` (lines 3001-3016): false when a
key-image is not strictly below the previous one (`memcmp (...) >= 0`; a
32-byte value is read as a big-endian number). -/
def inputs_sorted : List txin_v → Option crypto.key_image → Bool
  | [], _ => true
  | txin_v.txin_to_key _ _ k_image :: rest, some last_key_image =>
    if k_image ≥ last_key_image then false else inputs_sorted rest (some k_image)
  | txin_v.txin_to_key _ _ k_image :: rest, none => inputs_sorted rest (some k_image)
  | _ :: rest, last_key_image => inputs_sorted rest last_key_image

/-- The rule checks of `check_tx_inputs` that precede the input loop (lines
2895-3034): ring sizes, the strict-semantics rules on the extra field and the
input order, and the version range. `some tvc` when one of them returns false,
with the flags it set; `none` when all pass. -/
def check_tx_inputs_rules (env : Env) (db : BlockchainDB) (tx : transaction)
    (tvc : tx_verification_context) : Option tx_verification_context :=
  match ring_size_scan env tx.vin (UINT64_RANGE - 1) 0 with
  | none => some { tvc with m_verifivation_failed := true }
  | some (lowest_mixin, highest_mixin) =>
    let min_mixin :=
      if env.check_hard_fork_feature db fork_feature.FORK_RINGSIZE_INC_REQ then env.MIN_MIXIN_V2
      else env.MIN_MIXIN_V1
    if lowest_mixin < min_mixin then some { tvc with m_low_mixin := true }
    else
      let strict_tx_semantics :=
        env.check_hard_fork_feature db fork_feature.FORK_STRICT_TX_SEMANTICS
      if strict_tx_semantics && decide (highest_mixin ≠ lowest_mixin) then
        some { tvc with m_verifivation_failed := true }
      else
        let strict_failed : Bool :=
          if strict_tx_semantics then
            let uids_required :=
              env.check_hard_fork_feature db fork_feature.FORK_UNIFORM_IDS_REQ
            match tx_extra_scan uids_required tx.vout.length (env.parse_tx_extra tx.extra)
                false false false with
            | none => true
            | some (has_pubkey, _, has_uniform_pid) =>
              if uids_required && !has_uniform_pid then true
              else if !has_pubkey then true
              else !(inputs_sorted tx.vin none)
          else false
        if strict_failed then some { tvc with m_verifivation_failed := true }
        else if tx.version > env.MAX_TRANSACTION_VERSION then
          some { tvc with m_verifivation_failed := true }
        else
          let min_tx_version :=
            if env.check_hard_fork_feature db fork_feature.FORK_NEED_V3_TXES then 3
            else env.MIN_TRANSACTION_VERSION
          if tx.version < min_tx_version then some { tvc with m_verifivation_failed := true }
          else none

/-- The versioned minimum mixin of `check_tx_inputs` (line 2919). -/
def min_mixin (env : Env) (db : BlockchainDB) : Nat :=
  if env.check_hard_fork_feature db fork_feature.FORK_RINGSIZE_INC_REQ then env.MIN_MIXIN_V2
  else env.MIN_MIXIN_V1

/-- The ring-size rules of `check_tx_inputs` (lines 2895-2933) on their own:
`some tvc` when the method returns false there, with the flag it set; `none`
when it goes on to the next rule. -/
def check_ring_sizes (env : Env) (db : BlockchainDB) (tx : transaction)
    (tvc : tx_verification_context) : Option tx_verification_context :=
  match ring_size_scan env tx.vin (UINT64_RANGE - 1) 0 with
  | none => some { tvc with m_verifivation_failed := true }
  | some (lowest_mixin, highest_mixin) =>
    if lowest_mixin < min_mixin env db then some { tvc with m_low_mixin := true }
    else if env.check_hard_fork_feature db fork_feature.FORK_STRICT_TX_SEMANTICS &&
        decide (highest_mixin ≠ lowest_mixin) then
      some { tvc with m_verifivation_failed := true }
    else none

/-- The extra-field rules of `check_tx_inputs` (lines 2938-2999) on their own,
as they run under strict semantics: false when the method returns false there
(each of these returns sets `m_verifivation_failed`). -/
def check_tx_extra (env : Env) (db : BlockchainDB) (tx : transaction) : Bool :=
  let uids_required := env.check_hard_fork_feature db fork_feature.FORK_UNIFORM_IDS_REQ
  match tx_extra_scan uids_required tx.vout.length (env.parse_tx_extra tx.extra)
      false false false with
  | none => false
  | some (has_pubkey, _, has_uniform_pid) =>
    if uids_required && !has_uniform_pid then false
    else has_pubkey

/-- Lines 3036-3042: make sure `m_check_txin_table` has an entry for the prefix
hash. -/
def check_txin_table_emplace (table : List (crypto.hash × List (crypto.key_image × Bool)))
    (tx_prefix_hash : crypto.hash) : List (crypto.hash × List (crypto.key_image × Bool)) :=
  if table.any (fun e => e.1 == tx_prefix_hash) then table
  else table ++ [(tx_prefix_hash, [])]

/-- Line 3069: `it->second[k_image] = value`. -/
def check_txin_table_set (table : List (crypto.hash × List (crypto.key_image × Bool)))
    (tx_prefix_hash : crypto.hash) (k_image : crypto.key_image) (value : Bool) :
    List (crypto.hash × List (crypto.key_image × Bool)) :=
  table.map (fun e =>
    if e.1 == tx_prefix_hash then
      (e.1, e.2.filter (fun p => !(p.1 == k_image)) ++ [(k_image, value)])
    else e)

/-- How the input loop of `check_tx_inputs` ends. -/
inductive inputs_loop_result where
  /-- A `return false` inside the loop, with the flags and caches at that point. -/
  | failed (tvc : tx_verification_context) (pmax_used_block_height : Option Nat)
      (table : List (crypto.hash × List (crypto.key_image × Bool)))
  /-- The loop ran to its end: the collected `pubkeys`, one ring per input. -/
  | passed (pubkeys : List (List ctkey)) (pmax_used_block_height : Option Nat)
  deriving DecidableEq, Repr

/-- The input loop of `check_tx_inputs` (lines 3048-3080). For every input in
order: it must be a key input with at least one key offset; its key-image must
not be in the spent set (else `m_double_spend` is set); `check_tx_input` must
accept it (else the cache entry of its key-image is set to false). `pubkeys`
holds the rings of the inputs already processed. -/
def check_tx_inputs_loop (env : Env) (db : BlockchainDB) (tx : transaction)
    (tx_prefix_hash : crypto.hash) :
    List txin_v → tx_verification_context → List (List ctkey) → Option Nat →
      List (crypto.hash × List (crypto.key_image × Bool)) → inputs_loop_result
  | [], _, pubkeys, pmax, _ => inputs_loop_result.passed pubkeys pmax
  | txin_v.txin_to_key amount key_offsets k_image :: rest, tvc, pubkeys, pmax, table =>
    if key_offsets.length = 0 then inputs_loop_result.failed tvc pmax table
    else if have_tx_keyimg_as_spent db k_image then
      inputs_loop_result.failed { tvc with m_double_spend := true } pmax table
    else
      match env.check_tx_input db tx.version (txin_v.txin_to_key amount key_offsets k_image)
          tx_prefix_hash tx.rct_signatures pmax with
      | none =>
        inputs_loop_result.failed tvc pmax
          (check_txin_table_set table tx_prefix_hash k_image false)
      | some (output_keys, pmax1) =>
        check_tx_inputs_loop env db tx tx_prefix_hash rest tvc (pubkeys ++ [output_keys]) pmax1
          table
  | _ :: _, tvc, _, pmax, table => inputs_loop_result.failed tvc pmax table

/-- The key-image of input `n` (`boost::get<txin_to_key> (tx.vin[n]).k_image`). -/
def vin_k_image (tx : transaction) (n : Nat) : Option crypto.key_image :=
  match tx.vin.get? n with
  | some (txin_v.txin_to_key _ _ k) => some k
  | _ => none

/-- Entry `[n][m]` of a ring table. -/
def ring_entry (ring : List (List ctkey)) (n m : Nat) : Option ctkey :=
  match ring.get? n with
  | some row => row.get? m
  | none => none

/-- The `RCTTypeSimple` / `RCTTypeBulletproof` case of the signature switch of
`check_tx_inputs` (lines 3099-3156). -/
def check_rct_simple (env : Env) (tx : transaction) (pubkeys : List (List ctkey)) : Bool :=
  let rv := tx.rct_signatures
  if pubkeys.length ≠ rv.mixRing.length then false
  else if !((List.range pubkeys.length).all (fun i =>
      (pubkeys.getD i []).length == (rv.mixRing.getD i []).length)) then false
  else if !((List.range pubkeys.length).all (fun n =>
      (List.range (pubkeys.getD n []).length).all (fun m =>
        ring_entry pubkeys n m == ring_entry rv.mixRing n m))) then false
  else if rv.MGs.length ≠ tx.vin.length then false
  else if !((List.range tx.vin.length).all (fun n =>
      match rv.MGs.get? n with
      | some mg =>
        (match mg.II.head? with
         | some ii => vin_k_image tx n == some ii
         | none => false)
      | none => false)) then false
  else env.verRctNonSemanticsSimple rv

/-- The `RCTTypeFull` case of the signature switch of `check_tx_inputs` (lines
3157-3215): the mix-ring is compared transposed. -/
def check_rct_full (env : Env) (tx : transaction) (pubkeys : List (List ctkey)) : Bool :=
  let rv := tx.rct_signatures
  let size_matches :=
    (List.range pubkeys.length).all (fun i =>
      (pubkeys.getD i []).length == rv.mixRing.length) &&
    (List.range rv.mixRing.length).all (fun i =>
      pubkeys.length == (rv.mixRing.getD i []).length)
  if !size_matches then false
  else if !((List.range pubkeys.length).all (fun n =>
      (List.range (pubkeys.getD n []).length).all (fun m =>
        ring_entry pubkeys n m == ring_entry rv.mixRing m n))) then false
  else if rv.MGs.length ≠ 1 then false
  else
    match rv.MGs.head? with
    | none => false
    | some mg =>
      if mg.II.length ≠ tx.vin.length then false
      else if !((List.range tx.vin.length).all (fun n =>
          vin_k_image tx n == mg.II.get? n)) then false
      else env.verRct rv

/-- What `check_tx_inputs` leaves behind: its return value, the verification
context, `*pmax_used_block_height`, the (expanded) transaction and the
`m_check_txin_table` cache. -/
structure check_tx_inputs_result where
  ok : Bool
  tvc : tx_verification_context
  pmax_used_block_height : Option Nat
  tx : transaction
  m_check_txin_table : List (crypto.hash × List (crypto.key_image × Bool))
  deriving DecidableEq, Repr

/-- Method `Blockchain::check_tx_inputs (tx, tvc, pmax_used_block_height)`.
`pmax` is `none` for a null pointer, else the incoming pointee. -/
def check_tx_inputs (env : Env) (db : BlockchainDB)
    (table : List (crypto.hash × List (crypto.key_image × Bool))) (tx : transaction)
    (tvc : tx_verification_context) (pmax : Option Nat) : check_tx_inputs_result :=
  let pmax0 := pmax.map (fun _ => 0)
  let tx_prefix_hash := env.get_transaction_prefix_hash tx
  match check_tx_inputs_rules env db tx tvc with
  | some tvc1 =>
    { ok := false, tvc := tvc1, pmax_used_block_height := pmax0, tx := tx,
      m_check_txin_table := table }
  | none =>
    let table1 := check_txin_table_emplace table tx_prefix_hash
    match check_tx_inputs_loop env db tx tx_prefix_hash tx.vin tvc [] pmax0 table1 with
    | inputs_loop_result.failed tvc1 pmax1 table2 =>
      { ok := false, tvc := tvc1, pmax_used_block_height := pmax1, tx := tx,
        m_check_txin_table := table2 }
    | inputs_loop_result.passed pubkeys pmax1 =>
      match env.expand_transaction_2 tx tx_prefix_hash pubkeys with
      | none =>
        { ok := false, tvc := tvc, pmax_used_block_height := pmax1, tx := tx,
          m_check_txin_table := table1 }
      | some tx1 =>
        let verified : Bool :=
          match tx1.rct_signatures.type with
          | RCTType.RCTTypeNull => false
          | RCTType.RCTTypeSimple => check_rct_simple env tx1 pubkeys
          | RCTType.RCTTypeBulletproof => check_rct_simple env tx1 pubkeys
          | RCTType.RCTTypeFull => check_rct_full env tx1 pubkeys
          | RCTType.RCTTypeUnknown _ => false
        { ok := verified, tvc := tvc, pmax_used_block_height := pmax1, tx := tx1,
          m_check_txin_table := table1 }

/-! ## Timestamps, difficulty and coinbase pre-validation -/

/-- Constant `MAINNET_HARDFORK_V3_HEIGHT`. -/
def MAINNET_HARDFORK_V3_HEIGHT : Nat := 116520

/-- Constant `MAINNET_HARDFORK_V6_HEIGHT`. -/
def MAINNET_HARDFORK_V6_HEIGHT : Nat := 228750

/-- Method `Blockchain::get_tail_id ()`. -/
def get_tail_id (st : Blockchain) : crypto.hash := st.m_db.top_block_hash

/-- Method `Blockchain::get_current_blockchain_height`. -/
def get_current_blockchain_height (st : Blockchain) : Nat := st.m_db.height

/-- Method `Blockchain::check_block_timestamp (timestamps, b, median_ts)`: the
result and `median_ts`. `timestamps.back ()` is read after `median` has been
given the vector; for an empty vector (undefined in the source) it reads 0. -/
def check_block_timestamp_vec (env : Env) (timestamps : List Nat) (b : block) : Bool × Nat :=
  let median_ts := (env.median timestamps).1
  let top_block_timestamp := (env.median timestamps).2.getLastD 0
  if b.major_version ≥ env.get_fork_v fork_feature.FORK_CHECK_BLOCK_BACKDATE ∧
      add64 b.timestamp env.BLOCK_FUTURE_TIME_LIMIT_V3 < top_block_timestamp then
    (false, median_ts)
  else if b.timestamp < median_ts then (false, median_ts)
  else (true, median_ts)

/-- Method `Blockchain::check_block_timestamp (b, median_ts)` for a main-chain
candidate: the result and `median_ts` (`none` when it is not written). -/
def check_block_timestamp (env : Env) (db : BlockchainDB) (b : block) : Bool × Option Nat :=
  let block_future_time_limit :=
    if env.check_hard_fork_feature db fork_feature.FORK_V3_DIFFICULTY then
      env.BLOCK_FUTURE_TIME_LIMIT_V3
    else env.BLOCK_FUTURE_TIME_LIMIT_V2
  let blockchain_timestamp_check_window :=
    if env.check_hard_fork_feature db fork_feature.FORK_V3_DIFFICULTY then
      env.BLOCKCHAIN_TIMESTAMP_CHECK_WINDOW_V3
    else if env.check_hard_fork_feature db fork_feature.FORK_V2_DIFFICULTY then
      env.BLOCKCHAIN_TIMESTAMP_CHECK_WINDOW_V2
    else env.BLOCKCHAIN_TIMESTAMP_CHECK_WINDOW_V1
  if b.timestamp > add64 env.get_adjusted_time block_future_time_limit then
    (false, some (add64 env.get_adjusted_time block_future_time_limit))
  else if db.height < blockchain_timestamp_check_window then (true, none)
  else
    let h := db.height
    let offset := h - blockchain_timestamp_check_window
    let timestamps := (List.range' offset (h - offset)).map (fun i => db.get_block_timestamp i)
    let r := check_block_timestamp_vec env timestamps b
    (r.1, some r.2)

/-- The timestamps of the main-chain heights `h, h - 1, ...` (`count` of them),
as pushed by the loop of `complete_timestamps_vector`. -/
def timestamps_down (db : BlockchainDB) : Nat → Nat → List Nat
  | 0, _ => []
  | count + 1, h => db.get_block_timestamp h :: timestamps_down db count (h - 1)

/-- Method `Blockchain::complete_timestamps_vector`: the vector as the call
leaves it (its boolean result is ignored by the only caller). -/
def complete_timestamps_vector (env : Env) (db : BlockchainDB) (start_top_height : Nat)
    (timestamps : List Nat) : List Nat :=
  let window_size :=
    if env.check_hard_fork_feature db fork_feature.FORK_V3_DIFFICULTY then
      env.BLOCKCHAIN_TIMESTAMP_CHECK_WINDOW_V3
    else env.BLOCKCHAIN_TIMESTAMP_CHECK_WINDOW_V2
  if timestamps.length ≥ window_size then timestamps
  else
    let need_elements := window_size - timestamps.length
    if ¬ (start_top_height < db.height) then timestamps
    else
      let stop_offset :=
        if start_top_height > need_elements then start_top_height - need_elements else 0
      timestamps ++ timestamps_down db (start_top_height - stop_offset) start_top_height

/-- The window size `block_count` chosen by the difficulty functions. -/
def difficulty_blocks_count (env : Env) (db : BlockchainDB) : Nat :=
  if env.check_hard_fork_feature db fork_feature.FORK_V4_DIFFICULTY then
    env.DIFFICULTY_BLOCKS_COUNT_V4
  else if env.check_hard_fork_feature db fork_feature.FORK_V3_DIFFICULTY then
    env.DIFFICULTY_BLOCKS_COUNT_V3
  else if env.check_hard_fork_feature db fork_feature.FORK_V2_DIFFICULTY then
    env.DIFFICULTY_BLOCKS_COUNT_V2
  else env.DIFFICULTY_BLOCKS_COUNT_V1

/-- The versioned `next_difficulty_v*` dispatch at the end of both difficulty
functions. -/
def next_difficulty (env : Env) (db : BlockchainDB) (timestamps difficulties : List Nat) : Nat :=
  if env.check_hard_fork_feature db fork_feature.FORK_V4_DIFFICULTY then
    env.next_difficulty_v4 timestamps difficulties
  else if env.check_hard_fork_feature db fork_feature.FORK_V3_DIFFICULTY then
    env.next_difficulty_v3 timestamps difficulties
  else if env.check_hard_fork_feature db fork_feature.FORK_V2_DIFFICULTY then
    env.next_difficulty_v2 timestamps difficulties
  else env.next_difficulty_v1 timestamps difficulties

/-- Method `Blockchain::get_difficulty_for_next_block`: the difficulty and the
state with the `m_timestamps` / `m_difficulties` cache as the call leaves it.
The local vector `timestamps` is still empty where the cache condition reads
its size (line 839). -/
def get_difficulty_for_next_block (env : Env) (st : Blockchain) : Nat × Blockchain :=
  let height := st.m_db.height
  if env.m_nettype = network_type.MAINNET ∧ height ≥ MAINNET_HARDFORK_V3_HEIGHT ∧
      height ≤ add64 MAINNET_HARDFORK_V3_HEIGHT env.DIFFICULTY_BLOCKS_COUNT_V2 then
    (480000000, st)
  else if env.m_nettype = network_type.MAINNET ∧ height ≥ MAINNET_HARDFORK_V6_HEIGHT ∧
      height ≤ add64 MAINNET_HARDFORK_V6_HEIGHT env.DIFFICULTY_BLOCKS_COUNT_V4 then
    (480000000, st)
  else
    let block_count := difficulty_blocks_count env st.m_db
    let timestamps : List Nat := []
    if st.m_timestamps_and_difficulties_height ≠ 0 ∧
        sub64 height st.m_timestamps_and_difficulties_height = 1 ∧
        timestamps.length ≥ block_count ∧ st.m_difficulties.length ≥ block_count then
      let index := height - 1
      let m_timestamps := st.m_timestamps ++ [st.m_db.get_block_timestamp index]
      let m_difficulties := st.m_difficulties ++ [st.m_db.get_block_cumulative_difficulty index]
      let m_timestamps := m_timestamps.drop (m_timestamps.length - block_count)
      let m_difficulties := m_difficulties.drop (m_difficulties.length - block_count)
      (next_difficulty env st.m_db m_timestamps m_difficulties,
        { st with m_timestamps_and_difficulties_height := height,
                  m_timestamps := m_timestamps, m_difficulties := m_difficulties })
    else
      let offset := height - min height block_count
      let offset := if offset = 0 then offset + 1 else offset
      let heights := List.range' offset (height - offset)
      let timestamps := heights.map (fun i => st.m_db.get_block_timestamp i)
      let difficulties := heights.map (fun i => st.m_db.get_block_cumulative_difficulty i)
      (next_difficulty env st.m_db timestamps difficulties,
        { st with m_timestamps_and_difficulties_height := height,
                  m_timestamps := timestamps, m_difficulties := difficulties })

/-- Method `Blockchain::get_next_difficulty_for_alternative_chain`; 0 is the
`false` returned by its internal assertion. `alt_chain` lists the entries of
the alternative index from the attachment point to the new block's parent. -/
def get_next_difficulty_for_alternative_chain (env : Env) (db : BlockchainDB)
    (alt_chain : List (crypto.hash × block_extended_info)) (bei : block_extended_info) : Nat :=
  let block_count := difficulty_blocks_count env db
  if alt_chain.length < block_count then
    let main_chain_stop_offset :=
      match alt_chain.head? with
      | some front => front.2.height
      | none => bei.height
    let main_chain_count := block_count - min block_count alt_chain.length
    let main_chain_count := min main_chain_count main_chain_stop_offset
    let main_chain_start_offset := main_chain_stop_offset - main_chain_count
    let main_chain_start_offset :=
      if main_chain_start_offset = 0 then main_chain_start_offset + 1
      else main_chain_start_offset
    let heights := List.range' main_chain_start_offset
      (main_chain_stop_offset - main_chain_start_offset)
    let timestamps := heights.map (fun i => db.get_block_timestamp i)
    let cumulative_difficulties := heights.map (fun i => db.get_block_cumulative_difficulty i)
    if ¬ (alt_chain.length + timestamps.length ≤ block_count) then 0
    else
      next_difficulty env db (timestamps ++ alt_chain.map (fun e => e.2.bl.timestamp))
        (cumulative_difficulties ++ alt_chain.map (fun e => e.2.cumulative_difficulty))
  else
    let tail := alt_chain.drop (alt_chain.length - block_count)
    next_difficulty env db (tail.map (fun e => e.2.bl.timestamp))
      (tail.map (fun e => e.2.cumulative_difficulty))

/-- Method `Blockchain::prevalidate_miner_transaction`. -/
def prevalidate_miner_transaction (env : Env) (b : block) (height : Nat) : Bool :=
  if b.miner_tx.vin.length ≠ 1 then false
  else
    match b.miner_tx.vin.head? with
    | some (txin_v.txin_gen h) =>
      if b.miner_tx.rct_signatures.type ≠ RCTType.RCTTypeNull then false
      else if h ≠ height then false
      else if b.miner_tx.unlock_time ≠ add64 height env.CRYPTONOTE_MINED_MONEY_UNLOCK_WINDOW then
        false
      else check_outs_overflow b.miner_tx
    | _ => false

/-! ## Applying a block to the main chain -/

/-- What a block-handling method leaves behind: how the call ended, the state
of the `Blockchain` object and the verification context. -/
structure block_call_result where
  outcome : call_outcome
  st : Blockchain
  bvc : block_verification_context
  deriving DecidableEq, Repr

/-- Method `Blockchain::return_tx_to_pool`: every transaction of `txs`, in
order, is handed to `tx_memory_pool::add_tx` (a refusal is only logged). -/
def return_tx_to_pool (env : Env) (pool : tx_memory_pool) : List transaction → tx_memory_pool
  | [] => pool
  | tx :: rest => return_tx_to_pool env (pool.add_tx env tx).2 rest

/-- Method `Blockchain::add_block_as_invalid (bl, h)`: a value-initialised
`block_extended_info` carrying the block is inserted under `h` unless the key
is present. -/
def add_block_as_invalid (st : Blockchain) (bl : block) (h : crypto.hash) : Blockchain :=
  if st.m_invalid_blocks.any (fun e => e.1 == h) then st
  else
    { st with m_invalid_blocks := st.m_invalid_blocks ++
        [(h, { bl := bl, height := 0, block_cumulative_size := 0, cumulative_difficulty := 0,
               already_generated_coins := 0 })] }

/-- Method `Blockchain::have_block`. -/
def have_block (st : Blockchain) (id : crypto.hash) : Bool :=
  if st.m_db.block_exists id then true
  else if st.m_alternative_chains.any (fun e => e.1 == id) then true
  else if st.m_invalid_blocks.any (fun e => e.1 == id) then true
  else false

/-- Method `Blockchain::update_next_cumulative_size_limit`. -/
def update_next_cumulative_size_limit (env : Env) (st : Blockchain) : Blockchain :=
  let full_reward_zone := env.get_min_block_size
  let sz := get_last_n_blocks_sizes st.m_db env.CRYPTONOTE_REWARD_BLOCKS_WINDOW
  let median := (env.median sz).1
  let median1 := if median ≤ full_reward_zone then full_reward_zone else median
  { st with m_current_block_cumul_sz_median := median,
            m_current_block_cumul_sz_limit := (median1 * 2) % UINT64_RANGE }

/-- The proof-of-work step of `handle_block_to_main_chain` (lines 3578-3621):
`none` when the block is rejected there, else the value of `fast_check`. With
`PER_BLOCK_CHECKPOINT`, a height inside `m_blocks_hash_check` is settled by the
expected hash alone. -/
def check_proof_of_work (env : Env) (st : Blockchain) (bl : block) (id : crypto.hash)
    (current_diffic : Nat) : Option Bool :=
  if env.PER_BLOCK_CHECKPOINT && decide (st.m_db.height < st.m_blocks_hash_check.length) then
    let hash := env.get_block_hash bl
    let expected_hash := st.m_blocks_hash_check.getD st.m_db.height crypto.null_hash
    if expected_hash ≠ crypto.null_hash then
      if hash ≠ expected_hash then none else some true
    else some false
  else
    let proof_of_work :=
      match st.m_blocks_longhash_table.find? (fun e => e.1 == id) with
      | some e => e.2
      | none => env.get_block_longhash bl
    if !env.check_hash proof_of_work current_diffic then none else some false

/-- How the transaction loop of `handle_block_to_main_chain` ends. -/
inductive block_txs_result where
  /-- A `goto leave` inside the loop: `m_verifivation_failed` has been set and
  `return_tx_to_pool (txs)` has run. -/
  | rejected (st : Blockchain)
  /-- The loop ran to its end with these `txs`, `fee_summary` and
  `cumulative_block_size`. -/
  | collected (st : Blockchain) (txs : List transaction) (fee_summary : Nat)
      (cumulative_block_size : Nat)
  deriving DecidableEq, Repr

/-- The `tx_verification_context tvc` declared in the loop body. -/
def fresh_tvc : tx_verification_context :=
  { m_verifivation_failed := false, m_low_mixin := false, m_double_spend := false,
    m_invalid_input := false, m_invalid_output := false }

/-- The transaction loop of `handle_block_to_main_chain` (lines 3668-3762) over
the remaining hashes of `bl.tx_hashes`, with the locals `txs`, `fee_summary`,
`cumulative_block_size` and `tx_index`. -/
def take_block_txs (env : Env) (bl : block) (id : crypto.hash) (fast_check : Bool) :
    List crypto.hash → Blockchain → List transaction → Nat → Nat → Nat → block_txs_result
  | [], st, txs, fee_summary, cumulative_block_size, _ =>
    block_txs_result.collected st txs fee_summary cumulative_block_size
  | tx_id :: rest, st, txs, fee_summary, cumulative_block_size, tx_index =>
    if st.m_db.tx_exists tx_id then
      block_txs_result.rejected { st with m_tx_pool := return_tx_to_pool env st.m_tx_pool txs }
    else
      match st.m_tx_pool.take_tx tx_id with
      | (none, pool1) =>
        block_txs_result.rejected { st with m_tx_pool := return_tx_to_pool env pool1 txs }
      | (some d, pool1) =>
        let txs1 := txs ++ [d.tx]
        let st1 := { st with m_tx_pool := pool1 }
        if !(env.PER_BLOCK_CHECKPOINT && fast_check) then
          let r := check_tx_inputs env st1.m_db st1.m_check_txin_table d.tx fresh_tvc none
          let st2 := { st1 with m_check_txin_table := r.m_check_txin_table }
          if !r.ok then
            let st3 := add_block_as_invalid st2 bl id
            block_txs_result.rejected
              { st3 with m_tx_pool := return_tx_to_pool env st3.m_tx_pool txs1 }
          else
            take_block_txs env bl id fast_check rest st2 txs1 (add64 fee_summary d.fee)
              (add64 cumulative_block_size d.blob_size) tx_index
        else
          if decide (tx_index ≥ st1.m_blocks_txs_check.length) ||
              decide (st1.m_blocks_txs_check.get? tx_index ≠ some tx_id) then
            let st3 := add_block_as_invalid st1 bl id
            block_txs_result.rejected
              { st3 with m_tx_pool := return_tx_to_pool env st3.m_tx_pool txs1 }
          else
            take_block_txs env bl id fast_check rest st1 txs1 (add64 fee_summary d.fee)
              (add64 cumulative_block_size d.blob_size) (tx_index + 1)

/-- The value of `already_generated_coins` stored with a block (lines 3801 and
1624): the parent's value plus the reward, capped at `MONEY_SUPPLY`. -/
def next_generated_coins (env : Env) (already_generated_coins reward : Nat) : Nat :=
  if reward < sub64 env.MONEY_SUPPLY already_generated_coins then
    add64 already_generated_coins reward
  else env.MONEY_SUPPLY

/-- The value of `already_generated_coins` read at line 3768: the one stored
with the tip, 0 for an empty chain. -/
def tip_generated_coins (db : BlockchainDB) : Nat :=
  if db.height ≠ 0 then db.get_block_already_generated_coins (db.height - 1) else 0

/-- The reward validation of `handle_block_to_main_chain` (lines 3767-3788):
`validate_miner_transaction_v2` when `FORK_DEV_FUND` is active, else
`validate_miner_transaction_v1`, called with `base_reward = 0`. -/
def validate_miner_transaction (env : Env) (db : BlockchainDB) (bl : block)
    (cumulative_block_size fee_summary : Nat) (partial_block_reward : Bool) :
    miner_tx_validation :=
  if env.check_hard_fork_feature db fork_feature.FORK_DEV_FUND then
    validate_miner_transaction_v2 env db bl db.height cumulative_block_size fee_summary 0
      (tip_generated_coins db) partial_block_reward
  else
    validate_miner_transaction_v1 env db bl cumulative_block_size fee_summary 0
      (tip_generated_coins db)

/-- The reward validation and commit of `handle_block_to_main_chain` (lines
3764-3862), entered with the outcome of the transaction loop. -/
def commit_block (env : Env) (bl : block)
    (bvc : block_verification_context) (current_diffic : Nat) (st : Blockchain)
    (txs : List transaction) (fee_summary cumulative_block_size : Nat) : block_call_result :=
  let st1 := { st with m_blocks_txs_check := [] }
  let height := st1.m_db.height
  let already_generated_coins := tip_generated_coins st1.m_db
  let v := validate_miner_transaction env st1.m_db bl cumulative_block_size fee_summary
    bvc.m_partial_block_reward
  let bvc1 := { bvc with m_partial_block_reward := v.partial_block_reward }
  if !v.ok then
    { outcome := call_outcome.returned false,
      st := { st1 with m_tx_pool := return_tx_to_pool env st1.m_tx_pool txs },
      bvc := { bvc1 with m_verifivation_failed := true } }
  else
    let base_reward := v.base_reward
    let block_size := cumulative_block_size
    let coins := next_generated_coins env already_generated_coins base_reward
    let cumulative_difficulty :=
      if height ≠ 0 then
        add64 current_diffic (st1.m_db.get_block_cumulative_difficulty (height - 1))
      else current_diffic
    let finish (st2 : Blockchain) : block_call_result :=
      let st3 := update_next_cumulative_size_limit env st2
      { outcome := call_outcome.returned true,
        st := { st3 with m_sync_counter := add64 st3.m_sync_counter 1 },
        bvc := { bvc1 with m_added_to_main_chain := true } }
    if !bvc1.m_verifivation_failed then
      match st1.m_db.add_block env bl block_size cumulative_difficulty coins txs with
      | Except.ok db1 => finish { st1 with m_db := db1 }
      | Except.error db_exception.KEY_IMAGE_EXISTS =>
        { outcome := call_outcome.returned false,
          st := { st1 with m_tx_pool := return_tx_to_pool env st1.m_tx_pool txs },
          bvc := { bvc1 with m_verifivation_failed := true } }
      | Except.error db_exception.DB_ERROR =>
        { outcome := call_outcome.returned false,
          st := { st1 with m_tx_pool := return_tx_to_pool env st1.m_tx_pool txs },
          bvc := bvc1 }
    else finish st1

/-- How the checks and the transaction loop of `handle_block_to_main_chain` end. -/
inductive main_chain_checks where
  /-- The method returns false at once, leaving this state and context. -/
  | done (st : Blockchain) (bvc : block_verification_context)
  /-- Every check passed and the loop collected the block's transactions. -/
  | collected (current_diffic : Nat) (st : Blockchain) (txs : List transaction)
      (fee_summary : Nat) (cumulative_block_size : Nat)
  deriving DecidableEq, Repr

/-- Method `Blockchain::handle_block_to_main_chain (bl, id, bvc)`, lines
3512-3762: the block-level checks and the transaction loop. -/
def handle_block_to_main_chain_checks (env : Env) (st : Blockchain) (bl : block)
    (id : crypto.hash) (bvc : block_verification_context) : main_chain_checks :=
  let failed : block_verification_context := { bvc with m_verifivation_failed := true }
  if bl.prev_id ≠ get_tail_id st then main_chain_checks.done st bvc
  else if !env.hardfork_check st.m_db bl then main_chain_checks.done st failed
  else if !(check_block_timestamp env st.m_db bl).1 then main_chain_checks.done st failed
  else
    let d := get_difficulty_for_next_block env st
    let current_diffic := d.1
    let st1 := d.2
    if current_diffic = 0 then main_chain_checks.done st1 bvc
    else
      match check_proof_of_work env st1 bl id current_diffic with
      | none => main_chain_checks.done st1 failed
      | some fast_check =>
        if env.is_in_checkpoint_zone (get_current_blockchain_height st1) &&
            !(env.check_block (get_current_blockchain_height st1) id).1 then
          main_chain_checks.done st1 failed
        else if !prevalidate_miner_transaction env bl st1.m_db.height then
          main_chain_checks.done st1 failed
        else
          let coinbase_blob_size := env.get_object_blobsize bl.miner_tx
          match take_block_txs env bl id fast_check bl.tx_hashes st1 [] 0 coinbase_blob_size 0 with
          | block_txs_result.rejected st2 => main_chain_checks.done st2 failed
          | block_txs_result.collected st2 txs fee_summary cumulative_block_size =>
            main_chain_checks.collected current_diffic st2 txs fee_summary cumulative_block_size

/-- Method `Blockchain::handle_block_to_main_chain (bl, id, bvc)`. -/
def handle_block_to_main_chain (env : Env) (st : Blockchain) (bl : block) (id : crypto.hash)
    (bvc : block_verification_context) : block_call_result :=
  match handle_block_to_main_chain_checks env st bl id bvc with
  | main_chain_checks.done st1 bvc1 =>
    { outcome := call_outcome.returned false, st := st1, bvc := bvc1 }
  | main_chain_checks.collected current_diffic st2 txs fee_summary cumulative_block_size =>
    commit_block env bl bvc current_diffic st2 txs fee_summary cumulative_block_size

/-! ## Alternative blocks and `add_new_block` -/

/-- Type `blocks_ext_by_hash::value_type`: an entry of the alternative index. -/
abbrev alt_entry := crypto.hash × block_extended_info

/-- Lookup `m_alternative_chains.find (h)`. -/
def find_alt (alt : List alt_entry) (h : crypto.hash) : Option alt_entry :=
  alt.find? (fun e => e.1 == h)

/-- The walk of `handle_alternative_block` (lines 1565-1573) from the parent
entry back through the alternative index: each entry met is pushed to the
front of `alt_chain` and its timestamp to the back of `timestamps`. The walk is
given one step of fuel per entry of the index; `none` when that is not enough
(the index holds a `prev_id` cycle and the source loop does not end). -/
def build_alt_chain (alt : List alt_entry) :
    Nat → Option alt_entry → List alt_entry → List Nat → Option (List alt_entry × List Nat)
  | _, none, alt_chain, timestamps => some (alt_chain, timestamps)
  | 0, some _, _, _ => none
  | fuel + 1, some e, alt_chain, timestamps =>
    build_alt_chain alt fuel (find_alt alt e.2.bl.prev_id) (e :: alt_chain)
      (timestamps ++ [e.2.bl.timestamp])

/-- The type of `Blockchain::switch_to_alternative_blockchain (alt_chain,
discard_disconnected_chain)` as `handle_alternative_block` calls it: from the
state and the arguments to how the call ends and the state it leaves. The
method calls back into both block handlers, so it is passed as a parameter. -/
abbrev switch_fn := Blockchain → List alt_entry → Bool → call_outcome × Blockchain

/-- What the checks of `handle_alternative_block` hand to its decision step. -/
structure alt_block_accepted where
  /-- The state with the new entry inserted into `m_alternative_chains`. -/
  st : Blockchain
  /-- The list `alt_chain`, the new entry at its back. -/
  alt_chain : List alt_entry
  /-- The entry recorded for the block. -/
  bei : block_extended_info
  /-- The target computed for the block. -/
  current_diff : Nat
  /-- The flag written by `m_checkpoints.check_block`. -/
  is_a_checkpoint : Bool
  /-- The cumulative difficulty of the main-chain tip read at line 1657. -/
  main_chain_cumulative_difficulty : Nat
  deriving DecidableEq, Repr

/-- How the checks of `handle_alternative_block` end. -/
inductive alt_block_checks where
  /-- The method returns at once with this result and context. -/
  | done (r : Bool) (st : Blockchain) (bvc : block_verification_context)
  /-- Every check passed and the block was inserted into the alternative index. -/
  | accepted (a : alt_block_accepted)
  deriving DecidableEq, Repr

/-- The cheap checks opening `handle_alternative_block` (lines 1529-1554): the
coinbase height is 0, the checkpoints do not allow an alternative block at that
height, or the block version is wrong for the height. -/
def alt_block_rejected_early (env : Env) (st : Blockchain) (b : block) : Bool :=
  if env.get_block_height b = 0 then true
  else if !env.is_alternative_block_allowed (get_current_blockchain_height st)
      (env.get_block_height b) then true
  else if !env.hardfork_check_for_height st.m_db b (env.get_block_height b) then true
  else false

/-- Lines 1577-1603 of `handle_alternative_block`: the alternative chain must
attach to the main chain, and the timestamp vector is completed from the main
chain. `none` when one of the assertions or the connection check returns
false. -/
def alt_chain_timestamps (env : Env) (st : Blockchain) (b : block)
    (alt_chain : List alt_entry) (timestamps : List Nat) : Option (List Nat) :=
  match alt_chain.head? with
  | some front =>
    if ¬ (st.m_db.height > front.2.height) then none
    else if !st.m_db.block_exists front.2.bl.prev_id then none
    else if st.m_db.get_block_hash_from_height (sub64 front.2.height 1) ≠
        front.2.bl.prev_id then none
    else
      some (complete_timestamps_vector env st.m_db
        (st.m_db.get_block_height front.2.bl.prev_id) timestamps)
  | none =>
    if !st.m_db.block_exists b.prev_id then none
    else
      some (complete_timestamps_vector env st.m_db (st.m_db.get_block_height b.prev_id)
        timestamps)

/-- The parent entry `it_prev->second` that lines 1618-1660 read when
`alt_chain.size ()` is non-zero. -/
def alt_prev (st : Blockchain) (b : block) (alt_chain : List alt_entry) : Option alt_entry :=
  if alt_chain.length ≠ 0 then find_alt st.m_alternative_chains b.prev_id else none

/-- Lines 1615-1625 of `handle_alternative_block`: the entry prepared for the
block, with its height and its generated coins (the cumulative difficulty is
filled in at line 1667). -/
def alt_block_bei (env : Env) (st : Blockchain) (b : block) (alt_chain : List alt_entry) :
    block_extended_info :=
  let prev_height :=
    match alt_prev st b alt_chain with
    | some prev => prev.2.height
    | none => st.m_db.get_block_height b.prev_id
  let prev_generated_coins :=
    match alt_prev st b alt_chain with
    | some prev => prev.2.already_generated_coins
    | none => st.m_db.get_block_already_generated_coins prev_height
  { bl := b, height := add64 prev_height 1, block_cumulative_size := 0,
    cumulative_difficulty := 0,
    already_generated_coins :=
      next_generated_coins env prev_generated_coins (env.get_outs_money_amount b.miner_tx) }

/-- Lines 1657-1667 of `handle_alternative_block`: the cumulative difficulty of
the alternative chain up to the block, its parent's value plus `current_diff`. -/
def alt_cumulative_difficulty (st : Blockchain) (b : block) (alt_chain : List alt_entry)
    (current_diff : Nat) : Nat :=
  add64
    (match alt_prev st b alt_chain with
     | some prev => prev.2.cumulative_difficulty
     | none => st.m_db.get_block_cumulative_difficulty (st.m_db.get_block_height b.prev_id))
    current_diff

/-- Lines 1669-1673 of `handle_alternative_block`: the entry is inserted into
`m_alternative_chains` and pushed to the back of `alt_chain`. The method
returns false when the key is already present. -/
def alt_block_insert (st : Blockchain) (id : crypto.hash)
    (bvc : block_verification_context) (alt_chain : List alt_entry)
    (bei : block_extended_info) (current_diff : Nat) (is_a_checkpoint : Bool) :
    alt_block_checks :=
  if (find_alt st.m_alternative_chains id).isSome then alt_block_checks.done false st bvc
  else
    alt_block_checks.accepted
      { st := { st with m_alternative_chains := st.m_alternative_chains ++ [(id, bei)] },
        alt_chain := alt_chain ++ [(id, bei)],
        bei := bei,
        current_diff := current_diff,
        is_a_checkpoint := is_a_checkpoint,
        main_chain_cumulative_difficulty :=
          st.m_db.get_block_cumulative_difficulty (sub64 st.m_db.height 1) }

/-- Lines 1605-1673 of `handle_alternative_block`: the timestamp, checkpoint,
difficulty, proof-of-work and coinbase checks on the block, and its insertion
into the alternative index. -/
def alt_block_verify (env : Env) (st : Blockchain) (b : block) (id : crypto.hash)
    (bvc : block_verification_context) (alt_chain : List alt_entry) (timestamps : List Nat) :
    alt_block_checks :=
  if !(check_block_timestamp_vec env timestamps b).1 then
    alt_block_checks.done false st { bvc with m_verifivation_failed := true }
  else if !(env.check_block (alt_block_bei env st b alt_chain).height id).1 then
    alt_block_checks.done false st { bvc with m_verifivation_failed := true }
  else if get_next_difficulty_for_alternative_chain env st.m_db alt_chain
      (alt_block_bei env st b alt_chain) = 0 then
    alt_block_checks.done false st bvc
  else if !env.check_hash (env.get_block_longhash b)
      (get_next_difficulty_for_alternative_chain env st.m_db alt_chain
        (alt_block_bei env st b alt_chain)) then
    alt_block_checks.done false st { bvc with m_verifivation_failed := true }
  else if !prevalidate_miner_transaction env b (alt_block_bei env st b alt_chain).height then
    alt_block_checks.done false st { bvc with m_verifivation_failed := true }
  else
    alt_block_insert st id bvc alt_chain
      { alt_block_bei env st b alt_chain with
        cumulative_difficulty :=
          alt_cumulative_difficulty st b alt_chain
            (get_next_difficulty_for_alternative_chain env st.m_db alt_chain
              (alt_block_bei env st b alt_chain)) }
      (get_next_difficulty_for_alternative_chain env st.m_db alt_chain
        (alt_block_bei env st b alt_chain))
      (env.check_block (alt_block_bei env st b alt_chain).height id).2

/-- Method `Blockchain::handle_alternative_block`, lines 1528-1673 and
1708-1718: everything up to and including the insertion into
`m_alternative_chains`, and the orphan branch. `none` when the walk through the
alternative index does not end. -/
def handle_alternative_block_checks (env : Env) (st0 : Blockchain) (b : block)
    (id : crypto.hash) (bvc : block_verification_context) : Option alt_block_checks :=
  let st := { st0 with m_timestamps_and_difficulties_height := 0 }
  if alt_block_rejected_early env st b then
    some (alt_block_checks.done false st { bvc with m_verifivation_failed := true })
  else if (find_alt st.m_alternative_chains b.prev_id).isSome ||
      st.m_db.block_exists b.prev_id then
    match build_alt_chain st.m_alternative_chains st.m_alternative_chains.length
        (find_alt st.m_alternative_chains b.prev_id) [] [] with
    | none => none
    | some (alt_chain, timestamps0) =>
      match alt_chain_timestamps env st b alt_chain timestamps0 with
      | none => some (alt_block_checks.done false st bvc)
      | some timestamps => some (alt_block_verify env st b id bvc alt_chain timestamps)
  else
    some (alt_block_checks.done true st { bvc with m_marked_as_orphaned := true })

/-- The reorganisation call of `handle_alternative_block` (lines 1681-1688 and
1695-1700): `switch_to_alternative_blockchain` is run and its result becomes
the result of the method, `m_added_to_main_chain` or `m_verifivation_failed`
being set from it. -/
def reorganize (switch_to_alternative_blockchain : switch_fn) (a : alt_block_accepted)
    (bvc : block_verification_context) (discard_disconnected_chain : Bool) :
    block_call_result :=
  match switch_to_alternative_blockchain a.st a.alt_chain discard_disconnected_chain with
  | (call_outcome.returned true, st1) =>
    { outcome := call_outcome.returned true, st := st1,
      bvc := { bvc with m_added_to_main_chain := true } }
  | (call_outcome.returned false, st1) =>
    { outcome := call_outcome.returned false, st := st1,
      bvc := { bvc with m_verifivation_failed := true } }
  | (call_outcome.threw e, st1) => { outcome := call_outcome.threw e, st := st1, bvc := bvc }

/-- Method `Blockchain::handle_alternative_block (b, id, bvc)`; lines 1676-1706
are the decision after the insertion. `none` when the method does not end. -/
def handle_alternative_block (env : Env) (switch_to_alternative_blockchain : switch_fn)
    (st : Blockchain) (b : block) (id : crypto.hash) (bvc : block_verification_context) :
    Option block_call_result :=
  match handle_alternative_block_checks env st b id bvc with
  | none => none
  | some (alt_block_checks.done r st1 bvc1) =>
    some { outcome := call_outcome.returned r, st := st1, bvc := bvc1 }
  | some (alt_block_checks.accepted a) =>
    if a.is_a_checkpoint then some (reorganize switch_to_alternative_blockchain a bvc true)
    else if a.main_chain_cumulative_difficulty < a.bei.cumulative_difficulty then
      some (reorganize switch_to_alternative_blockchain a bvc false)
    else some { outcome := call_outcome.returned true, st := a.st, bvc := bvc }

/-- Method `Blockchain::add_new_block (bl_, bvc)`. `none` when the call does not
end. -/
def add_new_block (env : Env) (switch_to_alternative_blockchain : switch_fn)
    (st : Blockchain) (bl : block) (bvc : block_verification_context) :
    Option block_call_result :=
  let id := env.get_block_hash bl
  if have_block st id then
    some { outcome := call_outcome.returned false,
           st := { st with m_blocks_txs_check := [] },
           bvc := { bvc with m_already_exists := true } }
  else if ¬ (bl.prev_id = get_tail_id st) then
    let bvc1 := { bvc with m_added_to_main_chain := false }
    match handle_alternative_block env switch_to_alternative_blockchain st bl id bvc1 with
    | none => none
    | some r =>
      match r.outcome with
      | call_outcome.returned _ => some { r with st := { r.st with m_blocks_txs_check := [] } }
      | call_outcome.threw _ => some r
  else some (handle_block_to_main_chain env st bl id bvc)

/-! ## Quantities named in the statements -/

/-- The `already_generated_coins` recorded for the parent of an alternative
block: the value of its entry in the alternative index when it has one, else
the value stored with it on the main chain. -/
def alt_parent_generated_coins (st : Blockchain) (b : block) : Nat :=
  match find_alt st.m_alternative_chains b.prev_id with
  | some prev => prev.2.already_generated_coins
  | none => st.m_db.get_block_already_generated_coins (st.m_db.get_block_height b.prev_id)

/-- The cumulative difficulty recorded for the parent of an alternative block:
the value of its entry in the alternative index when it has one, else the
value stored with it on the main chain. -/
def alt_parent_cumulative_difficulty (st : Blockchain) (b : block) : Nat :=
  match find_alt st.m_alternative_chains b.prev_id with
  | some prev => prev.2.cumulative_difficulty
  | none => st.m_db.get_block_cumulative_difficulty (st.m_db.get_block_height b.prev_id)

/-- The height recorded for the parent of an alternative block. -/
def alt_parent_height (st : Blockchain) (b : block) : Nat :=
  match find_alt st.m_alternative_chains b.prev_id with
  | some prev => prev.2.height
  | none => st.m_db.get_block_height b.prev_id

/-- The cumulative difficulty stored with the main-chain tip, 0 for an empty
chain. -/
def tip_cumulative_difficulty (db : BlockchainDB) : Nat :=
  if db.height ≠ 0 then db.get_block_cumulative_difficulty (db.height - 1) else 0

/-- The versioned future-time limit of `check_block_timestamp (b, median_ts)`
(line 3417). -/
def block_future_time_limit (env : Env) (db : BlockchainDB) : Nat :=
  if env.check_hard_fork_feature db fork_feature.FORK_V3_DIFFICULTY then
    env.BLOCK_FUTURE_TIME_LIMIT_V3
  else env.BLOCK_FUTURE_TIME_LIMIT_V2

/-- The versioned window of `check_block_timestamp (b, median_ts)` (lines
3419-3425). -/
def blockchain_timestamp_check_window (env : Env) (db : BlockchainDB) : Nat :=
  if env.check_hard_fork_feature db fork_feature.FORK_V3_DIFFICULTY then
    env.BLOCKCHAIN_TIMESTAMP_CHECK_WINDOW_V3
  else if env.check_hard_fork_feature db fork_feature.FORK_V2_DIFFICULTY then
    env.BLOCKCHAIN_TIMESTAMP_CHECK_WINDOW_V2
  else env.BLOCKCHAIN_TIMESTAMP_CHECK_WINDOW_V1

/-- The back-date test of `check_block_timestamp (timestamps, b, median_ts)`
(lines 3397-3398): the reference `top_block_timestamp` is `timestamps.back ()`,
read from the vector as `median` has left it. -/
def back_dated (env : Env) (timestamps : List Nat) (b : block) : Bool :=
  decide (b.major_version ≥ env.get_fork_v fork_feature.FORK_CHECK_BLOCK_BACKDATE ∧
    add64 b.timestamp env.BLOCK_FUTURE_TIME_LIMIT_V3 < (env.median timestamps).2.getLastD 0)

/-- The timestamps of the last `window` main-chain blocks, in ascending height
order. -/
def last_timestamps (db : BlockchainDB) (window : Nat) : List Nat :=
  (List.range' (db.height - window) window).map (fun i => db.get_block_timestamp i)

/-- Whether a chain height lies in one of the two ranges in which the
difficulty is pinned on MAINNET: `[116520, 116520 + DIFFICULTY_BLOCKS_COUNT_V2]`
or `[228750, 228750 + DIFFICULTY_BLOCKS_COUNT_V4]`, bounds included. -/
def difficulty_pinned (env : Env) (height : Nat) : Bool :=
  decide (env.m_nettype = network_type.MAINNET) &&
    (decide (116520 ≤ height ∧ height ≤ 116520 + env.DIFFICULTY_BLOCKS_COUNT_V2) ||
      decide (228750 ≤ height ∧ height ≤ 228750 + env.DIFFICULTY_BLOCKS_COUNT_V4))

/-- The cache condition of `get_difficulty_for_next_block` as line 839 states
it. The first size it reads is the one of the local vector `timestamps`, which
is empty at that point; the second is the one of the member `m_difficulties`. -/
def difficulty_cache_usable (env : Env) (st : Blockchain) : Bool :=
  let timestamps : List Nat := []
  decide (st.m_timestamps_and_difficulties_height ≠ 0 ∧
    sub64 st.m_db.height st.m_timestamps_and_difficulties_height = 1 ∧
    timestamps.length ≥ difficulty_blocks_count env st.m_db ∧
    st.m_difficulties.length ≥ difficulty_blocks_count env st.m_db)

/-- The window of the cached branch of `get_difficulty_for_next_block` (lines
841-848): the timestamp and the cumulative difficulty of the tip are pushed to
the cached vectors, which are then cut to `block_count` from the front. -/
def difficulty_window_slide (env : Env) (st : Blockchain) : List Nat × List Nat :=
  let block_count := difficulty_blocks_count env st.m_db
  let index := st.m_db.height - 1
  let m_timestamps := st.m_timestamps ++ [st.m_db.get_block_timestamp index]
  let m_difficulties := st.m_difficulties ++ [st.m_db.get_block_cumulative_difficulty index]
  (m_timestamps.drop (m_timestamps.length - block_count),
    m_difficulties.drop (m_difficulties.length - block_count))

/-- The window of the other branch of `get_difficulty_for_next_block` (lines
856-866): the timestamps and cumulative difficulties of the last `block_count`
heights are read from the store, the genesis block left out. -/
def difficulty_window_reload (env : Env) (db : BlockchainDB) : List Nat × List Nat :=
  let block_count := difficulty_blocks_count env db
  let offset := db.height - min db.height block_count
  let offset := if offset = 0 then offset + 1 else offset
  let heights := List.range' offset (db.height - offset)
  (heights.map (fun i => db.get_block_timestamp i),
    heights.map (fun i => db.get_block_cumulative_difficulty i))

/-- The cache condition that the comment above line 839 describes: the cache
was filled at the previous height and both cached vectors hold a full window. -/
def difficulty_cache_filled (env : Env) (st : Blockchain) : Bool :=
  decide (st.m_timestamps_and_difficulties_height ≠ 0 ∧
    sub64 st.m_db.height st.m_timestamps_and_difficulties_height = 1 ∧
    st.m_timestamps.length ≥ difficulty_blocks_count env st.m_db ∧
    st.m_difficulties.length ≥ difficulty_blocks_count env st.m_db)

/-- The main-chain height at which an alternative chain attaches, as
`get_next_difficulty_for_alternative_chain` reads it (line 1131): the height of
the first block of the chain, or of the new block when the chain is empty. -/
def alt_attach_height (alt_chain : List alt_entry) (bei : block_extended_info) : Nat :=
  match alt_chain.head? with
  | some front => front.2.height
  | none => bei.height

/-- The main-chain heights `[max (1, s - min (N - a, s)), s)` in ascending
order: the part of the difficulty window of an alternative block that is taken
from the main chain, for a window size `N`, an alternative chain of `a` blocks
and the attachment height `s`. -/
def alt_window_main_heights (N a s : Nat) : List Nat :=
  List.range' (max 1 (s - min (N - a) s)) (s - max 1 (s - min (N - a) s))

/-- The ring size (number of key offsets) of every key input of a list of
inputs, in input order. -/
def ring_sizes : List txin_v → List Nat
  | [] => []
  | txin_v.txin_to_key _ key_offsets _ :: rest => key_offsets.length :: ring_sizes rest
  | _ :: rest => ring_sizes rest

/-- The number of fields of `extra` that are a transaction public key. -/
def count_pub_key : List tx_extra_field → Nat
  | [] => 0
  | tx_extra_field.tx_extra_pub_key _ :: rest => count_pub_key rest + 1
  | _ :: rest => count_pub_key rest

/-- The key counts of the additional-public-keys fields of `extra`, in field
order. -/
def additional_pub_keys_sizes : List tx_extra_field → List Nat
  | [] => []
  | tx_extra_field.tx_extra_additional_pub_keys data :: rest =>
    data.length :: additional_pub_keys_sizes rest
  | _ :: rest => additional_pub_keys_sizes rest

/-- The number of fields of `extra` that are a uniform payment id. -/
def count_uniform_payment_id : List tx_extra_field → Nat
  | [] => 0
  | tx_extra_field.tx_extra_uniform_payment_id :: rest => count_uniform_payment_id rest + 1
  | _ :: rest => count_uniform_payment_id rest

/-! ## The checks that open `switch_to_alternative_blockchain` -/

/-- The value of `high_timestamp` in `switch_to_alternative_blockchain` (lines
969-980): the timestamp of the last block of the alternative chain, raised to
the largest timestamp of the chain while `FORK_V4_DIFFICULTY` is not active. -/
def alt_chain_high_timestamp (env : Env) (db : BlockchainDB) (alt_chain : List alt_entry) : Nat :=
  let high_timestamp :=
    match alt_chain.getLast? with
    | some back => back.2.bl.timestamp
    | none => 0
  if !env.check_hard_fork_feature db fork_feature.FORK_V4_DIFFICULTY then
    alt_chain.foldl
      (fun high e => if high < e.2.bl.timestamp then e.2.bl.timestamp else high) high_timestamp
  else high_timestamp

/-- The Poisson loop of `switch_to_alternative_blockchain` (lines 991-1014),
with `remaining` iterations left before `i` exceeds `POISSON_CHECK_DEPTH`: the
values of `failed_checks` and `i` when the loop ends, `none` when
`get_block_header` raises an exception. -/
def poisson_checks (env : Env) (db : BlockchainDB) (alt_chain_size high_timestamp : Nat) :
    Nat → Nat → crypto.hash → Nat → Option (Nat × Nat)
  | 0, i, _, failed_checks => some (failed_checks, i)
  | remaining + 1, i, low_block, failed_checks =>
    if low_block = crypto.null_hash then some (failed_checks, i)
    else
      match db.get_block_header low_block with
      | none => none
      | some bhd =>
        if bhd.bl.timestamp ≥ high_timestamp then
          poisson_checks env db alt_chain_size high_timestamp remaining (i + 1) bhd.bl.prev_id
            (failed_checks + 1)
        else if env.poisson_ln_below_reject (high_timestamp - bhd.bl.timestamp)
            (add64 alt_chain_size i) then
          poisson_checks env db alt_chain_size high_timestamp remaining (i + 1) bhd.bl.prev_id
            (failed_checks + 1)
        else
          poisson_checks env db alt_chain_size high_timestamp remaining (i + 1) bhd.bl.prev_id
            failed_checks

/-- Method `Blockchain::switch_to_alternative_blockchain (alt_chain,
discard_disconnected_chain)`. Lines 952-1026 are the checks that can refuse the
reorganisation before the chain is touched: an empty chain, a chain that does
not connect to the main chain, and, for a chain of at least
`POISSON_CHECK_TRIGGER` blocks, the future-time limit on its highest timestamp
and the Poisson test. Lines 1028-1101 (the pop loop, the connection of the
alternative blocks, the rollback and the re-insertion of the disconnected
blocks) call back into both block handlers and are the parameter
`apply_alt_chain`. -/
def switch_to_alternative_blockchain (env : Env) (apply_alt_chain : switch_fn) : switch_fn :=
  fun st0 alt_chain discard_disconnected_chain =>
    let st := { st0 with m_timestamps_and_difficulties_height := 0 }
    match alt_chain.head? with
    | none => (call_outcome.returned false, st)
    | some front =>
      if !st.m_db.block_exists front.2.bl.prev_id then (call_outcome.returned false, st)
      else if alt_chain.length ≥ env.POISSON_CHECK_TRIGGER then
        let high_timestamp := alt_chain_high_timestamp env st.m_db alt_chain
        if high_timestamp > add64 env.get_adjusted_time env.BLOCK_FUTURE_TIME_LIMIT_V3 then
          (call_outcome.returned false, st)
        else
          match poisson_checks env st.m_db alt_chain.length high_timestamp
              env.POISSON_CHECK_DEPTH 1 front.2.bl.prev_id 0 with
          | none => (call_outcome.threw db_exception.DB_ERROR, st)
          | some (failed_checks, i) =>
            if failed_checks > (i - 1) / 2 then (call_outcome.returned false, st)
            else apply_alt_chain st alt_chain discard_disconnected_chain
      else apply_alt_chain st alt_chain discard_disconnected_chain

/-! ## States reachable through `add_new_block` -/

/-- A `block_verification_context` as the callers of `add_new_block` pass it:
value-initialised. -/
def fresh_bvc : block_verification_context :=
  { m_added_to_main_chain := false, m_verifivation_failed := false,
    m_marked_as_orphaned := false, m_already_exists := false,
    m_partial_block_reward := false }

/-- The state after `add_new_block` has been called on every block of a list in
turn; `none` when one of the calls does not end. -/
def run_blocks (env : Env) (sw : switch_fn) : Blockchain → List block → Option Blockchain
  | st, [] => some st
  | st, bl :: rest =>
    match add_new_block env sw st bl fresh_bvc with
    | none => none
    | some r => run_blocks env sw r.st rest

/-- Whether the cumulative difficulty of the main-chain tip is at least the one
recorded for every block of the alternative index. -/
def tip_dominates (st : Blockchain) : Bool :=
  st.m_alternative_chains.all
    (fun e => decide (e.2.cumulative_difficulty ≤ tip_cumulative_difficulty st.m_db))

/-- The key-images of the key inputs of a list of inputs, in input order. -/
def key_images_of : List txin_v → List crypto.key_image
  | [] => []
  | txin_v.txin_to_key _ _ k_image :: rest => k_image :: key_images_of rest
  | _ :: rest => key_images_of rest

/-- Whether the version of a transaction is outside the range that
`check_tx_inputs` accepts (lines 3019-3034): above `MAX_TRANSACTION_VERSION`, or
below 3 when `FORK_NEED_V3_TXES` is active and below `MIN_TRANSACTION_VERSION`
otherwise. -/
def bad_tx_version (env : Env) (db : BlockchainDB) (tx : transaction) : Bool :=
  decide (tx.version > env.MAX_TRANSACTION_VERSION) ||
    decide (tx.version <
      (if env.check_hard_fork_feature db fork_feature.FORK_NEED_V3_TXES then 3
       else env.MIN_TRANSACTION_VERSION))

/-! ## Output rules -/

/-- Method `Blockchain::check_tx_outputs (tx, tvc)`: the result and the
verification context as left. -/
def check_tx_outputs (env : Env) (db : BlockchainDB) (tx : transaction)
    (tvc : tx_verification_context) : Bool × tx_verification_context :=
  if tx.vout.any (fun o => o.amount != 0) then
    (false, { tvc with m_invalid_output := true })
  else if tx.vout.any (fun o =>
      match o.target with
      | txout_target_v.txout_to_key key => !env.check_key key
      | _ => false) then
    (false, { tvc with m_invalid_output := true })
  else
    let has_bulletproofs : Bool := decide (tx.rct_signatures.type = RCTType.RCTTypeBulletproof)
    if (has_bulletproofs && tx.rct_signatures.bulletproofs.isEmpty)
        || (!has_bulletproofs && !tx.rct_signatures.bulletproofs.isEmpty) then
      (false, { tvc with m_invalid_output := true })
    else if has_bulletproofs && !env.check_hard_fork_feature db fork_feature.FORK_BULLETPROOFS then
      (false, { tvc with m_invalid_output := true })
    else if !has_bulletproofs
        && env.check_hard_fork_feature db fork_feature.FORK_BULLETPROOFS_REQ then
      (false, { tvc with m_invalid_output := true })
    else
      (true, tvc)

/-! ## Fees -/

/-- Multiplication of two `uint64_t` values (`a * b`). -/
def mul64 (a b : Nat) : Nat := (a * b) % UINT64_RANGE

/-- Modelled from the spec: `mul128 (multiplier, multiplicand, &hi)`, the
128-bit product of two 64-bit values as (high word, low word). -/
def mul128 (multiplier multiplicand : Nat) : Nat × Nat :=
  let product := (multiplier % UINT64_RANGE) * (multiplicand % UINT64_RANGE)
  (product / UINT64_RANGE, product % UINT64_RANGE)

/-- Modelled from the spec: `div128_32 (dividend_hi, dividend_lo, divisor,
&quotient_hi, &quotient_lo)`, the division of a 128-bit value by a 32-bit
divisor: the quotient as (high word, low word). -/
def div128_32 (dividend_hi dividend_lo divisor : Nat) : Nat × Nat :=
  let dividend := (dividend_hi % UINT64_RANGE) * UINT64_RANGE + dividend_lo % UINT64_RANGE
  let quotient := dividend / (divisor % 4294967296)
  (quotient / UINT64_RANGE % UINT64_RANGE, quotient % UINT64_RANGE)

/-- Method `Blockchain::get_dynamic_per_kb_fee (block_reward,
median_block_size)`; the final `assert (hi == 0)` is compiled out of release
builds and the low word is returned. -/
def get_dynamic_per_kb_fee (env : Env) (block_reward median_block_size : Nat) : Nat :=
  let median_block_size :=
    if median_block_size < env.BLOCK_SIZE_GROWTH_FAVORED_ZONE then
      env.BLOCK_SIZE_GROWTH_FAVORED_ZONE
    else median_block_size
  let block_reward :=
    if block_reward < env.DYNAMIC_FEE_PER_KB_BASE_BLOCK_REWARD then
      env.DYNAMIC_FEE_PER_KB_BASE_BLOCK_REWARD
    else block_reward
  let unscaled_fee_per_kb :=
    mul64 env.DYNAMIC_FEE_PER_KB_BASE_FEE env.BLOCK_SIZE_GROWTH_FAVORED_ZONE / median_block_size
  let p := mul128 unscaled_fee_per_kb block_reward
  let q1 := div128_32 p.1 p.2 (env.DYNAMIC_FEE_PER_KB_BASE_BLOCK_REWARD / 1000000)
  let q2 := div128_32 q1.1 q1.2 1000000
  q2.2

/-- Method `Blockchain::check_fee (tx, blob_size, fee)`. -/
def check_fee (env : Env) (st : Blockchain) (tx : transaction) (blob_size fee : Nat) : Bool :=
  if env.check_hard_fork_feature st.m_db fork_feature.FORK_FEE_V2 then
    let needed_fee := 0
    let needed_fee :=
      match tx.vin with
      | txin_v.txin_to_key _ key_offsets _ :: _ =>
        add64 needed_fee (mul64 key_offsets.length env.FEE_PER_RING_MEMBER)
      | _ => needed_fee
    let needed_fee := add64 needed_fee (mul64 blob_size env.FEE_PER_KB / 1024)
    !decide (fee < needed_fee)
  else if env.check_hard_fork_feature st.m_db fork_feature.FORK_FIXED_FEE then
    let needed_fee := mul64 blob_size env.FEE_PER_KB / 1024
    !decide (fee < needed_fee)
  else
    let median := st.m_current_block_cumul_sz_limit / 2
    let height := st.m_db.height
    let cal_height := height - height % env.COIN_EMISSION_HEIGHT_INTERVAL
    let cal_generated_coins :=
      if cal_height ≠ 0 then st.m_db.get_block_already_generated_coins (cal_height - 1) else 0
    match env.get_block_reward median 1 cal_generated_coins height with
    | none => false
    | some base_reward =>
      let fee_per_kb := get_dynamic_per_kb_fee env base_reward median
      let needed_fee :=
        env.float_kb_fee (sub64 blob_size env.CRYPTONOTE_COINBASE_BLOB_RESERVED_SIZE) fee_per_kb
          / 100 * 100
      !decide (fee < needed_fee)

/-- The ring size that `check_fee` charges for: the number of key offsets of
the first input when that input is a key input, else 0. -/
def fee_ring_size (tx : transaction) : Nat :=
  match tx.vin with
  | txin_v.txin_to_key _ key_offsets _ :: _ => key_offsets.length
  | _ => 0

/-! ## Chain history and supplements -/

/-- The `while` loop of `Blockchain::get_short_chain_history`, on the variables
`i`, `current_multiplier`, `current_back_offset`, `ids` and `genesis_included`;
`none` when `fuel` iterations were not enough. -/
def short_chain_history_loop (db : BlockchainDB) (sz : Nat) :
    Nat → Nat → Nat → Nat → List crypto.hash → Bool → Option (List crypto.hash × Bool)
  | 0, _, _, _, _, _ => none
  | fuel + 1, i, current_multiplier, current_back_offset, ids, genesis_included =>
    if current_back_offset < sz then
      let ids := ids ++ [db.get_block_hash_from_height (sz - current_back_offset)]
      let genesis_included := if sz - current_back_offset = 0 then true else genesis_included
      if i < 10 then
        short_chain_history_loop db sz fuel (add64 i 1) current_multiplier
          (add64 current_back_offset 1) ids genesis_included
      else
        let current_multiplier := mul64 current_multiplier 2
        short_chain_history_loop db sz fuel (add64 i 1) current_multiplier
          (add64 current_back_offset current_multiplier) ids genesis_included
    else some (ids, genesis_included)

/-- Method `Blockchain::get_short_chain_history (ids)`: the list `ids` as the
call leaves it (the method always returns true); `none` when the loop did not
end within `fuel` iterations. -/
def get_short_chain_history (db : BlockchainDB) (fuel : Nat) (ids : List crypto.hash) :
    Option (List crypto.hash) :=
  let sz := db.height
  if sz = 0 then some ids
  else
    match short_chain_history_loop db sz fuel 0 1 1 ids false with
    | none => none
    | some (ids, genesis_included) =>
      if !genesis_included then some (ids ++ [db.get_block_hash_from_height 0])
      else some ids

/-- The back-offsets named by the comment of `get_short_chain_history`:
1, 2, ..., 11, then 13, 17, 25, 41, ... -/
def short_history_back_offset (k : Nat) : Nat :=
  if k ≤ 10 then k + 1 else 9 + 2 ^ (k - 9)

/-- Method `Blockchain::find_blockchain_supplement (qblock_ids,
starter_offset)`: the result and `starter_offset` as left. A store lookup that
throws inside the loop (caught there, result false) is not modelled: the
lookups of the store model are total. -/
def find_blockchain_supplement (db : BlockchainDB) (qblock_ids : List crypto.hash)
    (starter_offset : Nat) : Bool × Nat :=
  if qblock_ids.length = 0 then (false, starter_offset)
  else
    let gen_hash := db.get_block_hash_from_height 0
    if qblock_ids.getLast? ≠ some gen_hash then (false, starter_offset)
    else
      match qblock_ids.find? (fun h => db.block_exists h) with
      | none => (false, starter_offset)
      | some h => (true, db.get_block_height h)

/-- Macro `FIND_BLOCKCHAIN_SUPPLEMENT_MAX_SIZE` (100 MB). -/
def FIND_BLOCKCHAIN_SUPPLEMENT_MAX_SIZE : Nat := 100 * 1024 * 1024

/-- Method `Blockchain::get_transactions_blobs (txs_ids, txs, missed_txs)`: the
two output lists as left (the store lookups of the model do not throw). -/
def get_transactions_blobs (env : Env) (db : BlockchainDB) :
    List crypto.hash → List (List Nat) → List crypto.hash → List (List Nat) × List crypto.hash
  | [], txs, missed_txs => (txs, missed_txs)
  | tx_hash :: rest, txs, missed_txs =>
    match env.get_tx_blob db tx_hash with
    | some tx => get_transactions_blobs env db rest (txs ++ [tx]) missed_txs
    | none => get_transactions_blobs env db rest txs (missed_txs ++ [tx_hash])

/-- The `for` loop of the full-block `find_blockchain_supplement`, on `i`,
`count`, `size` and `blocks`: the result of the method and `blocks` as left.
`fuel` bounds the iterations; the caller passes `total_height - start_height`,
which the condition `i < total_height` never lets the loop exceed. -/
def find_blockchain_supplement_loop (env : Env) (db : BlockchainDB)
    (total_height max_count : Nat) :
    Nat → Nat → Nat → Nat → List (List Nat × List (List Nat)) →
      Bool × List (List Nat × List (List Nat))
  | 0, _, _, _, blocks => (true, blocks)
  | fuel + 1, i, count, size, blocks =>
    if i < total_height && count < max_count
        && (size < FIND_BLOCKCHAIN_SUPPLEMENT_MAX_SIZE || count < 3) then
      let blob := env.get_block_blob_from_height db i
      match env.parse_and_validate_block_from_blob blob with
      | none => (false, blocks ++ [(blob, [])])
      | some b =>
        let r := get_transactions_blobs env db b.tx_hashes [] []
        if r.2.length ≠ 0 then (false, blocks ++ [(blob, r.1)])
        else
          let size := add64 size blob.length
          let size := r.1.foldl (fun s t => add64 s t.length) size
          find_blockchain_supplement_loop env db total_height max_count fuel (i + 1)
            (count + 1) size (blocks ++ [(blob, r.1)])
    else (true, blocks)

/-- What the full-block `find_blockchain_supplement` leaves behind: its result
and the three reference arguments. -/
structure supplement_result where
  ok : Bool
  blocks : List (List Nat × List (List Nat))
  total_height : Nat
  start_height : Nat
  deriving DecidableEq, Repr

/-- Method `Blockchain::find_blockchain_supplement (req_start_block,
qblock_ids, blocks, total_height, start_height, max_count)`. -/
def find_blockchain_supplement_blocks (env : Env) (db : BlockchainDB) (req_start_block : Nat)
    (qblock_ids : List crypto.hash) (blocks : List (List Nat × List (List Nat)))
    (total_height start_height max_count : Nat) : supplement_result :=
  let start : Option Nat :=
    if req_start_block > 0 then
      if req_start_block ≥ db.height then none else some req_start_block
    else
      let r := find_blockchain_supplement db qblock_ids start_height
      if !r.1 then none else some r.2
  match start with
  | none =>
    { ok := false, blocks := blocks, total_height := total_height,
      start_height := start_height }
  | some start_height =>
    let total_height := db.height
    let r := find_blockchain_supplement_loop env db total_height max_count
      (total_height - start_height) start_height 0 0 blocks
    { ok := r.1, blocks := r.2, total_height := total_height, start_height := start_height }

/-- The entry that the full-block `find_blockchain_supplement` pushes for the
block at height `i`: the block blob and the blobs of its transactions. -/
def supplement_entry (env : Env) (db : BlockchainDB) (i : Nat) : List Nat × List (List Nat) :=
  let blob := env.get_block_blob_from_height db i
  match env.parse_and_validate_block_from_blob blob with
  | none => (blob, [])
  | some b => (blob, (get_transactions_blobs env db b.tx_hashes [] []).1)

/-- Whether the stored block at height `i` parses and all its transactions are
in the store. -/
def supplement_entry_found (env : Env) (db : BlockchainDB) (i : Nat) : Bool :=
  match env.parse_and_validate_block_from_blob (env.get_block_blob_from_height db i) with
  | none => false
  | some b => (get_transactions_blobs env db b.tx_hashes [] []).2.length == 0

/-- The variable `size` of the full-block `find_blockchain_supplement` after
the entries of `j` blocks from height `i` were added to `size`. -/
def supplement_size (env : Env) (db : BlockchainDB) : Nat → Nat → Nat → Nat
  | _, size, 0 => size
  | i, size, j + 1 =>
    supplement_size env db (i + 1)
      ((supplement_entry env db i).2.foldl (fun s t => add64 s t.length)
        (add64 size (supplement_entry env db i).1.length)) j

/-- The main-chain headers that the Poisson loop of
`switch_to_alternative_blockchain` reads: from `low_block` back along `prev_id`,
at most `remaining` of them, stopping at the null hash; `none` when
`get_block_header` raises an exception. -/
def probed_predecessors (db : BlockchainDB) : Nat → crypto.hash → Option (List db_block)
  | 0, _ => some []
  | remaining + 1, low_block =>
    if low_block = crypto.null_hash then some []
    else
      match db.get_block_header low_block with
      | none => none
      | some bhd => (probed_predecessors db remaining bhd.bl.prev_id).map (fun l => bhd :: l)

/-- The number of headers, probed at the depths `i`, `i + 1`, ..., that the
Poisson loop counts as failed: a timestamp not below `high_timestamp`, or a
Poisson test below the reject threshold. -/
def poisson_failed_checks (env : Env) (alt_chain_size high_timestamp : Nat) :
    Nat → List db_block → Nat
  | _, [] => 0
  | i, bhd :: rest =>
    (if bhd.bl.timestamp ≥ high_timestamp
        ∨ env.poisson_ln_below_reject (high_timestamp - bhd.bl.timestamp)
            (add64 alt_chain_size i) = true then 1 else 0)
      + poisson_failed_checks env alt_chain_size high_timestamp (i + 1) rest

/-! ## Expanding the ringCT signature -/

/-- The key-images `boost::get<txin_to_key> (vin[n]).k_image` of all inputs, in
order; `none` when an input is not a key input (`boost::get` throws). -/
def vin_key_images : List txin_v → Option (List crypto.key_image)
  | [] => some []
  | txin_v.txin_to_key _ _ k_image :: rest =>
    (vin_key_images rest).map (fun ks => k_image :: ks)
  | _ :: _ => none

/-- Method `Blockchain::expand_transaction_2 (tx, tx_prefix_hash, pubkeys)`:
the transaction as left when it returns true, `none` when it returns false or
an exception leaves it. -/
def expand_transaction_2 (tx : transaction) (tx_prefix_hash : crypto.hash)
    (pubkeys : List (List ctkey)) : Option transaction :=
  if ¬ (tx.version = 2 ∨ tx.version = 3) then none
  else
    let rv := { tx.rct_signatures with message := tx_prefix_hash }
    match rv.type with
    | RCTType.RCTTypeFull =>
      match pubkeys with
      | [] => none
      | first :: _ =>
        if first.isEmpty then none
        else if pubkeys.any (fun row => decide (row.length > first.length)) then none
        else
          let mixRing :=
            (List.range first.length).map (fun m => pubkeys.filterMap (fun row => row.get? m))
          match vin_key_images tx.vin with
          | none => none
          | some kis =>
            some { tx with rct_signatures := { rv with mixRing := mixRing, MGs := [{ II := kis }] } }
    | RCTType.RCTTypeSimple | RCTType.RCTTypeBulletproof =>
      match pubkeys with
      | [] => none
      | first :: _ =>
        if first.isEmpty then none
        else if rv.MGs.length ≠ tx.vin.length then none
        else
          match vin_key_images tx.vin with
          | none => none
          | some kis =>
            some { tx with rct_signatures :=
              { rv with mixRing := pubkeys, MGs := kis.map (fun k => { II := [k] }) } }
    | _ => none

/-! ## The output scan of one input -/

/-- Modelled from the spec: `relative_output_offsets_to_absolute`, as the
comment in `scan_outputkeys_for_indexes` puts it ("absolute offset #2 is
absolute offset #1 plus relative offset #2"): the running 64-bit sums after
`prev`. -/
def relative_output_offsets_to_absolute_from (prev : Nat) : List Nat → List Nat
  | [] => []
  | x :: rest => add64 prev x :: relative_output_offsets_to_absolute_from (add64 prev x) rest

/-- Modelled from the spec: `relative_output_offsets_to_absolute`; the first
offset is kept and every later one is added to its predecessor. -/
def relative_output_offsets_to_absolute : List Nat → List Nat
  | [] => []
  | x :: rest => x :: relative_output_offsets_to_absolute_from x rest

/-- The lookup `m_scan_table.find (tx_prefix_hash)` followed by
`it->second.find (k_image)`. -/
def scan_table_find (table : List (crypto.hash × List (crypto.key_image × List output_data_t)))
    (tx_prefix_hash : crypto.hash) (k_image : crypto.key_image) : Option (List output_data_t) :=
  match table.find? (fun e => e.1 == tx_prefix_hash) with
  | none => none
  | some e => (e.2.find? (fun p => p.1 == k_image)).map (fun p => p.2)

/-- Method `Blockchain::is_tx_spendtime_unlocked (unlock_time)`. -/
def is_tx_spendtime_unlocked (env : Env) (db : BlockchainDB) (unlock_time : Nat) : Bool :=
  decide (add64 (sub64 db.height 1) env.CRYPTONOTE_LOCKED_TX_ALLOWED_DELTA_BLOCKS ≥ unlock_time)

/-- The first part of `scan_outputkeys_for_indexes` (lines 206-261): the vector
`outputs` before the visiting loop, taken from the scan table (completed from
the store when it is partial and not empty) or fetched from the store; `none`
where the method returns false. -/
def scan_outputs_prefetch (env : Env)
    (table : List (crypto.hash × List (crypto.key_image × List output_data_t)))
    (db : BlockchainDB) (tx_prefix_hash : crypto.hash) (k_image : crypto.key_image)
    (absolute_offsets : List Nat) : Option (List output_data_t) :=
  match scan_table_find table tx_prefix_hash k_image with
  | none =>
    match env.get_output_keys db 0 absolute_offsets with
    | none => none
    | some outputs => if absolute_offsets.length ≠ outputs.length then none else some outputs
  | some outputs =>
    if outputs.length < absolute_offsets.length ∧ outputs.length > 0 then
      let add_offsets := absolute_offsets.drop outputs.length
      match env.get_output_keys db 0 add_offsets with
      | none => none
      | some add_outputs =>
        if add_offsets.length ≠ add_outputs.length then none else some (outputs ++ add_outputs)
    else some outputs

/-- The visiting loop of `scan_outputkeys_for_indexes` (lines 263-310) on the
remaining absolute offsets, with the running `count`, the state of the visitor
and the pointee of `pmax_related_block_height` (`none` for a null pointer);
`total` is `absolute_offsets.size ()`. The visitor is a function from its state
and the (unlock time, key, commitment) of an output to its next state, `none`
when `handle_output` returns false. The result is `none` where the method
returns false. -/
def scan_outputs_visit {σ : Type} (env : Env) (db : BlockchainDB)
    (handle_output : σ → Nat → crypto.public_key → Nat → Option σ)
    (outputs : List output_data_t) (total : Nat) :
    List Nat → Nat → σ → Option Nat → Option (σ × Option Nat)
  | [], _, vis, pmax => some (vis, pmax)
  | i :: rest, count, vis, pmax =>
    match (if count < outputs.length then outputs.get? count else env.get_output_key db 0 i) with
    | none => none
    | some output_index =>
      match handle_output vis output_index.unlock_time output_index.pubkey
          output_index.commitment with
      | none => none
      | some vis1 =>
        let pmax1 :=
          if count + 1 = total then
            pmax.map (fun p => if p < output_index.height then output_index.height else p)
          else pmax
        scan_outputs_visit env db handle_output outputs total rest (count + 1) vis1 pmax1

/-- Method `Blockchain::scan_outputkeys_for_indexes (tx_version, tx_in_to_key,
vis, tx_prefix_hash, pmax_related_block_height)`: the state of the visitor and
the pointee as left, `none` where it returns false. -/
def scan_outputkeys_for_indexes {σ : Type} (env : Env)
    (table : List (crypto.hash × List (crypto.key_image × List output_data_t)))
    (db : BlockchainDB) (key_offsets : List Nat) (k_image : crypto.key_image)
    (handle_output : σ → Nat → crypto.public_key → Nat → Option σ) (vis : σ)
    (tx_prefix_hash : crypto.hash) (pmax : Option Nat) : Option (σ × Option Nat) :=
  if key_offsets.length = 0 then none
  else
    let absolute_offsets := relative_output_offsets_to_absolute key_offsets
    match scan_outputs_prefetch env table db tx_prefix_hash k_image absolute_offsets with
    | none => none
    | some outputs =>
      scan_outputs_visit env db handle_output outputs absolute_offsets.length absolute_offsets 0
        vis pmax

/-- The visitor of `check_tx_input` (`outputs_visitor::handle_output`): the
unlock time must be satisfied, then the key and commitment are pushed. -/
def outputs_visitor (env : Env) (db : BlockchainDB) (m_output_keys : List ctkey)
    (unlock_time : Nat) (pubkey : crypto.public_key) (commitment : Nat) : Option (List ctkey) :=
  if !is_tx_spendtime_unlocked env db unlock_time then none
  else some (m_output_keys ++ [{ dest := pubkey, mask := commitment }])

/-- Method `Blockchain::check_tx_input (tx_version, txin, tx_prefix_hash, sig,
rct_signatures, output_keys, pmax_related_block_height)`, with `sig_size` for
`sig.size ()`: the collected `output_keys` and the pointee as left, `none`
where it returns false. -/
def check_tx_input (env : Env)
    (table : List (crypto.hash × List (crypto.key_image × List output_data_t)))
    (db : BlockchainDB) (tx_version : Nat) (key_offsets : List Nat) (k_image : crypto.key_image)
    (tx_prefix_hash : crypto.hash) (sig_size : Nat) (pmax : Option Nat) :
    Option (List ctkey × Option Nat) :=
  match scan_outputkeys_for_indexes env table db key_offsets k_image (outputs_visitor env db) []
      tx_prefix_hash pmax with
  | none => none
  | some (output_keys, pmax1) =>
    if key_offsets.length ≠ output_keys.length then none
    else if tx_version = 1 ∧ sig_size ≠ output_keys.length then none
    else some (output_keys, pmax1)

/-- The output records that `scan_outputkeys_for_indexes` reads for the ring of
an input, in ring order (the vector `outputs`, then one store lookup for every
offset beyond it); `none` when a lookup fails. -/
def scan_outputs_read (env : Env) (db : BlockchainDB) (outputs : List output_data_t) :
    List Nat → Nat → Option (List output_data_t)
  | [], _ => some []
  | i :: rest, count =>
    match (if count < outputs.length then outputs.get? count else env.get_output_key db 0 i) with
    | none => none
    | some output_index =>
      (scan_outputs_read env db outputs rest (count + 1)).map (fun l => output_index :: l)

/-- The ring of output records that `scan_outputkeys_for_indexes` reads for an
input with the given key offsets and key-image. -/
def scanned_ring (env : Env)
    (table : List (crypto.hash × List (crypto.key_image × List output_data_t)))
    (db : BlockchainDB) (tx_prefix_hash : crypto.hash) (key_offsets : List Nat)
    (k_image : crypto.key_image) : Option (List output_data_t) :=
  match scan_outputs_prefetch env table db tx_prefix_hash k_image
      (relative_output_offsets_to_absolute key_offsets) with
  | none => none
  | some outputs =>
    scan_outputs_read env db outputs (relative_output_offsets_to_absolute key_offsets) 0

/-- Whether `ring` is the ring of output records that the output scan reads
for the input `txin` (a key input). -/
def input_ring (env : Env)
    (table : List (crypto.hash × List (crypto.key_image × List output_data_t)))
    (db : BlockchainDB) (tx_prefix_hash : crypto.hash) (txin : txin_v)
    (ring : List output_data_t) : Prop :=
  match txin with
  | txin_v.txin_to_key _ key_offsets k_image =>
    key_offsets.length = ring.length
      ∧ scanned_ring env table db tx_prefix_hash key_offsets k_image = some ring
  | _ => False

/-- The block height of the last record of a ring (0 for an empty ring). -/
def last_height (ring : List output_data_t) : Nat :=
  match ring.getLast? with
  | some o => o.height
  | none => 0

/-! ## The scan table of `prepare_handle_incoming_blocks` -/

/-- The idiom `std::sort` followed by `std::unique` and `erase`: the distinct
values in ascending order. -/
def sort_unique (l : List Nat) : List Nat :=
  (l.insertionSort (fun a b => a ≤ b)).dedup

/-- The statement `offset_map[amount].push_back (offset)` for every offset of
`offsets`. -/
def offset_map_push (offset_map : List (Nat × List Nat)) (amount : Nat) (offsets : List Nat) :
    List (Nat × List Nat) :=
  if offset_map.any (fun e => e.1 == amount) then
    offset_map.map (fun e => if e.1 == amount then (e.1, e.2 ++ offsets) else e)
  else offset_map ++ [(amount, offsets)]

/-- The lookup `offset_map[amount]` (an absent key reads as an empty vector). -/
def offset_map_get (offset_map : List (Nat × List Nat)) (amount : Nat) : List Nat :=
  match offset_map.find? (fun e => e.1 == amount) with
  | some e => e.2
  | none => []

/-- The lookup `tx_map[amount]` (an absent key reads as an empty vector). -/
def tx_map_get (tx_map : List (Nat × List output_data_t)) (amount : Nat) : List output_data_t :=
  match tx_map.find? (fun e => e.1 == amount) with
  | some e => e.2
  | none => []

/-- Method `Blockchain::output_scan_worker (amount, offsets, outputs, txs)`:
the vector `outputs` as left; an exception of the store is swallowed. -/
def output_scan_worker (env : Env) (db : BlockchainDB) (amount : Nat) (offsets : List Nat)
    (outputs : List output_data_t) : List output_data_t :=
  match env.get_output_keys db amount offsets with
  | some r => r
  | none => outputs

/-- The first loop over the inputs of one transaction in
`prepare_handle_incoming_blocks` (lines 4402-4412), with `inner` the entry of
the transaction in `m_scan_table` (`its->second`): the vector `amounts` as
left, `none` when the loop quits on a key-image found in `inner` or an input is
not a key input. -/
def scan_table_amounts (inner : List (crypto.key_image × List output_data_t)) :
    List txin_v → List Nat → Option (List Nat)
  | [], amounts => some amounts
  | txin_v.txin_to_key amount _ k_image :: rest, amounts =>
    if inner.any (fun p => p.1 == k_image) then none
    else scan_table_amounts inner rest (amounts ++ [amount])
  | _ :: _, _ => none

/-- The loop that adds the absolute offsets of the inputs of one transaction to
`offset_map` (lines 4429-4436). -/
def scan_table_offsets : List txin_v → List (Nat × List Nat) → List (Nat × List Nat)
  | [], offset_map => offset_map
  | txin_v.txin_to_key amount key_offsets _ :: rest, offset_map =>
    scan_table_offsets rest
      (offset_map_push offset_map amount (relative_output_offsets_to_absolute key_offsets))
  | _ :: rest, offset_map => scan_table_offsets rest offset_map

/-- The first pass of `prepare_handle_incoming_blocks` over the transactions of
the batch (lines 4378-4438), each given by the result of
`parse_and_validate_tx_from_blob`: the scan table with an empty entry per
transaction, `amounts` and `offset_map`; `none` when the pass quits. -/
def scan_table_first_pass (env : Env) :
    List (Option transaction) →
      List (crypto.hash × List (crypto.key_image × List output_data_t)) → List Nat →
      List (Nat × List Nat) →
      Option (List (crypto.hash × List (crypto.key_image × List output_data_t)) × List Nat
        × List (Nat × List Nat))
  | [], table, amounts, offset_map => some (table, amounts, offset_map)
  | none :: _, _, _, _ => none
  | some tx :: rest, table, amounts, offset_map =>
    let tx_prefix_hash := env.get_transaction_prefix_hash tx
    if table.any (fun e => e.1 == tx_prefix_hash) then none
    else
      let table := table ++ [(tx_prefix_hash, [])]
      let inner :=
        match table.find? (fun e => e.1 == tx_prefix_hash) with
        | some e => e.2
        | none => []
      match scan_table_amounts inner tx.vin amounts with
      | none => none
      | some amounts =>
        let amounts := sort_unique amounts
        let offset_map :=
          amounts.foldl (fun m amount => offset_map_push m amount []) offset_map
        scan_table_first_pass env rest table amounts (scan_table_offsets tx.vin offset_map)

/-- The inner loop of the second pass (lines 4503-4524): the outputs collected
for the needed offsets of one input, up to the first offset that is not among
the offsets found or has no fetched output. -/
def scan_table_collect (offsets_found : List Nat) (fetched : List output_data_t) :
    List Nat → List output_data_t
  | [] => []
  | offset_needed :: rest =>
    let pos := offsets_found.findIdx (fun offset_found => offset_needed == offset_found)
    if pos < offsets_found.length ∧ pos < fetched.length then
      match fetched.get? pos with
      | some o => o :: scan_table_collect offsets_found fetched rest
      | none => []
    else []

/-- The statement `its->second.emplace (k_image, outputs)`: a key that is
present keeps its value. -/
def scan_table_emplace
    (table : List (crypto.hash × List (crypto.key_image × List output_data_t)))
    (tx_prefix_hash : crypto.hash) (k_image : crypto.key_image) (outputs : List output_data_t) :
    List (crypto.hash × List (crypto.key_image × List output_data_t)) :=
  table.map (fun e =>
    if e.1 == tx_prefix_hash then
      (e.1, if e.2.any (fun p => p.1 == k_image) then e.2 else e.2 ++ [(k_image, outputs)])
    else e)

/-- The loop over the inputs of one transaction in the second pass (lines
4498-4527); `none` when an input is not a key input. -/
def scan_table_fill (offset_map : List (Nat × List Nat))
    (tx_map : List (Nat × List output_data_t)) (tx_prefix_hash : crypto.hash) :
    List txin_v → List (crypto.hash × List (crypto.key_image × List output_data_t)) →
      Option (List (crypto.hash × List (crypto.key_image × List output_data_t)))
  | [], table => some table
  | txin_v.txin_to_key amount key_offsets k_image :: rest, table =>
    let outputs := scan_table_collect (offset_map_get offset_map amount)
      (tx_map_get tx_map amount) (relative_output_offsets_to_absolute key_offsets)
    scan_table_fill offset_map tx_map tx_prefix_hash rest
      (scan_table_emplace table tx_prefix_hash k_image outputs)
  | _ :: _, _ => none

/-- The second pass of `prepare_handle_incoming_blocks` (lines 4483-4529);
`none` when it quits. -/
def scan_table_second_pass (env : Env) (offset_map : List (Nat × List Nat))
    (tx_map : List (Nat × List output_data_t)) :
    List (Option transaction) →
      List (crypto.hash × List (crypto.key_image × List output_data_t)) →
      Option (List (crypto.hash × List (crypto.key_image × List output_data_t)))
  | [], table => some table
  | none :: _, _ => none
  | some tx :: rest, table =>
    let tx_prefix_hash := env.get_transaction_prefix_hash tx
    if !table.any (fun e => e.1 == tx_prefix_hash) then none
    else
      match scan_table_fill offset_map tx_map tx_prefix_hash tx.vin table with
      | none => none
      | some table => scan_table_second_pass env offset_map tx_map rest table

/-- The part of `Blockchain::prepare_handle_incoming_blocks` that builds
`m_scan_table` (lines 4361-4529) from the transactions of the batch, each given
by the result of `parse_and_validate_tx_from_blob`, starting from the cleared
table: the table as left, `none` when the method quits (the table is cleared)
or an exception leaves it. -/
def prepare_scan_table (env : Env) (db : BlockchainDB) (txs : List (Option transaction)) :
    Option (List (crypto.hash × List (crypto.key_image × List output_data_t))) :=
  match scan_table_first_pass env txs [] [] [] with
  | none => none
  | some (table, amounts, offset_map) =>
    let offset_map := offset_map.map (fun e => (e.1, sort_unique e.2))
    let tx_map : List (Nat × List output_data_t) :=
      amounts.map (fun amount =>
        (amount, output_scan_worker env db amount (offset_map_get offset_map amount) []))
    scan_table_second_pass env offset_map tx_map txs table

/-! ## Popping blocks, rolling back and connecting an alternative chain -/

/-- Modelled from the spec: `is_coinbase`, whether a transaction has a single
input of `txin_gen` type. -/
def is_coinbase (tx : transaction) : Bool :=
  match tx.vin with
  | [txin_v.txin_gen _] => true
  | _ => false

/-- Modelled from the spec: `BlockchainDB::pop_block (blk, txs)` (section 4.1:
the inverse of `add_block`): the top block, its transactions in reverse order,
and the store without the block, its transaction hashes and its key-images;
`none` where the store throws (it is empty). -/
def BlockchainDB.pop_block (db : BlockchainDB) :
    Option (block × List transaction × BlockchainDB) :=
  match db.m_blocks.getLast? with
  | none => none
  | some r =>
    some (r.bl, r.txs.reverse,
      { m_blocks := db.m_blocks.dropLast,
        m_tx_ids := db.m_tx_ids.take (db.m_tx_ids.length - (r.txs.length + 1)),
        m_spent_keys := db.m_spent_keys.take
          (db.m_spent_keys.length - ((r.txs.map tx_key_images).flatten).length) })

/-- Method `Blockchain::pop_block_from_blockchain`: the popped block and the
state as left; `none` where the exception of `pop_block` is re-thrown. The call
`m_tx_pool.on_blockchain_dec` at its end is a notification that the pool model
does not record. -/
def pop_block_from_blockchain (env : Env) (st0 : Blockchain) : Option (block × Blockchain) :=
  let st := { st0 with m_timestamps_and_difficulties_height := 0 }
  match st.m_db.pop_block with
  | none => none
  | some (popped_block, popped_txs, db1) =>
    let pool := return_tx_to_pool env st.m_tx_pool (popped_txs.filter (fun tx => !is_coinbase tx))
    let st1 := { st with m_db := db1, m_tx_pool := pool, m_blocks_longhash_table := [],
                         m_blocks_txs_check := [], m_check_txin_table := [] }
    some (popped_block, update_next_cumulative_size_limit env st1)

/-- The loop `while (m_db->height () != rollback_height) pop_block_from_blockchain ()`
of `rollback_blockchain_switching`, run for at most `fuel` iterations; `none`
where `pop_block_from_blockchain` throws. -/
def pop_blocks_until (env : Env) (rollback_height : Nat) : Nat → Blockchain → Option Blockchain
  | 0, st => some st
  | fuel + 1, st =>
    if st.m_db.height ≠ rollback_height then
      match pop_block_from_blockchain env st with
      | none => none
      | some (_, st1) => pop_blocks_until env rollback_height fuel st1
    else some st

/-- The loop of `rollback_blockchain_switching` that returns the original
chain (lines 909-914): every block is handed to `handle_block_to_main_chain`
with a value-initialised context; the first one that is not added ends the
method with false. -/
def rollback_readd (env : Env) : List block → Blockchain → call_outcome × Blockchain
  | [], st => (call_outcome.returned true, st)
  | bl :: rest, st =>
    let r := handle_block_to_main_chain env st bl (env.get_block_hash bl) fresh_bvc
    match r.outcome with
    | call_outcome.returned true =>
      if r.bvc.m_added_to_main_chain then rollback_readd env rest r.st
      else (call_outcome.returned false, r.st)
    | call_outcome.returned false => (call_outcome.returned false, r.st)
    | call_outcome.threw e => (call_outcome.threw e, r.st)

/-- Method `Blockchain::rollback_blockchain_switching (original_chain,
rollback_height)`. The pop loop gets the fuel `height - rollback_height`, the
number of iterations it runs. -/
def rollback_blockchain_switching (env : Env) (st0 : Blockchain) (original_chain : List block)
    (rollback_height : Nat) : call_outcome × Blockchain :=
  if rollback_height > st0.m_db.height then (call_outcome.returned true, st0)
  else
    let st := { st0 with m_timestamps_and_difficulties_height := 0 }
    match pop_blocks_until env rollback_height (st.m_db.height - rollback_height) st with
    | none => (call_outcome.threw db_exception.DB_ERROR, st)
    | some st1 => rollback_readd env original_chain st1

/-- Method `Blockchain::add_block_as_invalid (bei, h)`: the entry is inserted
under `h` unless the key is present. -/
def add_block_as_invalid_entry (st : Blockchain) (bei : block_extended_info) (h : crypto.hash) :
    Blockchain :=
  if st.m_invalid_blocks.any (fun e => e.1 == h) then st
  else { st with m_invalid_blocks := st.m_invalid_blocks ++ [(h, bei)] }

/-- The statement `m_alternative_chains.erase (it)` for the entry keyed `key`. -/
def alt_index_erase (alt : List alt_entry) (key : crypto.hash) : List alt_entry :=
  alt.filter (fun e => !(e.1 == key))

/-- The pop loop of `switch_to_alternative_blockchain` (lines 1031-1035), run
for at most `fuel` iterations: the state as left, and the disconnected chain
(`none` where `pop_block_from_blockchain` throws). -/
def pop_to_parent (env : Env) (prev_id : crypto.hash) :
    Nat → Blockchain → List block → Blockchain × Option (List block)
  | 0, st, disconnected_chain => (st, some disconnected_chain)
  | fuel + 1, st, disconnected_chain =>
    if st.m_db.top_block_hash ≠ prev_id then
      match pop_block_from_blockchain env st with
      | none => (st, none)
      | some (b, st1) => pop_to_parent env prev_id fuel st1 (b :: disconnected_chain)
    else (st, some disconnected_chain)

/-- How the loop that connects the alternative chain ends (lines 1040-1073). -/
inductive connect_result where
  /-- Every block was added to the main chain. -/
  | connected (st : Blockchain)
  /-- The block of `offender` was not added; `later` are the entries after it. -/
  | failed (st : Blockchain) (offender : alt_entry) (later : List alt_entry)
  /-- An exception left `handle_block_to_main_chain`. -/
  | threw (e : db_exception) (st : Blockchain)
  deriving DecidableEq, Repr

/-- The loop of `switch_to_alternative_blockchain` that connects the blocks of
the alternative chain (lines 1040-1050), up to the first block that is not
added. -/
def connect_alt_chain (env : Env) : List alt_entry → Blockchain → connect_result
  | [], st => connect_result.connected st
  | ch_ent :: rest, st =>
    let r := handle_block_to_main_chain env st ch_ent.2.bl (env.get_block_hash ch_ent.2.bl)
      fresh_bvc
    match r.outcome with
    | call_outcome.threw e => connect_result.threw e r.st
    | call_outcome.returned ok =>
      if !ok || !r.bvc.m_added_to_main_chain then connect_result.failed r.st ch_ent rest
      else connect_alt_chain env rest r.st

/-- The loop that marks the entries after the offending one (lines 1066-1070):
each is inserted into the invalid index under its key and erased from the
alternative index. -/
def orphan_later : List alt_entry → Blockchain → Blockchain
  | [], st => st
  | e :: rest, st =>
    let st1 := add_block_as_invalid_entry st e.2 e.1
    orphan_later rest
      { st1 with m_alternative_chains := alt_index_erase st1.m_alternative_chains e.1 }

/-- The loop that pushes the disconnected blocks as alternative blocks (lines
1079-1089); a false result of `handle_alternative_block` is only logged. The
first component is an exception that left the call; `none` when a call does not
end. -/
def reinsert_disconnected (env : Env) (nested : switch_fn) :
    List block → Blockchain → Option (Option db_exception × Blockchain)
  | [], st => some (none, st)
  | old_ch_ent :: rest, st =>
    match handle_alternative_block env nested st old_ch_ent (env.get_block_hash old_ch_ent)
        fresh_bvc with
    | none => none
    | some r =>
      match r.outcome with
      | call_outcome.threw e => some (some e, r.st)
      | call_outcome.returned _ => reinsert_disconnected env nested rest r.st

/-- Lines 1028-1101 of `Blockchain::switch_to_alternative_blockchain`, entered
after the checks on the alternative chain: the pop loop, the connection of the
alternative blocks, and on a failure the rollback and the marking of the
offending and later blocks. `nested` stands for the calls of
`switch_to_alternative_blockchain` made from `handle_alternative_block` while
the disconnected blocks are pushed back; `none` when such a call does not
end. -/
def switch_apply (env : Env) (nested : switch_fn) (st : Blockchain)
    (alt_chain : List alt_entry) (discard_disconnected_chain : Bool) :
    Option (call_outcome × Blockchain) :=
  match alt_chain.head? with
  | none => some (call_outcome.returned false, st)
  | some front =>
    match pop_to_parent env front.2.bl.prev_id (st.m_db.height + 1) st [] with
    | (st1, none) => some (call_outcome.threw db_exception.DB_ERROR, st1)
    | (st1, some disconnected_chain) =>
      let split_height := st1.m_db.height
      match connect_alt_chain env alt_chain st1 with
      | connect_result.threw e st2 => some (call_outcome.threw e, st2)
      | connect_result.failed st2 offender later =>
        let rb := rollback_blockchain_switching env st2 disconnected_chain split_height
        match rb.1 with
        | call_outcome.threw e => some (call_outcome.threw e, rb.2)
        | call_outcome.returned _ =>
          let st3 := add_block_as_invalid_entry rb.2 offender.2
            (env.get_block_hash offender.2.bl)
          let st4 :=
            { st3 with m_alternative_chains := alt_index_erase st3.m_alternative_chains offender.1 }
          some (call_outcome.returned false, orphan_later later st4)
      | connect_result.connected st2 =>
        match (if !discard_disconnected_chain then
            reinsert_disconnected env nested disconnected_chain st2 else some (none, st2)) with
        | none => none
        | some (some e, st3) => some (call_outcome.threw e, st3)
        | some (none, st3) =>
          some (call_outcome.returned true,
            { st3 with m_alternative_chains :=
                alt_chain.foldl (fun alt e => alt_index_erase alt e.1) st3.m_alternative_chains })

/-! ## Pre-validating block hashes against the hashes of hashes -/

/-- The loop of `prevalidate_block_hashes` that writes one validated group into
`m_blocks_hash_check` (lines 4170-4175), for `remaining` more indexes from `i`:
whether the consistency assertion held, and the table as left. -/
def prevalidate_write_group (data : List crypto.hash) (offset : Nat) :
    Nat → Nat → List crypto.hash → Bool × List crypto.hash
  | 0, _, check => (true, check)
  | remaining + 1, i, check =>
    if ¬ (check.getD i crypto.null_hash = crypto.null_hash
        ∨ check.getD i crypto.null_hash = data.getD (i - offset) crypto.null_hash) then
      (false, check)
    else
      prevalidate_write_group data offset remaining (i + 1)
        (check.set i (data.getD (i - offset) crypto.null_hash))

/-- The loop `for (n = first_index; n <= last_index; ++n)` of
`prevalidate_block_hashes` (lines 4150-4185), for `remaining` more values of
`n`: the counter `usable` when the loop ends (`none` when the consistency
assertion fails and the method returns 0) and `m_blocks_hash_check` as left.
Index products are exact: `n` is below the size of a vector of 32-byte
hashes. -/
def prevalidate_groups (env : Env) (m_blocks_hash_of_hashes : List crypto.hash)
    (data : List crypto.hash) (first_index hashes_size : Nat) :
    Nat → Nat → Nat → List crypto.hash → Option Nat × List crypto.hash
  | 0, _, usable, check => (some usable, check)
  | remaining + 1, n, usable, check =>
    let step := env.HASH_OF_HASHES_STEP
    if n < m_blocks_hash_of_hashes.length then
      if data.length < (n - first_index) * step + step then (some usable, check)
      else
        let hash := env.cn_fast_hash ((data.drop ((n - first_index) * step)).take step)
        if hash ≠ m_blocks_hash_of_hashes.getD n crypto.null_hash then (some usable, check)
        else
          match prevalidate_write_group data (first_index * step) step (n * step) check with
          | (false, check1) => (none, check1)
          | (true, check1) =>
            prevalidate_groups env m_blocks_hash_of_hashes data first_index hashes_size remaining
              (n + 1) (add64 usable step) check1
    else
      let usable := add64 usable step
      let usable := if usable > hashes_size then hashes_size else usable
      prevalidate_groups env m_blocks_hash_of_hashes data first_index hashes_size remaining
        (n + 1) usable check

/-- The vector `data` of `prevalidate_block_hashes` and the value of
`first_index` after lines 4121-4146: the hashes already on the chain from the
start of the first group up to `height`, then the candidates; a batch that is
ahead of the chain and starts inside a group skips to the next group
instead. -/
def prevalidate_data (env : Env) (db : BlockchainDB) (height : Nat) (hashes : List crypto.hash) :
    Nat × List crypto.hash :=
  let step := env.HASH_OF_HASHES_STEP
  let first_index := height / step
  let disconnected := decide (height > db.height)
  if disconnected ∧ height % step ≠ 0 then
    (first_index + 1, hashes.drop (step - height % step))
  else
    (first_index,
      (List.range' (first_index * step) (height - first_index * step)).map
        db.get_block_hash_from_height ++ hashes)

/-- Method `Blockchain::prevalidate_block_hashes (height, hashes)`, with the
member `m_blocks_hash_of_hashes` passed in: the number returned and the state
as left. -/
def prevalidate_block_hashes (env : Env) (m_blocks_hash_of_hashes : List crypto.hash)
    (st : Blockchain) (height : Nat) (hashes : List crypto.hash) : Nat × Blockchain :=
  let step := env.HASH_OF_HASHES_STEP
  if height ≥ m_blocks_hash_of_hashes.length * step then (hashes.length, st)
  else if st.m_blocks_hash_check.isEmpty then (hashes.length, st)
  else
    let first_index := height / step
    let last_index := sub64 (add64 height hashes.length) 1 / step
    if first_index = last_index ∧ hashes.length < step
        ∧ add64 height hashes.length % step ≠ 0 then (hashes.length, st)
    else
      let d := prevalidate_data env st.m_db height hashes
      let usable := sub64 (mul64 d.1 step) height
      let r := prevalidate_groups env m_blocks_hash_of_hashes d.2 d.1 hashes.length
        (last_index + 1 - d.1) d.1 usable st.m_blocks_hash_check
      match r.1 with
      | none => (0, { st with m_blocks_hash_check := r.2 })
      | some usable =>
        if usable < (UINT64_RANGE - 1) / 2 then
          (usable, { st with m_blocks_hash_check := r.2 })
        else (0, { st with m_blocks_hash_check := r.2 })

/-- Whether group `n` of hashes of `data` (which starts at group `first_index`)
is complete and hashes to the precomputed entry `n`. -/
def group_valid (env : Env) (m_blocks_hash_of_hashes : List crypto.hash)
    (data : List crypto.hash) (first_index n : Nat) : Prop :=
  first_index ≤ n ∧ n < m_blocks_hash_of_hashes.length
    ∧ (n - first_index) * env.HASH_OF_HASHES_STEP + env.HASH_OF_HASHES_STEP ≤ data.length
    ∧ env.cn_fast_hash
        ((data.drop ((n - first_index) * env.HASH_OF_HASHES_STEP)).take env.HASH_OF_HASHES_STEP)
      = m_blocks_hash_of_hashes.getD n crypto.null_hash
/-- The changes that the group loops of `prevalidate_block_hashes` may have
made to `m_blocks_hash_check`: an entry differs from the initial one only where
the initial one was null, the group of the index is valid, and the new entry is
the hash of `data` for that height. -/
def hash_check_changes (env : Env) (m_blocks_hash_of_hashes : List crypto.hash)
    (data : List crypto.hash) (first_index : Nat) (init check : List crypto.hash) : Prop :=
  check.length = init.length
  ∧ ∀ i, check.getD i crypto.null_hash ≠ init.getD i crypto.null_hash →
      init.getD i crypto.null_hash = crypto.null_hash
      ∧ group_valid env m_blocks_hash_of_hashes data first_index (i / env.HASH_OF_HASHES_STEP)
      ∧ check.getD i crypto.null_hash
        = data.getD (i - first_index * env.HASH_OF_HASHES_STEP) crypto.null_hash

/-- The counter `usable` in the group loop of `prevalidate_block_hashes`: it is
the exact count for the groups validated so far, or still the wrapped negative
start value before the first group (which is then inside the precomputed
range), or it was capped at the number of candidates. -/
def usable_state (env : Env) (m_blocks_hash_of_hashes : List crypto.hash)
    (data : List crypto.hash) (first_index hashes_size n usable : Nat) : Prop :=
  (first_index ≤ n ∧ (n - first_index) * env.HASH_OF_HASHES_STEP ≤ data.length
      ∧ usable + data.length = hashes_size + (n - first_index) * env.HASH_OF_HASHES_STEP)
  ∨ (n = first_index ∧ n < m_blocks_hash_of_hashes.length ∧ (UINT64_RANGE - 1) / 2 ≤ usable
      ∧ add64 usable env.HASH_OF_HASHES_STEP + data.length
        = hashes_size + env.HASH_OF_HASHES_STEP)
  ∨ (m_blocks_hash_of_hashes.length ≤ n ∧ usable ≤ hashes_size)

/-- A sample environment: configuration constants, and simple stand-ins for the
functions of the other translation units. The block hash is read from the
nonce and the transaction hash from the first byte of `extra`. -/
def sample_env : Env :=
  { MONEY_SUPPLY := 88188888000000000
    CRYPTONOTE_REWARD_BLOCKS_WINDOW := 100
    CRYPTONOTE_MINED_MONEY_UNLOCK_WINDOW := 60
    MAX_MIXIN := 240
    MIN_MIXIN_V1 := 0
    MIN_MIXIN_V2 := 0
    MIN_TRANSACTION_VERSION := 2
    MAX_TRANSACTION_VERSION := 3
    DIFFICULTY_BLOCKS_COUNT_V1 := 735
    DIFFICULTY_BLOCKS_COUNT_V2 := 18
    DIFFICULTY_BLOCKS_COUNT_V3 := 61
    DIFFICULTY_BLOCKS_COUNT_V4 := 54
    BLOCKCHAIN_TIMESTAMP_CHECK_WINDOW_V1 := 60
    BLOCKCHAIN_TIMESTAMP_CHECK_WINDOW_V2 := 12
    BLOCKCHAIN_TIMESTAMP_CHECK_WINDOW_V3 := 12
    BLOCK_FUTURE_TIME_LIMIT_V2 := 1440
    BLOCK_FUTURE_TIME_LIMIT_V3 := 960
    PER_BLOCK_CHECKPOINT := false
    m_nettype := network_type.FAKECHAIN
    m_dev_view_key := 3
    m_dev_spend_key := 4
    get_block_hash := fun b => b.nonce
    get_transaction_hash := fun tx => tx.extra.headD 0
    get_transaction_prefix_hash := fun tx => tx.extra.headD 0
    get_object_blobsize := fun tx => tx.extra.length + 10
    get_block_height := fun b =>
      match b.miner_tx.vin.head? with
      | some (txin_v.txin_gen h) => h
      | _ => 0
    get_outs_money_amount := fun tx => (tx.vout.map (fun o => o.amount)).sum % UINT64_RANGE
    get_tx_pub_key_from_extra := fun _ => 5
    parse_tx_extra := fun _ => [tx_extra_field.tx_extra_pub_key 5]
    generate_key_derivation := fun p s => some (p + s)
    derive_public_key := fun d i k => some (d + i + k)
    get_block_reward := fun _ _ _ _ => some 100
    get_dev_fund_amount := fun _ => 10
    median := fun l => (l.headD 0, l)
    get_min_block_size := 300000
    hardfork_check := fun _ _ => true
    hardfork_check_for_height := fun _ _ _ => true
    check_hard_fork_feature := fun _ _ => false
    get_fork_v := fun _ => 1
    is_in_checkpoint_zone := fun _ => false
    check_block := fun _ _ => (true, false)
    is_alternative_block_allowed := fun _ _ => true
    get_adjusted_time := 1600000000
    next_difficulty_v1 := fun _ _ => 7
    next_difficulty_v2 := fun _ _ => 7
    next_difficulty_v3 := fun _ _ => 7
    next_difficulty_v4 := fun _ _ => 7
    get_block_longhash := fun b => b.nonce
    check_hash := fun _ _ => true
    db_add_block_fault := fun _ _ => false
    pool_admits := fun _ => true
    get_tx_fee := fun _ => 1
    check_tx_input := fun _ _ _ _ _ pmax => some ([], pmax)
    expand_transaction_2 := fun tx _ pubkeys =>
      some { tx with rct_signatures :=
        { tx.rct_signatures with
          mixRing := pubkeys, MGs := (tx_key_images tx).map (fun k => { II := [k] }) } }
    verRctNonSemanticsSimple := fun _ => true
    verRct := fun _ => true
    POISSON_CHECK_TRIGGER := 10
    POISSON_CHECK_DEPTH := 60
    poisson_ln_below_reject := fun _ _ => false
    check_key := fun k => decide (k ≠ 0)
    FEE_PER_KB := 500000
    FEE_PER_RING_MEMBER := 500000
    COIN_EMISSION_HEIGHT_INTERVAL := 1000
    CRYPTONOTE_COINBASE_BLOB_RESERVED_SIZE := 600
    BLOCK_SIZE_GROWTH_FAVORED_ZONE := 60000
    DYNAMIC_FEE_PER_KB_BASE_FEE := 2000000000
    DYNAMIC_FEE_PER_KB_BASE_BLOCK_REWARD := 10000000000000
    float_kb_fee := fun d fee_per_kb => d * fee_per_kb / 1024
    get_block_blob_from_height := fun _ h => List.replicate (10 + h) h
    get_tx_blob := fun _ _ => none
    parse_and_validate_block_from_blob := fun blob =>
      some { major_version := 1, minor_version := 0, timestamp := 0, prev_id := 0,
             nonce := blob.length,
             miner_tx := { version := 3, unlock_time := 0, vin := [], vout := [], extra := [],
                           rct_signatures := { type := RCTType.RCTTypeNull, message := 0,
                                               mixRing := [], MGs := [], bulletproofs := [] } },
             tx_hashes := [] }
    CRYPTONOTE_LOCKED_TX_ALLOWED_DELTA_BLOCKS := 1
    CRYPTONOTE_DEFAULT_TX_SPENDABLE_AGE := 10
    get_output_key := fun db amount index =>
      if amount = 0 ∧ index < db.m_blocks.length then
        some { pubkey := 1000 + index, unlock_time := 0, height := index, commitment := index }
      else none
    get_output_keys := fun db amount offsets =>
      some ((offsets.takeWhile (fun index => decide (amount = 0 ∧ index < db.m_blocks.length))).map
        (fun index =>
          { pubkey := 1000 + index, unlock_time := 0, height := index, commitment := index }))
    HASH_OF_HASHES_STEP := 4
    cn_fast_hash := fun l => l.sum + 1 }

/-- An empty ringCT signature of the given type. -/
def sample_rct (t : RCTType) : rctSig :=
  { type := t, message := 0, mixRing := [], MGs := [], bulletproofs := [] }

/-- A coinbase transaction for `height` paying the given outputs. -/
def sample_miner_tx (height : Nat) (vout : List tx_out) : transaction :=
  { version := 3, unlock_time := height + 60, vin := [txin_v.txin_gen height], vout := vout,
    extra := [0], rct_signatures := sample_rct RCTType.RCTTypeNull }

/-- A block with hash `id` on parent `prev_id`, whose coinbase pays `vout`. -/
def sample_block (id prev_id height : Nat) (vout : List tx_out) (tx_hashes : List crypto.hash) :
    block :=
  { major_version := 1, minor_version := 0, timestamp := 1500000000 + height,
    prev_id := prev_id, nonce := id, miner_tx := sample_miner_tx height vout,
    tx_hashes := tx_hashes }

/-- A non-coinbase transaction with hash `id` spending the given key-images,
each through a ring of one member. -/
def sample_tx (id : Nat) (key_images : List crypto.key_image) : transaction :=
  { version := 3, unlock_time := 0,
    vin := key_images.map (fun k => txin_v.txin_to_key 0 [1] k), vout := [],
    extra := [id], rct_signatures := sample_rct RCTType.RCTTypeSimple }

/-- A store with a genesis block (hash 100) and one block on top of it (hash
101); key-image 77 is spent. -/
def sample_db : BlockchainDB :=
  { m_blocks :=
      [{ bl := sample_block 100 0 0 [] [], id := 100, block_size := 80,
         cumulative_difficulty := 1, already_generated_coins := 1000, txs := [] },
       { bl := sample_block 101 100 1 [⟨100, txout_target_v.txout_to_key 9⟩] [], id := 101,
         block_size := 90, cumulative_difficulty := 8, already_generated_coins := 1100,
         txs := [] }],
    m_tx_ids := [0],
    m_spent_keys := [77] }

/-- A chain state over `sample_db`: transaction 11 waits in the pool, the
alternative and invalid indexes are empty. -/
def sample_chain : Blockchain :=
  { m_db := sample_db,
    m_tx_pool := { m_transactions := [{ id := 11, tx := sample_tx 11 [5], blob_size := 40,
                                        fee := 3 }],
                   m_calls := [] },
    m_alternative_chains := [],
    m_invalid_blocks := [],
    m_timestamps_and_difficulties_height := 0,
    m_timestamps := [],
    m_difficulties := [],
    m_blocks_longhash_table := [],
    m_blocks_hash_check := [],
    m_blocks_txs_check := [],
    m_check_txin_table := [],
    m_current_block_cumul_sz_limit := 600000,
    m_current_block_cumul_sz_median := 0,
    m_sync_counter := 0 }

/-- A verification context with every flag cleared. -/
def sample_bvc : block_verification_context :=
  { m_added_to_main_chain := false, m_verifivation_failed := false,
    m_marked_as_orphaned := false, m_already_exists := false,
    m_partial_block_reward := false }

/-- A stand-in for `switch_to_alternative_blockchain` that reports success and
leaves the state as it is. -/
def sample_switch : switch_fn := fun st _ _ => (call_outcome.returned true, st)

/-- The sample chain with a second transaction, 12, in the pool; it spends the
same key-image 5 as transaction 11. -/
def sample_chain_two : Blockchain :=
  { sample_chain with
    m_tx_pool := { m_transactions :=
                     [{ id := 11, tx := sample_tx 11 [5], blob_size := 40, fee := 3 },
                      { id := 12, tx := sample_tx 12 [5], blob_size := 40, fee := 3 }],
                   m_calls := [] } }

/-- The sample environment with the dev fund active (`FORK_DEV_FUND` is the
only active feature). -/
def sample_env_dev_fund : Env :=
  { sample_env with
    check_hard_fork_feature := fun _ f => decide (f = fork_feature.FORK_DEV_FUND) }

/-- The sample environment with a store that fails on every `add_block`. -/
def sample_env_db_fault : Env :=
  { sample_env with db_add_block_fault := fun _ _ => true }

/-- The sample environment with a hard-fork governor that rejects every block
version in `check_for_height`. -/
def sample_env_old_version : Env :=
  { sample_env with hardfork_check_for_height := fun _ _ _ => false }

/-- The sample chain with the cumulative difficulty of its tip at the largest
64-bit value. -/
def sample_chain_top_difficulty : Blockchain :=
  { sample_chain with
    m_db :=
      { m_blocks :=
          [{ bl := sample_block 100 0 0 [] [], id := 100, block_size := 80,
             cumulative_difficulty := 1, already_generated_coins := 1000, txs := [] },
           { bl := sample_block 101 100 1 [⟨100, txout_target_v.txout_to_key 9⟩] [], id := 101,
             block_size := 90, cumulative_difficulty := 18446744073709551615,
             already_generated_coins := 1100, txs := [] }],
        m_tx_ids := [0],
        m_spent_keys := [77] } }

/-- A median that sorts the vector it is given in place (ascending) and returns
the middle element, or the mean of the two middle elements. -/
def sorted_median (v : List Nat) : Nat × List Nat :=
  if v.length ≤ 1 then (v.headD 0, v)
  else
    let s := v.insertionSort (fun a b => a ≤ b)
    let n := s.length / 2
    if s.length % 2 = 1 then (s.getD n 0, s)
    else (add64 (s.getD (n - 1) 0) (s.getD n 0) / 2, s)

/-- The sample environment with a median that sorts in place and a timestamp
window of three blocks before the difficulty forks. -/
def sample_env_sorted : Env :=
  { sample_env with median := sorted_median, BLOCKCHAIN_TIMESTAMP_CHECK_WINDOW_V1 := 3 }

/-- A store of four blocks (hashes 100 to 103) whose block 101 carries a later
timestamp (1500003000) than the blocks 102 (1500000100) and 103 (1500000200)
above it. -/
def sample_db_timestamps : BlockchainDB :=
  { m_blocks :=
      [{ bl := sample_block 100 0 0 [] [], id := 100, block_size := 80,
         cumulative_difficulty := 1, already_generated_coins := 1000, txs := [] },
       { bl := { sample_block 101 100 1 [⟨100, txout_target_v.txout_to_key 9⟩] [] with
                 timestamp := 1500003000 },
         id := 101, block_size := 90, cumulative_difficulty := 8,
         already_generated_coins := 1100, txs := [] },
       { bl := { sample_block 102 101 2 [⟨100, txout_target_v.txout_to_key 9⟩] [] with
                 timestamp := 1500000100 },
         id := 102, block_size := 90, cumulative_difficulty := 15,
         already_generated_coins := 1200, txs := [] },
       { bl := { sample_block 103 102 3 [⟨100, txout_target_v.txout_to_key 9⟩] [] with
                 timestamp := 1500000200 },
         id := 103, block_size := 90, cumulative_difficulty := 22,
         already_generated_coins := 1300, txs := [] }],
    m_tx_ids := [0],
    m_spent_keys := [] }

/-- A chain state over `sample_db_timestamps`. -/
def sample_chain_timestamps : Blockchain :=
  { sample_chain with m_db := sample_db_timestamps }

/-- The sample environment on MAINNET. -/
def sample_env_mainnet : Env :=
  { sample_env with m_nettype := network_type.MAINNET }

/-- A chain state whose store holds 116530 copies of the sample genesis
record. -/
def sample_chain_v3_height : Blockchain :=
  { sample_chain with
    m_db :=
      { m_blocks := List.replicate 116530
          { bl := sample_block 100 0 0 [] [], id := 100, block_size := 80,
            cumulative_difficulty := 1, already_generated_coins := 1000, txs := [] },
        m_tx_ids := [0],
        m_spent_keys := [] } }

/-- The sample environment with a difficulty window of two blocks before the
difficulty forks. -/
def sample_env_short_window : Env :=
  { sample_env with DIFFICULTY_BLOCKS_COUNT_V1 := 2 }

/-- The first three blocks of `sample_chain_timestamps`. -/
def sample_chain_three : Blockchain :=
  { sample_chain with
    m_db := { sample_db_timestamps with m_blocks := sample_db_timestamps.m_blocks.take 3 } }

/-- The chain `sample_chain_timestamps` (height 4) with the difficulty cache as
a call at height 3 leaves it: the timestamps and cumulative difficulties of the
heights 1 and 2. -/
def sample_chain_cached : Blockchain :=
  { sample_chain_timestamps with
    m_timestamps_and_difficulties_height := 3,
    m_timestamps := [1500003000, 1500000100],
    m_difficulties := [8, 15] }

/-- An entry of the alternative index for block 201 at height 3, on the
main-chain block 102 of `sample_db_timestamps`. -/
def sample_alt_entry : alt_entry :=
  (201, { bl := { sample_block 201 102 3 [⟨100, txout_target_v.txout_to_key 9⟩] [] with
                  timestamp := 1500001600 },
          height := 3, block_cumulative_size := 0, cumulative_difficulty := 22,
          already_generated_coins := 1300 })

/-- The entry prepared for block 202 at height 4, on the alternative block
201. -/
def sample_alt_bei : block_extended_info :=
  { bl := sample_block 202 201 4 [⟨100, txout_target_v.txout_to_key 9⟩] [],
    height := 4, block_cumulative_size := 0, cumulative_difficulty := 0,
    already_generated_coins := 1400 }

/-- The sample environment with a minimum mixin of 2. -/
def sample_env_min_mixin : Env :=
  { sample_env with MIN_MIXIN_V1 := 2, MIN_MIXIN_V2 := 2 }

/-- A transaction with hash `id` and one key input per entry of `rings`, the
input `i` spending key-image `i + 1` through a ring of `rings[i]` members. -/
def sample_ring_tx (id : Nat) (rings : List Nat) : transaction :=
  { version := 3, unlock_time := 0,
    vin := rings.enum.map (fun p => txin_v.txin_to_key 0 (List.replicate p.2 1) (p.1 + 1)),
    vout := [], extra := [id], rct_signatures := sample_rct RCTType.RCTTypeSimple }

/-- The sample environment under strict transaction semantics (the only active
feature), with an `extra` that parses to one transaction public key and two
uniform payment ids. -/
def sample_env_strict : Env :=
  { sample_env with
    check_hard_fork_feature := fun _ f => decide (f = fork_feature.FORK_STRICT_TX_SEMANTICS),
    parse_tx_extra := fun _ =>
      [tx_extra_field.tx_extra_pub_key 5, tx_extra_field.tx_extra_uniform_payment_id,
        tx_extra_field.tx_extra_uniform_payment_id] }

/-- The sample environment under strict transaction semantics with uniform
payment ids required; `extra` parses to one transaction public key and no
payment id. -/
def sample_env_strict_uids : Env :=
  { sample_env with
    check_hard_fork_feature := fun _ f =>
      decide (f = fork_feature.FORK_STRICT_TX_SEMANTICS) ||
        decide (f = fork_feature.FORK_UNIFORM_IDS_REQ) }

/-- The sample environment with a median that sorts in place. The Poisson
checks of a reorganisation start at an alternative chain of 10 blocks. -/
def sample_env_poisson : Env :=
  { sample_env with median := sorted_median }

/-- A freshly initialised chain: empty store, pool and indexes. -/
def sample_fresh_chain : Blockchain :=
  { sample_chain with
    m_db := { m_blocks := [], m_tx_ids := [], m_spent_keys := [] },
    m_tx_pool := { m_transactions := [], m_calls := [] } }

/-- The state of the sample chain after the genesis block 100, block 101 on it
and the alternative block 201 on the genesis block. -/
def sample_chain_with_alt : Blockchain :=
  { sample_fresh_chain with
    m_db :=
      { m_blocks :=
          [{ bl := sample_block 100 0 0 [] [], id := 100, block_size := 11,
             cumulative_difficulty := 7, already_generated_coins := 0, txs := [] },
           { bl := sample_block 101 100 1 [] [], id := 101, block_size := 11,
             cumulative_difficulty := 14, already_generated_coins := 0, txs := [] }],
        m_tx_ids := [0, 0],
        m_spent_keys := [] },
    m_alternative_chains :=
      [(201, { bl := sample_block 201 100 1 [] [], height := 1, block_cumulative_size := 0,
               cumulative_difficulty := 14, already_generated_coins := 0 })],
    m_current_block_cumul_sz_median := 11,
    m_sync_counter := 2 }

/-- The sample environment with a median that computes the same value as
`sorted_median` on a copy and leaves the vector as it is, and a timestamp window
of three blocks before the difficulty forks. -/
def sample_env_copy_median : Env :=
  { sample_env with
    median := fun v => ((sorted_median v).1, v),
    BLOCKCHAIN_TIMESTAMP_CHECK_WINDOW_V1 := 3 }

/-- A rules set in which only `FORK_FEE_V2` is active. -/
def sample_env_fee_v2 : Env :=
  { sample_env with
    check_hard_fork_feature := fun _ f => decide (f = fork_feature.FORK_FEE_V2) }

/-- A rules set in which only `FORK_FIXED_FEE` is active. -/
def sample_env_fixed_fee : Env :=
  { sample_env with
    check_hard_fork_feature := fun _ f => decide (f = fork_feature.FORK_FIXED_FEE) }

/-- A store of `n` blocks in which the block at height `h` has the hash
`100 + h`. -/
def sample_db_long (n : Nat) : BlockchainDB :=
  { m_blocks := (List.range n).map (fun h =>
      { bl := sample_block (100 + h) (99 + h) h [] [], id := 100 + h, block_size := 80,
        cumulative_difficulty := h + 1, already_generated_coins := 1000, txs := [] }),
    m_tx_ids := [],
    m_spent_keys := [] }

/-- Ten alternative blocks 201 to 210 on the genesis block 100 of
`sample_chain_with_alt`, all stamped like the genesis block. -/
def sample_alt_chain_same_time : List alt_entry :=
  (List.range 10).map (fun k =>
    (201 + k,
      { bl := { sample_block (201 + k) (if k = 0 then 100 else 200 + k) (k + 1) [] [] with
                timestamp := 1500000000 },
        height := k + 1, block_cumulative_size := 0, cumulative_difficulty := 7 * (k + 2),
        already_generated_coins := 0 }))

/-- A stand-in for lines 1028-1101 of `switch_to_alternative_blockchain` that
reports success and leaves the state. -/
def sample_apply_alt_chain : switch_fn :=
  fun st _ _ => (call_outcome.returned true, st)

/-- A ring table of two inputs with rings of three members: member `m` of
input `n` has the key `10 * n + m`. -/
def sample_pubkeys : List (List ctkey) :=
  [[⟨0, 100⟩, ⟨1, 101⟩, ⟨2, 102⟩], [⟨10, 110⟩, ⟨11, 111⟩, ⟨12, 112⟩]]

/-- A transaction of the given ringCT type with two key inputs (key-images 7
and 5) and two MLSAG slots. -/
def sample_rct_tx (t : RCTType) : transaction :=
  { version := 3, unlock_time := 0,
    vin := [txin_v.txin_to_key 0 [1, 1, 1] 7, txin_v.txin_to_key 0 [2, 1, 1] 5], vout := [],
    extra := [],
    rct_signatures := { type := t, message := 0, mixRing := [], MGs := [⟨[]⟩, ⟨[]⟩],
                        bulletproofs := [] } }

/-- The sample environment whose `check_tx_input` and `expand_transaction_2`
are the methods of this file, the first run without a scan table entry. The
store of the sample environment holds one output per block: output `i` is in
block `i`, unlocked. -/
def sample_env_scan : Env :=
  { sample_env with
    check_tx_input := fun db tx_version txin tx_prefix_hash _ pmax =>
      match txin with
      | txin_v.txin_to_key _ key_offsets k_image =>
        check_tx_input sample_env [] db tx_version key_offsets k_image tx_prefix_hash 0 pmax
      | _ => none,
    expand_transaction_2 := expand_transaction_2 }

/-- A transaction with one key input (key-image 7) whose two key offsets are 5
and 2^64 - 3: the absolute offsets are 5 and, after the 64-bit wrap, 2. -/
def sample_wrap_tx : transaction :=
  { version := 3, unlock_time := 0,
    vin := [txin_v.txin_to_key 0 [5, 18446744073709551613] 7], vout := [],
    extra := [11],
    rct_signatures := { sample_rct RCTType.RCTTypeSimple with MGs := [{ II := [] }] } }

/-- A transaction with one key input (key-image 7) whose only ring member is
output 13. -/
def sample_recent_tx : transaction :=
  { version := 3, unlock_time := 0,
    vin := [txin_v.txin_to_key 0 [13] 7], vout := [],
    extra := [11],
    rct_signatures := { sample_rct RCTType.RCTTypeSimple with MGs := [{ II := [] }] } }

/-- A transaction with two key inputs that carry the same key-image 7, the
first with the only ring member 1 and the second with the only ring member 2. -/
def sample_twin_tx : transaction :=
  { version := 3, unlock_time := 0,
    vin := [txin_v.txin_to_key 0 [1] 7, txin_v.txin_to_key 0 [2] 7], vout := [],
    extra := [11],
    rct_signatures :=
      { sample_rct RCTType.RCTTypeSimple with MGs := [{ II := [] }, { II := [] }] } }

/-- The sample environment with a pool that refuses every transaction handed
to `add_tx`. -/
def sample_env_pool_refuses : Env :=
  { sample_env with pool_admits := fun _ => false }

/-- Block 102 on block 101, carrying transaction 11 (fee 1). -/
def sample_block_with_tx : block :=
  sample_block 102 101 2 [⟨101, txout_target_v.txout_to_key 9⟩] [11]

/-- Three alternative blocks on block 101: block 301 at height 2, block 302 on
it whose coinbase carries a wrong height, and block 303 on block 302. -/
def sample_alt_chain_bad_second : List alt_entry :=
  [(301, { bl := sample_block 301 101 2 [⟨100, txout_target_v.txout_to_key 9⟩] [], height := 2,
           block_cumulative_size := 0, cumulative_difficulty := 30,
           already_generated_coins := 0 }),
   (302, { bl := sample_block 302 301 7 [⟨100, txout_target_v.txout_to_key 9⟩] [], height := 3,
           block_cumulative_size := 0, cumulative_difficulty := 37,
           already_generated_coins := 0 }),
   (303, { bl := sample_block 303 302 4 [⟨100, txout_target_v.txout_to_key 9⟩] [], height := 4,
           block_cumulative_size := 0, cumulative_difficulty := 44,
           already_generated_coins := 0 })]

/-- The sample chain after block 102 with transaction 11 was added to the main
chain (blocks 100, 101, 102), with the three blocks of
`sample_alt_chain_bad_second` in the alternative index. -/
def sample_chain_reorg : Blockchain :=
  { (handle_block_to_main_chain sample_env
      { sample_chain with
        m_tx_pool := { m_transactions := [{ id := 11, tx := sample_tx 11 [5], blob_size := 11,
                                            fee := 1 }],
                       m_calls := [] } }
      sample_block_with_tx 102 fresh_bvc).st with
    m_alternative_chains := sample_alt_chain_bad_second }

/-- A freshly initialised chain with a check table of eight null entries. -/
def sample_chain_hash_check : Blockchain :=
  { sample_fresh_chain with m_blocks_hash_check := List.replicate 8 crypto.null_hash }

/-- Two hashes of hashes for groups of four: the first is the fast-hash of the
hashes 100, 101, 102 and 103 under the sample environment. -/
def sample_hash_of_hashes : List crypto.hash := [407, 999]

/-- A chain of two blocks (hashes 100 and 101) with a check table of eight null
entries. -/
def sample_chain_hash_check_two : Blockchain :=
  { sample_fresh_chain with
    m_db := sample_db_long 2,
    m_blocks_hash_check := List.replicate 8 crypto.null_hash }

/-- A transaction with one key input (key-image 7) whose three key offsets 2, 1
and 4 name the outputs 2, 3 and 7. -/
def sample_three_member_tx : transaction :=
  { version := 3, unlock_time := 0,
    vin := [txin_v.txin_to_key 0 [2, 1, 4] 7], vout := [],
    extra := [11],
    rct_signatures := { sample_rct RCTType.RCTTypeSimple with MGs := [{ II := [] }] } }

/-- Lines 1028-1101 of `switch_to_alternative_blockchain` on a sample
environment, the nested calls being `sample_switch` (the samples reach none);
where `switch_apply` does not end, the stand-in reports false. -/
def sample_apply_switch (env : Env) : switch_fn := fun st alt_chain discard_disconnected_chain =>
  match switch_apply env sample_switch st alt_chain discard_disconnected_chain with
  | some r => r
  | none => (call_outcome.returned false, st)

/-- The entry of the alternative block 202 on the alternative block 201:
height 2, cumulative difficulty 14 + 7. -/
def sample_heavier_entry : alt_entry :=
  (202, { bl := sample_block 202 201 2 [] [], height := 2, block_cumulative_size := 0,
          cumulative_difficulty := 21, already_generated_coins := 0 })

/-- What the checks of `handle_alternative_block` hand on for block 202 on
`sample_chain_with_alt`. -/
def sample_heavier_accepted : alt_block_accepted :=
  { st := { sample_chain_with_alt with
      m_alternative_chains := sample_chain_with_alt.m_alternative_chains ++ [sample_heavier_entry] },
    alt_chain := sample_chain_with_alt.m_alternative_chains ++ [sample_heavier_entry],
    bei := sample_heavier_entry.2,
    current_diff := 7,
    is_a_checkpoint := false,
    main_chain_cumulative_difficulty := 14 }

/-- A freshly initialised chain with transaction 11 (fee 1) waiting in the
pool. -/
def sample_fresh_chain_with_pool : Blockchain :=
  { sample_fresh_chain with
    m_tx_pool := { m_transactions := [{ id := 11, tx := sample_tx 11 [5], blob_size := 11,
                                        fee := 1 }],
                   m_calls := [] } }

end cryptonote

namespace cryptonote

/-! ## Arithmetic of the 64-bit accumulators -/

theorem add64_lt (a b : Nat) : add64 a b < UINT64_RANGE := by
  unfold add64
  exact Nat.mod_lt _ (by decide)

theorem foldl_add64_amount (l : List tx_out) (m : Nat) (hm : m < UINT64_RANGE) :
    l.foldl (fun m o => add64 m o.amount) m =
      (m + (l.map (fun o => o.amount)).sum) % UINT64_RANGE := by
  induction l generalizing m with
  | nil => simp [Nat.mod_eq_of_lt hm]
  | cons o rest ih =>
    simp only [List.foldl_cons, List.map_cons, List.sum_cons]
    rw [ih _ (add64_lt _ _)]
    unfold add64 UINT64_RANGE
    omega

/-- C7, the failing input: with a base reward of 100 and fees of 5, a coinbase
paying 1 in total is within `R + fee` and passes the test
`base_reward + fee < money_in_use` of line 1304, yet
`validate_miner_transaction_v1` returns false: `money_in_use - fee` wraps
around and trips the assertion of line 1313 (`base reward calculation bug`),
under the comment saying that a miner can claim less than the full block
reward. -/
theorem validate_miner_transaction_v1_rejects_below_fee :
    sample_env.get_block_reward
        (sample_env.median (get_last_n_blocks_sizes ⟨[], [], []⟩
          sample_env.CRYPTONOTE_REWARD_BLOCKS_WINDOW)).1 20 0 0 = some 100 ∧
      ¬ ((validate_miner_transaction_v1 sample_env ⟨[], [], []⟩
            (sample_block 1 0 0 [⟨1, txout_target_v.txout_to_key 9⟩] []) 20 5 0 0).ok = true ↔
          ((sample_block 1 0 0 [⟨1, txout_target_v.txout_to_key 9⟩] []).miner_tx.vout.map
            (fun o => o.amount)).sum ≤ 100 + 5) := by
  decide

/-- C7: what `validate_miner_transaction_v1` computes. When `get_block_reward`
succeeds with base reward `R`, and neither the coinbase total nor `R + fee`
exceeds 64 bits, the method returns true if and only if the coinbase total lies
between `fee` and `R + fee`: a total within `R + fee` but below `fee` is
refused by the assertion of line 1313, whose unsigned difference
`money_in_use - fee` wraps. On success `partial_block_reward` is set exactly
when the total differs from `R + fee`, and `base_reward` becomes the total
minus the fee. -/
theorem validate_miner_transaction_v1_iff (env : Env) (db : BlockchainDB) (b : block)
    (cumulative_block_size fee base_reward already_generated_coins R : Nat)
    (hR : env.get_block_reward
        (env.median (get_last_n_blocks_sizes db env.CRYPTONOTE_REWARD_BLOCKS_WINDOW)).1
        cumulative_block_size already_generated_coins db.height = some R)
    (hsum : (b.miner_tx.vout.map (fun o => o.amount)).sum < UINT64_RANGE)
    (hfee : R + fee < UINT64_RANGE) :
    ((validate_miner_transaction_v1 env db b cumulative_block_size fee base_reward
          already_generated_coins).ok = true ↔
        fee ≤ (b.miner_tx.vout.map (fun o => o.amount)).sum ∧
          (b.miner_tx.vout.map (fun o => o.amount)).sum ≤ R + fee) ∧
      ((validate_miner_transaction_v1 env db b cumulative_block_size fee base_reward
          already_generated_coins).ok = true →
        ((validate_miner_transaction_v1 env db b cumulative_block_size fee base_reward
            already_generated_coins).partial_block_reward = true ↔
          (b.miner_tx.vout.map (fun o => o.amount)).sum ≠ R + fee) ∧
        (validate_miner_transaction_v1 env db b cumulative_block_size fee base_reward
            already_generated_coins).base_reward =
          (b.miner_tx.vout.map (fun o => o.amount)).sum - fee) := by
  have hfold := foldl_add64_amount b.miner_tx.vout 0 (by decide)
  rw [Nat.zero_add, Nat.mod_eq_of_lt hsum] at hfold
  unfold validate_miner_transaction_v1
  simp only [hR, hfold]
  generalize (b.miner_tx.vout.map (fun o => o.amount)).sum = total at hsum ⊢
  unfold add64 sub64 UINT64_RANGE at *
  split
  · simp
    omega
  · split
    · simp
      omega
    · simp
      omega

/-- Witness for `validate_miner_transaction_v1_iff`: base reward 100, fee 5 and
a coinbase paying 105. -/
theorem validate_miner_transaction_v1_iff_witness :
    (validate_miner_transaction_v1 sample_env ⟨[], [], []⟩
        (sample_block 1 0 0 [⟨105, txout_target_v.txout_to_key 9⟩] []) 20 5 0 0).ok = true ∧
      (validate_miner_transaction_v1 sample_env ⟨[], [], []⟩
        (sample_block 1 0 0 [⟨105, txout_target_v.txout_to_key 9⟩] []) 20 5 0
          0).partial_block_reward = false :=
  have h := validate_miner_transaction_v1_iff sample_env ⟨[], [], []⟩
    (sample_block 1 0 0 [⟨105, txout_target_v.txout_to_key 9⟩] []) 20 5 0 0 100
    (by decide) (by decide) (by decide)
  ⟨h.1.2 (by decide), by
    have h2 := (h.2 (h.1.2 (by decide))).1
    by_contra hc
    simp only [Bool.not_eq_false] at hc
    exact (h2.1 hc) (by decide)⟩

/-! ## The output loop of `validate_miner_transaction_v2` -/

theorem amounts_split (env : Env) (deriv : crypto.key_derivation) (l : List tx_out) (i : Nat) :
    (l.map (fun o => o.amount)).sum =
      (miner_amounts env deriv l i).sum + (dev_fund_amounts env deriv l i).sum := by
  induction l generalizing i with
  | nil => simp [miner_amounts, dev_fund_amounts]
  | cons o rest ih =>
    simp only [List.map_cons, List.sum_cons, miner_amounts, dev_fund_amounts, List.sum_append]
    rw [ih (i + 1)]
    split <;> simp <;> omega

theorem miner_tx_v2_scan_spec (env : Env) (deriv : crypto.key_derivation) (l : List tx_out)
    (i m d m1 d1 : Nat) (hm : m < UINT64_RANGE) (hd : d < UINT64_RANGE)
    (h : miner_tx_v2_scan env deriv l i m d = some (m1, d1)) :
    (∀ o ∈ l, (∃ key, o.target = txout_target_v.txout_to_key key) ∧ o.amount ≠ 0) ∧
      m1 = (m + (miner_amounts env deriv l i).sum) % UINT64_RANGE ∧
      d1 = (d + (dev_fund_amounts env deriv l i).sum) % UINT64_RANGE := by
  induction l generalizing i m d with
  | nil =>
    simp only [miner_tx_v2_scan, Option.some.injEq, Prod.mk.injEq] at h
    simp [miner_amounts, dev_fund_amounts, ← h.1, ← h.2, Nat.mod_eq_of_lt hm,
      Nat.mod_eq_of_lt hd]
  | cons o rest ih =>
    unfold miner_tx_v2_scan at h
    cases hpk : env.derive_public_key deriv i env.m_dev_spend_key with
    | none => simp [hpk] at h
    | some pk =>
      simp only [hpk] at h
      cases ht : o.target with
      | txout_to_script => simp [ht] at h
      | txout_to_scripthash => simp [ht] at h
      | txout_to_key key =>
        simp only [ht] at h
        by_cases ha : o.amount = 0
        · simp [ha] at h
        · simp only [ha, if_false] at h
          by_cases hk : key = pk
          · simp only [hk, if_true] at h
            obtain ⟨h1, h2, h3⟩ := ih (i + 1) m (add64 d o.amount) hm (add64_lt _ _) h
            refine ⟨?_, ?_, ?_⟩
            · intro o2 ho2
              rcases List.mem_cons.1 ho2 with rfl | hmem
              · exact ⟨⟨key, ht⟩, ha⟩
              · exact h1 o2 hmem
            · simp [miner_amounts, is_dev_fund_output, hpk, ht, hk, h2]
            · simp only [dev_fund_amounts, is_dev_fund_output, hpk, ht, hk, h3, decide_True,
                if_true, List.sum_append, List.sum_cons, List.sum_nil]
              unfold add64 UINT64_RANGE
              omega
          · simp only [hk, if_false] at h
            obtain ⟨h1, h2, h3⟩ := ih (i + 1) (add64 m o.amount) d (add64_lt _ _) hd h
            refine ⟨?_, ?_, ?_⟩
            · intro o2 ho2
              rcases List.mem_cons.1 ho2 with rfl | hmem
              · exact ⟨⟨key, ht⟩, ha⟩
              · exact h1 o2 hmem
            · simp only [miner_amounts, is_dev_fund_output, hpk, ht, hk, h2, decide_False,
                List.sum_append, List.sum_cons, List.sum_nil]
              unfold add64 UINT64_RANGE
              simp
              omega
            · simp [dev_fund_amounts, is_dev_fund_output, hpk, ht, hk, h3]

/-- C8: when `validate_miner_transaction_v2` returns true on a coinbase whose
total fits in 64 bits (what `prevalidate_miner_transaction` has checked through
`check_outs_overflow`), the key derivation and `get_block_reward` succeeded,
every output is a key output with a non-zero amount, the outputs paying the
dev-fund key derived for their index sum to exactly `get_dev_fund_amount
(height)`, the remaining (miner) outputs sum to at most base reward + fee, and
(base reward + fee fitting in 64 bits) `partial_block_reward` is set exactly
when the miner sum differs from base reward + fee. -/
theorem validate_miner_transaction_v2_sound (env : Env) (db : BlockchainDB) (b : block)
    (height cumulative_block_size fee base_reward already_generated_coins : Nat)
    (partial_block_reward : Bool)
    (hok : (validate_miner_transaction_v2 env db b height cumulative_block_size fee
      base_reward already_generated_coins partial_block_reward).ok = true)
    (hsum : check_outs_overflow b.miner_tx = true) :
    ∃ deriv reward,
      env.generate_key_derivation (env.get_tx_pub_key_from_extra b.miner_tx)
          env.m_dev_view_key = some deriv ∧
      env.get_block_reward
          (env.median (get_last_n_blocks_sizes db env.CRYPTONOTE_REWARD_BLOCKS_WINDOW)).1
          cumulative_block_size already_generated_coins db.height = some reward ∧
      (∀ o ∈ b.miner_tx.vout,
        (∃ key, o.target = txout_target_v.txout_to_key key) ∧ o.amount ≠ 0) ∧
      (dev_fund_amounts env deriv b.miner_tx.vout 0).sum = env.get_dev_fund_amount height ∧
      (miner_amounts env deriv b.miner_tx.vout 0).sum ≤ reward + fee ∧
      (reward + fee < UINT64_RANGE →
        ((validate_miner_transaction_v2 env db b height cumulative_block_size fee
            base_reward already_generated_coins partial_block_reward).partial_block_reward
              = true ↔
          (miner_amounts env deriv b.miner_tx.vout 0).sum ≠ reward + fee)) := by
  unfold check_outs_overflow at hsum
  simp only [decide_eq_true_eq] at hsum
  unfold validate_miner_transaction_v2 at hok ⊢
  by_cases hpub : env.get_tx_pub_key_from_extra b.miner_tx = crypto.null_pkey
  · simp [hpub] at hok
  · simp only [hpub, if_false] at hok ⊢
    cases hderiv : env.generate_key_derivation (env.get_tx_pub_key_from_extra b.miner_tx)
        env.m_dev_view_key with
    | none => simp [hderiv] at hok
    | some deriv =>
      simp only [hderiv] at hok ⊢
      cases hscan : miner_tx_v2_scan env deriv b.miner_tx.vout 0 0 0 with
      | none => simp [hscan] at hok
      | some md =>
        obtain ⟨miner_money, dev_money⟩ := md
        simp only [hscan] at hok ⊢
        cases hrew : env.get_block_reward
            (env.median (get_last_n_blocks_sizes db env.CRYPTONOTE_REWARD_BLOCKS_WINDOW)).1
            cumulative_block_size already_generated_coins db.height with
        | none => simp [hrew] at hok
        | some reward =>
          simp only [hrew] at hok ⊢
          obtain ⟨hall, hm, hd⟩ := miner_tx_v2_scan_spec env deriv b.miner_tx.vout 0 0 0
            miner_money dev_money (by decide) (by decide) hscan
          have hsplit := amounts_split env deriv b.miner_tx.vout 0
          rw [Nat.zero_add] at hm hd
          rw [Nat.mod_eq_of_lt (by omega)] at hm hd
          refine ⟨deriv, reward, rfl, rfl, hall, ?_⟩
          subst hm hd
          generalize (miner_amounts env deriv b.miner_tx.vout 0).sum = ms at *
          generalize (dev_fund_amounts env deriv b.miner_tx.vout 0).sum = ds at *
          by_cases h1 : add64 reward fee < ms
          · simp [h1] at hok
          · simp only [h1, if_false] at hok ⊢
            by_cases h2 : env.get_dev_fund_amount height ≠ ds
            · simp [h2] at hok
            · simp only [h2, if_false] at hok ⊢
              by_cases h3 : ¬ (sub64 ms fee ≤ reward)
              · simp [h3] at hok
              · simp only [h3, if_false]
                unfold add64 UINT64_RANGE at *
                refine ⟨?_, ?_, ?_⟩
                · omega
                · omega
                · intro hlt
                  simp
                  omega

/-- Witness for `validate_miner_transaction_v2_sound`: base reward 100, no fee,
dev-fund amount 10; the coinbase pays 100 to a miner key and 10 to the dev-fund
key derived for output 1. -/
theorem validate_miner_transaction_v2_sound_witness :
    ∃ deriv reward,
      sample_env.generate_key_derivation
          (sample_env.get_tx_pub_key_from_extra (sample_block 1 0 0
            [⟨100, txout_target_v.txout_to_key 9⟩, ⟨10, txout_target_v.txout_to_key 13⟩]
            []).miner_tx)
          sample_env.m_dev_view_key = some deriv ∧
      sample_env.get_block_reward
          (sample_env.median (get_last_n_blocks_sizes ⟨[], [], []⟩
            sample_env.CRYPTONOTE_REWARD_BLOCKS_WINDOW)).1 20 0
          (BlockchainDB.height ⟨[], [], []⟩) = some reward ∧
      (∀ o ∈ (sample_block 1 0 0
            [⟨100, txout_target_v.txout_to_key 9⟩, ⟨10, txout_target_v.txout_to_key 13⟩]
            []).miner_tx.vout,
        (∃ key, o.target = txout_target_v.txout_to_key key) ∧ o.amount ≠ 0) ∧
      (dev_fund_amounts sample_env deriv (sample_block 1 0 0
            [⟨100, txout_target_v.txout_to_key 9⟩, ⟨10, txout_target_v.txout_to_key 13⟩]
            []).miner_tx.vout 0).sum = sample_env.get_dev_fund_amount 0 ∧
      (miner_amounts sample_env deriv (sample_block 1 0 0
            [⟨100, txout_target_v.txout_to_key 9⟩, ⟨10, txout_target_v.txout_to_key 13⟩]
            []).miner_tx.vout 0).sum ≤ reward + 0 ∧
      (reward + 0 < UINT64_RANGE →
        ((validate_miner_transaction_v2 sample_env ⟨[], [], []⟩ (sample_block 1 0 0
            [⟨100, txout_target_v.txout_to_key 9⟩, ⟨10, txout_target_v.txout_to_key 13⟩]
            []) 0 20 0 0 0 false).partial_block_reward = true ↔
          (miner_amounts sample_env deriv (sample_block 1 0 0
            [⟨100, txout_target_v.txout_to_key 9⟩, ⟨10, txout_target_v.txout_to_key 13⟩]
            []).miner_tx.vout 0).sum ≠ reward + 0)) :=
  validate_miner_transaction_v2_sound sample_env ⟨[], [], []⟩
    (sample_block 1 0 0
      [⟨100, txout_target_v.txout_to_key 9⟩, ⟨10, txout_target_v.txout_to_key 13⟩] [])
    0 20 0 0 0 false (by decide) (by decide)

/-! ## Alternative blocks: what an accepted block records -/

theorem build_alt_chain_none (alt : List alt_entry) (fuel : Nat) (c : List alt_entry)
    (t : List Nat) : build_alt_chain alt fuel none c t = some (c, t) := by
  cases fuel <;> rfl

theorem build_alt_chain_some_ne_nil (alt : List alt_entry) (fuel : Nat) (o : Option alt_entry)
    (c : List alt_entry) (t : List Nat) (c1 : List alt_entry) (t1 : List Nat)
    (hc : c ≠ [] ∨ o.isSome = true)
    (h : build_alt_chain alt fuel o c t = some (c1, t1)) : c1 ≠ [] := by
  induction fuel generalizing o c t with
  | zero =>
    cases o with
    | none =>
      rw [build_alt_chain_none] at h
      simp only [Option.some.injEq, Prod.mk.injEq] at h
      rcases hc with hc | hc
      · rw [← h.1]; exact hc
      · simp at hc
    | some e => simp [build_alt_chain] at h
  | succ n ih =>
    cases o with
    | none =>
      rw [build_alt_chain_none] at h
      simp only [Option.some.injEq, Prod.mk.injEq] at h
      rcases hc with hc | hc
      · rw [← h.1]; exact hc
      · simp at hc
    | some e =>
      simp only [build_alt_chain] at h
      exact ih _ _ _ (Or.inl (by simp)) h

theorem alt_prev_eq (st : Blockchain) (b : block) (fuel : Nat) (c : List alt_entry)
    (t : List Nat)
    (h : build_alt_chain st.m_alternative_chains fuel
      (find_alt st.m_alternative_chains b.prev_id) [] [] = some (c, t)) :
    alt_prev st b c = find_alt st.m_alternative_chains b.prev_id := by
  unfold alt_prev
  cases hp : find_alt st.m_alternative_chains b.prev_id with
  | none =>
    rw [hp, build_alt_chain_none] at h
    simp only [Option.some.injEq, Prod.mk.injEq] at h
    simp [← h.1]
  | some prev =>
    rw [hp] at h
    have hne := build_alt_chain_some_ne_nil _ _ (some prev) _ _ _ _ (Or.inr rfl) h
    have : c.length ≠ 0 := by
      intro h0
      exact hne (List.length_eq_zero.1 h0)
    simp [this]

theorem alt_block_insert_accepted (st : Blockchain) (id : crypto.hash)
    (bvc : block_verification_context) (alt_chain : List alt_entry)
    (bei : block_extended_info) (current_diff : Nat) (is_a_checkpoint : Bool)
    (a : alt_block_accepted)
    (h : alt_block_insert st id bvc alt_chain bei current_diff is_a_checkpoint =
      alt_block_checks.accepted a) :
    a = { st := { st with m_alternative_chains := st.m_alternative_chains ++ [(id, bei)] },
          alt_chain := alt_chain ++ [(id, bei)],
          bei := bei,
          current_diff := current_diff,
          is_a_checkpoint := is_a_checkpoint,
          main_chain_cumulative_difficulty :=
            st.m_db.get_block_cumulative_difficulty (sub64 st.m_db.height 1) } := by
  unfold alt_block_insert at h
  split at h
  · cases h
  · simp only [alt_block_checks.accepted.injEq] at h
    exact h.symm

theorem alt_block_verify_accepted (env : Env) (st : Blockchain) (b : block) (id : crypto.hash)
    (bvc : block_verification_context) (alt_chain : List alt_entry) (timestamps : List Nat)
    (a : alt_block_accepted)
    (h : alt_block_verify env st b id bvc alt_chain timestamps = alt_block_checks.accepted a) :
    a.st = { st with m_alternative_chains := st.m_alternative_chains ++ [(id, a.bei)] } ∧
      a.bei.bl = b ∧
      a.bei.height = (alt_block_bei env st b alt_chain).height ∧
      a.bei.already_generated_coins = (alt_block_bei env st b alt_chain).already_generated_coins ∧
      a.bei.cumulative_difficulty = alt_cumulative_difficulty st b alt_chain a.current_diff ∧
      a.main_chain_cumulative_difficulty =
        st.m_db.get_block_cumulative_difficulty (sub64 st.m_db.height 1) ∧
      a.is_a_checkpoint = (env.check_block a.bei.height id).2 ∧
      a.current_diff ≠ 0 ∧
      prevalidate_miner_transaction env b a.bei.height = true ∧
      a.alt_chain = alt_chain ++ [(id, a.bei)] ∧
      a.current_diff =
        get_next_difficulty_for_alternative_chain env st.m_db alt_chain
          { a.bei with cumulative_difficulty := 0 } := by
  unfold alt_block_verify at h
  split at h
  · cases h
  · split at h
    · cases h
    · split at h
      · cases h
      · split at h
        · cases h
        · split at h
          · cases h
          · rename_i h1 h2 h3 h4 h5
            have ha := alt_block_insert_accepted _ _ _ _ _ _ _ _ h
            subst ha
            refine ⟨rfl, rfl, rfl, rfl, rfl, rfl, rfl, h3, ?_, rfl, rfl⟩
            simpa using h5

theorem alt_block_accepted_spec (env : Env) (st : Blockchain) (b : block) (id : crypto.hash)
    (bvc : block_verification_context) (a : alt_block_accepted)
    (h : handle_alternative_block_checks env st b id bvc = some (alt_block_checks.accepted a)) :
    a.st = { st with m_timestamps_and_difficulties_height := 0,
                     m_alternative_chains := st.m_alternative_chains ++ [(id, a.bei)] } ∧
      a.bei.bl = b ∧
      a.bei.height = add64 (alt_parent_height st b) 1 ∧
      a.bei.already_generated_coins =
        next_generated_coins env (alt_parent_generated_coins st b)
          (env.get_outs_money_amount b.miner_tx) ∧
      a.bei.cumulative_difficulty =
        add64 (alt_parent_cumulative_difficulty st b) a.current_diff ∧
      a.main_chain_cumulative_difficulty =
        st.m_db.get_block_cumulative_difficulty (sub64 st.m_db.height 1) ∧
      a.is_a_checkpoint = (env.check_block a.bei.height id).2 ∧
      a.current_diff ≠ 0 ∧
      ∃ chain, a.alt_chain = chain ++ [(id, a.bei)] ∧
        a.current_diff =
          get_next_difficulty_for_alternative_chain env st.m_db chain
            { a.bei with cumulative_difficulty := 0 } := by
  unfold handle_alternative_block_checks at h
  dsimp only at h
  split at h
  · cases h
  · split at h
    · split at h
      · cases h
      · rename_i alt_chain timestamps0 hwalk
        split at h
        · cases h
        · rename_i timestamps hts
          simp only [Option.some.injEq] at h
          obtain ⟨h1, h2, h3, h4, h5, h6, h7, h8, _, h10, h11⟩ :=
            alt_block_verify_accepted _ _ _ _ _ _ _ _ h
          have hprev := alt_prev_eq { st with m_timestamps_and_difficulties_height := 0 } b _ _ _
            hwalk
          dsimp only at hprev
          refine ⟨h1, h2, ?_, ?_, ?_, h6, h7, h8, alt_chain, h10, h11⟩
          · rw [h3]
            unfold alt_block_bei alt_parent_height
            dsimp only
            rw [hprev]
          · rw [h4]
            unfold alt_block_bei alt_parent_generated_coins
            dsimp only
            rw [hprev]
            cases find_alt st.m_alternative_chains b.prev_id <;> rfl
          · rw [h5]
            unfold alt_cumulative_difficulty alt_parent_cumulative_difficulty
            dsimp only
            rw [hprev]
    · cases h

/-! ## C1: the reorganisation decision of `handle_alternative_block` -/

/-- C1: for a block that passed the alternative-chain checks and was inserted
into the alternative index, and that is not at a checkpoint: the cumulative
difficulty recorded for it is its parent's recorded value plus its target (in
`difficulty_type` arithmetic), the target being the result of
`get_next_difficulty_for_alternative_chain` on the chain before the block, and
the state after the insertion differs from the initial one only by the new
entry of the alternative index (and the reset of the difficulty-cache height).
When the recorded value exceeds the cumulative difficulty of the main-chain
tip, `switch_to_alternative_blockchain (alt_chain, false)` is run on the state
after the insertion, with the alternative chain ending in the new entry: the
call ends as the switch does and leaves the state the switch leaves,
`m_added_to_main_chain` being set when the switch returns true and
`m_verifivation_failed` when it returns false. Otherwise
`switch_to_alternative_blockchain` is not involved: the call returns true, the
context is untouched (`m_added_to_main_chain` is not set) and the state is the
one after the insertion. -/
theorem handle_alternative_block_reorg_iff (env : Env)
    (switch_to_alternative_blockchain : switch_fn) (st : Blockchain) (b : block)
    (id : crypto.hash) (bvc : block_verification_context) (a : alt_block_accepted)
    (h : handle_alternative_block_checks env st b id bvc = some (alt_block_checks.accepted a))
    (hcp : a.is_a_checkpoint = false) :
    a.bei.cumulative_difficulty =
        add64 (alt_parent_cumulative_difficulty st b) a.current_diff ∧
      (∃ chain, a.alt_chain = chain ++ [(id, a.bei)] ∧
        a.current_diff =
          get_next_difficulty_for_alternative_chain env st.m_db chain
            { a.bei with cumulative_difficulty := 0 }) ∧
      a.main_chain_cumulative_difficulty =
        st.m_db.get_block_cumulative_difficulty (sub64 st.m_db.height 1) ∧
      a.st = { st with m_timestamps_and_difficulties_height := 0,
                       m_alternative_chains := st.m_alternative_chains ++ [(id, a.bei)] } ∧
      (a.main_chain_cumulative_difficulty < a.bei.cumulative_difficulty →
        handle_alternative_block env switch_to_alternative_blockchain st b id bvc =
          some { outcome := (switch_to_alternative_blockchain a.st a.alt_chain false).1,
                 st := (switch_to_alternative_blockchain a.st a.alt_chain false).2,
                 bvc :=
                   match (switch_to_alternative_blockchain a.st a.alt_chain false).1 with
                   | call_outcome.returned true => { bvc with m_added_to_main_chain := true }
                   | call_outcome.returned false => { bvc with m_verifivation_failed := true }
                   | call_outcome.threw _ => bvc }) ∧
      (¬ a.main_chain_cumulative_difficulty < a.bei.cumulative_difficulty →
        handle_alternative_block env switch_to_alternative_blockchain st b id bvc =
          some { outcome := call_outcome.returned true,
                 st := { st with m_timestamps_and_difficulties_height := 0,
                                 m_alternative_chains :=
                                   st.m_alternative_chains ++ [(id, a.bei)] },
                 bvc := bvc }) := by
  obtain ⟨h1, _, _, _, h5, h6, _, _, h9⟩ := alt_block_accepted_spec env st b id bvc a h
  refine ⟨h5, h9, h6, h1, ?_, ?_⟩
  · intro hlt
    unfold handle_alternative_block reorganize
    simp only [h, hcp, hlt, Bool.false_eq_true, if_false, if_true]
    rcases hsw : switch_to_alternative_blockchain a.st a.alt_chain false with ⟨o, st1⟩
    cases o with
    | returned r => cases r <;> rfl
    | threw e => rfl
  · intro hge
    unfold handle_alternative_block
    simp [h, hcp, hge, h1]

/-- The entry recorded for the sample alternative block 201 on the genesis
block: height 1, cumulative difficulty 1 + 7. -/
theorem sample_alt_block_accepted :
    handle_alternative_block_checks sample_env sample_chain
        (sample_block 201 100 1 [⟨100, txout_target_v.txout_to_key 9⟩] []) 201 sample_bvc =
      some (alt_block_checks.accepted
        { st := { sample_chain with
            m_alternative_chains :=
              [(201, { bl := sample_block 201 100 1 [⟨100, txout_target_v.txout_to_key 9⟩] [],
                       height := 1, block_cumulative_size := 0, cumulative_difficulty := 8,
                       already_generated_coins := 1100 })] },
          alt_chain :=
            [(201, { bl := sample_block 201 100 1 [⟨100, txout_target_v.txout_to_key 9⟩] [],
                     height := 1, block_cumulative_size := 0, cumulative_difficulty := 8,
                     already_generated_coins := 1100 })],
          bei := { bl := sample_block 201 100 1 [⟨100, txout_target_v.txout_to_key 9⟩] [],
                   height := 1, block_cumulative_size := 0, cumulative_difficulty := 8,
                   already_generated_coins := 1100 },
          current_diff := 7,
          is_a_checkpoint := false,
          main_chain_cumulative_difficulty := 8 }) := by
  decide

/-- The checks of `handle_alternative_block` accept block 202 on the
alternative block 201 of `sample_chain_with_alt` with the cumulative difficulty
21, above the 14 of the main-chain tip. -/
theorem sample_heavier_block_accepted :
    handle_alternative_block_checks sample_env_poisson sample_chain_with_alt
        (sample_block 202 201 2 [] []) 202 sample_bvc =
      some (alt_block_checks.accepted sample_heavier_accepted) := by
  decide

/-- Witness for `handle_alternative_block_reorg_iff`: on the main chain 100, 101
(cumulative difficulty 14) with the alternative block 201 on the genesis
block, block 202 on block 201 reaches 21; the switch is run and succeeds, the
call returns true with `m_added_to_main_chain` set, the main chain becomes 100,
201, 202 and the alternative index holds block 101. On the sample chain the
alternative block 201 reaches 8, equal to the main-chain tip, and is only
recorded. -/
theorem handle_alternative_block_reorg_iff_witness :
    (handle_alternative_block sample_env_poisson
        (switch_to_alternative_blockchain sample_env_poisson
          (sample_apply_switch sample_env_poisson))
        sample_chain_with_alt (sample_block 202 201 2 [] []) 202 sample_bvc).map
        (fun r => (r.outcome, r.bvc.m_added_to_main_chain, r.bvc.m_verifivation_failed,
          r.st.m_db.m_blocks.map (fun x => x.id),
          r.st.m_alternative_chains.map (fun e => e.1)))
      = some (call_outcome.returned true, true, false, [100, 201, 202], [101])
    ∧ handle_alternative_block sample_env
        (switch_to_alternative_blockchain sample_env (sample_apply_switch sample_env))
        sample_chain
        (sample_block 201 100 1 [⟨100, txout_target_v.txout_to_key 9⟩] []) 201 sample_bvc =
      some { outcome := call_outcome.returned true,
             st := { sample_chain with
               m_timestamps_and_difficulties_height := 0,
               m_alternative_chains := sample_chain.m_alternative_chains ++
                 [(201, { bl := sample_block 201 100 1
                            [⟨100, txout_target_v.txout_to_key 9⟩] [],
                          height := 1, block_cumulative_size := 0, cumulative_difficulty := 8,
                          already_generated_coins := 1100 })] },
             bvc := sample_bvc } :=
  ⟨by
    rw [(handle_alternative_block_reorg_iff sample_env_poisson
      (switch_to_alternative_blockchain sample_env_poisson
        (sample_apply_switch sample_env_poisson))
      sample_chain_with_alt (sample_block 202 201 2 [] []) 202 sample_bvc
      sample_heavier_accepted sample_heavier_block_accepted rfl).2.2.2.2.1 (by decide)]
    decide,
   (handle_alternative_block_reorg_iff sample_env
    (switch_to_alternative_blockchain sample_env (sample_apply_switch sample_env)) sample_chain
    (sample_block 201 100 1 [⟨100, txout_target_v.txout_to_key 9⟩] []) 201 sample_bvc _
    sample_alt_block_accepted rfl).2.2.2.2.2 (by decide)⟩

/-! ## C2 and C3: known blocks and orphans in `add_new_block` -/

/-- C2: when the hash of the block is already in the main chain, the
alternative index or the invalid index (`have_block`), `add_new_block` returns
false at once with `m_already_exists` set; `m_added_to_main_chain` and every
other flag keep their values, and the state is the initial one except that
`m_blocks_txs_check` is cleared. No verification function is involved, also
for a block of the invalid index. -/
theorem add_new_block_already_exists (env : Env)
    (switch_to_alternative_blockchain : switch_fn) (st : Blockchain) (bl : block)
    (bvc : block_verification_context)
    (h : st.m_db.block_exists (env.get_block_hash bl) = true ∨
      st.m_alternative_chains.any (fun e => e.1 == env.get_block_hash bl) = true ∨
      st.m_invalid_blocks.any (fun e => e.1 == env.get_block_hash bl) = true) :
    add_new_block env switch_to_alternative_blockchain st bl bvc =
        some { outcome := call_outcome.returned false,
               st := { st with m_blocks_txs_check := [] },
               bvc := { bvc with m_already_exists := true } } ∧
      ({ st with m_blocks_txs_check := [] } : Blockchain).m_db = st.m_db ∧
      ({ st with m_blocks_txs_check := [] } : Blockchain).m_alternative_chains =
        st.m_alternative_chains ∧
      ({ st with m_blocks_txs_check := [] } : Blockchain).m_invalid_blocks =
        st.m_invalid_blocks ∧
      ({ bvc with m_already_exists := true } : block_verification_context).m_added_to_main_chain =
        bvc.m_added_to_main_chain := by
  have hb : have_block st (env.get_block_hash bl) = true := by
    unfold have_block
    rcases h with h | h | h
    · simp [h]
    · simp only [h, if_true]
      split <;> rfl
    · simp only [h, if_true]
      split
      · rfl
      · split <;> rfl
  refine ⟨?_, rfl, rfl, rfl, rfl⟩
  unfold add_new_block
  simp [hb]

/-- Witness for `add_new_block_already_exists`: block 101 is the tip of the
sample chain and is submitted again. -/
theorem add_new_block_already_exists_witness :
    add_new_block sample_env sample_switch sample_chain
        (sample_block 101 100 1 [⟨100, txout_target_v.txout_to_key 9⟩] []) sample_bvc =
      some { outcome := call_outcome.returned false,
             st := { sample_chain with m_blocks_txs_check := [] },
             bvc := { sample_bvc with m_already_exists := true } } :=
  (add_new_block_already_exists sample_env sample_switch sample_chain
    (sample_block 101 100 1 [⟨100, txout_target_v.txout_to_key 9⟩] []) sample_bvc
    (Or.inl (by decide))).1

/-- C3 (as stated) fails: block 301 has the unknown parent 555 (not the tip, not
on the main chain, not in the alternative index), but its version is wrong for
its height; `add_new_block` sets `m_verifivation_failed` and does not set
`m_marked_as_orphaned`. -/
theorem add_new_block_unknown_parent_not_orphaned :
    (sample_block 301 555 2 [] []).prev_id ≠ get_tail_id sample_chain ∧
      sample_chain.m_db.block_exists (sample_block 301 555 2 [] []).prev_id = false ∧
      find_alt sample_chain.m_alternative_chains (sample_block 301 555 2 [] []).prev_id = none ∧
      add_new_block sample_env_old_version
          sample_switch sample_chain (sample_block 301 555 2 [] []) sample_bvc =
        some { outcome := call_outcome.returned false,
               st := sample_chain,
               bvc := { sample_bvc with m_verifivation_failed := true } } := by
  decide

/-- C3 (amended): a block that is not known yet, whose parent is not the
main-chain tip, not on the main chain and not in the alternative index, and
which passes the three cheap checks that precede the parent lookup (non-zero
coinbase height, alternative block allowed by the checkpoints at that height,
version valid for that height) is marked as orphaned: `add_new_block` returns
true with `m_marked_as_orphaned` set, `m_added_to_main_chain` false and
`m_verifivation_failed` untouched; the store, the pool, the alternative index
and the invalid index are unchanged. -/
theorem add_new_block_orphan (env : Env) (switch_to_alternative_blockchain : switch_fn)
    (st : Blockchain) (bl : block) (bvc : block_verification_context)
    (hnew : have_block st (env.get_block_hash bl) = false)
    (htip : bl.prev_id ≠ get_tail_id st)
    (hmain : st.m_db.block_exists bl.prev_id = false)
    (halt : find_alt st.m_alternative_chains bl.prev_id = none)
    (hheight : env.get_block_height bl ≠ 0)
    (hallowed : env.is_alternative_block_allowed st.m_db.height (env.get_block_height bl) = true)
    (hversion : env.hardfork_check_for_height st.m_db bl (env.get_block_height bl) = true) :
    ∃ r, add_new_block env switch_to_alternative_blockchain st bl bvc = some r ∧
      r.outcome = call_outcome.returned true ∧
      r.bvc.m_marked_as_orphaned = true ∧
      r.bvc.m_added_to_main_chain = false ∧
      r.bvc.m_verifivation_failed = bvc.m_verifivation_failed ∧
      r.st.m_db = st.m_db ∧
      r.st.m_tx_pool = st.m_tx_pool ∧
      r.st.m_alternative_chains = st.m_alternative_chains ∧
      r.st.m_invalid_blocks = st.m_invalid_blocks := by
  have hearly : alt_block_rejected_early env
      { st with m_timestamps_and_difficulties_height := 0 } bl = false := by
    unfold alt_block_rejected_early get_current_blockchain_height
    simp [hheight, hallowed, hversion]
  have hchecks : handle_alternative_block_checks env st bl (env.get_block_hash bl)
      { bvc with m_added_to_main_chain := false } =
      some (alt_block_checks.done true { st with m_timestamps_and_difficulties_height := 0 }
        { bvc with m_added_to_main_chain := false, m_marked_as_orphaned := true }) := by
    unfold handle_alternative_block_checks
    simp [hearly, hmain, halt]
  refine ⟨{ outcome := call_outcome.returned true,
            st := { st with m_timestamps_and_difficulties_height := 0,
                            m_blocks_txs_check := [] },
            bvc := { bvc with m_added_to_main_chain := false, m_marked_as_orphaned := true } },
    ?_, rfl, rfl, rfl, rfl, rfl, rfl, rfl, rfl⟩
  unfold add_new_block
  simp only [hnew, htip, handle_alternative_block, hchecks]
  simp

/-- Witness for `add_new_block_orphan`: block 301 on the unknown parent 555. -/
theorem add_new_block_orphan_witness :
    ∃ r, add_new_block sample_env sample_switch sample_chain (sample_block 301 555 2 [] [])
        sample_bvc = some r ∧
      r.outcome = call_outcome.returned true ∧
      r.bvc.m_marked_as_orphaned = true ∧
      r.bvc.m_added_to_main_chain = false ∧
      r.bvc.m_verifivation_failed = sample_bvc.m_verifivation_failed ∧
      r.st.m_db = sample_chain.m_db ∧
      r.st.m_tx_pool = sample_chain.m_tx_pool ∧
      r.st.m_alternative_chains = sample_chain.m_alternative_chains ∧
      r.st.m_invalid_blocks = sample_chain.m_invalid_blocks :=
  add_new_block_orphan sample_env sample_switch sample_chain (sample_block 301 555 2 [] [])
    sample_bvc (by decide) (by decide) (by decide) (by decide) (by decide) (by decide)
    (by decide)

/-! ## Frame and pool-history lemmas for `handle_block_to_main_chain` -/

theorem get_difficulty_for_next_block_frame (env : Env) (st : Blockchain) :
    (get_difficulty_for_next_block env st).2.m_db = st.m_db ∧
      (get_difficulty_for_next_block env st).2.m_tx_pool = st.m_tx_pool ∧
      (get_difficulty_for_next_block env st).2.m_alternative_chains =
        st.m_alternative_chains ∧
      (get_difficulty_for_next_block env st).2.m_invalid_blocks = st.m_invalid_blocks := by
  unfold get_difficulty_for_next_block
  dsimp only
  split
  · exact ⟨rfl, rfl, rfl, rfl⟩
  · split
    · exact ⟨rfl, rfl, rfl, rfl⟩
    · split <;> exact ⟨rfl, rfl, rfl, rfl⟩

theorem add_block_as_invalid_frame (st : Blockchain) (bl : block) (h : crypto.hash) :
    (add_block_as_invalid st bl h).m_db = st.m_db ∧
      (add_block_as_invalid st bl h).m_tx_pool = st.m_tx_pool ∧
      (add_block_as_invalid st bl h).m_alternative_chains = st.m_alternative_chains := by
  unfold add_block_as_invalid
  split <;> exact ⟨rfl, rfl, rfl⟩

theorem return_tx_to_pool_calls (env : Env) (pool : tx_memory_pool) (txs : List transaction) :
    (return_tx_to_pool env pool txs).m_calls = pool.m_calls ++ txs.map pool_call.add_tx := by
  induction txs generalizing pool with
  | nil => simp [return_tx_to_pool]
  | cons tx rest ih =>
    simp only [return_tx_to_pool, List.map_cons]
    rw [ih]
    unfold tx_memory_pool.add_tx
    split <;> simp

theorem take_tx_calls (pool : tx_memory_pool) (id : crypto.hash) :
    (∀ d pool1, pool.take_tx id = (some d, pool1) →
        pool1.m_calls = pool.m_calls ++ [pool_call.take_tx id (some d.tx)]) ∧
      (∀ pool1, pool.take_tx id = (none, pool1) →
        pool1.m_calls = pool.m_calls ++ [pool_call.take_tx id none]) := by
  unfold tx_memory_pool.take_tx
  constructor
  · intro d pool1 h
    split at h
    · simp only [Prod.mk.injEq, Option.some.injEq] at h
      rw [← h.2, ← h.1]
    · simp at h
  · intro pool1 h
    split at h
    · simp at h
    · simp only [Prod.mk.injEq, true_and] at h
      rw [← h]

/-- The pool calls of a run of the transaction loop: the successful `take_tx`
calls for `taken`, possibly one failing `take_tx`, and then, when the loop
rejects the block, one `add_tx` for every transaction taken. -/
theorem take_block_txs_spec (env : Env) (bl : block) (id : crypto.hash) (fast_check : Bool)
    (hashes : List crypto.hash) (st : Blockchain) (txs : List transaction)
    (fee_summary cumulative_block_size tx_index : Nat) (c0 : List pool_call)
    (taken : List (crypto.hash × transaction))
    (hc : st.m_tx_pool.m_calls = c0 ++ taken.map (fun p => pool_call.take_tx p.1 (some p.2)))
    (ht : txs = taken.map (fun p => p.2)) :
    (∀ st1, take_block_txs env bl id fast_check hashes st txs fee_summary cumulative_block_size
          tx_index = block_txs_result.rejected st1 →
        st1.m_db = st.m_db ∧ st1.m_alternative_chains = st.m_alternative_chains ∧
          ∃ (taken1 : List (crypto.hash × transaction)) (missing : List crypto.hash),
            missing.length ≤ 1 ∧
            st1.m_tx_pool.m_calls =
              c0 ++ (taken1.map (fun p => pool_call.take_tx p.1 (some p.2)) ++
                missing.map (fun i => pool_call.take_tx i none) ++
                taken1.map (fun p => pool_call.add_tx p.2))) ∧
      (∀ st1 txs1 f1 s1, take_block_txs env bl id fast_check hashes st txs fee_summary
          cumulative_block_size tx_index = block_txs_result.collected st1 txs1 f1 s1 →
        st1.m_db = st.m_db ∧ st1.m_alternative_chains = st.m_alternative_chains ∧
          st1.m_invalid_blocks = st.m_invalid_blocks ∧
          ∃ taken1 : List (crypto.hash × transaction),
            st1.m_tx_pool.m_calls =
              c0 ++ taken1.map (fun p => pool_call.take_tx p.1 (some p.2)) ∧
            txs1 = taken1.map (fun p => p.2)) := by
  induction hashes generalizing st txs fee_summary cumulative_block_size tx_index taken with
  | nil =>
    constructor
    · intro st1 h
      simp [take_block_txs] at h
    · intro st1 txs1 f1 s1 h
      simp only [take_block_txs, block_txs_result.collected.injEq] at h
      obtain ⟨rfl, rfl, _, _⟩ := h
      exact ⟨rfl, rfl, rfl, taken, hc, ht⟩
  | cons tx_id rest ih =>
    have hret : ∀ (pool : tx_memory_pool) (tk : List (crypto.hash × transaction))
        (ms : List crypto.hash),
        pool.m_calls = c0 ++ (tk.map (fun p => pool_call.take_tx p.1 (some p.2)) ++
          ms.map (fun i => pool_call.take_tx i none)) →
        (return_tx_to_pool env pool (tk.map (fun p => p.2))).m_calls =
          c0 ++ (tk.map (fun p => pool_call.take_tx p.1 (some p.2)) ++
            ms.map (fun i => pool_call.take_tx i none) ++
            tk.map (fun p => pool_call.add_tx p.2)) := by
      intro pool tk ms hp
      rw [return_tx_to_pool_calls, hp]
      simp [List.map_map, Function.comp_def]
    constructor
    · intro st1 h
      unfold take_block_txs at h
      split at h
      · simp only [block_txs_result.rejected.injEq] at h
        subst h
        refine ⟨rfl, rfl, taken, [], by simp, ?_⟩
        rw [ht]
        exact hret _ taken [] (by simpa using hc)
      · split at h
        · rename_i pool1 htake
          have hcalls := (take_tx_calls st.m_tx_pool tx_id).2 pool1 htake
          simp only [block_txs_result.rejected.injEq] at h
          subst h
          refine ⟨rfl, rfl, taken, [tx_id], by simp, ?_⟩
          rw [ht]
          exact hret _ taken [tx_id] (by simp [hcalls, hc])
        · rename_i d pool1 htake
          have hcalls := (take_tx_calls st.m_tx_pool tx_id).1 d pool1 htake
          have hc1 : pool1.m_calls =
              c0 ++ (taken ++ [(tx_id, d.tx)]).map
                (fun p => pool_call.take_tx p.1 (some p.2)) := by
            simp [hcalls, hc]
          have ht1 : txs ++ [d.tx] = (taken ++ [(tx_id, d.tx)]).map (fun p => p.2) := by
            simp [ht]
          dsimp only at h
          split at h
          · split at h
            · simp only [block_txs_result.rejected.injEq] at h
              subst h
              obtain ⟨hf1, hf2, hf3⟩ := add_block_as_invalid_frame
                ({ st with m_tx_pool := pool1,
                           m_check_txin_table := (check_tx_inputs env st.m_db
                             st.m_check_txin_table d.tx fresh_tvc none).m_check_txin_table })
                bl id
              refine ⟨hf1, hf3, taken ++ [(tx_id, d.tx)], [], by simp, ?_⟩
              dsimp only
              rw [ht1]
              exact hret _ (taken ++ [(tx_id, d.tx)]) [] (by rw [hf2]; simpa using hc1)
            · exact (ih
                ({ st with m_tx_pool := pool1,
                           m_check_txin_table := (check_tx_inputs env st.m_db
                             st.m_check_txin_table d.tx fresh_tvc none).m_check_txin_table })
                _ _ _ _ (taken ++ [(tx_id, d.tx)]) hc1 ht1).1 st1 h
          · split at h
            · simp only [block_txs_result.rejected.injEq] at h
              subst h
              obtain ⟨hf1, hf2, hf3⟩ := add_block_as_invalid_frame
                ({ st with m_tx_pool := pool1 }) bl id
              refine ⟨hf1, hf3, taken ++ [(tx_id, d.tx)], [], by simp, ?_⟩
              dsimp only
              rw [ht1]
              exact hret _ (taken ++ [(tx_id, d.tx)]) [] (by rw [hf2]; simpa using hc1)
            · exact (ih ({ st with m_tx_pool := pool1 }) _ _ _ _ (taken ++ [(tx_id, d.tx)]) hc1 ht1).1 st1 h
    · intro st1 txs1 f1 s1 h
      unfold take_block_txs at h
      split at h
      · cases h
      · split at h
        · cases h
        · rename_i d pool1 htake
          have hcalls := (take_tx_calls st.m_tx_pool tx_id).1 d pool1 htake
          have hc1 : pool1.m_calls =
              c0 ++ (taken ++ [(tx_id, d.tx)]).map
                (fun p => pool_call.take_tx p.1 (some p.2)) := by
            simp [hcalls, hc]
          have ht1 : txs ++ [d.tx] = (taken ++ [(tx_id, d.tx)]).map (fun p => p.2) := by
            simp [ht]
          dsimp only at h
          split at h
          · split at h
            · cases h
            · exact (ih
                ({ st with m_tx_pool := pool1,
                           m_check_txin_table := (check_tx_inputs env st.m_db
                             st.m_check_txin_table d.tx fresh_tvc none).m_check_txin_table })
                _ _ _ _ (taken ++ [(tx_id, d.tx)]) hc1 ht1).2 st1 txs1 f1 s1 h
          · split at h
            · cases h
            · exact (ih ({ st with m_tx_pool := pool1 }) _ _ _ _ (taken ++ [(tx_id, d.tx)]) hc1 ht1).2 st1 txs1 f1 s1 h

theorem handle_block_to_main_chain_checks_spec (env : Env) (st : Blockchain) (bl : block)
    (id : crypto.hash) (bvc : block_verification_context) :
    (∀ st1 bvc1, handle_block_to_main_chain_checks env st bl id bvc =
          main_chain_checks.done st1 bvc1 →
        st1.m_db = st.m_db ∧ st1.m_alternative_chains = st.m_alternative_chains ∧
          ∃ (taken : List (crypto.hash × transaction)) (missing : List crypto.hash),
            missing.length ≤ 1 ∧
            st1.m_tx_pool.m_calls =
              st.m_tx_pool.m_calls ++ (taken.map (fun p => pool_call.take_tx p.1 (some p.2)) ++
                missing.map (fun i => pool_call.take_tx i none) ++
                taken.map (fun p => pool_call.add_tx p.2))) ∧
      (∀ d st2 txs f s, handle_block_to_main_chain_checks env st bl id bvc =
          main_chain_checks.collected d st2 txs f s →
        st2.m_db = st.m_db ∧ st2.m_alternative_chains = st.m_alternative_chains ∧
          st2.m_invalid_blocks = st.m_invalid_blocks ∧
          prevalidate_miner_transaction env bl st.m_db.height = true ∧
          d = (get_difficulty_for_next_block env st).1 ∧ d ≠ 0 ∧
          bl.prev_id = get_tail_id st ∧
          ∃ taken : List (crypto.hash × transaction),
            st2.m_tx_pool.m_calls =
              st.m_tx_pool.m_calls ++ taken.map (fun p => pool_call.take_tx p.1 (some p.2)) ∧
            txs = taken.map (fun p => p.2)) := by
  obtain ⟨g1, g2, g3, g4⟩ := get_difficulty_for_next_block_frame env st
  have hnone : ∀ st1 : Blockchain, st1.m_tx_pool = st.m_tx_pool →
      ∃ (taken : List (crypto.hash × transaction)) (missing : List crypto.hash),
        missing.length ≤ 1 ∧
        st1.m_tx_pool.m_calls =
          st.m_tx_pool.m_calls ++ (taken.map (fun p => pool_call.take_tx p.1 (some p.2)) ++
            missing.map (fun i => pool_call.take_tx i none) ++
            taken.map (fun p => pool_call.add_tx p.2)) := by
    intro st1 h1
    exact ⟨[], [], by simp, by simp [h1]⟩
  constructor
  · intro st1 bvc1 h
    unfold handle_block_to_main_chain_checks at h
    dsimp only at h
    split at h
    · simp only [main_chain_checks.done.injEq] at h
      obtain ⟨rfl, _⟩ := h
      exact ⟨rfl, rfl, hnone _ rfl⟩
    · split at h
      · simp only [main_chain_checks.done.injEq] at h
        obtain ⟨rfl, _⟩ := h
        exact ⟨rfl, rfl, hnone _ rfl⟩
      · split at h
        · simp only [main_chain_checks.done.injEq] at h
          obtain ⟨rfl, _⟩ := h
          exact ⟨rfl, rfl, hnone _ rfl⟩
        · split at h
          · simp only [main_chain_checks.done.injEq] at h
            obtain ⟨rfl, _⟩ := h
            exact ⟨g1, g3, hnone _ g2⟩
          · split at h
            · simp only [main_chain_checks.done.injEq] at h
              obtain ⟨rfl, _⟩ := h
              exact ⟨g1, g3, hnone _ g2⟩
            · split at h
              · simp only [main_chain_checks.done.injEq] at h
                obtain ⟨rfl, _⟩ := h
                exact ⟨g1, g3, hnone _ g2⟩
              · split at h
                · simp only [main_chain_checks.done.injEq] at h
                  obtain ⟨rfl, _⟩ := h
                  exact ⟨g1, g3, hnone _ g2⟩
                · split at h
                  · rename_i st2 hloop
                    simp only [main_chain_checks.done.injEq] at h
                    obtain ⟨rfl, _⟩ := h
                    obtain ⟨h1, h2, taken, missing, h3, h4⟩ :=
                      (take_block_txs_spec env bl id _ bl.tx_hashes
                        (get_difficulty_for_next_block env st).2 [] 0
                        (env.get_object_blobsize bl.miner_tx) 0 st.m_tx_pool.m_calls []
                        (by simp [g2]) rfl).1 _ hloop
                    exact ⟨h1.trans g1, h2.trans g3, taken, missing, h3, h4⟩
                  · cases h
  · intro d st2 txs f s h
    unfold handle_block_to_main_chain_checks at h
    dsimp only at h
    split at h
    · cases h
    · rename_i hprev
      split at h
      · cases h
      · split at h
        · cases h
        · split at h
          · cases h
          · rename_i hd
            split at h
            · cases h
            · split at h
              · cases h
              · split at h
                · cases h
                · rename_i hpre
                  split at h
                  · cases h
                  · rename_i st3 txs3 f3 s3 hloop
                    simp only [main_chain_checks.collected.injEq] at h
                    obtain ⟨rfl, rfl, rfl, rfl, rfl⟩ := h
                    obtain ⟨h1, h2, h3, taken, h4, h5⟩ :=
                      (take_block_txs_spec env bl id _ bl.tx_hashes
                        (get_difficulty_for_next_block env st).2 [] 0
                        (env.get_object_blobsize bl.miner_tx) 0 st.m_tx_pool.m_calls []
                        (by simp [g2]) rfl).2 _ _ _ _ hloop
                    refine ⟨h1.trans g1, h2.trans g3, h3.trans g4, ?_, rfl, hd, ?_, taken, h4,
                      h5⟩
                    · rw [g1] at hpre
                      simpa using hpre
                    · simpa using hprev

/-- The three ways `commit_block` ends: the reward validation fails, the store
raises an exception, or the block is committed. An exception never leaves the
call. -/
theorem commit_block_spec (env : Env) (bl : block) (bvc : block_verification_context)
    (d : Nat) (st : Blockchain) (txs : List transaction) (f s : Nat) :
    (∀ e, (commit_block env bl bvc d st txs f s).outcome ≠ call_outcome.threw e) ∧
      ((commit_block env bl bvc d st txs f s).outcome = call_outcome.returned false →
        (commit_block env bl bvc d st txs f s).st.m_db = st.m_db ∧
          (commit_block env bl bvc d st txs f s).st.m_tx_pool =
            return_tx_to_pool env st.m_tx_pool txs) ∧
      ((commit_block env bl bvc d st txs f s).outcome = call_outcome.returned true →
        (validate_miner_transaction env st.m_db bl s f bvc.m_partial_block_reward).ok = true ∧
          (bvc.m_verifivation_failed = false →
            ∃ r : db_block,
              (commit_block env bl bvc d st txs f s).st.m_db.m_blocks = st.m_db.m_blocks ++ [r] ∧
              r.bl = bl ∧
              r.cumulative_difficulty =
                (if st.m_db.height ≠ 0 then
                  add64 d (st.m_db.get_block_cumulative_difficulty (st.m_db.height - 1))
                else d) ∧
              r.already_generated_coins =
                next_generated_coins env (tip_generated_coins st.m_db)
                  (validate_miner_transaction env st.m_db bl s f
                    bvc.m_partial_block_reward).base_reward)) := by
  unfold commit_block
  dsimp only
  cases hv : (validate_miner_transaction env st.m_db bl s f bvc.m_partial_block_reward).ok
  · simp
  · cases hb : bvc.m_verifivation_failed
    · simp only [Bool.not_true, Bool.false_eq_true, if_false, Bool.not_false, if_true]
      unfold BlockchainDB.add_block
      cases ht : st.m_db.add_block_throws env bl txs with
      | none =>
        simp [update_next_cumulative_size_limit]
      | some e =>
        cases e <;> simp
    · simp [update_next_cumulative_size_limit]

/-! ## C4 and C5: rejection after transactions were taken from the pool -/

/-- C4: whenever `handle_block_to_main_chain` returns false, the store is the
one it started with, and the calls it made on the transaction pool are: the
successful `take_tx` calls, in block order; at most one failing `take_tx`; and
then one `add_tx` for every transaction taken, in the same order. So every
transaction taken during the call has been handed back before it returns,
whichever step rejected the block. -/
theorem handle_block_to_main_chain_returns_taken_txs (env : Env) (st : Blockchain) (bl : block)
    (id : crypto.hash) (bvc : block_verification_context)
    (h : (handle_block_to_main_chain env st bl id bvc).outcome = call_outcome.returned false) :
    (handle_block_to_main_chain env st bl id bvc).st.m_db = st.m_db ∧
      ∃ (taken : List (crypto.hash × transaction)) (missing : List crypto.hash),
        missing.length ≤ 1 ∧
        (handle_block_to_main_chain env st bl id bvc).st.m_tx_pool.m_calls =
          st.m_tx_pool.m_calls ++ (taken.map (fun p => pool_call.take_tx p.1 (some p.2)) ++
            missing.map (fun i => pool_call.take_tx i none) ++
            taken.map (fun p => pool_call.add_tx p.2)) := by
  unfold handle_block_to_main_chain at h ⊢
  cases hchk : handle_block_to_main_chain_checks env st bl id bvc with
  | done st1 bvc1 =>
    obtain ⟨h1, _, h3⟩ := (handle_block_to_main_chain_checks_spec env st bl id bvc).1 _ _ hchk
    exact ⟨h1, h3⟩
  | collected d st2 txs f s =>
    simp only [hchk] at h ⊢
    obtain ⟨h1, _, _, _, _, _, _, taken, h4, h5⟩ :=
      (handle_block_to_main_chain_checks_spec env st bl id bvc).2 _ _ _ _ _ hchk
    obtain ⟨hdb, hpool⟩ := (commit_block_spec env bl bvc d st2 txs f s).2.1 h
    refine ⟨hdb.trans h1, taken, [], by simp, ?_⟩
    rw [hpool, return_tx_to_pool_calls, h4, h5]
    simp [List.map_map, Function.comp_def]

/-- Witness for `handle_block_to_main_chain_returns_taken_txs`: block 102 lists
the transactions 11 and 12; 11 is taken from the pool, 12 is not in the pool,
and 11 is handed back. -/
theorem handle_block_to_main_chain_returns_taken_txs_witness :
    (handle_block_to_main_chain sample_env sample_chain
        (sample_block 102 101 2 [⟨103, txout_target_v.txout_to_key 9⟩] [11, 12]) 102
        sample_bvc).st.m_tx_pool.m_calls =
      [pool_call.take_tx 11 (some (sample_tx 11 [5])), pool_call.take_tx 12 none,
        pool_call.add_tx (sample_tx 11 [5])] ∧
      (handle_block_to_main_chain sample_env sample_chain
        (sample_block 102 101 2 [⟨103, txout_target_v.txout_to_key 9⟩] [11, 12]) 102
        sample_bvc).st.m_db = sample_chain.m_db :=
  ⟨by decide,
    (handle_block_to_main_chain_returns_taken_txs sample_env sample_chain
      (sample_block 102 101 2 [⟨103, txout_target_v.txout_to_key 9⟩] [11, 12]) 102 sample_bvc
      (by decide)).1⟩

/-- C5 (as stated) fails: the store raises an error other than
`KEY_IMAGE_EXISTS` while block 102 is committed; `handle_block_to_main_chain`
does not pass the exception on but returns false, with `m_verifivation_failed`
left unset and transaction 11 handed back to the pool. -/
theorem handle_block_to_main_chain_swallows_store_error :
    sample_chain.m_db.add_block_throws
        sample_env_db_fault
        (sample_block 102 101 2 [⟨103, txout_target_v.txout_to_key 9⟩] [11])
        [sample_tx 11 [5]] = some db_exception.DB_ERROR ∧
      (handle_block_to_main_chain sample_env_db_fault
        sample_chain (sample_block 102 101 2 [⟨103, txout_target_v.txout_to_key 9⟩] [11]) 102
        sample_bvc).outcome = call_outcome.returned false ∧
      (handle_block_to_main_chain sample_env_db_fault
        sample_chain (sample_block 102 101 2 [⟨103, txout_target_v.txout_to_key 9⟩] [11]) 102
        sample_bvc).outcome ≠ call_outcome.threw db_exception.DB_ERROR ∧
      (handle_block_to_main_chain sample_env_db_fault
        sample_chain (sample_block 102 101 2 [⟨103, txout_target_v.txout_to_key 9⟩] [11]) 102
        sample_bvc).bvc.m_verifivation_failed = false ∧
      (handle_block_to_main_chain sample_env_db_fault
        sample_chain (sample_block 102 101 2 [⟨103, txout_target_v.txout_to_key 9⟩] [11]) 102
        sample_bvc).st.m_tx_pool.m_calls =
          [pool_call.take_tx 11 (some (sample_tx 11 [5])),
            pool_call.add_tx (sample_tx 11 [5])] := by
  decide

/-- C5 (amended): when the checks and the reward validation of
`handle_block_to_main_chain` have passed and the store's `add_block` raises the
exception `e` at the commit: the taken transactions are handed to
`return_tx_to_pool`, the store is left as it was and the call returns false;
`m_verifivation_failed` is set exactly when `e` is `KEY_IMAGE_EXISTS`. No store
exception leaves the call. -/
theorem handle_block_to_main_chain_store_exception (env : Env) (st : Blockchain) (bl : block)
    (id : crypto.hash) (bvc : block_verification_context) (d : Nat) (st2 : Blockchain)
    (txs : List transaction) (f s : Nat) (e : db_exception)
    (hchk : handle_block_to_main_chain_checks env st bl id bvc =
      main_chain_checks.collected d st2 txs f s)
    (hv : (validate_miner_transaction env st2.m_db bl s f bvc.m_partial_block_reward).ok = true)
    (hb : bvc.m_verifivation_failed = false)
    (hthrow : st2.m_db.add_block_throws env bl txs = some e) :
    handle_block_to_main_chain env st bl id bvc =
      { outcome := call_outcome.returned false,
        st := { st2 with m_blocks_txs_check := [],
                         m_tx_pool := return_tx_to_pool env st2.m_tx_pool txs },
        bvc := { bvc with
          m_partial_block_reward :=
            (validate_miner_transaction env st2.m_db bl s f
              bvc.m_partial_block_reward).partial_block_reward,
          m_verifivation_failed := decide (e = db_exception.KEY_IMAGE_EXISTS) } } := by
  unfold handle_block_to_main_chain
  simp only [hchk]
  unfold commit_block
  dsimp only
  simp only [hv, hb, Bool.not_true, Bool.false_eq_true, if_false, Bool.not_false, if_true]
  unfold BlockchainDB.add_block
  simp only [hthrow]
  cases e <;> simp [hb]

/-- Witness for `handle_block_to_main_chain_store_exception`: block 102 lists
the transactions 11 and 12 of the pool, which spend the same key-image; the
store raises `KEY_IMAGE_EXISTS` and the block fails verification. -/
theorem handle_block_to_main_chain_store_exception_witness :
    (handle_block_to_main_chain sample_env sample_chain_two
        (sample_block 102 101 2 [⟨106, txout_target_v.txout_to_key 9⟩] [11, 12]) 102
        sample_bvc).outcome = call_outcome.returned false ∧
      (handle_block_to_main_chain sample_env sample_chain_two
        (sample_block 102 101 2 [⟨106, txout_target_v.txout_to_key 9⟩] [11, 12]) 102
        sample_bvc).bvc.m_verifivation_failed = true :=
  have h := handle_block_to_main_chain_store_exception sample_env sample_chain_two
    (sample_block 102 101 2 [⟨106, txout_target_v.txout_to_key 9⟩] [11, 12]) 102 sample_bvc
    _ _ _ _ _ db_exception.KEY_IMAGE_EXISTS rfl (by decide) (by decide) (by decide)
  ⟨by rw [h], by rw [h]; rfl⟩

/-! ## C9 and C10: coinbase amount and generated coins of an accepted block -/

theorem prevalidate_miner_transaction_overflow (env : Env) (b : block) (height : Nat)
    (h : prevalidate_miner_transaction env b height = true) :
    (b.miner_tx.vout.map (fun o => o.amount)).sum < UINT64_RANGE := by
  unfold prevalidate_miner_transaction at h
  split at h
  · cases h
  · split at h
    · split at h
      · cases h
      · split at h
        · cases h
        · split at h
          · cases h
          · unfold check_outs_overflow at h
            simpa using h
    · cases h

theorem validate_miner_transaction_v1_ok (env : Env) (db : BlockchainDB) (b : block)
    (cumulative_block_size fee base_reward already_generated_coins : Nat)
    (hok : (validate_miner_transaction_v1 env db b cumulative_block_size fee base_reward
      already_generated_coins).ok = true)
    (hsum : (b.miner_tx.vout.map (fun o => o.amount)).sum < UINT64_RANGE) :
    ∃ reward,
      env.get_block_reward
          (env.median (get_last_n_blocks_sizes db env.CRYPTONOTE_REWARD_BLOCKS_WINDOW)).1
          cumulative_block_size already_generated_coins db.height = some reward ∧
      (b.miner_tx.vout.map (fun o => o.amount)).sum ≤ reward + fee := by
  have hfold := foldl_add64_amount b.miner_tx.vout 0 (by decide)
  rw [Nat.zero_add, Nat.mod_eq_of_lt hsum] at hfold
  unfold validate_miner_transaction_v1 at hok
  cases hrew : env.get_block_reward
      (env.median (get_last_n_blocks_sizes db env.CRYPTONOTE_REWARD_BLOCKS_WINDOW)).1
      cumulative_block_size already_generated_coins db.height with
  | none => simp [hrew] at hok
  | some reward =>
    refine ⟨reward, rfl, ?_⟩
    simp only [hrew, hfold] at hok
    generalize (b.miner_tx.vout.map (fun o => o.amount)).sum = total at hsum hok ⊢
    by_cases h1 : add64 reward fee < total
    · simp [h1] at hok
    · unfold add64 UINT64_RANGE at h1
      omega

theorem validate_miner_transaction_v2_ok (env : Env) (db : BlockchainDB) (b : block)
    (height cumulative_block_size fee base_reward already_generated_coins : Nat)
    (partial_block_reward : Bool)
    (hok : (validate_miner_transaction_v2 env db b height cumulative_block_size fee
      base_reward already_generated_coins partial_block_reward).ok = true)
    (hsum : (b.miner_tx.vout.map (fun o => o.amount)).sum < UINT64_RANGE) :
    ∃ deriv reward,
      env.generate_key_derivation (env.get_tx_pub_key_from_extra b.miner_tx)
          env.m_dev_view_key = some deriv ∧
      env.get_block_reward
          (env.median (get_last_n_blocks_sizes db env.CRYPTONOTE_REWARD_BLOCKS_WINDOW)).1
          cumulative_block_size already_generated_coins db.height = some reward ∧
      (dev_fund_amounts env deriv b.miner_tx.vout 0).sum = env.get_dev_fund_amount height ∧
      (miner_amounts env deriv b.miner_tx.vout 0).sum ≤ reward + fee := by
  unfold validate_miner_transaction_v2 at hok
  by_cases hpub : env.get_tx_pub_key_from_extra b.miner_tx = crypto.null_pkey
  · simp [hpub] at hok
  · simp only [hpub, if_false] at hok
    cases hderiv : env.generate_key_derivation (env.get_tx_pub_key_from_extra b.miner_tx)
        env.m_dev_view_key with
    | none => simp [hderiv] at hok
    | some deriv =>
      simp only [hderiv] at hok
      cases hscan : miner_tx_v2_scan env deriv b.miner_tx.vout 0 0 0 with
      | none => simp [hscan] at hok
      | some md =>
        obtain ⟨miner_money, dev_money⟩ := md
        simp only [hscan] at hok
        cases hrew : env.get_block_reward
            (env.median (get_last_n_blocks_sizes db env.CRYPTONOTE_REWARD_BLOCKS_WINDOW)).1
            cumulative_block_size already_generated_coins db.height with
        | none => simp [hrew] at hok
        | some reward =>
          simp only [hrew] at hok
          obtain ⟨_, hm, hd⟩ := miner_tx_v2_scan_spec env deriv b.miner_tx.vout 0 0 0
            miner_money dev_money (by decide) (by decide) hscan
          have hsplit := amounts_split env deriv b.miner_tx.vout 0
          rw [Nat.zero_add] at hm hd
          rw [Nat.mod_eq_of_lt (by omega)] at hm hd
          refine ⟨deriv, reward, rfl, rfl, ?_⟩
          subst hm hd
          generalize (miner_amounts env deriv b.miner_tx.vout 0).sum = ms at *
          generalize (dev_fund_amounts env deriv b.miner_tx.vout 0).sum = ds at *
          by_cases h1 : add64 reward fee < ms
          · simp [h1] at hok
          · simp only [h1, if_false] at hok
            by_cases h2 : env.get_dev_fund_amount height ≠ ds
            · simp [h2] at hok
            · unfold add64 UINT64_RANGE at h1
              constructor
              · omega
              · omega

/-- C9 (as stated) fails with the dev fund active: block 102 is accepted onto
the sample chain at height 2 with a base reward of 100 and no fees, and its
coinbase pays 100 to the miner and 10 to the dev fund, 110 in total. -/
theorem accepted_coinbase_exceeds_subsidy_with_dev_fund :
    (handle_block_to_main_chain
        sample_env_dev_fund sample_chain
        (sample_block 102 101 2
          [⟨100, txout_target_v.txout_to_key 9⟩, ⟨10, txout_target_v.txout_to_key 13⟩] [])
        102 sample_bvc).outcome = call_outcome.returned true ∧
      (handle_block_to_main_chain
        sample_env_dev_fund sample_chain
        (sample_block 102 101 2
          [⟨100, txout_target_v.txout_to_key 9⟩, ⟨10, txout_target_v.txout_to_key 13⟩] [])
        102 sample_bvc).st.m_db.top_block_hash = 102 ∧
      sample_env.get_block_reward
        (sample_env.median (get_last_n_blocks_sizes sample_chain.m_db
          sample_env.CRYPTONOTE_REWARD_BLOCKS_WINDOW)).1
        (sample_env.get_object_blobsize (sample_miner_tx 2
          [⟨100, txout_target_v.txout_to_key 9⟩, ⟨10, txout_target_v.txout_to_key 13⟩]))
        (tip_generated_coins sample_chain.m_db) sample_chain.m_db.height = some 100 ∧
      ¬ (((sample_block 102 101 2
          [⟨100, txout_target_v.txout_to_key 9⟩, ⟨10, txout_target_v.txout_to_key 13⟩]
          []).miner_tx.vout.map (fun o => o.amount)).sum ≤ 100 + 0) := by
  decide

/-- C9 (amended): for every block for which `handle_block_to_main_chain`
returns true, with `f` the fee total and `s` the cumulative size collected by
the transaction loop, `get_block_reward` succeeded with some base reward, and:
without the dev fund the coinbase total is at most base reward + `f`; with the
dev fund active the miner outputs sum to at most base reward + `f`, the
dev-fund outputs sum to exactly `get_dev_fund_amount (height)`, and the
coinbase total is the sum of both, hence at most base reward + `f` +
`get_dev_fund_amount (height)`. -/
theorem accepted_coinbase_bound (env : Env) (st : Blockchain) (bl : block) (id : crypto.hash)
    (bvc : block_verification_context)
    (h : (handle_block_to_main_chain env st bl id bvc).outcome = call_outcome.returned true) :
    ∃ d st2 txs f s reward,
      handle_block_to_main_chain_checks env st bl id bvc =
          main_chain_checks.collected d st2 txs f s ∧
      env.get_block_reward
          (env.median (get_last_n_blocks_sizes st.m_db env.CRYPTONOTE_REWARD_BLOCKS_WINDOW)).1
          s (tip_generated_coins st.m_db) st.m_db.height = some reward ∧
      (env.check_hard_fork_feature st.m_db fork_feature.FORK_DEV_FUND = false →
        (bl.miner_tx.vout.map (fun o => o.amount)).sum ≤ reward + f) ∧
      (env.check_hard_fork_feature st.m_db fork_feature.FORK_DEV_FUND = true →
        ∃ deriv,
          (miner_amounts env deriv bl.miner_tx.vout 0).sum ≤ reward + f ∧
          (dev_fund_amounts env deriv bl.miner_tx.vout 0).sum =
            env.get_dev_fund_amount st.m_db.height ∧
          (bl.miner_tx.vout.map (fun o => o.amount)).sum =
            (miner_amounts env deriv bl.miner_tx.vout 0).sum +
              (dev_fund_amounts env deriv bl.miner_tx.vout 0).sum ∧
          (bl.miner_tx.vout.map (fun o => o.amount)).sum ≤
            reward + f + env.get_dev_fund_amount st.m_db.height) := by
  unfold handle_block_to_main_chain at h
  cases hchk : handle_block_to_main_chain_checks env st bl id bvc with
  | done st1 bvc1 => simp [hchk] at h
  | collected d st2 txs f s =>
    simp only [hchk] at h
    obtain ⟨h1, _, _, hpre, _, _, _, _⟩ :=
      (handle_block_to_main_chain_checks_spec env st bl id bvc).2 _ _ _ _ _ hchk
    have hsum := prevalidate_miner_transaction_overflow env bl _ hpre
    have hv := ((commit_block_spec env bl bvc d st2 txs f s).2.2 h).1
    rw [h1] at hv
    unfold validate_miner_transaction at hv
    by_cases hfork : env.check_hard_fork_feature st.m_db fork_feature.FORK_DEV_FUND = true
    · simp only [hfork, if_true] at hv
      obtain ⟨deriv, reward, _, hrew, hdev, hminer⟩ :=
        validate_miner_transaction_v2_ok env st.m_db bl _ _ _ _ _ _ hv hsum
      refine ⟨d, st2, txs, f, s, reward, rfl, hrew, ?_, ?_⟩
      · intro hf
        rw [hfork] at hf
        cases hf
      · intro _
        have hsplit := amounts_split env deriv bl.miner_tx.vout 0
        exact ⟨deriv, hminer, hdev, hsplit, by omega⟩
    · simp only [hfork] at hv
      obtain ⟨reward, hrew, hle⟩ := validate_miner_transaction_v1_ok env st.m_db bl _ _ _ _ hv hsum
      refine ⟨d, st2, txs, f, s, reward, rfl, hrew, ?_, ?_⟩
      · intro _
        exact hle
      · intro hf
        exact absurd hf hfork

/-- Witness for `accepted_coinbase_bound`: the sample block 102 with the
transaction 11 (fee 3) and a coinbase of 103 is accepted. -/
theorem accepted_coinbase_bound_witness :
    ∃ d st2 txs f s reward,
      handle_block_to_main_chain_checks sample_env sample_chain
          (sample_block 102 101 2 [⟨103, txout_target_v.txout_to_key 9⟩] [11]) 102 sample_bvc =
          main_chain_checks.collected d st2 txs f s ∧
      sample_env.get_block_reward
          (sample_env.median (get_last_n_blocks_sizes sample_chain.m_db
            sample_env.CRYPTONOTE_REWARD_BLOCKS_WINDOW)).1
          s (tip_generated_coins sample_chain.m_db) sample_chain.m_db.height = some reward ∧
      (sample_env.check_hard_fork_feature sample_chain.m_db fork_feature.FORK_DEV_FUND = false →
        ((sample_block 102 101 2 [⟨103, txout_target_v.txout_to_key 9⟩] [11]).miner_tx.vout.map
          (fun o => o.amount)).sum ≤ reward + f) ∧
      (sample_env.check_hard_fork_feature sample_chain.m_db fork_feature.FORK_DEV_FUND = true →
        ∃ deriv,
          (miner_amounts sample_env deriv
            (sample_block 102 101 2 [⟨103, txout_target_v.txout_to_key 9⟩]
              [11]).miner_tx.vout 0).sum ≤ reward + f ∧
          (dev_fund_amounts sample_env deriv
            (sample_block 102 101 2 [⟨103, txout_target_v.txout_to_key 9⟩]
              [11]).miner_tx.vout 0).sum =
            sample_env.get_dev_fund_amount sample_chain.m_db.height ∧
          ((sample_block 102 101 2 [⟨103, txout_target_v.txout_to_key 9⟩] [11]).miner_tx.vout.map
              (fun o => o.amount)).sum =
            (miner_amounts sample_env deriv
              (sample_block 102 101 2 [⟨103, txout_target_v.txout_to_key 9⟩]
                [11]).miner_tx.vout 0).sum +
              (dev_fund_amounts sample_env deriv
                (sample_block 102 101 2 [⟨103, txout_target_v.txout_to_key 9⟩]
                  [11]).miner_tx.vout 0).sum ∧
          ((sample_block 102 101 2 [⟨103, txout_target_v.txout_to_key 9⟩] [11]).miner_tx.vout.map
              (fun o => o.amount)).sum ≤
            reward + f + sample_env.get_dev_fund_amount sample_chain.m_db.height) :=
  accepted_coinbase_bound sample_env sample_chain
    (sample_block 102 101 2 [⟨103, txout_target_v.txout_to_key 9⟩] [11]) 102 sample_bvc
    (by decide)

/-- C10: with `MONEY_SUPPLY` a 64-bit constant, the generated-coins value stored
with a block is `next_generated_coins` of the parent's value and the block's
reward, both for a block committed by `handle_block_to_main_chain` (parent =
the tip, reward = the base reward left by the reward validation) and for a
block inserted by `handle_alternative_block` (parent = the entry of the
alternative index or the main-chain record, reward = the coinbase amount);
and, provided the parent's value does not exceed `MONEY_SUPPLY`, that value is
parent + reward when reward < `MONEY_SUPPLY` - parent and `MONEY_SUPPLY`
otherwise, never exceeds `MONEY_SUPPLY` and is never below the parent's. -/
theorem generated_coins_capped (env : Env) (hMS : env.MONEY_SUPPLY < UINT64_RANGE) :
    (∀ parent reward, parent ≤ env.MONEY_SUPPLY →
        next_generated_coins env parent reward =
          (if reward < env.MONEY_SUPPLY - parent then parent + reward else env.MONEY_SUPPLY) ∧
        next_generated_coins env parent reward ≤ env.MONEY_SUPPLY ∧
        parent ≤ next_generated_coins env parent reward) ∧
      (∀ st bl id bvc, bvc.m_verifivation_failed = false →
        (handle_block_to_main_chain env st bl id bvc).outcome = call_outcome.returned true →
        ∃ d st2 txs f s, ∃ r : db_block,
          handle_block_to_main_chain_checks env st bl id bvc =
            main_chain_checks.collected d st2 txs f s ∧
          (handle_block_to_main_chain env st bl id bvc).st.m_db.m_blocks =
            st.m_db.m_blocks ++ [r] ∧
          r.bl = bl ∧
          r.already_generated_coins =
            next_generated_coins env (tip_generated_coins st.m_db)
              (validate_miner_transaction env st.m_db bl s f
                bvc.m_partial_block_reward).base_reward) ∧
      (∀ st b id bvc a,
        handle_alternative_block_checks env st b id bvc = some (alt_block_checks.accepted a) →
        a.st.m_alternative_chains = st.m_alternative_chains ++ [(id, a.bei)] ∧
        a.bei.already_generated_coins =
          next_generated_coins env (alt_parent_generated_coins st b)
            (env.get_outs_money_amount b.miner_tx)) := by
  refine ⟨?_, ?_, ?_⟩
  · intro parent reward hp
    unfold next_generated_coins sub64 add64
    unfold UINT64_RANGE at *
    have h1 : (env.MONEY_SUPPLY % 18446744073709551616 +
        (18446744073709551616 - parent % 18446744073709551616)) % 18446744073709551616 =
        env.MONEY_SUPPLY - parent := by omega
    rw [h1]
    split
    · rename_i hlt
      rw [Nat.mod_eq_of_lt (by omega)]
      omega
    · omega
  · intro st bl id bvc hb h
    unfold handle_block_to_main_chain at h ⊢
    cases hchk : handle_block_to_main_chain_checks env st bl id bvc with
    | done st1 bvc1 => simp [hchk] at h
    | collected d st2 txs f s =>
      simp only [hchk] at h ⊢
      obtain ⟨h1, _⟩ := (handle_block_to_main_chain_checks_spec env st bl id bvc).2 _ _ _ _ _ hchk
      obtain ⟨r, hr1, hr2, _, hr4⟩ := ((commit_block_spec env bl bvc d st2 txs f s).2.2 h).2 hb
      rw [h1] at hr1 hr4
      exact ⟨d, st2, txs, f, s, r, rfl, hr1, hr2, hr4⟩
  · intro st b id bvc a h
    obtain ⟨h1, _, _, h4, _⟩ := alt_block_accepted_spec env st b id bvc a h
    exact ⟨by rw [h1], h4⟩

/-- Witness for `generated_coins_capped`: 50 below the supply cap, a reward of
100 takes the generated coins to the cap and not beyond. -/
theorem generated_coins_capped_witness :
    next_generated_coins sample_env (88188888000000000 - 50) 100 = 88188888000000000 ∧
      next_generated_coins sample_env 1100 100 = 1200 :=
  ⟨by
    have h := ((generated_coins_capped sample_env (by decide)).1 (88188888000000000 - 50) 100
      (by decide)).1
    rw [h]
    decide,
   by
    have h := ((generated_coins_capped sample_env (by decide)).1 1100 100 (by decide)).1
    rw [h]
    decide⟩

/-! ## C6: spent key-images in `check_tx_inputs` -/

theorem check_tx_inputs_loop_spent (env : Env) (db : BlockchainDB) (tx : transaction)
    (tx_prefix_hash : crypto.hash) (l : List txin_v) (tvc : tx_verification_context)
    (pubkeys : List (List ctkey)) (pmax : Option Nat)
    (table : List (crypto.hash × List (crypto.key_image × Bool)))
    (h : ∃ amount key_offsets k_image,
      txin_v.txin_to_key amount key_offsets k_image ∈ l ∧ db.has_key_image k_image = true) :
    ∃ tvc1 pmax1 table1,
      check_tx_inputs_loop env db tx tx_prefix_hash l tvc pubkeys pmax table =
        inputs_loop_result.failed tvc1 pmax1 table1 := by
  induction l generalizing pubkeys pmax with
  | nil =>
    obtain ⟨_, _, _, hmem, _⟩ := h
    cases hmem
  | cons txin rest ih =>
    obtain ⟨amount, key_offsets, k_image, hmem, hspent⟩ := h
    cases txin with
    | txin_gen hh => exact ⟨_, _, _, rfl⟩
    | txin_to_script => exact ⟨_, _, _, rfl⟩
    | txin_to_scripthash => exact ⟨_, _, _, rfl⟩
    | txin_to_key a offs k =>
      unfold check_tx_inputs_loop
      split
      · exact ⟨_, _, _, rfl⟩
      · split
        · exact ⟨_, _, _, rfl⟩
        · rename_i hns
          split
          · exact ⟨_, _, _, rfl⟩
          · rcases List.mem_cons.1 hmem with heq | hin
            · simp only [txin_v.txin_to_key.injEq] at heq
              obtain ⟨_, _, rfl⟩ := heq
              exact absurd hspent (by simpa [have_tx_keyimg_as_spent] using hns)
            · exact ih _ _ ⟨amount, key_offsets, k_image, hin, hspent⟩

theorem check_tx_inputs_loop_append (env : Env) (db : BlockchainDB) (tx : transaction)
    (tx_prefix_hash : crypto.hash) (pre rest : List txin_v) (tvc : tx_verification_context)
    (pubkeys : List (List ctkey)) (pmax : Option Nat)
    (table : List (crypto.hash × List (crypto.key_image × Bool)))
    (pubkeys1 : List (List ctkey)) (pmax1 : Option Nat)
    (h : check_tx_inputs_loop env db tx tx_prefix_hash pre tvc pubkeys pmax table =
      inputs_loop_result.passed pubkeys1 pmax1) :
    check_tx_inputs_loop env db tx tx_prefix_hash (pre ++ rest) tvc pubkeys pmax table =
      check_tx_inputs_loop env db tx tx_prefix_hash rest tvc pubkeys1 pmax1 table := by
  induction pre generalizing pubkeys pmax with
  | nil =>
    simp only [check_tx_inputs_loop, inputs_loop_result.passed.injEq] at h
    obtain ⟨rfl, rfl⟩ := h
    rfl
  | cons txin pre ih =>
    cases txin with
    | txin_gen hh => simp [check_tx_inputs_loop] at h
    | txin_to_script => simp [check_tx_inputs_loop] at h
    | txin_to_scripthash => simp [check_tx_inputs_loop] at h
    | txin_to_key a offs k =>
      rw [List.cons_append]
      unfold check_tx_inputs_loop at h
      conv_lhs => unfold check_tx_inputs_loop
      by_cases h1 : offs.length = 0
      · simp [h1] at h
      · simp only [h1, if_false] at h ⊢
        by_cases h2 : have_tx_keyimg_as_spent db k = true
        · simp [h2] at h
        · simp only [h2, if_false] at h ⊢
          cases hci : env.check_tx_input db tx.version (txin_v.txin_to_key a offs k)
              tx_prefix_hash tx.rct_signatures pmax with
          | none => simp [hci] at h
          | some r =>
            obtain ⟨ok, pm⟩ := r
            simp only [hci] at h ⊢
            exact ih _ _ h

theorem ring_size_scan_bound (env : Env) (l : List txin_v) (lo hi : Nat) (r : Nat × Nat)
    (h : ring_size_scan env l lo hi = some r) :
    ∀ amount key_offsets k_image, txin_v.txin_to_key amount key_offsets k_image ∈ l →
      sub64 key_offsets.length 1 ≤ env.MAX_MIXIN := by
  induction l generalizing lo hi with
  | nil =>
    intro _ _ _ hmem
    cases hmem
  | cons txin rest ih =>
    intro amount key_offsets k_image hmem
    cases txin with
    | txin_gen hh =>
      simp only [ring_size_scan] at h
      rcases List.mem_cons.1 hmem with heq | hin
      · cases heq
      · exact ih _ _ h _ _ _ hin
    | txin_to_script =>
      simp only [ring_size_scan] at h
      rcases List.mem_cons.1 hmem with heq | hin
      · cases heq
      · exact ih _ _ h _ _ _ hin
    | txin_to_scripthash =>
      simp only [ring_size_scan] at h
      rcases List.mem_cons.1 hmem with heq | hin
      · cases heq
      · exact ih _ _ h _ _ _ hin
    | txin_to_key a offs k =>
      simp only [ring_size_scan] at h
      split at h
      · cases h
      · rename_i hle
        rcases List.mem_cons.1 hmem with heq | hin
        · simp only [txin_v.txin_to_key.injEq] at heq
          obtain ⟨_, rfl, _⟩ := heq
          omega
        · exact ih _ _ h _ _ _ hin

theorem check_tx_inputs_rules_offsets (env : Env) (db : BlockchainDB) (tx : transaction)
    (tvc : tx_verification_context) (hmax : env.MAX_MIXIN < UINT64_RANGE - 1)
    (h : check_tx_inputs_rules env db tx tvc = none) :
    ∀ amount key_offsets k_image, txin_v.txin_to_key amount key_offsets k_image ∈ tx.vin →
      key_offsets.length ≠ 0 := by
  intro amount key_offsets k_image hmem h0
  unfold check_tx_inputs_rules at h
  split at h
  · cases h
  · rename_i lo hi hscan
    have hb := ring_size_scan_bound env tx.vin _ _ _ hscan amount key_offsets k_image hmem
    rw [h0] at hb
    unfold sub64 UINT64_RANGE at hb
    unfold UINT64_RANGE at hmax
    omega

/-- C6: `check_tx_inputs` returns false for every transaction that has a key
input whose key-image is in the spent set of the store; and when the rule
checks have passed and the input loop has run through the inputs `pre` that
precede such an input, the call returns false with `m_double_spend` set.
(`MAX_MIXIN` is below the largest `size_t`, so an input that passed the ring
size rule has at least one key offset.) -/
theorem check_tx_inputs_rejects_spent_key_image (env : Env) (db : BlockchainDB)
    (table : List (crypto.hash × List (crypto.key_image × Bool))) (tx : transaction)
    (tvc : tx_verification_context) (pmax : Option Nat)
    (hmax : env.MAX_MIXIN < UINT64_RANGE - 1) :
    ((∃ amount key_offsets k_image,
          txin_v.txin_to_key amount key_offsets k_image ∈ tx.vin ∧
            have_tx_keyimg_as_spent db k_image = true) →
        (check_tx_inputs env db table tx tvc pmax).ok = false) ∧
      (∀ pre post amount key_offsets k_image pubkeys pmax1,
        tx.vin = pre ++ txin_v.txin_to_key amount key_offsets k_image :: post →
        have_tx_keyimg_as_spent db k_image = true →
        check_tx_inputs_rules env db tx tvc = none →
        check_tx_inputs_loop env db tx (env.get_transaction_prefix_hash tx) pre tvc []
            (pmax.map (fun _ => 0))
            (check_txin_table_emplace table (env.get_transaction_prefix_hash tx)) =
          inputs_loop_result.passed pubkeys pmax1 →
        (check_tx_inputs env db table tx tvc pmax).ok = false ∧
          (check_tx_inputs env db table tx tvc pmax).tvc.m_double_spend = true) := by
  constructor
  · intro h
    unfold check_tx_inputs
    dsimp only
    split
    · rfl
    · obtain ⟨tvc1, pmax1, table1, hl⟩ := check_tx_inputs_loop_spent env db tx
        (env.get_transaction_prefix_hash tx) tx.vin tvc [] (pmax.map (fun _ => 0))
        (check_txin_table_emplace table (env.get_transaction_prefix_hash tx)) h
      rw [hl]
  · intro pre post amount key_offsets k_image pubkeys pmax1 hvin hspent hrules hpre
    have hne := check_tx_inputs_rules_offsets env db tx tvc hmax hrules amount key_offsets
      k_image (by rw [hvin]; simp)
    have hl := check_tx_inputs_loop_append env db tx (env.get_transaction_prefix_hash tx) pre
      (txin_v.txin_to_key amount key_offsets k_image :: post) tvc [] (pmax.map (fun _ => 0))
      (check_txin_table_emplace table (env.get_transaction_prefix_hash tx)) pubkeys pmax1 hpre
    rw [← hvin] at hl
    unfold check_tx_inputs
    dsimp only
    rw [hrules]
    dsimp only
    rw [hl]
    unfold check_tx_inputs_loop
    simp [hne, hspent]

/-- Witness for `check_tx_inputs_rejects_spent_key_image`: transaction 13 spends
key-image 5 and then key-image 77, which is in the spent set of the sample
store. -/
theorem check_tx_inputs_rejects_spent_key_image_witness :
    (check_tx_inputs sample_env sample_db [] (sample_tx 13 [5, 77]) fresh_tvc none).ok = false ∧
      (check_tx_inputs sample_env sample_db [] (sample_tx 13 [5, 77]) fresh_tvc
        none).tvc.m_double_spend = true :=
  (check_tx_inputs_rejects_spent_key_image sample_env sample_db [] (sample_tx 13 [5, 77])
    fresh_tvc none (by decide)).2 [txin_v.txin_to_key 0 [1] 5] [] 0 [1] 77 [[]] none
    (by decide) (by decide) (by decide) (by decide)

/-! ## C11: the cumulative difficulty committed with a main-chain block -/

/-- C11 (as stated) fails: the tip of the chain carries the cumulative
difficulty 2^64 - 1; block 102 is accepted with target 7 and is committed with
the cumulative difficulty 6, below the one of the block under it. -/
theorem handle_block_to_main_chain_cumulative_difficulty_wraps :
    (handle_block_to_main_chain sample_env sample_chain_top_difficulty
        (sample_block 102 101 2 [⟨100, txout_target_v.txout_to_key 9⟩] []) 102
        sample_bvc).outcome = call_outcome.returned true ∧
      (get_difficulty_for_next_block sample_env sample_chain_top_difficulty).1 = 7 ∧
      tip_cumulative_difficulty sample_chain_top_difficulty.m_db = 18446744073709551615 ∧
      tip_cumulative_difficulty
        (handle_block_to_main_chain sample_env sample_chain_top_difficulty
          (sample_block 102 101 2 [⟨100, txout_target_v.txout_to_key 9⟩] []) 102
          sample_bvc).st.m_db = 6 := by
  decide

/-- C11 (amended): when `handle_block_to_main_chain` accepts a block whose
context did not carry `m_verifivation_failed`, one record is appended to the
main chain; the target computed for the block is non-zero; the cumulative
difficulty committed with the block is the 64-bit sum of that target and the
cumulative difficulty of the previous tip (the target alone on an empty chain);
and it exceeds the previous tip's value whenever the sum fits in 64 bits. -/
theorem handle_block_to_main_chain_cumulative_difficulty (env : Env) (st : Blockchain)
    (bl : block) (id : crypto.hash) (bvc : block_verification_context)
    (hacc : (handle_block_to_main_chain env st bl id bvc).outcome = call_outcome.returned true)
    (hbvc : bvc.m_verifivation_failed = false) :
    ∃ r : db_block,
      (handle_block_to_main_chain env st bl id bvc).st.m_db.m_blocks = st.m_db.m_blocks ++ [r] ∧
      r.bl = bl ∧
      (get_difficulty_for_next_block env st).1 ≠ 0 ∧
      r.cumulative_difficulty =
        (if st.m_db.height ≠ 0 then
          add64 (get_difficulty_for_next_block env st).1 (tip_cumulative_difficulty st.m_db)
        else (get_difficulty_for_next_block env st).1) ∧
      tip_cumulative_difficulty (handle_block_to_main_chain env st bl id bvc).st.m_db =
        r.cumulative_difficulty ∧
      (tip_cumulative_difficulty st.m_db + (get_difficulty_for_next_block env st).1 <
          UINT64_RANGE →
        tip_cumulative_difficulty st.m_db < r.cumulative_difficulty) := by
  unfold handle_block_to_main_chain at hacc ⊢
  cases hchk : handle_block_to_main_chain_checks env st bl id bvc with
  | done st1 bvc1 => simp [hchk] at hacc
  | collected d st2 txs f s =>
    simp only [hchk] at hacc ⊢
    obtain ⟨h1, _, _, _, hd, hd0, _, _⟩ :=
      (handle_block_to_main_chain_checks_spec env st bl id bvc).2 _ _ _ _ _ hchk
    obtain ⟨r, hr1, hr2, hr3, _⟩ :=
      ((commit_block_spec env bl bvc d st2 txs f s).2.2 hacc).2 hbvc
    rw [h1] at hr1 hr3
    subst hd
    have htip : tip_cumulative_difficulty
        (commit_block env bl bvc (get_difficulty_for_next_block env st).1 st2 txs f s).st.m_db =
        r.cumulative_difficulty := by
      unfold tip_cumulative_difficulty BlockchainDB.height
        BlockchainDB.get_block_cumulative_difficulty
      rw [hr1]
      simp
    refine ⟨r, hr1, hr2, hd0, ?_, htip, ?_⟩
    · rw [hr3]
      unfold tip_cumulative_difficulty
      split <;> rfl
    · intro hlt
      rw [hr3]
      unfold tip_cumulative_difficulty at hlt ⊢
      split
      · rename_i hh
        simp only [hh, ne_eq, not_false_eq_true, if_true] at hlt
        unfold add64
        rw [Nat.mod_eq_of_lt (by omega)]
        omega
      · omega

/-- Witness for `handle_block_to_main_chain_cumulative_difficulty`: block 102 is
accepted on the sample chain, whose tip carries 8, with target 7, and is
committed with 15. -/
theorem handle_block_to_main_chain_cumulative_difficulty_witness :
    ∃ r : db_block,
      (handle_block_to_main_chain sample_env sample_chain
        (sample_block 102 101 2 [⟨100, txout_target_v.txout_to_key 9⟩] []) 102
        sample_bvc).st.m_db.m_blocks = sample_chain.m_db.m_blocks ++ [r] ∧
      r.cumulative_difficulty = 15 ∧
      tip_cumulative_difficulty sample_chain.m_db < r.cumulative_difficulty := by
  obtain ⟨r, h1, _, _, h4, _, h6⟩ :=
    handle_block_to_main_chain_cumulative_difficulty sample_env sample_chain
      (sample_block 102 101 2 [⟨100, txout_target_v.txout_to_key 9⟩] []) 102 sample_bvc
      (by decide) rfl
  exact ⟨r, h1, by rw [h4]; decide, h6 (by decide)⟩

/-! ## C13 and C14: the timestamp rules -/

theorem check_block_timestamp_vec_eq (env : Env) (timestamps : List Nat) (b : block) :
    (check_block_timestamp_vec env timestamps b).1 =
      (!back_dated env timestamps b && decide ((env.median timestamps).1 ≤ b.timestamp)) := by
  unfold check_block_timestamp_vec back_dated
  dsimp only
  generalize (env.median timestamps).2.getLastD 0 = top
  by_cases h : b.major_version ≥ env.get_fork_v fork_feature.FORK_CHECK_BLOCK_BACKDATE ∧
      add64 b.timestamp env.BLOCK_FUTURE_TIME_LIMIT_V3 < top
  · simp only [h, and_self, if_true, decide_True, Bool.not_true, Bool.false_and]
  · by_cases h2 : b.timestamp < (env.median timestamps).1
    · simp only [h, if_false, h2, if_true, decide_False, Bool.not_false, Bool.true_and,
        Nat.not_le.2 h2]
    · simp only [h, if_false, h2, decide_False, Bool.not_false, Bool.true_and,
        Nat.not_lt.1 h2, decide_True]

/-- C13: `check_block_timestamp (b, median_ts)` for a main-chain candidate, the
adjusted time plus the versioned limit fitting in 64 bits: it returns false when
`b.timestamp` is greater than the adjusted time plus the versioned future-time
limit; otherwise it returns true when the chain height is below the versioned
window; otherwise it returns true exactly when `b.timestamp` is not less than
the median of the timestamps of the last `window` main-chain blocks and the
back-date test on that window does not reject. -/
theorem check_block_timestamp_spec (env : Env) (db : BlockchainDB) (b : block)
    (hfit : env.get_adjusted_time + block_future_time_limit env db < UINT64_RANGE) :
    (b.timestamp > env.get_adjusted_time + block_future_time_limit env db →
        (check_block_timestamp env db b).1 = false) ∧
      (b.timestamp ≤ env.get_adjusted_time + block_future_time_limit env db →
        db.height < blockchain_timestamp_check_window env db →
        (check_block_timestamp env db b).1 = true) ∧
      (b.timestamp ≤ env.get_adjusted_time + block_future_time_limit env db →
        blockchain_timestamp_check_window env db ≤ db.height →
        ((check_block_timestamp env db b).1 = true ↔
          (env.median (last_timestamps db (blockchain_timestamp_check_window env db))).1 ≤
              b.timestamp ∧
            back_dated env (last_timestamps db (blockchain_timestamp_check_window env db)) b =
              false)) := by
  have hadd : add64 env.get_adjusted_time (block_future_time_limit env db) =
      env.get_adjusted_time + block_future_time_limit env db := by
    unfold add64
    exact Nat.mod_eq_of_lt hfit
  have hdef : check_block_timestamp env db b =
      (if b.timestamp > add64 env.get_adjusted_time (block_future_time_limit env db) then
        (false, some (add64 env.get_adjusted_time (block_future_time_limit env db)))
      else if db.height < blockchain_timestamp_check_window env db then (true, none)
      else
        ((check_block_timestamp_vec env
          ((List.range' (db.height - blockchain_timestamp_check_window env db)
            (db.height - (db.height - blockchain_timestamp_check_window env db))).map
              (fun i => db.get_block_timestamp i)) b).1,
         some (check_block_timestamp_vec env
          ((List.range' (db.height - blockchain_timestamp_check_window env db)
            (db.height - (db.height - blockchain_timestamp_check_window env db))).map
              (fun i => db.get_block_timestamp i)) b).2)) := rfl
  rw [hdef, hadd]
  refine ⟨?_, ?_, ?_⟩
  · intro h
    simp [h]
  · intro h hh
    simp [Nat.not_lt.2 h, hh]
  · intro h hh
    have hw : db.height - (db.height - blockchain_timestamp_check_window env db) =
        blockchain_timestamp_check_window env db := by omega
    simp only [gt_iff_lt, Nat.not_lt.2 h, if_false, Nat.not_lt.2 hh, hw]
    rw [check_block_timestamp_vec_eq]
    unfold last_timestamps
    simp only [Bool.and_eq_true, Bool.not_eq_true', decide_eq_true_eq]
    exact ⟨fun h => ⟨h.2, h.1⟩, fun h => ⟨h.2, h.1⟩⟩

/-- Witness for `check_block_timestamp_spec`: on the four-block store with a
window of three, the median of the last three timestamps is 1500000200 and the
last element of the sorted window is 1500003000; a block stamped 1500002500
passes both tests. -/
theorem check_block_timestamp_spec_witness :
    (check_block_timestamp sample_env_sorted sample_db_timestamps
      { sample_block 104 103 4 [] [] with timestamp := 1500002500 }).1 = true :=
  ((check_block_timestamp_spec sample_env_sorted sample_db_timestamps
    { sample_block 104 103 4 [] [] with timestamp := 1500002500 } (by decide)).2.2
      (by decide) (by decide)).2 (by decide)

/-- C14: the code at a failing input. Block 201 is an alternative block on the
main-chain block 102; its timestamp 1500001600 plus the limit 960 is not below
the timestamp 1500000100 of its parent, and it is not below the median. The
vector handed to the timestamp check holds the parent's timestamp first and
the one of block 101 last, and the back-date test reads its last element,
1500003000: the block is rejected as back-dated, both with a median that sorts
the vector and with one that leaves it as it is. -/
theorem check_block_timestamp_back_date_reference :
    sample_db_timestamps.get_block_timestamp (sample_db_timestamps.get_block_height 102) =
        1500000100 ∧
      ¬ (add64 1500001600 sample_env.BLOCK_FUTURE_TIME_LIMIT_V3 < 1500000100) ∧
      alt_chain_timestamps sample_env_sorted sample_chain_timestamps
        { sample_block 201 102 3 [⟨100, txout_target_v.txout_to_key 9⟩] [] with
          timestamp := 1500001600 } [] [] = some [1500000100, 1500003000] ∧
      (sample_env_sorted.median [1500000100, 1500003000]).1 ≤ 1500001600 ∧
      (sample_env.median [1500000100, 1500003000]).1 ≤ 1500001600 ∧
      back_dated sample_env_sorted [1500000100, 1500003000]
        { sample_block 201 102 3 [⟨100, txout_target_v.txout_to_key 9⟩] [] with
          timestamp := 1500001600 } = true ∧
      back_dated sample_env [1500000100, 1500003000]
        { sample_block 201 102 3 [⟨100, txout_target_v.txout_to_key 9⟩] [] with
          timestamp := 1500001600 } = true ∧
      handle_alternative_block_checks sample_env_sorted sample_chain_timestamps
        { sample_block 201 102 3 [⟨100, txout_target_v.txout_to_key 9⟩] [] with
          timestamp := 1500001600 } 201 sample_bvc =
        some (alt_block_checks.done false
          { sample_chain_timestamps with m_timestamps_and_difficulties_height := 0 }
          { sample_bvc with m_verifivation_failed := true }) ∧
      handle_alternative_block_checks sample_env sample_chain_timestamps
        { sample_block 201 102 3 [⟨100, txout_target_v.txout_to_key 9⟩] [] with
          timestamp := 1500001600 } 201 sample_bvc =
        some (alt_block_checks.done false
          { sample_chain_timestamps with m_timestamps_and_difficulties_height := 0 }
          { sample_bvc with m_verifivation_failed := true }) := by
  decide

/-! ## C15 and C16: the difficulty pins and the difficulty cache -/

/-- C15: the two window sizes being such that the range bounds fit in 64 bits:
on MAINNET, at a chain height in `[116520, 116520 + DIFFICULTY_BLOCKS_COUNT_V2]`
or in `[228750, 228750 + DIFFICULTY_BLOCKS_COUNT_V4]` (bounds included),
`get_difficulty_for_next_block` returns 480000000 and leaves the whole state,
the difficulty cache included, as it was; on every other network and at every
other height the value is the one of the versioned `next_difficulty_v*` on the
window that the call leaves in the cache. -/
theorem get_difficulty_for_next_block_pins (env : Env) (st : Blockchain)
    (h2 : MAINNET_HARDFORK_V3_HEIGHT + env.DIFFICULTY_BLOCKS_COUNT_V2 < UINT64_RANGE)
    (h4 : MAINNET_HARDFORK_V6_HEIGHT + env.DIFFICULTY_BLOCKS_COUNT_V4 < UINT64_RANGE) :
    (difficulty_pinned env st.m_db.height = true →
        get_difficulty_for_next_block env st = (480000000, st)) ∧
      (difficulty_pinned env st.m_db.height = false →
        (get_difficulty_for_next_block env st).1 =
          next_difficulty env st.m_db (get_difficulty_for_next_block env st).2.m_timestamps
            (get_difficulty_for_next_block env st).2.m_difficulties) := by
  have e2 : add64 MAINNET_HARDFORK_V3_HEIGHT env.DIFFICULTY_BLOCKS_COUNT_V2 =
      116520 + env.DIFFICULTY_BLOCKS_COUNT_V2 := by
    unfold add64
    exact Nat.mod_eq_of_lt h2
  have e4 : add64 MAINNET_HARDFORK_V6_HEIGHT env.DIFFICULTY_BLOCKS_COUNT_V4 =
      228750 + env.DIFFICULTY_BLOCKS_COUNT_V4 := by
    unfold add64
    exact Nat.mod_eq_of_lt h4
  unfold get_difficulty_for_next_block difficulty_pinned
  dsimp only
  rw [e2, e4]
  unfold MAINNET_HARDFORK_V3_HEIGHT MAINNET_HARDFORK_V6_HEIGHT
  by_cases hn : env.m_nettype = network_type.MAINNET
  · by_cases ha : 116520 ≤ st.m_db.height ∧ st.m_db.height ≤ 116520 + env.DIFFICULTY_BLOCKS_COUNT_V2
    · simp [hn, ha]
    · by_cases hb : 228750 ≤ st.m_db.height ∧
          st.m_db.height ≤ 228750 + env.DIFFICULTY_BLOCKS_COUNT_V4
      · simp [hn, ha, hb]
      · simp only [hn, ha, hb, ge_iff_le, true_and, if_false, decide_True, decide_False,
          Bool.or_false, Bool.and_false, Bool.false_eq_true, false_implies, true_implies]
        split <;> rfl
  · simp only [hn, false_and, if_false, decide_False, Bool.false_and, Bool.false_eq_true,
      false_implies, true_implies, true_and]
    split <;> rfl

/-- Witness for `get_difficulty_for_next_block_pins`: on MAINNET, with
`DIFFICULTY_BLOCKS_COUNT_V2 = 18`, a chain of height 116530 gets the pinned
difficulty, whatever its stored timestamps. -/
theorem get_difficulty_for_next_block_pins_witness :
    get_difficulty_for_next_block sample_env_mainnet sample_chain_v3_height =
      (480000000, sample_chain_v3_height) :=
  (get_difficulty_for_next_block_pins sample_env_mainnet sample_chain_v3_height
    (by decide) (by decide)).1
    (by
      have hh : sample_chain_v3_height.m_db.height = 116530 := List.length_replicate _ _
      rw [hh]
      rfl)

theorem get_difficulty_for_next_block_branches (env : Env) (st : Blockchain)
    (hp : difficulty_pinned env st.m_db.height = false)
    (h2 : MAINNET_HARDFORK_V3_HEIGHT + env.DIFFICULTY_BLOCKS_COUNT_V2 < UINT64_RANGE)
    (h4 : MAINNET_HARDFORK_V6_HEIGHT + env.DIFFICULTY_BLOCKS_COUNT_V4 < UINT64_RANGE) :
    get_difficulty_for_next_block env st =
      (if difficulty_cache_usable env st then
        (next_difficulty env st.m_db (difficulty_window_slide env st).1
            (difficulty_window_slide env st).2,
          { st with m_timestamps_and_difficulties_height := st.m_db.height,
                    m_timestamps := (difficulty_window_slide env st).1,
                    m_difficulties := (difficulty_window_slide env st).2 })
      else
        (next_difficulty env st.m_db (difficulty_window_reload env st.m_db).1
            (difficulty_window_reload env st.m_db).2,
          { st with m_timestamps_and_difficulties_height := st.m_db.height,
                    m_timestamps := (difficulty_window_reload env st.m_db).1,
                    m_difficulties := (difficulty_window_reload env st.m_db).2 })) := by
  have e2 : add64 MAINNET_HARDFORK_V3_HEIGHT env.DIFFICULTY_BLOCKS_COUNT_V2 =
      116520 + env.DIFFICULTY_BLOCKS_COUNT_V2 := by
    unfold add64
    exact Nat.mod_eq_of_lt h2
  have e4 : add64 MAINNET_HARDFORK_V6_HEIGHT env.DIFFICULTY_BLOCKS_COUNT_V4 =
      228750 + env.DIFFICULTY_BLOCKS_COUNT_V4 := by
    unfold add64
    exact Nat.mod_eq_of_lt h4
  unfold difficulty_pinned at hp
  unfold get_difficulty_for_next_block difficulty_cache_usable difficulty_window_slide
    difficulty_window_reload
  dsimp only
  rw [e2, e4]
  unfold MAINNET_HARDFORK_V3_HEIGHT MAINNET_HARDFORK_V6_HEIGHT
  by_cases hn : env.m_nettype = network_type.MAINNET
  · simp only [hn, decide_True, Bool.true_and, Bool.or_eq_false_iff, decide_eq_false_iff_not]
      at hp
    simp only [hn, true_and, ge_iff_le, hp.1, hp.2, if_false, decide_eq_true_eq]
  · simp only [hn, false_and, if_false, decide_eq_true_eq, ge_iff_le]

/-- The condition of line 839 never holds for a window size other than 0: the
vector whose size it reads is empty. -/
theorem difficulty_cache_usable_false (env : Env) (st : Blockchain)
    (hN : difficulty_blocks_count env st.m_db ≠ 0) : difficulty_cache_usable env st = false := by
  unfold difficulty_cache_usable
  simp only [List.length_nil, ge_iff_le, Nat.le_zero_eq, decide_eq_false_iff_not]
  intro h
  exact hN h.2.2.1

/-- C16: the code at a failing input, with a window of two blocks. A call at
height 3 leaves the timestamps and cumulative difficulties of the heights 1 and
2 in the cache; at height 4 the cache is filled as the comment of the method
requires, yet the condition of line 839 is false, and the call reads the window
of the heights 2 and 3 from the store. The two windows hold the same values
here; that the cached vectors are not read shows on a state whose cached
vectors hold zeros, where the result is still the window of the store. -/
theorem get_difficulty_for_next_block_cache_unused :
    (get_difficulty_for_next_block sample_env_short_window sample_chain_three).2 =
        { sample_chain_three with
          m_timestamps_and_difficulties_height := 3,
          m_timestamps := [1500003000, 1500000100],
          m_difficulties := [8, 15] } ∧
      difficulty_cache_filled sample_env_short_window sample_chain_cached = true ∧
      difficulty_cache_usable sample_env_short_window sample_chain_cached = false ∧
      get_difficulty_for_next_block sample_env_short_window sample_chain_cached =
        (7, { sample_chain_cached with
              m_timestamps_and_difficulties_height := 4,
              m_timestamps := (difficulty_window_reload sample_env_short_window
                sample_chain_cached.m_db).1,
              m_difficulties := (difficulty_window_reload sample_env_short_window
                sample_chain_cached.m_db).2 }) ∧
      difficulty_window_reload sample_env_short_window sample_chain_cached.m_db =
        ([1500000100, 1500000200], [15, 22]) ∧
      difficulty_window_slide sample_env_short_window sample_chain_cached =
        ([1500000100, 1500000200], [15, 22]) ∧
      difficulty_window_slide sample_env_short_window
        { sample_chain_cached with m_timestamps := [0, 0], m_difficulties := [0, 0] } =
        ([0, 1500000200], [0, 22]) ∧
      (get_difficulty_for_next_block sample_env_short_window
        { sample_chain_cached with m_timestamps := [0, 0], m_difficulties := [0, 0] }).2.m_timestamps =
        [1500000100, 1500000200] := by
  decide

/-! ## C17: the difficulty window of an alternative block -/

theorem get_next_difficulty_for_alternative_chain_eq (env : Env) (db : BlockchainDB)
    (alt_chain : List alt_entry) (bei : block_extended_info) :
    get_next_difficulty_for_alternative_chain env db alt_chain bei =
      (if alt_chain.length < difficulty_blocks_count env db then
        if ¬ (alt_chain.length +
            ((List.range'
              (if alt_attach_height alt_chain bei -
                  min (difficulty_blocks_count env db -
                    min (difficulty_blocks_count env db) alt_chain.length)
                    (alt_attach_height alt_chain bei) = 0 then
                alt_attach_height alt_chain bei -
                  min (difficulty_blocks_count env db -
                    min (difficulty_blocks_count env db) alt_chain.length)
                    (alt_attach_height alt_chain bei) + 1
              else
                alt_attach_height alt_chain bei -
                  min (difficulty_blocks_count env db -
                    min (difficulty_blocks_count env db) alt_chain.length)
                    (alt_attach_height alt_chain bei))
              (alt_attach_height alt_chain bei -
                (if alt_attach_height alt_chain bei -
                    min (difficulty_blocks_count env db -
                      min (difficulty_blocks_count env db) alt_chain.length)
                      (alt_attach_height alt_chain bei) = 0 then
                  alt_attach_height alt_chain bei -
                    min (difficulty_blocks_count env db -
                      min (difficulty_blocks_count env db) alt_chain.length)
                      (alt_attach_height alt_chain bei) + 1
                else
                  alt_attach_height alt_chain bei -
                    min (difficulty_blocks_count env db -
                      min (difficulty_blocks_count env db) alt_chain.length)
                      (alt_attach_height alt_chain bei)))).map
                (fun i => db.get_block_timestamp i)).length ≤
            difficulty_blocks_count env db) then 0
        else
          next_difficulty env db
            ((List.range'
              (if alt_attach_height alt_chain bei -
                  min (difficulty_blocks_count env db -
                    min (difficulty_blocks_count env db) alt_chain.length)
                    (alt_attach_height alt_chain bei) = 0 then
                alt_attach_height alt_chain bei -
                  min (difficulty_blocks_count env db -
                    min (difficulty_blocks_count env db) alt_chain.length)
                    (alt_attach_height alt_chain bei) + 1
              else
                alt_attach_height alt_chain bei -
                  min (difficulty_blocks_count env db -
                    min (difficulty_blocks_count env db) alt_chain.length)
                    (alt_attach_height alt_chain bei))
              (alt_attach_height alt_chain bei -
                (if alt_attach_height alt_chain bei -
                    min (difficulty_blocks_count env db -
                      min (difficulty_blocks_count env db) alt_chain.length)
                      (alt_attach_height alt_chain bei) = 0 then
                  alt_attach_height alt_chain bei -
                    min (difficulty_blocks_count env db -
                      min (difficulty_blocks_count env db) alt_chain.length)
                      (alt_attach_height alt_chain bei) + 1
                else
                  alt_attach_height alt_chain bei -
                    min (difficulty_blocks_count env db -
                      min (difficulty_blocks_count env db) alt_chain.length)
                      (alt_attach_height alt_chain bei)))).map
                (fun i => db.get_block_timestamp i) ++
              alt_chain.map (fun e => e.2.bl.timestamp))
            ((List.range'
              (if alt_attach_height alt_chain bei -
                  min (difficulty_blocks_count env db -
                    min (difficulty_blocks_count env db) alt_chain.length)
                    (alt_attach_height alt_chain bei) = 0 then
                alt_attach_height alt_chain bei -
                  min (difficulty_blocks_count env db -
                    min (difficulty_blocks_count env db) alt_chain.length)
                    (alt_attach_height alt_chain bei) + 1
              else
                alt_attach_height alt_chain bei -
                  min (difficulty_blocks_count env db -
                    min (difficulty_blocks_count env db) alt_chain.length)
                    (alt_attach_height alt_chain bei))
              (alt_attach_height alt_chain bei -
                (if alt_attach_height alt_chain bei -
                    min (difficulty_blocks_count env db -
                      min (difficulty_blocks_count env db) alt_chain.length)
                      (alt_attach_height alt_chain bei) = 0 then
                  alt_attach_height alt_chain bei -
                    min (difficulty_blocks_count env db -
                      min (difficulty_blocks_count env db) alt_chain.length)
                      (alt_attach_height alt_chain bei) + 1
                else
                  alt_attach_height alt_chain bei -
                    min (difficulty_blocks_count env db -
                      min (difficulty_blocks_count env db) alt_chain.length)
                      (alt_attach_height alt_chain bei)))).map
                (fun i => db.get_block_cumulative_difficulty i) ++
              alt_chain.map (fun e => e.2.cumulative_difficulty))
      else
        next_difficulty env db
          ((alt_chain.drop (alt_chain.length - difficulty_blocks_count env db)).map
            (fun e => e.2.bl.timestamp))
          ((alt_chain.drop (alt_chain.length - difficulty_blocks_count env db)).map
            (fun e => e.2.cumulative_difficulty))) := rfl

/-- C17: for a window size `N` other than 0, the window that
`get_next_difficulty_for_alternative_chain` hands to the versioned
`next_difficulty_v*`. When the alternative chain holds `a < N` blocks and
attaches at the main-chain height `s`, it is the timestamps and cumulative
difficulties of the main-chain heights `[max (1, s - min (N - a, s)), s)` in
ascending order followed by those of the `a` alternative blocks in chain order;
its length is at most `N` and height 0 is not among the heights read. When
`a ≥ N` it is the last `N` alternative blocks in chain order. -/
theorem get_next_difficulty_for_alternative_chain_window (env : Env) (db : BlockchainDB)
    (alt_chain : List alt_entry) (bei : block_extended_info)
    (hN : 0 < difficulty_blocks_count env db) :
    (alt_chain.length < difficulty_blocks_count env db →
        get_next_difficulty_for_alternative_chain env db alt_chain bei =
          next_difficulty env db
            ((alt_window_main_heights (difficulty_blocks_count env db) alt_chain.length
                (alt_attach_height alt_chain bei)).map (fun i => db.get_block_timestamp i) ++
              alt_chain.map (fun e => e.2.bl.timestamp))
            ((alt_window_main_heights (difficulty_blocks_count env db) alt_chain.length
                (alt_attach_height alt_chain bei)).map
                  (fun i => db.get_block_cumulative_difficulty i) ++
              alt_chain.map (fun e => e.2.cumulative_difficulty)) ∧
        (alt_window_main_heights (difficulty_blocks_count env db) alt_chain.length
            (alt_attach_height alt_chain bei)).length + alt_chain.length ≤
          difficulty_blocks_count env db ∧
        (∀ i ∈ alt_window_main_heights (difficulty_blocks_count env db) alt_chain.length
            (alt_attach_height alt_chain bei),
          1 ≤ i ∧ i < alt_attach_height alt_chain bei)) ∧
      (difficulty_blocks_count env db ≤ alt_chain.length →
        get_next_difficulty_for_alternative_chain env db alt_chain bei =
          next_difficulty env db
            ((alt_chain.drop (alt_chain.length - difficulty_blocks_count env db)).map
              (fun e => e.2.bl.timestamp))
            ((alt_chain.drop (alt_chain.length - difficulty_blocks_count env db)).map
              (fun e => e.2.cumulative_difficulty)) ∧
        (alt_chain.drop (alt_chain.length - difficulty_blocks_count env db)).length =
          difficulty_blocks_count env db) := by
  constructor
  · intro ha
    have hlo : (if alt_attach_height alt_chain bei -
          min (difficulty_blocks_count env db - min (difficulty_blocks_count env db)
            alt_chain.length) (alt_attach_height alt_chain bei) = 0 then
        alt_attach_height alt_chain bei -
          min (difficulty_blocks_count env db - min (difficulty_blocks_count env db)
            alt_chain.length) (alt_attach_height alt_chain bei) + 1
        else alt_attach_height alt_chain bei -
          min (difficulty_blocks_count env db - min (difficulty_blocks_count env db)
            alt_chain.length) (alt_attach_height alt_chain bei)) =
        max 1 (alt_attach_height alt_chain bei -
          min (difficulty_blocks_count env db - alt_chain.length)
            (alt_attach_height alt_chain bei)) := by
      have hm : min (difficulty_blocks_count env db) alt_chain.length = alt_chain.length :=
        Nat.min_eq_right (Nat.le_of_lt ha)
      rw [hm]
      split <;> omega
    have hlen : (alt_window_main_heights (difficulty_blocks_count env db) alt_chain.length
        (alt_attach_height alt_chain bei)).length + alt_chain.length ≤
        difficulty_blocks_count env db := by
      unfold alt_window_main_heights
      rw [List.length_range']
      omega
    refine ⟨?_, hlen, ?_⟩
    · rw [get_next_difficulty_for_alternative_chain_eq, hlo, if_pos ha]
      have hlen2 : alt_chain.length +
          (List.map (fun i => db.get_block_timestamp i)
            (List.range' (max 1 (alt_attach_height alt_chain bei -
                min (difficulty_blocks_count env db - alt_chain.length)
                  (alt_attach_height alt_chain bei)))
              (alt_attach_height alt_chain bei -
                max 1 (alt_attach_height alt_chain bei -
                  min (difficulty_blocks_count env db - alt_chain.length)
                    (alt_attach_height alt_chain bei))))).length ≤
          difficulty_blocks_count env db := by
        unfold alt_window_main_heights at hlen
        rw [List.length_map]
        omega
      rw [if_neg (not_not.2 hlen2)]
      rfl
    · intro i hi
      unfold alt_window_main_heights at hi
      rw [List.mem_range'_1] at hi
      omega
  · intro ha
    refine ⟨?_, ?_⟩
    · rw [get_next_difficulty_for_alternative_chain_eq, if_neg (Nat.not_lt.2 ha)]
    · rw [List.length_drop]
      omega

/-- Witness for `get_next_difficulty_for_alternative_chain_window`: with a
window of two blocks, an alternative chain of one block attached at height 3
takes the main-chain height 2 and then its own block. -/
theorem get_next_difficulty_for_alternative_chain_window_witness :
    get_next_difficulty_for_alternative_chain sample_env_short_window sample_db_timestamps
        [sample_alt_entry] sample_alt_bei =
      next_difficulty sample_env_short_window sample_db_timestamps
        [1500000100, 1500001600] [15, 22] ∧
      alt_window_main_heights 2 1 3 = [2] :=
  ⟨((get_next_difficulty_for_alternative_chain_window sample_env_short_window
      sample_db_timestamps [sample_alt_entry] sample_alt_bei (by decide)).1 (by decide)).1,
    by decide⟩

/-! ## C18: what the alternative index records -/

theorem prevalidate_miner_transaction_height (env : Env) (b : block) (height : Nat)
    (h : prevalidate_miner_transaction env b height = true) :
    b.miner_tx.vin = [txin_v.txin_gen height] := by
  unfold prevalidate_miner_transaction at h
  split at h
  · cases h
  · rename_i hlen
    split at h
    · rename_i hh hhead
      split at h
      · cases h
      · split at h
        · cases h
        · rename_i hne
          have hlen1 : b.miner_tx.vin.length = 1 := not_not.1 hlen
          have heq : hh = height := not_not.1 hne
          cases hv : b.miner_tx.vin with
          | nil => rw [hv] at hlen1; cases hlen1
          | cons x rest =>
            rw [hv] at hlen1 hhead
            simp only [List.length_cons, Nat.add_eq_right, List.length_eq_zero] at hlen1
            simp only [List.head?_cons, Option.some.injEq] at hhead
            rw [hlen1, hhead, heq]
    · cases h

theorem alt_block_verify_passed (env : Env) (st : Blockchain) (b : block) (id : crypto.hash)
    (bvc : block_verification_context) (alt_chain : List alt_entry) (timestamps : List Nat)
    (a : alt_block_accepted)
    (h : alt_block_verify env st b id bvc alt_chain timestamps = alt_block_checks.accepted a) :
    (check_block_timestamp_vec env timestamps b).1 = true ∧
      (env.check_block a.bei.height id).1 = true ∧
      env.check_hash (env.get_block_longhash b) a.current_diff = true ∧
      (find_alt st.m_alternative_chains id).isSome = false := by
  unfold alt_block_verify at h
  split at h
  · cases h
  · split at h
    · cases h
    · split at h
      · cases h
      · split at h
        · cases h
        · split at h
          · cases h
          · rename_i h1 h2 h3 h4 h5
            have hins : (find_alt st.m_alternative_chains id).isSome = false := by
              unfold alt_block_insert at h
              split at h
              · cases h
              · rename_i hf
                simpa using hf
            have ha := alt_block_insert_accepted _ _ _ _ _ _ _ _ h
            subst ha
            refine ⟨?_, ?_, ?_, hins⟩
            · simpa using h1
            · simpa using h2
            · simpa using h4

theorem alt_block_verify_done (env : Env) (st : Blockchain) (b : block) (id : crypto.hash)
    (bvc : block_verification_context) (alt_chain : List alt_entry) (timestamps : List Nat)
    (r : Bool) (st1 : Blockchain) (bvc1 : block_verification_context)
    (h : alt_block_verify env st b id bvc alt_chain timestamps =
      alt_block_checks.done r st1 bvc1) : st1 = st := by
  unfold alt_block_verify at h
  split at h
  · simp only [alt_block_checks.done.injEq] at h
    exact h.2.1.symm
  · split at h
    · simp only [alt_block_checks.done.injEq] at h
      exact h.2.1.symm
    · split at h
      · simp only [alt_block_checks.done.injEq] at h
        exact h.2.1.symm
      · split at h
        · simp only [alt_block_checks.done.injEq] at h
          exact h.2.1.symm
        · split at h
          · simp only [alt_block_checks.done.injEq] at h
            exact h.2.1.symm
          · unfold alt_block_insert at h
            split at h
            · simp only [alt_block_checks.done.injEq] at h
              exact h.2.1.symm
            · cases h

theorem handle_alternative_block_checks_done (env : Env) (st : Blockchain) (b : block)
    (id : crypto.hash) (bvc : block_verification_context) (r : Bool) (st1 : Blockchain)
    (bvc1 : block_verification_context)
    (h : handle_alternative_block_checks env st b id bvc =
      some (alt_block_checks.done r st1 bvc1)) :
    st1 = { st with m_timestamps_and_difficulties_height := 0 } := by
  unfold handle_alternative_block_checks at h
  dsimp only at h
  split at h
  · simp only [Option.some.injEq, alt_block_checks.done.injEq] at h
    exact h.2.1.symm
  · split at h
    · split at h
      · cases h
      · split at h
        · simp only [Option.some.injEq, alt_block_checks.done.injEq] at h
          exact h.2.1.symm
        · simp only [Option.some.injEq] at h
          exact alt_block_verify_done _ _ _ _ _ _ _ _ _ _ h
    · simp only [Option.some.injEq, alt_block_checks.done.injEq] at h
      exact h.2.1.symm

theorem handle_alternative_block_checks_accepted (env : Env) (st : Blockchain) (b : block)
    (id : crypto.hash) (bvc : block_verification_context) (a : alt_block_accepted)
    (h : handle_alternative_block_checks env st b id bvc = some (alt_block_checks.accepted a)) :
    ∃ (chain : List alt_entry) (timestamps0 timestamps : List Nat),
      build_alt_chain st.m_alternative_chains st.m_alternative_chains.length
          (find_alt st.m_alternative_chains b.prev_id) [] [] = some (chain, timestamps0) ∧
        alt_chain_timestamps env { st with m_timestamps_and_difficulties_height := 0 } b chain
          timestamps0 = some timestamps ∧
        alt_block_verify env { st with m_timestamps_and_difficulties_height := 0 } b id bvc chain
          timestamps = alt_block_checks.accepted a := by
  unfold handle_alternative_block_checks at h
  dsimp only at h
  split at h
  · cases h
  · split at h
    · split at h
      · cases h
      · rename_i alt_chain timestamps0 hwalk
        split at h
        · cases h
        · rename_i timestamps hts
          simp only [Option.some.injEq] at h
          exact ⟨alt_chain, timestamps0, timestamps, hwalk, hts, h⟩
    · cases h

/-- C18: when `handle_alternative_block` inserts the block into the alternative
index (its checks end with the insertion of line 1671), the entry is appended
under the block's hash, which was not in the index; its height is the parent's
height plus one (in 64-bit arithmetic), the parent being looked up in the
alternative index and else on the main chain; the coinbase has the single input
`txin_gen` of that height; its cumulative difficulty is the parent's recorded
value plus the target computed for the block (in `difficulty_type` arithmetic);
and the timestamp check, the checkpoint check, the proof-of-work check against
that target and the coinbase pre-validation have all passed. When the checks
end otherwise the alternative index is the one the call started with. -/
theorem handle_alternative_block_entry (env : Env) (st : Blockchain) (b : block)
    (id : crypto.hash) (bvc : block_verification_context) :
    (∀ a, handle_alternative_block_checks env st b id bvc = some (alt_block_checks.accepted a) →
        a.st.m_alternative_chains = st.m_alternative_chains ++ [(id, a.bei)] ∧
        (find_alt st.m_alternative_chains id).isSome = false ∧
        a.bei.bl = b ∧
        a.bei.height = add64 (alt_parent_height st b) 1 ∧
        b.miner_tx.vin = [txin_v.txin_gen a.bei.height] ∧
        a.bei.cumulative_difficulty =
          add64 (alt_parent_cumulative_difficulty st b) a.current_diff ∧
        (∃ (chain : List alt_entry) (timestamps0 timestamps : List Nat),
          build_alt_chain st.m_alternative_chains st.m_alternative_chains.length
              (find_alt st.m_alternative_chains b.prev_id) [] [] = some (chain, timestamps0) ∧
            alt_chain_timestamps env { st with m_timestamps_and_difficulties_height := 0 } b
              chain timestamps0 = some timestamps ∧
            a.current_diff =
              get_next_difficulty_for_alternative_chain env st.m_db chain
                { a.bei with cumulative_difficulty := 0 } ∧
            (check_block_timestamp_vec env timestamps b).1 = true) ∧
        (env.check_block a.bei.height id).1 = true ∧
        env.check_hash (env.get_block_longhash b) a.current_diff = true ∧
        prevalidate_miner_transaction env b a.bei.height = true) ∧
      (∀ r st1 bvc1,
        handle_alternative_block_checks env st b id bvc =
          some (alt_block_checks.done r st1 bvc1) →
        st1.m_alternative_chains = st.m_alternative_chains ∧
          ∀ sw : switch_fn, handle_alternative_block env sw st b id bvc =
            some { outcome := call_outcome.returned r, st := st1, bvc := bvc1 }) := by
  constructor
  · intro a h
    obtain ⟨h1, h2, h3, _, h5, _, _, _, _⟩ := alt_block_accepted_spec env st b id bvc a h
    obtain ⟨chain, ts0, ts, hwalk, hts, hver⟩ :=
      handle_alternative_block_checks_accepted env st b id bvc a h
    obtain ⟨p1, p2, p3, p4⟩ := alt_block_verify_passed _ _ _ _ _ _ _ _ hver
    obtain ⟨_, _, _, _, _, _, _, _, q9, _, q11⟩ := alt_block_verify_accepted _ _ _ _ _ _ _ _ hver
    refine ⟨by rw [h1], p4, h2, h3, prevalidate_miner_transaction_height env b _ q9, h5,
      ⟨chain, ts0, ts, hwalk, hts, q11, p1⟩, p2, p3, q9⟩
  · intro r st1 bvc1 h
    have hst := handle_alternative_block_checks_done env st b id bvc r st1 bvc1 h
    refine ⟨by rw [hst], ?_⟩
    intro sw
    unfold handle_alternative_block
    rw [h]

/-- Witness for `handle_alternative_block_entry`: the sample alternative block
201 on the genesis block (height 0, cumulative difficulty 1) is recorded with
height 1 and cumulative difficulty 1 + 7, and its coinbase input is
`txin_gen 1`. -/
theorem handle_alternative_block_entry_witness :
    (1 : Nat) = add64 (alt_parent_height sample_chain
        (sample_block 201 100 1 [⟨100, txout_target_v.txout_to_key 9⟩] [])) 1 ∧
      (sample_block 201 100 1 [⟨100, txout_target_v.txout_to_key 9⟩] []).miner_tx.vin =
        [txin_v.txin_gen 1] ∧
      (8 : Nat) = add64 (alt_parent_cumulative_difficulty sample_chain
        (sample_block 201 100 1 [⟨100, txout_target_v.txout_to_key 9⟩] [])) 7 :=
  ⟨((handle_alternative_block_entry sample_env sample_chain
      (sample_block 201 100 1 [⟨100, txout_target_v.txout_to_key 9⟩] []) 201 sample_bvc).1 _
      sample_alt_block_accepted).2.2.2.1,
    ((handle_alternative_block_entry sample_env sample_chain
      (sample_block 201 100 1 [⟨100, txout_target_v.txout_to_key 9⟩] []) 201 sample_bvc).1 _
      sample_alt_block_accepted).2.2.2.2.1,
    ((handle_alternative_block_entry sample_env sample_chain
      (sample_block 201 100 1 [⟨100, txout_target_v.txout_to_key 9⟩] []) 201 sample_bvc).1 _
      sample_alt_block_accepted).2.2.2.2.2.1⟩

/-! ## C19 and C20: the ring-size and extra-field rules of `check_tx_inputs` -/

theorem check_tx_inputs_rules_eq (env : Env) (db : BlockchainDB) (tx : transaction)
    (tvc : tx_verification_context) :
    check_tx_inputs_rules env db tx tvc =
      (match check_ring_sizes env db tx tvc with
      | some t => some t
      | none =>
        if env.check_hard_fork_feature db fork_feature.FORK_STRICT_TX_SEMANTICS &&
            !(check_tx_extra env db tx && inputs_sorted tx.vin none) then
          some { tvc with m_verifivation_failed := true }
        else if tx.version > env.MAX_TRANSACTION_VERSION then
          some { tvc with m_verifivation_failed := true }
        else if tx.version <
            (if env.check_hard_fork_feature db fork_feature.FORK_NEED_V3_TXES then 3
             else env.MIN_TRANSACTION_VERSION) then
          some { tvc with m_verifivation_failed := true }
        else none) := by
  unfold check_tx_inputs_rules check_ring_sizes check_tx_extra min_mixin
  cases hs : ring_size_scan env tx.vin (UINT64_RANGE - 1) 0 with
  | none => rfl
  | some p =>
    obtain ⟨lo, hi⟩ := p
    dsimp only
    by_cases h1 : lo < (if env.check_hard_fork_feature db fork_feature.FORK_RINGSIZE_INC_REQ = true
        then env.MIN_MIXIN_V2 else env.MIN_MIXIN_V1)
    · rw [if_pos h1, if_pos h1]
    · rw [if_neg h1, if_neg h1]
      by_cases h2 : (env.check_hard_fork_feature db fork_feature.FORK_STRICT_TX_SEMANTICS &&
          decide (hi ≠ lo)) = true
      · rw [if_pos h2, if_pos h2]
      · rw [if_neg h2, if_neg h2]
        dsimp only
        cases hst : env.check_hard_fork_feature db fork_feature.FORK_STRICT_TX_SEMANTICS
        · simp
        · cases hx : tx_extra_scan
              (env.check_hard_fork_feature db fork_feature.FORK_UNIFORM_IDS_REQ)
              tx.vout.length (env.parse_tx_extra tx.extra) false false false with
          | none => simp
          | some q =>
            obtain ⟨a, b, c⟩ := q
            dsimp only
            cases env.check_hard_fork_feature db fork_feature.FORK_UNIFORM_IDS_REQ <;>
              cases a <;> cases c <;> cases inputs_sorted tx.vin none <;> simp

theorem sub64_one (r : Nat) (h : r < UINT64_RANGE) :
    sub64 r 1 = if r = 0 then UINT64_RANGE - 1 else r - 1 := by
  unfold sub64 UINT64_RANGE at *
  split <;> omega

theorem ring_size_scan_none (env : Env) (l : List txin_v) (lo hi : Nat)
    (h : ring_size_scan env l lo hi = none) :
    ∃ r ∈ ring_sizes l, env.MAX_MIXIN < sub64 r 1 := by
  induction l generalizing lo hi with
  | nil => simp [ring_size_scan] at h
  | cons txin rest ih =>
    cases txin with
    | txin_gen hh =>
      simp only [ring_size_scan] at h
      exact ih _ _ h
    | txin_to_script =>
      simp only [ring_size_scan] at h
      exact ih _ _ h
    | txin_to_scripthash =>
      simp only [ring_size_scan] at h
      exact ih _ _ h
    | txin_to_key a offs k =>
      simp only [ring_size_scan] at h
      split at h
      · rename_i hgt
        exact ⟨offs.length, by simp [ring_sizes], hgt⟩
      · obtain ⟨r, hr, hlt⟩ := ih _ _ h
        exact ⟨r, by simp [ring_sizes, hr], hlt⟩

theorem ring_size_scan_some (env : Env) (l : List txin_v) (lo hi lo1 hi1 : Nat)
    (h : ring_size_scan env l lo hi = some (lo1, hi1)) :
    (∀ r ∈ ring_sizes l, lo1 ≤ sub64 r 1 ∧ sub64 r 1 ≤ hi1 ∧ sub64 r 1 ≤ env.MAX_MIXIN) ∧
      lo1 ≤ lo ∧ hi ≤ hi1 ∧
      (lo1 = lo ∨ ∃ r ∈ ring_sizes l, lo1 = sub64 r 1) ∧
      (hi1 = hi ∨ ∃ r ∈ ring_sizes l, hi1 = sub64 r 1) := by
  induction l generalizing lo hi with
  | nil =>
    simp only [ring_size_scan, Option.some.injEq, Prod.mk.injEq] at h
    obtain ⟨h1, h2⟩ := h
    subst h1 h2
    simp [ring_sizes]
  | cons txin rest ih =>
    cases txin with
    | txin_gen hh =>
      simp only [ring_size_scan] at h
      exact ih _ _ h
    | txin_to_script =>
      simp only [ring_size_scan] at h
      exact ih _ _ h
    | txin_to_scripthash =>
      simp only [ring_size_scan] at h
      exact ih _ _ h
    | txin_to_key a offs k =>
      simp only [ring_size_scan] at h
      split at h
      · cases h
      · rename_i hle
        obtain ⟨i1, i2, i3, i4, i5⟩ := ih _ _ h
        refine ⟨?_, ?_, ?_, ?_, ?_⟩
        · intro r hr
          simp only [ring_sizes, List.mem_cons] at hr
          rcases hr with hr | hr
          · subst hr
            refine ⟨?_, ?_, by omega⟩
            · split at i2 <;> omega
            · split at i3 <;> omega
          · exact i1 r hr
        · split at i2 <;> omega
        · split at i3 <;> omega
        · rcases i4 with i4 | ⟨r, hr, i4⟩
          · by_cases hc : sub64 offs.length 1 < lo
            · right
              exact ⟨offs.length, by simp [ring_sizes], by rw [i4, if_pos hc]⟩
            · left
              rw [i4, if_neg hc]
          · right
            exact ⟨r, by simp [ring_sizes, hr], i4⟩
        · rcases i5 with i5 | ⟨r, hr, i5⟩
          · by_cases hc : sub64 offs.length 1 > hi
            · right
              exact ⟨offs.length, by simp [ring_sizes], by rw [i5, if_pos hc]⟩
            · left
              rw [i5, if_neg hc]
          · right
            exact ⟨r, by simp [ring_sizes, hr], i5⟩

theorem check_ring_sizes_too_high (env : Env) (db : BlockchainDB) (tx : transaction)
    (tvc : tx_verification_context) (hM : env.MAX_MIXIN + 1 < UINT64_RANGE)
    (hsz : ∀ r ∈ ring_sizes tx.vin, r < UINT64_RANGE)
    (h : ∃ r ∈ ring_sizes tx.vin, r = 0 ∨ env.MAX_MIXIN + 1 < r) :
    check_ring_sizes env db tx tvc = some { tvc with m_verifivation_failed := true } := by
  unfold check_ring_sizes
  cases hs : ring_size_scan env tx.vin (UINT64_RANGE - 1) 0 with
  | none => rfl
  | some p =>
    obtain ⟨lo, hi⟩ := p
    obtain ⟨r, hr, hbad⟩ := h
    have h1 := ((ring_size_scan_some env _ _ _ _ _ hs).1 r hr).2.2
    rw [sub64_one r (hsz r hr)] at h1
    exfalso
    split at h1 <;> omega

theorem check_ring_sizes_in_range (env : Env) (tx : transaction)
    (hM : env.MAX_MIXIN + 1 < UINT64_RANGE)
    (hsz : ∀ r ∈ ring_sizes tx.vin, r < UINT64_RANGE)
    (h : ∀ r ∈ ring_sizes tx.vin, 1 ≤ r ∧ r ≤ env.MAX_MIXIN + 1) :
    ∃ lo hi, ring_size_scan env tx.vin (UINT64_RANGE - 1) 0 = some (lo, hi) ∧
      (∀ r ∈ ring_sizes tx.vin, lo + 1 ≤ r ∧ r ≤ hi + 1) ∧
      (ring_sizes tx.vin = [] → lo = UINT64_RANGE - 1 ∧ hi = 0) ∧
      (ring_sizes tx.vin ≠ [] →
        (∃ r ∈ ring_sizes tx.vin, r = lo + 1) ∧ (∃ r ∈ ring_sizes tx.vin, r = hi + 1)) := by
  have hsub : ∀ r ∈ ring_sizes tx.vin, sub64 r 1 = r - 1 := by
    intro r hr
    rw [sub64_one r (hsz r hr), if_neg (by have := (h r hr).1; omega)]
  cases hs : ring_size_scan env tx.vin (UINT64_RANGE - 1) 0 with
  | none =>
    obtain ⟨r, hr, hlt⟩ := ring_size_scan_none env _ _ _ hs
    rw [hsub r hr] at hlt
    have := (h r hr).2
    omega
  | some p =>
    obtain ⟨lo, hi⟩ := p
    obtain ⟨i1, i2, i3, i4, i5⟩ := ring_size_scan_some env _ _ _ _ _ hs
    refine ⟨lo, hi, rfl, ?_, ?_, ?_⟩
    · intro r hr
      have := i1 r hr
      rw [hsub r hr] at this
      have := (h r hr).1
      omega
    · intro hnil
      rw [hnil] at i4 i5
      simp only [List.not_mem_nil, false_and, exists_false, or_false] at i4 i5
      exact ⟨i4, i5⟩
    · intro hne
      obtain ⟨r0, hr0⟩ := List.exists_mem_of_ne_nil _ hne
      have hb0 := i1 r0 hr0
      rw [hsub r0 hr0] at hb0
      have h0 := h r0 hr0
      constructor
      · rcases i4 with i4 | ⟨r, hr, i4⟩
        · omega
        · rw [hsub r hr] at i4
          have := (h r hr).1
          exact ⟨r, hr, by omega⟩
      · rcases i5 with i5 | ⟨r, hr, i5⟩
        · exact ⟨r0, hr0, by omega⟩
        · rw [hsub r hr] at i5
          have := (h r hr).1
          exact ⟨r, hr, by omega⟩

theorem check_ring_sizes_too_low (env : Env) (db : BlockchainDB) (tx : transaction)
    (tvc : tx_verification_context) (hM : env.MAX_MIXIN + 1 < UINT64_RANGE)
    (hsz : ∀ r ∈ ring_sizes tx.vin, r < UINT64_RANGE)
    (h : ∀ r ∈ ring_sizes tx.vin, 1 ≤ r ∧ r ≤ env.MAX_MIXIN + 1)
    (hlow : ∃ r ∈ ring_sizes tx.vin, r < min_mixin env db + 1) :
    check_ring_sizes env db tx tvc = some { tvc with m_low_mixin := true } := by
  obtain ⟨lo, hi, hs, hb, _, _⟩ := check_ring_sizes_in_range env tx hM hsz h
  obtain ⟨r, hr, hlt⟩ := hlow
  have := (hb r hr).1
  unfold check_ring_sizes
  rw [hs]
  dsimp only
  rw [if_pos (by omega)]

theorem check_ring_sizes_bounds (env : Env) (db : BlockchainDB) (tx : transaction)
    (tvc : tx_verification_context) (hM : env.MAX_MIXIN + 1 < UINT64_RANGE)
    (hm : min_mixin env db < UINT64_RANGE)
    (hsz : ∀ r ∈ ring_sizes tx.vin, r < UINT64_RANGE)
    (h : ∀ r ∈ ring_sizes tx.vin, min_mixin env db + 1 ≤ r ∧ r ≤ env.MAX_MIXIN + 1) :
    ((env.check_hard_fork_feature db fork_feature.FORK_STRICT_TX_SEMANTICS = true ∧
        (ring_sizes tx.vin = [] ∨
          ∃ r ∈ ring_sizes tx.vin, ∃ r1 ∈ ring_sizes tx.vin, r ≠ r1)) →
        check_ring_sizes env db tx tvc = some { tvc with m_verifivation_failed := true }) ∧
      ((env.check_hard_fork_feature db fork_feature.FORK_STRICT_TX_SEMANTICS = true →
          ring_sizes tx.vin ≠ [] ∧
            ∀ r ∈ ring_sizes tx.vin, ∀ r1 ∈ ring_sizes tx.vin, r = r1) →
        check_ring_sizes env db tx tvc = none) := by
  have h1 : ∀ r ∈ ring_sizes tx.vin, 1 ≤ r ∧ r ≤ env.MAX_MIXIN + 1 := by
    intro r hr
    have := h r hr
    omega
  obtain ⟨lo, hi, hs, hb, hnil, hne⟩ := check_ring_sizes_in_range env tx hM hsz h1
  have hlo : ¬ lo < min_mixin env db := by
    by_cases he : ring_sizes tx.vin = []
    · have := (hnil he).1
      omega
    · obtain ⟨⟨r, hr, hrl⟩, _⟩ := hne he
      have := (h r hr).1
      omega
  unfold check_ring_sizes
  rw [hs]
  dsimp only
  rw [if_neg hlo]
  constructor
  · rintro ⟨hst, hd⟩
    have hneq : hi ≠ lo := by
      rcases hd with he | ⟨r, hr, r1, hr1, hd⟩
      · obtain ⟨a, b⟩ := hnil he
        unfold UINT64_RANGE at a
        omega
      · have := hb r hr
        have := hb r1 hr1
        omega
    rw [if_pos (by simp [hst, hneq])]
  · intro hq
    by_cases hst : env.check_hard_fork_feature db fork_feature.FORK_STRICT_TX_SEMANTICS = true
    · obtain ⟨he, hall⟩ := hq hst
      obtain ⟨⟨r, hr, hrl⟩, ⟨r1, hr1, hrh⟩⟩ := hne he
      have := hall r hr r1 hr1
      have heq : hi = lo := by omega
      rw [if_neg (by simp [heq])]
    · rw [if_neg (by simp [hst])]

theorem check_tx_inputs_of_rules (env : Env) (db : BlockchainDB)
    (table : List (crypto.hash × List (crypto.key_image × Bool))) (tx : transaction)
    (tvc t : tx_verification_context) (pmax : Option Nat)
    (h : check_tx_inputs_rules env db tx tvc = some t) :
    (check_tx_inputs env db table tx tvc pmax).ok = false ∧
      (check_tx_inputs env db table tx tvc pmax).tvc = t := by
  unfold check_tx_inputs
  rw [h]
  exact ⟨rfl, rfl⟩

theorem check_tx_inputs_of_ring_sizes (env : Env) (db : BlockchainDB)
    (table : List (crypto.hash × List (crypto.key_image × Bool))) (tx : transaction)
    (tvc t : tx_verification_context) (pmax : Option Nat)
    (h : check_ring_sizes env db tx tvc = some t) :
    (check_tx_inputs env db table tx tvc pmax).ok = false ∧
      (check_tx_inputs env db table tx tvc pmax).tvc = t := by
  apply check_tx_inputs_of_rules
  rw [check_tx_inputs_rules_eq, h]

/-- C19 (as stated) fails: with a minimum mixin of 2 and no strict semantics, a
transaction whose only key input has a ring of 2 members (so that
`MIN_MIXIN ≤ 2 ≤ MAX_MIXIN + 1`) is rejected by `check_tx_inputs` with
`m_low_mixin` set: the mixin of the ring is 1. -/
theorem check_tx_inputs_rejects_ring_of_min_mixin :
    min_mixin sample_env_min_mixin sample_db = 2 ∧
      sample_env_min_mixin.MAX_MIXIN = 240 ∧
      sample_env_min_mixin.check_hard_fork_feature sample_db
        fork_feature.FORK_STRICT_TX_SEMANTICS = false ∧
      ring_sizes (sample_ring_tx 11 [2]).vin = [2] ∧
      check_ring_sizes sample_env_min_mixin sample_db (sample_ring_tx 11 [2]) fresh_tvc =
        some { fresh_tvc with m_low_mixin := true } ∧
      (check_tx_inputs sample_env_min_mixin sample_db [] (sample_ring_tx 11 [2]) fresh_tvc
        none).ok = false ∧
      (check_tx_inputs sample_env_min_mixin sample_db [] (sample_ring_tx 11 [2]) fresh_tvc
        none).tvc = { fresh_tvc with m_low_mixin := true } := by
  decide

/-- C19 (amended): `MAX_MIXIN + 1` and the versioned `MIN_MIXIN` being below
2^64 and every ring size a `size_t`: the ring-size rules of `check_tx_inputs`
pass exactly when every key input's ring size `r` satisfies
`MIN_MIXIN + 1 ≤ r ≤ MAX_MIXIN + 1` and, under strict semantics, the
transaction has a key input and all its key inputs have the same ring size.
Otherwise `check_tx_inputs` returns false with the flag of the rule that
failed: `m_verifivation_failed` when some ring is empty or larger than
`MAX_MIXIN + 1`; else `m_low_mixin` when some ring is smaller than
`MIN_MIXIN + 1`; else, under strict semantics, `m_verifivation_failed` when
there is no key input or two rings differ in size. -/
theorem check_tx_inputs_ring_sizes (env : Env) (db : BlockchainDB)
    (table : List (crypto.hash × List (crypto.key_image × Bool))) (tx : transaction)
    (tvc : tx_verification_context) (pmax : Option Nat)
    (hM : env.MAX_MIXIN + 1 < UINT64_RANGE) (hm : min_mixin env db < UINT64_RANGE)
    (hsz : ∀ r ∈ ring_sizes tx.vin, r < UINT64_RANGE) :
    (check_ring_sizes env db tx tvc = none ↔
        (∀ r ∈ ring_sizes tx.vin, min_mixin env db + 1 ≤ r ∧ r ≤ env.MAX_MIXIN + 1) ∧
        (env.check_hard_fork_feature db fork_feature.FORK_STRICT_TX_SEMANTICS = true →
          ring_sizes tx.vin ≠ [] ∧
            ∀ r ∈ ring_sizes tx.vin, ∀ r1 ∈ ring_sizes tx.vin, r = r1)) ∧
      (∀ t, check_ring_sizes env db tx tvc = some t →
        (check_tx_inputs env db table tx tvc pmax).ok = false ∧
          (check_tx_inputs env db table tx tvc pmax).tvc = t) ∧
      ((∃ r ∈ ring_sizes tx.vin, r = 0 ∨ env.MAX_MIXIN + 1 < r) →
        check_ring_sizes env db tx tvc = some { tvc with m_verifivation_failed := true }) ∧
      ((∀ r ∈ ring_sizes tx.vin, 1 ≤ r ∧ r ≤ env.MAX_MIXIN + 1) →
        (∃ r ∈ ring_sizes tx.vin, r < min_mixin env db + 1) →
        check_ring_sizes env db tx tvc = some { tvc with m_low_mixin := true }) ∧
      ((∀ r ∈ ring_sizes tx.vin, min_mixin env db + 1 ≤ r ∧ r ≤ env.MAX_MIXIN + 1) →
        env.check_hard_fork_feature db fork_feature.FORK_STRICT_TX_SEMANTICS = true →
        (ring_sizes tx.vin = [] ∨
          ∃ r ∈ ring_sizes tx.vin, ∃ r1 ∈ ring_sizes tx.vin, r ≠ r1) →
        check_ring_sizes env db tx tvc = some { tvc with m_verifivation_failed := true }) := by
  refine ⟨⟨?_, ?_⟩, ?_, ?_, ?_, ?_⟩
  · intro hnone
    by_cases hbad : ∃ r ∈ ring_sizes tx.vin, r = 0 ∨ env.MAX_MIXIN + 1 < r
    · rw [check_ring_sizes_too_high env db tx tvc hM hsz hbad] at hnone
      cases hnone
    · have hin : ∀ r ∈ ring_sizes tx.vin, 1 ≤ r ∧ r ≤ env.MAX_MIXIN + 1 := by
        intro r hr
        have h0 : ¬ (r = 0 ∨ env.MAX_MIXIN + 1 < r) := fun hc => hbad ⟨r, hr, hc⟩
        omega
      by_cases hlow : ∃ r ∈ ring_sizes tx.vin, r < min_mixin env db + 1
      · rw [check_ring_sizes_too_low env db tx tvc hM hsz hin hlow] at hnone
        cases hnone
      · have hP : ∀ r ∈ ring_sizes tx.vin,
            min_mixin env db + 1 ≤ r ∧ r ≤ env.MAX_MIXIN + 1 := by
          intro r hr
          have h0 : ¬ (r < min_mixin env db + 1) := fun hc => hlow ⟨r, hr, hc⟩
          have := hin r hr
          omega
        refine ⟨hP, ?_⟩
        intro hst
        by_contra hq
        have hd : ring_sizes tx.vin = [] ∨
            ∃ r ∈ ring_sizes tx.vin, ∃ r1 ∈ ring_sizes tx.vin, r ≠ r1 := by
          by_cases he : ring_sizes tx.vin = []
          · exact Or.inl he
          · right
            by_contra hall
            apply hq
            refine ⟨he, ?_⟩
            intro r hr r1 hr1
            by_contra hne
            exact hall ⟨r, hr, r1, hr1, hne⟩
        rw [(check_ring_sizes_bounds env db tx tvc hM hm hsz hP).1 ⟨hst, hd⟩] at hnone
        cases hnone
  · rintro ⟨hP, hQ⟩
    exact (check_ring_sizes_bounds env db tx tvc hM hm hsz hP).2 hQ
  · intro t ht
    exact check_tx_inputs_of_ring_sizes env db table tx tvc t pmax ht
  · exact check_ring_sizes_too_high env db tx tvc hM hsz
  · exact check_ring_sizes_too_low env db tx tvc hM hsz
  · intro hP hst hd
    exact (check_ring_sizes_bounds env db tx tvc hM hm hsz hP).1 ⟨hst, hd⟩

/-- Witness for `check_tx_inputs_ring_sizes`: with a minimum mixin of 2 and a
maximum of 240, a transaction with two rings of 3 members passes the ring-size
rules. -/
theorem check_tx_inputs_ring_sizes_witness :
    check_ring_sizes sample_env_min_mixin sample_db (sample_ring_tx 11 [3, 3]) fresh_tvc =
      none :=
  (check_tx_inputs_ring_sizes sample_env_min_mixin sample_db [] (sample_ring_tx 11 [3, 3])
    fresh_tvc none (by decide) (by decide) (by decide)).1.2 (by decide)

theorem tx_extra_scan_eq (uids : Bool) (N : Nat) (l : List tx_extra_field) (hp he hu : Bool) :
    tx_extra_scan uids N l hp he hu =
      if count_pub_key l + hp.toNat ≤ 1 ∧ (additional_pub_keys_sizes l).length + he.toNat ≤ 1 ∧
          (∀ s ∈ additional_pub_keys_sizes l, s = N) ∧
          (uids = true → count_uniform_payment_id l + hu.toNat ≤ 1) then
        some (hp || decide (0 < count_pub_key l),
          he || decide (0 < (additional_pub_keys_sizes l).length),
          hu || (uids && decide (0 < count_uniform_payment_id l)))
      else none := by
  induction l generalizing hp he hu with
  | nil => simp [tx_extra_scan, count_pub_key, additional_pub_keys_sizes,
      count_uniform_payment_id, Bool.toNat_le]
  | cons f rest ih =>
    cases f with
    | tx_extra_padding =>
      simp only [tx_extra_scan, count_pub_key, additional_pub_keys_sizes,
        count_uniform_payment_id]
      exact ih _ _ _
    | tx_extra_nonce =>
      simp only [tx_extra_scan, count_pub_key, additional_pub_keys_sizes,
        count_uniform_payment_id]
      exact ih _ _ _
    | tx_extra_merge_mining_tag =>
      simp only [tx_extra_scan, count_pub_key, additional_pub_keys_sizes,
        count_uniform_payment_id]
      exact ih _ _ _
    | tx_extra_mysterious_minergate =>
      simp only [tx_extra_scan, count_pub_key, additional_pub_keys_sizes,
        count_uniform_payment_id]
      exact ih _ _ _
    | tx_extra_pub_key k =>
      simp only [tx_extra_scan, count_pub_key, additional_pub_keys_sizes,
        count_uniform_payment_id]
      cases hp
      · simp only [Bool.false_eq_true, if_false, ih, Bool.toNat_true, Bool.toNat_false,
          Nat.add_zero, Bool.true_or, Bool.false_or, Nat.zero_lt_succ, decide_True]
      · simp only [if_true, Bool.toNat_true]
        rw [if_neg (by omega)]
    | tx_extra_additional_pub_keys data =>
      simp only [tx_extra_scan, count_pub_key, additional_pub_keys_sizes,
        count_uniform_payment_id]
      cases he
      · simp only [Bool.false_eq_true, if_false, ih, Bool.toNat_true, Bool.toNat_false,
          Nat.add_zero, Bool.true_or, Bool.false_or, List.length_cons, Nat.zero_lt_succ,
          decide_True, List.mem_cons, forall_eq_or_imp]
        by_cases hd : data.length = N
        · simp [hd]
        · simp [hd]
      · simp only [if_true, Bool.toNat_true, List.length_cons]
        rw [if_neg (by omega)]
    | tx_extra_uniform_payment_id =>
      simp only [tx_extra_scan, count_pub_key, additional_pub_keys_sizes,
        count_uniform_payment_id]
      cases uids
      · simp [ih]
      · cases hu
        · simp only [if_true, Bool.false_eq_true, if_false, ih, Bool.toNat_true,
            Bool.toNat_false, Nat.add_zero, Bool.true_or, Bool.false_or, Nat.zero_lt_succ,
            decide_True, true_implies, Bool.true_and]
        · simp only [if_true, Bool.toNat_true, true_implies]
          rw [if_neg (by omega)]

theorem check_tx_extra_iff (env : Env) (db : BlockchainDB) (tx : transaction) :
    check_tx_extra env db tx = true ↔
      count_pub_key (env.parse_tx_extra tx.extra) = 1 ∧
        (additional_pub_keys_sizes (env.parse_tx_extra tx.extra)).length ≤ 1 ∧
        (∀ s ∈ additional_pub_keys_sizes (env.parse_tx_extra tx.extra), s = tx.vout.length) ∧
        (env.check_hard_fork_feature db fork_feature.FORK_UNIFORM_IDS_REQ = true →
          count_uniform_payment_id (env.parse_tx_extra tx.extra) = 1) := by
  unfold check_tx_extra
  dsimp only
  rw [tx_extra_scan_eq]
  simp only [Bool.toNat_false, Nat.add_zero, Bool.false_or]
  by_cases hc : count_pub_key (env.parse_tx_extra tx.extra) ≤ 1 ∧
      (additional_pub_keys_sizes (env.parse_tx_extra tx.extra)).length ≤ 1 ∧
      (∀ s ∈ additional_pub_keys_sizes (env.parse_tx_extra tx.extra), s = tx.vout.length) ∧
      (env.check_hard_fork_feature db fork_feature.FORK_UNIFORM_IDS_REQ = true →
        count_uniform_payment_id (env.parse_tx_extra tx.extra) ≤ 1)
  · rw [if_pos hc]
    obtain ⟨c1, c2, c3, c4⟩ := hc
    dsimp only
    cases hu : env.check_hard_fork_feature db fork_feature.FORK_UNIFORM_IDS_REQ
    · simp only [Bool.false_and, Bool.not_false, Bool.and_true, Bool.false_eq_true, if_false,
        decide_eq_true_eq, false_implies, and_true]
      constructor
      · intro hp
        exact ⟨by omega, c2, c3⟩
      · intro hp
        omega
    · have c4 := c4 hu
      simp only [Bool.true_and, Bool.not_eq_true', decide_eq_false_iff_not, Nat.not_lt,
        Nat.le_zero_eq, true_implies]
      by_cases h0 : count_uniform_payment_id (env.parse_tx_extra tx.extra) = 0
      · rw [if_pos h0]
        simp only [Bool.false_eq_true, false_iff, not_and]
        intro _ _ _
        omega
      · rw [if_neg h0]
        simp only [decide_eq_true_eq]
        constructor
        · intro hp
          exact ⟨by omega, c2, c3, by omega⟩
        · intro hp
          omega
  · rw [if_neg hc]
    simp only [Bool.false_eq_true, false_iff]
    intro hq
    apply hc
    obtain ⟨q1, q2, q3, q4⟩ := hq
    exact ⟨by omega, q2, q3, fun hu => by have := q4 hu; omega⟩

/-- C20 (as stated) fails: under strict semantics, with uniform payment ids not
required, a transaction whose `extra` holds one transaction public key and two
uniform-payment-id fields passes the extra-field rules, and `check_tx_inputs`
accepts it. -/
theorem check_tx_inputs_accepts_two_uniform_payment_ids :
    sample_env_strict.check_hard_fork_feature sample_db
        fork_feature.FORK_STRICT_TX_SEMANTICS = true ∧
      sample_env_strict.check_hard_fork_feature sample_db
        fork_feature.FORK_UNIFORM_IDS_REQ = false ∧
      count_uniform_payment_id (sample_env_strict.parse_tx_extra (sample_tx 11 [5]).extra) = 2 ∧
      check_tx_extra sample_env_strict sample_db (sample_tx 11 [5]) = true ∧
      (check_tx_inputs sample_env_strict sample_db [] (sample_tx 11 [5]) fresh_tvc none).ok =
        true := by
  decide

/-- C20 (amended): under strict transaction semantics, for a transaction that
passed the ring-size rules, the extra-field rules of `check_tx_inputs` pass
exactly when the parsed `extra` holds exactly one transaction public key field,
at most one additional-public-keys field, whose number of keys equals the
number of outputs, and, when the fork requires uniform ids, exactly one
uniform-payment-id field (when it does not, any number of them); when the rules
do not pass, `check_tx_inputs` returns false with `m_verifivation_failed`
set. -/
theorem check_tx_inputs_extra_field (env : Env) (db : BlockchainDB)
    (table : List (crypto.hash × List (crypto.key_image × Bool))) (tx : transaction)
    (tvc : tx_verification_context) (pmax : Option Nat)
    (hstrict : env.check_hard_fork_feature db fork_feature.FORK_STRICT_TX_SEMANTICS = true)
    (hring : check_ring_sizes env db tx tvc = none) :
    (check_tx_extra env db tx = true ↔
        count_pub_key (env.parse_tx_extra tx.extra) = 1 ∧
        (additional_pub_keys_sizes (env.parse_tx_extra tx.extra)).length ≤ 1 ∧
        (∀ s ∈ additional_pub_keys_sizes (env.parse_tx_extra tx.extra), s = tx.vout.length) ∧
        (env.check_hard_fork_feature db fork_feature.FORK_UNIFORM_IDS_REQ = true →
          count_uniform_payment_id (env.parse_tx_extra tx.extra) = 1)) ∧
      (check_tx_extra env db tx = false →
        (check_tx_inputs env db table tx tvc pmax).ok = false ∧
          (check_tx_inputs env db table tx tvc pmax).tvc =
            { tvc with m_verifivation_failed := true }) := by
  refine ⟨check_tx_extra_iff env db tx, ?_⟩
  intro he
  apply check_tx_inputs_of_rules
  rw [check_tx_inputs_rules_eq, hring]
  simp [hstrict, he]

/-- Witness for `check_tx_inputs_extra_field`: with uniform payment ids
required, a transaction whose `extra` holds a transaction public key and no
payment id is rejected with `m_verifivation_failed`. -/
theorem check_tx_inputs_extra_field_witness :
    (check_tx_inputs sample_env_strict_uids sample_db [] (sample_tx 11 [5]) fresh_tvc none).ok =
        false ∧
      (check_tx_inputs sample_env_strict_uids sample_db [] (sample_tx 11 [5]) fresh_tvc
        none).tvc = { fresh_tvc with m_verifivation_failed := true } :=
  (check_tx_inputs_extra_field sample_env_strict_uids sample_db [] (sample_tx 11 [5]) fresh_tvc
    none (by decide) (by decide)).2 (by decide)

/-! ## C12: the main-chain tip and the alternative index -/

theorem commit_block_frame (env : Env) (bl : block) (bvc : block_verification_context)
    (d : Nat) (st : Blockchain) (txs : List transaction) (f s : Nat) :
    (commit_block env bl bvc d st txs f s).st.m_alternative_chains = st.m_alternative_chains ∧
      ((commit_block env bl bvc d st txs f s).st.m_db = st.m_db ∨
        ∃ r : db_block,
          (commit_block env bl bvc d st txs f s).st.m_db.m_blocks = st.m_db.m_blocks ++ [r] ∧
          r.cumulative_difficulty =
            (if st.m_db.height ≠ 0 then
              add64 d (st.m_db.get_block_cumulative_difficulty (st.m_db.height - 1))
            else d)) := by
  unfold commit_block
  dsimp only
  cases hv : (validate_miner_transaction env st.m_db bl s f bvc.m_partial_block_reward).ok
  · simp
  · cases hb : bvc.m_verifivation_failed
    · simp only [Bool.not_true, Bool.false_eq_true, if_false, Bool.not_false, if_true]
      unfold BlockchainDB.add_block
      cases ht : st.m_db.add_block_throws env bl txs with
      | none =>
        simp [update_next_cumulative_size_limit]
      | some e =>
        cases e <;> simp
    · simp [update_next_cumulative_size_limit]

/-- Had the cached branch been taken: when the cache holds the full window of
the previous height (the `block_count` heights below the tip, the genesis block
not among them), pushing the tip and cutting to `block_count` gives the window
that the other branch reads from the store. -/
theorem difficulty_window_slide_eq_reload (env : Env) (st : Blockchain)
    (hfull : difficulty_blocks_count env st.m_db + 2 ≤ st.m_db.height)
    (hts : st.m_timestamps =
      (List.range' (st.m_db.height - 1 - difficulty_blocks_count env st.m_db)
        (difficulty_blocks_count env st.m_db)).map (fun i => st.m_db.get_block_timestamp i))
    (hcd : st.m_difficulties =
      (List.range' (st.m_db.height - 1 - difficulty_blocks_count env st.m_db)
        (difficulty_blocks_count env st.m_db)).map
          (fun i => st.m_db.get_block_cumulative_difficulty i)) :
    difficulty_window_slide env st = difficulty_window_reload env st.m_db := by
  have key : ∀ f : Nat → Nat,
      ((List.range' (st.m_db.height - 1 - difficulty_blocks_count env st.m_db)
          (difficulty_blocks_count env st.m_db)).map f ++ [f (st.m_db.height - 1)]).drop
        (((List.range' (st.m_db.height - 1 - difficulty_blocks_count env st.m_db)
          (difficulty_blocks_count env st.m_db)).map f ++ [f (st.m_db.height - 1)]).length -
          difficulty_blocks_count env st.m_db) =
      (List.range' (st.m_db.height - difficulty_blocks_count env st.m_db)
        (difficulty_blocks_count env st.m_db)).map f := by
    intro f
    have h1 : (List.range' (st.m_db.height - 1 - difficulty_blocks_count env st.m_db)
          (difficulty_blocks_count env st.m_db)).map f ++ [f (st.m_db.height - 1)] =
        (List.range' (st.m_db.height - 1 - difficulty_blocks_count env st.m_db)
          (difficulty_blocks_count env st.m_db + 1)).map f := by
      rw [List.range'_concat, List.map_append]
      simp only [List.map_cons, List.map_nil, Nat.mul_one]
      congr 3
      omega
    rw [h1, List.length_map, List.length_range', ← List.map_drop]
    have h2 : difficulty_blocks_count env st.m_db + 1 - difficulty_blocks_count env st.m_db = 1 := by
      omega
    rw [h2, List.range'_succ, List.drop_succ_cons, List.drop_zero]
    congr 2
    omega
  unfold difficulty_window_slide difficulty_window_reload
  dsimp only
  rw [hts, hcd, key, key]
  have hmin : min st.m_db.height (difficulty_blocks_count env st.m_db) =
      difficulty_blocks_count env st.m_db := Nat.min_eq_right (by omega)
  rw [hmin, if_neg (by omega)]
  have hlen : st.m_db.height - (st.m_db.height - difficulty_blocks_count env st.m_db) =
      difficulty_blocks_count env st.m_db := by omega
  rw [hlen]

/-! ## C14: the back-date reference in the main-chain path -/

/-- In the main-chain path the vector is in ascending height order, so the
reference read by the back-date test depends on what `median` does to the
vector. On the four-block store with a window of three, a block stamped
1500001000 is not back-dated against the top block (1500000200) and is not
below the median (1500000200): it is accepted when `median` leaves the vector
as it is, and rejected when `median` sorts it in place, the last element then
being the timestamp 1500003000 of block 101. -/
theorem check_block_timestamp_back_date_main_chain :
    sample_db_timestamps.get_block_timestamp (sample_db_timestamps.height - 1) = 1500000200 ∧
      last_timestamps sample_db_timestamps 3 = [1500003000, 1500000100, 1500000200] ∧
      (sample_env_sorted.median [1500003000, 1500000100, 1500000200]).1 = 1500000200 ∧
      (check_block_timestamp sample_env_copy_median sample_db_timestamps
        { sample_block 104 103 4 [] [] with timestamp := 1500001000 }).1 = true ∧
      (check_block_timestamp sample_env_sorted sample_db_timestamps
        { sample_block 104 103 4 [] [] with timestamp := 1500001000 }).1 = false := by
  decide

/-! ## C21 and C22: the input order and the version rule of `check_tx_inputs` -/

theorem tx_key_images_eq (tx : transaction) : tx_key_images tx = key_images_of tx.vin := by
  unfold tx_key_images
  induction tx.vin with
  | nil => rfl
  | cons x rest ih =>
    cases x <;> simp [key_images_of, List.filterMap_cons, ih]

theorem inputs_sorted_some_iff (l : List txin_v) (k : crypto.key_image) :
    inputs_sorted l (some k) = true ↔
      List.Chain (fun a b => b < a) k (key_images_of l) := by
  induction l generalizing k with
  | nil => simp [inputs_sorted, key_images_of]
  | cons x rest ih =>
    cases x with
    | txin_gen h => simpa [inputs_sorted, key_images_of] using ih k
    | txin_to_script => simpa [inputs_sorted, key_images_of] using ih k
    | txin_to_scripthash => simpa [inputs_sorted, key_images_of] using ih k
    | txin_to_key a offs ki =>
      simp only [inputs_sorted, key_images_of, List.chain_cons]
      by_cases hc : ki ≥ k
      · simp only [hc, if_true, Bool.false_eq_true, false_iff, not_and]
        intro hlt
        exact absurd hlt (Nat.not_lt.2 hc)
      · simp only [hc, if_false]
        rw [ih ki]
        constructor
        · intro h
          exact ⟨Nat.lt_of_not_le hc, h⟩
        · intro h
          exact h.2

theorem inputs_sorted_none_iff (l : List txin_v) :
    inputs_sorted l none = true ↔ List.Chain' (fun a b => b < a) (key_images_of l) := by
  induction l with
  | nil => simp [inputs_sorted, key_images_of]
  | cons x rest ih =>
    cases x with
    | txin_gen h => simpa [inputs_sorted, key_images_of] using ih
    | txin_to_script => simpa [inputs_sorted, key_images_of] using ih
    | txin_to_scripthash => simpa [inputs_sorted, key_images_of] using ih
    | txin_to_key a offs ki =>
      simp only [inputs_sorted, key_images_of]
      rw [inputs_sorted_some_iff]
      exact Iff.rfl

theorem check_tx_inputs_ok_rules (env : Env) (db : BlockchainDB)
    (table : List (crypto.hash × List (crypto.key_image × Bool))) (tx : transaction)
    (tvc : tx_verification_context) (pmax : Option Nat)
    (h : (check_tx_inputs env db table tx tvc pmax).ok = true) :
    check_tx_inputs_rules env db tx tvc = none := by
  cases hr : check_tx_inputs_rules env db tx tvc with
  | none => rfl
  | some t =>
    rw [(check_tx_inputs_of_rules env db table tx tvc t pmax hr).1] at h
    cases h

theorem chain_gt_nodup (l : List Nat) (h : List.Chain' (fun a b => b < a) l) : l.Nodup := by
  have hp : List.Pairwise (fun a b => b < a) l := by
    rw [← List.chain'_iff_pairwise]
    exact h
  exact hp.imp (fun hab => by omega)

/-- C21: under strict transaction semantics, the sorted-inputs rule of
`check_tx_inputs` passes exactly when the key-images of the key inputs, in
input order, are strictly descending (a 32-byte key-image compared by `memcmp`
is compared as a big-endian number); when the earlier rules pass and this one
does not, `check_tx_inputs` returns false with `m_verifivation_failed` set; and
a transaction that `check_tx_inputs` accepts has strictly descending
key-images, hence no key-image in two inputs. -/
theorem check_tx_inputs_input_order (env : Env) (db : BlockchainDB)
    (table : List (crypto.hash × List (crypto.key_image × Bool))) (tx : transaction)
    (tvc : tx_verification_context) (pmax : Option Nat)
    (hstrict : env.check_hard_fork_feature db fork_feature.FORK_STRICT_TX_SEMANTICS = true) :
    (inputs_sorted tx.vin none = true ↔
        List.Chain' (fun a b => b < a) (tx_key_images tx)) ∧
      (check_ring_sizes env db tx tvc = none → check_tx_extra env db tx = true →
        inputs_sorted tx.vin none = false →
        (check_tx_inputs env db table tx tvc pmax).ok = false ∧
          (check_tx_inputs env db table tx tvc pmax).tvc =
            { tvc with m_verifivation_failed := true }) ∧
      ((check_tx_inputs env db table tx tvc pmax).ok = true →
        List.Chain' (fun a b => b < a) (tx_key_images tx) ∧ (tx_key_images tx).Nodup) := by
  have hiff : inputs_sorted tx.vin none = true ↔
      List.Chain' (fun a b => b < a) (tx_key_images tx) := by
    rw [tx_key_images_eq]
    exact inputs_sorted_none_iff tx.vin
  refine ⟨hiff, ?_, ?_⟩
  · intro hring hextra hsorted
    apply check_tx_inputs_of_rules
    rw [check_tx_inputs_rules_eq, hring]
    simp [hstrict, hextra, hsorted]
  · intro hok
    have hrules := check_tx_inputs_ok_rules env db table tx tvc pmax hok
    rw [check_tx_inputs_rules_eq] at hrules
    cases hring : check_ring_sizes env db tx tvc with
    | some t =>
      rw [hring] at hrules
      cases hrules
    | none =>
      rw [hring] at hrules
      have hs : inputs_sorted tx.vin none = true := by
        cases hsort : inputs_sorted tx.vin none with
        | true => rfl
        | false =>
          simp [hstrict, hsort] at hrules
      have hch := hiff.1 hs
      exact ⟨hch, chain_gt_nodup _ hch⟩

/-- Witness for `check_tx_inputs_input_order`: under strict semantics a
transaction whose two key inputs carry the key-images 1 and 2, in this order,
is rejected with `m_verifivation_failed`. -/
theorem check_tx_inputs_input_order_witness :
    (check_tx_inputs sample_env_strict sample_db [] (sample_ring_tx 11 [1, 1]) fresh_tvc
        none).ok = false ∧
      (check_tx_inputs sample_env_strict sample_db [] (sample_ring_tx 11 [1, 1]) fresh_tvc
        none).tvc = { fresh_tvc with m_verifivation_failed := true } :=
  (check_tx_inputs_input_order sample_env_strict sample_db [] (sample_ring_tx 11 [1, 1])
    fresh_tvc none (by decide)).2.1 (by decide) (by decide) (by decide)

/-- C22 (as stated) fails: with a minimum mixin of 2, a transaction of version 7
(above `MAX_TRANSACTION_VERSION = 3`) whose only ring has one member is
rejected by the ring-size rule, which runs first: `check_tx_inputs` returns
false with `m_low_mixin` set and `m_verifivation_failed` not set. -/
theorem check_tx_inputs_bad_version_low_mixin :
    bad_tx_version sample_env_min_mixin sample_db
        { sample_ring_tx 11 [1] with version := 7 } = true ∧
      (check_tx_inputs sample_env_min_mixin sample_db []
        { sample_ring_tx 11 [1] with version := 7 } fresh_tvc none).ok = false ∧
      (check_tx_inputs sample_env_min_mixin sample_db []
        { sample_ring_tx 11 [1] with version := 7 } fresh_tvc none).tvc =
        { fresh_tvc with m_low_mixin := true } ∧
      (check_tx_inputs sample_env_min_mixin sample_db []
        { sample_ring_tx 11 [1] with version := 7 } fresh_tvc
        none).tvc.m_verifivation_failed = false := by
  decide

/-- C22 (amended): the version rule of `check_tx_inputs` runs after the
ring-size rules and the strict-semantics rules. For every transaction whose
version is above `MAX_TRANSACTION_VERSION` or below the fork's minimum,
`check_tx_inputs` returns false, whatever its ring sizes, extra field and input
order are; when the ring-size rules reject it the flags are those of the
ring-size rules (`m_low_mixin` alone for a ring below the minimum), and in every
other case `m_verifivation_failed` is set. -/
theorem check_tx_inputs_bad_version (env : Env) (db : BlockchainDB)
    (table : List (crypto.hash × List (crypto.key_image × Bool))) (tx : transaction)
    (tvc : tx_verification_context) (pmax : Option Nat)
    (hbad : bad_tx_version env db tx = true) :
    (check_tx_inputs env db table tx tvc pmax).ok = false ∧
      (∀ t, check_ring_sizes env db tx tvc = some t →
        (check_tx_inputs env db table tx tvc pmax).tvc = t) ∧
      (check_ring_sizes env db tx tvc = none →
        (check_tx_inputs env db table tx tvc pmax).tvc =
          { tvc with m_verifivation_failed := true }) := by
  have hnone : check_ring_sizes env db tx tvc = none →
      check_tx_inputs_rules env db tx tvc = some { tvc with m_verifivation_failed := true } := by
    intro hring
    rw [check_tx_inputs_rules_eq, hring]
    unfold bad_tx_version at hbad
    simp only [Bool.or_eq_true, decide_eq_true_eq] at hbad
    dsimp only
    split
    · rfl
    · rcases hbad with hb | hb
      · rw [if_pos hb]
      · split
        · rfl
        · rfl
  refine ⟨?_, ?_, ?_⟩
  · cases hring : check_ring_sizes env db tx tvc with
    | some t => exact (check_tx_inputs_of_ring_sizes env db table tx tvc t pmax hring).1
    | none => exact (check_tx_inputs_of_rules env db table tx tvc _ pmax (hnone hring)).1
  · intro t hring
    exact (check_tx_inputs_of_ring_sizes env db table tx tvc t pmax hring).2
  · intro hring
    exact (check_tx_inputs_of_rules env db table tx tvc _ pmax (hnone hring)).2

/-- Witness for `check_tx_inputs_bad_version`: with no minimum mixin, a
transaction of version 7 is rejected with `m_verifivation_failed`. -/
theorem check_tx_inputs_bad_version_witness :
    (check_tx_inputs sample_env sample_db [] { sample_tx 11 [5] with version := 7 } fresh_tvc
        none).ok = false ∧
      (check_tx_inputs sample_env sample_db [] { sample_tx 11 [5] with version := 7 } fresh_tvc
        none).tvc = { fresh_tvc with m_verifivation_failed := true } :=
  ⟨(check_tx_inputs_bad_version sample_env sample_db [] { sample_tx 11 [5] with version := 7 }
      fresh_tvc none (by decide)).1,
    (check_tx_inputs_bad_version sample_env sample_db [] { sample_tx 11 [5] with version := 7 }
      fresh_tvc none (by decide)).2.2 (by decide)⟩

/-! ## C23: the output rules of `check_tx_outputs` -/

/-- C23: `check_tx_outputs` returns true exactly when every output amount is
zero, every key-output destination passes `check_key`, the bulletproof list is
non-empty exactly when the type is `RCTTypeBulletproof`, the type is
`RCTTypeBulletproof` only if `FORK_BULLETPROOFS` is active, and the type is
`RCTTypeBulletproof` whenever `FORK_BULLETPROOFS_REQ` is active; a false result
sets `m_invalid_output` and changes no other flag, a true result leaves the
verification context as it was. -/
theorem check_tx_outputs_spec (env : Env) (db : BlockchainDB) (tx : transaction)
    (tvc : tx_verification_context) :
    ((check_tx_outputs env db tx tvc).1 = true ↔
      (∀ o ∈ tx.vout, o.amount = 0)
      ∧ (∀ o ∈ tx.vout, ∀ key, o.target = txout_target_v.txout_to_key key →
          env.check_key key = true)
      ∧ (tx.rct_signatures.bulletproofs ≠ [] ↔
          tx.rct_signatures.type = RCTType.RCTTypeBulletproof)
      ∧ (tx.rct_signatures.type = RCTType.RCTTypeBulletproof →
          env.check_hard_fork_feature db fork_feature.FORK_BULLETPROOFS = true)
      ∧ (env.check_hard_fork_feature db fork_feature.FORK_BULLETPROOFS_REQ = true →
          tx.rct_signatures.type = RCTType.RCTTypeBulletproof))
    ∧ ((check_tx_outputs env db tx tvc).1 = false →
        (check_tx_outputs env db tx tvc).2 = { tvc with m_invalid_output := true })
    ∧ ((check_tx_outputs env db tx tvc).1 = true →
        (check_tx_outputs env db tx tvc).2 = tvc) := by
  have hamt : tx.vout.any (fun o => o.amount != 0) = false ↔ ∀ o ∈ tx.vout, o.amount = 0 := by
    simp [List.any_eq_false]
  have hkey : tx.vout.any (fun o =>
      match o.target with
      | txout_target_v.txout_to_key key => !env.check_key key
      | _ => false) = false ↔
      ∀ o ∈ tx.vout, ∀ key, o.target = txout_target_v.txout_to_key key →
          env.check_key key = true := by
    rw [List.any_eq_false]
    constructor
    · intro h o ho key hk
      have := h o ho
      rw [hk] at this
      simpa using this
    · intro h o ho
      cases ht : o.target with
      | txout_to_key key => simpa using h o ho key ht
      | txout_to_script => simp
      | txout_to_scripthash => simp
  unfold check_tx_outputs
  by_cases h1 : tx.vout.any (fun o => o.amount != 0) = true
  · rw [if_pos h1]
    have : ¬ ∀ o ∈ tx.vout, o.amount = 0 := fun h => by
      rw [hamt.2 h] at h1; exact Bool.noConfusion h1
    simp [this]
  · rw [if_neg h1]
    have h1f : tx.vout.any (fun o => o.amount != 0) = false := by simpa using h1
    have ha := hamt.1 h1f
    by_cases h2 : tx.vout.any (fun o =>
        match o.target with
        | txout_target_v.txout_to_key key => !env.check_key key
        | _ => false) = true
    · rw [if_pos h2]
      have : ¬ ∀ o ∈ tx.vout, ∀ key, o.target = txout_target_v.txout_to_key key →
          env.check_key key = true := fun h => by
        rw [hkey.2 h] at h2; exact Bool.noConfusion h2
      simp [this]
    · rw [if_neg h2]
      have h2f := hkey.1 (by simpa using h2)
      cases hbp : tx.rct_signatures.bulletproofs with
      | nil =>
        by_cases ht : tx.rct_signatures.type = RCTType.RCTTypeBulletproof
        · simp [ht, ha, h2f]
        · cases hf : env.check_hard_fork_feature db fork_feature.FORK_BULLETPROOFS_REQ <;>
            simp [ht, hf]
          exact ⟨ha, h2f⟩
      | cons x xs =>
        by_cases ht : tx.rct_signatures.type = RCTType.RCTTypeBulletproof
        · cases hf : env.check_hard_fork_feature db fork_feature.FORK_BULLETPROOFS <;>
            simp [ht, hf]
          exact ⟨ha, h2f⟩
        · simp [ht, ha, h2f]

/-! ## C34: coinbase pre-validation -/

/-- C34: `prevalidate_miner_transaction (b, height)` returns true exactly when
the coinbase transaction has one input only, that input is a `txin_gen`
carrying `height`, the ringCT type is `RCTTypeNull`, the unlock time equals
`height + CRYPTONOTE_MINED_MONEY_UNLOCK_WINDOW` (the 64-bit sum of the code)
and the total of the output amounts fits in 64 bits. -/
theorem prevalidate_miner_transaction_iff (env : Env) (b : block) (height : Nat) :
    prevalidate_miner_transaction env b height = true ↔
      b.miner_tx.vin.length = 1
      ∧ b.miner_tx.vin.head? = some (txin_v.txin_gen height)
      ∧ b.miner_tx.rct_signatures.type = RCTType.RCTTypeNull
      ∧ b.miner_tx.unlock_time = add64 height env.CRYPTONOTE_MINED_MONEY_UNLOCK_WINDOW
      ∧ (b.miner_tx.vout.map (fun o => o.amount)).sum < UINT64_RANGE := by
  unfold prevalidate_miner_transaction check_outs_overflow
  by_cases hlen : b.miner_tx.vin.length = 1
  · rw [if_neg (not_not.2 hlen)]
    cases hh : b.miner_tx.vin.head? with
    | none => simp
    | some i =>
      cases i with
      | txin_gen h =>
        by_cases ht : b.miner_tx.rct_signatures.type = RCTType.RCTTypeNull
        · by_cases hh2 : h = height
          · by_cases hu : b.miner_tx.unlock_time
                = add64 height env.CRYPTONOTE_MINED_MONEY_UNLOCK_WINDOW
            · simp [hlen, ht, hh2, hu]
            · simp [hlen, ht, hh2, hu]
          · simp [hlen, ht, hh2]
        · simp [hlen, ht]
      | txin_to_script => simp
      | txin_to_scripthash => simp
      | txin_to_key a k i => simp
  · rw [if_pos hlen]
    simp [hlen]

/-! ## C27 and C35: the fee schemes -/

theorem mul64_of_lt (a b : Nat) (h : a * b < UINT64_RANGE) : mul64 a b = a * b :=
  Nat.mod_eq_of_lt h

theorem add64_of_lt (a b : Nat) (h : a + b < UINT64_RANGE) : add64 a b = a + b :=
  Nat.mod_eq_of_lt h

/-- C27: for the two integer fee schemes, when the products and the sum of the
minimum fit in 64 bits, `check_fee` returns true exactly when the fee is at
least the minimum: `R * FEE_PER_RING_MEMBER + blob_size * FEE_PER_KB / 1024`
under `FORK_FEE_V2` (`R` the ring size of a leading key input, else 0), and
`blob_size * FEE_PER_KB / 1024` under `FORK_FIXED_FEE` without `FORK_FEE_V2`. -/
theorem check_fee_integer_schemes (env : Env) (st : Blockchain) (tx : transaction)
    (blob_size fee : Nat)
    (hkb : blob_size * env.FEE_PER_KB < UINT64_RANGE)
    (hsum : fee_ring_size tx * env.FEE_PER_RING_MEMBER
      + blob_size * env.FEE_PER_KB / 1024 < UINT64_RANGE) :
    (env.check_hard_fork_feature st.m_db fork_feature.FORK_FEE_V2 = true →
      (check_fee env st tx blob_size fee = true ↔
        fee_ring_size tx * env.FEE_PER_RING_MEMBER
          + blob_size * env.FEE_PER_KB / 1024 ≤ fee))
    ∧ (env.check_hard_fork_feature st.m_db fork_feature.FORK_FEE_V2 = false →
        env.check_hard_fork_feature st.m_db fork_feature.FORK_FIXED_FEE = true →
      (check_fee env st tx blob_size fee = true ↔ blob_size * env.FEE_PER_KB / 1024 ≤ fee)) := by
  constructor
  · intro hv2
    unfold check_fee
    rw [if_pos hv2]
    have hring : fee_ring_size tx * env.FEE_PER_RING_MEMBER < UINT64_RANGE := by omega
    have hm : (match tx.vin with
        | txin_v.txin_to_key _ key_offsets _ :: _ =>
          add64 0 (mul64 key_offsets.length env.FEE_PER_RING_MEMBER)
        | _ => 0) = fee_ring_size tx * env.FEE_PER_RING_MEMBER := by
      unfold fee_ring_size at hring ⊢
      split
      · rename_i a ko k rest hvin
        rw [hvin] at hring
        simp only at hring
        rw [mul64_of_lt _ _ hring, add64_of_lt _ _ (by omega)]
        simp
      · simp
    simp only [hm]
    rw [mul64_of_lt _ _ hkb, add64_of_lt _ _ hsum]
    simp
  · intro hv2 hfixed
    unfold check_fee
    rw [if_neg (by simp [hv2]), if_pos hfixed, mul64_of_lt _ _ hkb]
    simp

theorem check_fee_integer_schemes_witness :
    (check_fee sample_env_fee_v2 sample_chain
        (sample_ring_tx 11 [4, 4]) 2048 3000000 = true ↔
      fee_ring_size (sample_ring_tx 11 [4, 4]) * sample_env_fee_v2.FEE_PER_RING_MEMBER
        + 2048 * sample_env_fee_v2.FEE_PER_KB / 1024 ≤ 3000000) :=
  (check_fee_integer_schemes sample_env_fee_v2 sample_chain (sample_ring_tx 11 [4, 4])
    2048 3000000 (by decide) (by decide)).1 (by decide)
theorem div128_32_eq (hi lo d : Nat) (hhi : hi < UINT64_RANGE) (hlo : lo < UINT64_RANGE)
    (hd : d < 4294967296) :
    div128_32 hi lo d
      = ((hi * UINT64_RANGE + lo) / d / UINT64_RANGE, (hi * UINT64_RANGE + lo) / d % UINT64_RANGE) := by
  unfold div128_32
  simp only [Nat.mod_eq_of_lt hhi, Nat.mod_eq_of_lt hlo, Nat.mod_eq_of_lt hd]
  have h1 : (hi * UINT64_RANGE + lo) / d / UINT64_RANGE < UINT64_RANGE := by
    apply Nat.div_lt_of_lt_mul
    apply Nat.lt_of_le_of_lt (Nat.div_le_self _ _)
    have : hi * UINT64_RANGE + lo < (hi + 1) * UINT64_RANGE := by
      rw [Nat.add_mul]; omega
    calc hi * UINT64_RANGE + lo < (hi + 1) * UINT64_RANGE := this
      _ ≤ UINT64_RANGE * UINT64_RANGE := Nat.mul_le_mul_right _ hhi
  rw [Nat.mod_eq_of_lt h1]

/-- The value of `get_dynamic_per_kb_fee` when the constants satisfy the
static assertions of the function, the constant product fits in 64 bits and
the base fee does not exceed the base block reward (so the quotient fits in 64
bits for every 64-bit reward). -/
theorem get_dynamic_per_kb_fee_eq (env : Env) (block_reward median_block_size : Nat)
    (hbase : 0 < env.DYNAMIC_FEE_PER_KB_BASE_BLOCK_REWARD)
    (hdiv : env.DYNAMIC_FEE_PER_KB_BASE_BLOCK_REWARD % 1000000 = 0)
    (h32 : env.DYNAMIC_FEE_PER_KB_BASE_BLOCK_REWARD / 1000000 < 4294967296)
    (hprod : env.DYNAMIC_FEE_PER_KB_BASE_FEE * env.BLOCK_SIZE_GROWTH_FAVORED_ZONE < UINT64_RANGE)
    (hfee : env.DYNAMIC_FEE_PER_KB_BASE_FEE ≤ env.DYNAMIC_FEE_PER_KB_BASE_BLOCK_REWARD)
    (hreward : block_reward < UINT64_RANGE) :
    get_dynamic_per_kb_fee env block_reward median_block_size
      = env.DYNAMIC_FEE_PER_KB_BASE_FEE * env.BLOCK_SIZE_GROWTH_FAVORED_ZONE
          / max median_block_size env.BLOCK_SIZE_GROWTH_FAVORED_ZONE
        * max block_reward env.DYNAMIC_FEE_PER_KB_BASE_BLOCK_REWARD
        / env.DYNAMIC_FEE_PER_KB_BASE_BLOCK_REWARD := by
  have hm : (if median_block_size < env.BLOCK_SIZE_GROWTH_FAVORED_ZONE then
      env.BLOCK_SIZE_GROWTH_FAVORED_ZONE else median_block_size)
      = max median_block_size env.BLOCK_SIZE_GROWTH_FAVORED_ZONE := by
    split <;> omega
  have hr : (if block_reward < env.DYNAMIC_FEE_PER_KB_BASE_BLOCK_REWARD then
      env.DYNAMIC_FEE_PER_KB_BASE_BLOCK_REWARD else block_reward)
      = max block_reward env.DYNAMIC_FEE_PER_KB_BASE_BLOCK_REWARD := by
    split <;> omega
  unfold get_dynamic_per_kb_fee
  simp only [hm, hr]
  generalize hM : max median_block_size env.BLOCK_SIZE_GROWTH_FAVORED_ZONE = M
  generalize hR : max block_reward env.DYNAMIC_FEE_PER_KB_BASE_BLOCK_REWARD = R
  have hMz : env.BLOCK_SIZE_GROWTH_FAVORED_ZONE ≤ M := by omega
  have hRb : env.DYNAMIC_FEE_PER_KB_BASE_BLOCK_REWARD ≤ R := by omega
  have hB32 : env.DYNAMIC_FEE_PER_KB_BASE_BLOCK_REWARD < 4294967296 * 1000000 := by omega
  have hR64 : R < UINT64_RANGE := by
    have : env.DYNAMIC_FEE_PER_KB_BASE_BLOCK_REWARD < UINT64_RANGE := by
      unfold UINT64_RANGE; omega
    omega
  rw [mul64_of_lt _ _ hprod]
  generalize hU : env.DYNAMIC_FEE_PER_KB_BASE_FEE * env.BLOCK_SIZE_GROWTH_FAVORED_ZONE / M = U
  have hUfee : U ≤ env.DYNAMIC_FEE_PER_KB_BASE_FEE := by
    rw [← hU]
    apply Nat.div_le_of_le_mul
    rw [Nat.mul_comm M]
    exact Nat.mul_le_mul_left _ hMz
  have hU64 : U < UINT64_RANGE := by
    have : env.DYNAMIC_FEE_PER_KB_BASE_FEE < UINT64_RANGE := by
      unfold UINT64_RANGE; omega
    omega
  have hUR : U * R < UINT64_RANGE * UINT64_RANGE :=
    Nat.mul_lt_mul'' hU64 hR64
  have hmul : mul128 U R = (U * R / UINT64_RANGE, U * R % UINT64_RANGE) := by
    unfold mul128
    simp only [Nat.mod_eq_of_lt hU64, Nat.mod_eq_of_lt hR64]
  rw [hmul]
  simp only
  rw [div128_32_eq _ _ _ (Nat.div_lt_of_lt_mul hUR) (Nat.mod_lt _ (by unfold UINT64_RANGE; omega)) h32]
  simp only
  have hq1 : U * R / UINT64_RANGE * UINT64_RANGE + U * R % UINT64_RANGE = U * R :=
    Nat.div_add_mod' _ _
  rw [hq1]
  generalize hQ : U * R / (env.DYNAMIC_FEE_PER_KB_BASE_BLOCK_REWARD / 1000000) = Q
  have hQle : Q ≤ U * R := by rw [← hQ]; exact Nat.div_le_self _ _
  rw [div128_32_eq _ _ _ (Nat.div_lt_of_lt_mul (by omega))
    (Nat.mod_lt _ (by unfold UINT64_RANGE; omega)) (by omega)]
  simp only
  rw [Nat.div_add_mod' Q UINT64_RANGE, ← hQ, Nat.div_div_eq_div_mul,
    Nat.div_mul_cancel (Nat.dvd_of_mod_eq_zero hdiv)]
  apply Nat.mod_eq_of_lt
  apply Nat.lt_of_le_of_lt _ hR64
  apply Nat.div_le_of_le_mul
  calc U * R ≤ env.DYNAMIC_FEE_PER_KB_BASE_FEE * R := Nat.mul_le_mul_right _ hUfee
    _ ≤ env.DYNAMIC_FEE_PER_KB_BASE_BLOCK_REWARD * R := Nat.mul_le_mul_right _ hfee

/-- C35: under the static assertions on the constants (with a constant
product that fits in 64 bits and a base fee not above the base block reward)
`get_dynamic_per_kb_fee (block_reward, median)` equals
`U * max (block_reward, BASE_BLOCK_REWARD) / BASE_BLOCK_REWARD` with
`U = BASE_FEE * FAVORED_ZONE / max (median, FAVORED_ZONE)` for every 64-bit
reward; it is never below `U`, does not decrease when the reward grows and does
not increase when the median grows. -/
theorem get_dynamic_per_kb_fee_spec (env : Env) (block_reward median_block_size : Nat)
    (hzone : 0 < env.BLOCK_SIZE_GROWTH_FAVORED_ZONE)
    (hbase : 0 < env.DYNAMIC_FEE_PER_KB_BASE_BLOCK_REWARD)
    (hdiv : env.DYNAMIC_FEE_PER_KB_BASE_BLOCK_REWARD % 1000000 = 0)
    (h32 : env.DYNAMIC_FEE_PER_KB_BASE_BLOCK_REWARD / 1000000 < 4294967296)
    (hprod : env.DYNAMIC_FEE_PER_KB_BASE_FEE * env.BLOCK_SIZE_GROWTH_FAVORED_ZONE < UINT64_RANGE)
    (hfee : env.DYNAMIC_FEE_PER_KB_BASE_FEE ≤ env.DYNAMIC_FEE_PER_KB_BASE_BLOCK_REWARD)
    (hreward : block_reward < UINT64_RANGE) :
    get_dynamic_per_kb_fee env block_reward median_block_size
      = env.DYNAMIC_FEE_PER_KB_BASE_FEE * env.BLOCK_SIZE_GROWTH_FAVORED_ZONE
          / max median_block_size env.BLOCK_SIZE_GROWTH_FAVORED_ZONE
        * max block_reward env.DYNAMIC_FEE_PER_KB_BASE_BLOCK_REWARD
        / env.DYNAMIC_FEE_PER_KB_BASE_BLOCK_REWARD
    ∧ env.DYNAMIC_FEE_PER_KB_BASE_FEE * env.BLOCK_SIZE_GROWTH_FAVORED_ZONE
          / max median_block_size env.BLOCK_SIZE_GROWTH_FAVORED_ZONE
        ≤ get_dynamic_per_kb_fee env block_reward median_block_size
    ∧ get_dynamic_per_kb_fee env env.DYNAMIC_FEE_PER_KB_BASE_BLOCK_REWARD median_block_size
        = env.DYNAMIC_FEE_PER_KB_BASE_FEE * env.BLOCK_SIZE_GROWTH_FAVORED_ZONE
          / max median_block_size env.BLOCK_SIZE_GROWTH_FAVORED_ZONE
    ∧ (∀ larger_reward, block_reward ≤ larger_reward → larger_reward < UINT64_RANGE →
        get_dynamic_per_kb_fee env block_reward median_block_size
          ≤ get_dynamic_per_kb_fee env larger_reward median_block_size)
    ∧ (∀ larger_median, median_block_size ≤ larger_median →
        get_dynamic_per_kb_fee env block_reward larger_median
          ≤ get_dynamic_per_kb_fee env block_reward median_block_size) := by
  have hB64 : env.DYNAMIC_FEE_PER_KB_BASE_BLOCK_REWARD < UINT64_RANGE := by
    unfold UINT64_RANGE; omega
  refine ⟨get_dynamic_per_kb_fee_eq env _ _ hbase hdiv h32 hprod hfee hreward, ?_, ?_, ?_, ?_⟩
  · rw [get_dynamic_per_kb_fee_eq env _ _ hbase hdiv h32 hprod hfee hreward]
    rw [Nat.le_div_iff_mul_le hbase]
    exact Nat.mul_le_mul_left _ (le_max_right _ _)
  · rw [get_dynamic_per_kb_fee_eq env _ _ hbase hdiv h32 hprod hfee hB64, max_self,
      Nat.mul_div_cancel _ hbase]
  · intro r2 hle hr2
    rw [get_dynamic_per_kb_fee_eq env _ _ hbase hdiv h32 hprod hfee hreward,
      get_dynamic_per_kb_fee_eq env _ _ hbase hdiv h32 hprod hfee hr2]
    apply Nat.div_le_div_right
    apply Nat.mul_le_mul_left
    exact max_le_max hle (le_refl _)
  · intro m2 hle
    rw [get_dynamic_per_kb_fee_eq env _ _ hbase hdiv h32 hprod hfee hreward,
      get_dynamic_per_kb_fee_eq env _ _ hbase hdiv h32 hprod hfee hreward]
    apply Nat.div_le_div_right
    apply Nat.mul_le_mul_right
    apply Nat.div_le_div_left (max_le_max hle (le_refl _))
    exact Nat.lt_of_lt_of_le hzone (le_max_right _ _)

theorem get_dynamic_per_kb_fee_spec_witness :
    get_dynamic_per_kb_fee sample_env 25000000000000 120000 = 2500000000 :=
  (get_dynamic_per_kb_fee_spec sample_env 25000000000000 120000 (by decide) (by decide)
    (by decide) (by decide) (by decide) (by decide) (by decide)).1.trans (by decide)

/-! ## C28, C29, C30, C38: the short chain history and the split point -/

theorem short_history_back_offset_succ (k : Nat) :
    short_history_back_offset (k + 1)
      = short_history_back_offset k + (if k < 10 then 1 else 2 ^ (k - 9)) := by
  unfold short_history_back_offset
  by_cases h : k < 10
  · rw [if_pos (by omega), if_pos (by omega), if_pos h]
  · by_cases h10 : k = 10
    · subst h10; rfl
    · rw [if_neg (by omega), if_neg (by omega), if_neg h]
      have : k + 1 - 9 = (k - 9) + 1 := by omega
      rw [this, pow_succ]
      omega

theorem short_history_back_offset_strictMono : StrictMono short_history_back_offset := by
  apply strictMono_nat_of_lt_succ
  intro k
  rw [short_history_back_offset_succ]
  have : 0 < (if k < 10 then 1 else 2 ^ (k - 9)) := by
    split
    · omega
    · exact Nat.two_pow_pos _
  omega

theorem short_history_back_offset_gt (k : Nat) : k < short_history_back_offset k := by
  unfold short_history_back_offset
  split
  · omega
  · have : k - 9 < 2 ^ (k - 9) := Nat.lt_two_pow _
    omega

/-- The loop of `get_short_chain_history`, entered at iteration `k` with the
`k`-th back-offset, runs `m` more iterations when the next `m` back-offsets
are below `sz` and the one after is not, and pushes one hash for each. -/
theorem short_chain_history_loop_eq (db : BlockchainDB) (sz : Nat)
    (hsz : sz ≤ 9223372036854775808) :
    ∀ (m fuel k : Nat) (ids : List crypto.hash),
      (∀ j, k ≤ j → j < k + m → short_history_back_offset j < sz) →
      sz ≤ short_history_back_offset (k + m) →
      m < fuel →
      short_chain_history_loop db sz fuel k (2 ^ (k - 10)) (short_history_back_offset k) ids false
        = some (ids ++ (List.range' k m).map (fun j =>
            db.get_block_hash_from_height (sz - short_history_back_offset j)), false) := by
  intro m
  induction m with
  | zero =>
    intro fuel k ids _ hstop hfuel
    obtain ⟨f, rfl⟩ : ∃ f, fuel = f + 1 := ⟨fuel - 1, by omega⟩
    unfold short_chain_history_loop
    rw [if_neg (by simpa using hstop)]
    simp
  | succ m ih =>
    intro fuel k ids hbelow hstop hfuel
    obtain ⟨f, rfl⟩ : ∃ f, fuel = f + 1 := ⟨fuel - 1, by omega⟩
    have hk : short_history_back_offset k < sz := hbelow k (le_refl _) (by omega)
    have hklt : k < sz := Nat.lt_trans (short_history_back_offset_gt k) hk
    unfold short_chain_history_loop
    rw [if_pos hk]
    simp only
    rw [if_neg (show ¬ (sz - short_history_back_offset k = 0) by omega)]
    have hi : add64 k 1 = k + 1 := by
      apply add64_of_lt; unfold UINT64_RANGE; omega
    have hnext := short_history_back_offset_succ k
    have hrec := ih f (k + 1) (ids ++ [db.get_block_hash_from_height
      (sz - short_history_back_offset k)])
      (fun j h1 h2 => hbelow j (by omega) (by omega))
      (by rw [show k + 1 + m = k + (m + 1) by omega]; exact hstop) (by omega)
    have hlist : ids ++ (List.range' k (m + 1)).map (fun j =>
        db.get_block_hash_from_height (sz - short_history_back_offset j))
        = ids ++ [db.get_block_hash_from_height (sz - short_history_back_offset k)]
          ++ (List.range' (k + 1) m).map (fun j =>
            db.get_block_hash_from_height (sz - short_history_back_offset j)) := by
      rw [List.range'_succ]
      simp
    rw [hlist, ← hrec]
    by_cases h10 : k < 10
    · simp only [h10, ↓reduceIte] at hnext ⊢
      rw [hi]
      have hoff : add64 (short_history_back_offset k) 1 = short_history_back_offset (k + 1) := by
        rw [hnext]; apply add64_of_lt; unfold UINT64_RANGE; omega
      rw [hoff]
      have e1 : k - 10 = 0 := by omega
      have e2 : k + 1 - 10 = 0 := by omega
      rw [e1, e2]
    · simp only [h10, ↓reduceIte] at hnext ⊢
      rw [hi]
      have hpow : 2 ^ (k - 9) = 2 ^ (k - 10) * 2 := by
        rw [show k - 9 = (k - 10) + 1 by omega, pow_succ]
      have hoffk : short_history_back_offset k = 9 + 2 ^ (k - 9) ∨ k = 10 := by
        unfold short_history_back_offset
        by_cases h : k ≤ 10
        · right; omega
        · left; rw [if_neg h]
      have hpowlt : 2 ^ (k - 9) < sz := by
        rcases hoffk with h | h
        · omega
        · subst h
          have : short_history_back_offset 10 = 11 := rfl
          have : (2:Nat) ^ (10 - 9) = 2 := rfl
          omega
      have hmul : mul64 (2 ^ (k - 10)) 2 = 2 ^ (k - 9) := by
        rw [hpow]; apply mul64_of_lt; rw [← hpow]; unfold UINT64_RANGE; omega
      rw [hmul]
      have hoff : add64 (short_history_back_offset k) (2 ^ (k - 9))
          = short_history_back_offset (k + 1) := by
        rw [hnext]; apply add64_of_lt; unfold UINT64_RANGE; omega
      rw [hoff, show k + 1 - 10 = k - 9 by omega]

/-- The list produced by `get_short_chain_history` on a non-empty chain of
fewer than 2^63 blocks, given `fuel` of at least the chain height: the hashes at
`sz - d` for the back-offsets `d` below `sz`, then the genesis hash. -/
theorem get_short_chain_history_eq (db : BlockchainDB) (fuel : Nat) (ids : List crypto.hash)
    (hne : 0 < db.height) (hsz : db.height ≤ 9223372036854775808) (hfuel : db.height ≤ fuel) :
    ∃ n, (∀ k, k < n ↔ short_history_back_offset k < db.height)
      ∧ get_short_chain_history db fuel ids
        = some (ids ++ (List.range n).map (fun k =>
            db.get_block_hash_from_height (db.height - short_history_back_offset k))
          ++ [db.get_block_hash_from_height 0]) := by
  have hex : ∃ k, db.height ≤ short_history_back_offset k :=
    ⟨db.height, Nat.le_of_lt (short_history_back_offset_gt _)⟩
  refine ⟨Nat.find hex, ?_, ?_⟩
  · intro k
    constructor
    · intro hk
      exact Nat.lt_of_not_le (Nat.find_min hex hk)
    · intro hk
      by_contra hge
      have := short_history_back_offset_strictMono.monotone (Nat.le_of_not_lt hge)
      have := Nat.find_spec hex
      omega
  · have hn : Nat.find hex < db.height := by
      have h1 : Nat.find hex ≤ db.height - 1 := by
        apply Nat.find_min'
        have := short_history_back_offset_gt (db.height - 1)
        omega
      omega
    have hloop := short_chain_history_loop_eq db db.height hsz (Nat.find hex) fuel 0 ids
      (fun j _ hj => Nat.lt_of_not_le (Nat.find_min hex (by omega)))
      (by rw [Nat.zero_add]; exact Nat.find_spec hex) (by omega)
    have e0 : short_history_back_offset 0 = 1 := rfl
    rw [e0] at hloop
    have e1 : (2:Nat) ^ (0 - 10) = 1 := rfl
    rw [e1] at hloop
    unfold get_short_chain_history
    simp only
    rw [if_neg (by omega), hloop]
    simp [List.range_eq_range']

theorem get_block_hash_from_height_exists (db : BlockchainDB) (h : Nat) (hh : h < db.height) :
    db.block_exists (db.get_block_hash_from_height h) = true := by
  unfold BlockchainDB.height at hh
  unfold BlockchainDB.block_exists BlockchainDB.get_block_hash_from_height
  rw [List.get?_eq_get hh]
  simp only [List.any_eq_true]
  exact ⟨db.m_blocks.get ⟨h, hh⟩, List.get_mem _ _ _, by simp⟩

theorem get_block_hash_from_height_top (db : BlockchainDB) :
    db.get_block_hash_from_height (db.height - 1) = db.top_block_hash := by
  unfold BlockchainDB.get_block_hash_from_height BlockchainDB.top_block_hash BlockchainDB.height
  rw [List.getLast?_eq_getElem?, List.get?_eq_getElem?]

/-- C28: on an empty store `get_short_chain_history` leaves the list empty; on
a non-empty chain (of fewer than 2^63 blocks, with `fuel` of at least the chain
height) it returns the hashes at a list of heights whose first entry is the tip
height, whose last entry is height 0 and in which height 0 occurs once; the
hash at the tip height is the top block hash. -/
theorem get_short_chain_history_ends (db : BlockchainDB) (fuel : Nat)
    (hsz : db.height ≤ 9223372036854775808) (hfuel : db.height ≤ fuel) :
    (db.height = 0 → get_short_chain_history db fuel [] = some [])
    ∧ (0 < db.height → ∃ heights : List Nat,
        get_short_chain_history db fuel [] = some (heights.map db.get_block_hash_from_height)
        ∧ heights.head? = some (db.height - 1)
        ∧ heights.getLast? = some 0
        ∧ heights.count 0 = 1
        ∧ db.get_block_hash_from_height (db.height - 1) = db.top_block_hash) := by
  constructor
  · intro h0
    unfold get_short_chain_history
    simp [h0]
  · intro hne
    obtain ⟨n, hn, hres⟩ := get_short_chain_history_eq db fuel [] hne hsz hfuel
    refine ⟨(List.range n).map (fun k => db.height - short_history_back_offset k) ++ [0],
      ?_, ?_, ?_, ?_, get_block_hash_from_height_top db⟩
    · rw [hres]; simp
    · cases n with
      | zero =>
        have h1 : ¬ short_history_back_offset 0 < db.height := fun h => by
          have := (hn 0).2 h; omega
        have e0 : short_history_back_offset 0 = 1 := rfl
        have : db.height - 1 = 0 := by omega
        simp [this]
      | succ m =>
        have e0 : short_history_back_offset 0 = 1 := rfl
        simp [List.range_succ_eq_map, e0]
    · simp
    · rw [List.count_append]
      have hz : List.count 0 ((List.range n).map
          (fun k => db.height - short_history_back_offset k)) = 0 := by
        rw [List.count_eq_zero]
        intro hmem
        obtain ⟨k, hk, hk0⟩ := List.mem_map.1 hmem
        have := (hn k).1 (List.mem_range.1 hk)
        omega
      rw [hz]
      rfl

theorem get_short_chain_history_ends_witness :
    ∃ heights : List Nat,
      get_short_chain_history (sample_db_long 14) 14 []
        = some (heights.map (sample_db_long 14).get_block_hash_from_height)
      ∧ heights.head? = some 13 ∧ heights.getLast? = some 0 ∧ heights.count 0 = 1 :=
  let ⟨heights, h1, h2, h3, h4, _⟩ :=
    (get_short_chain_history_ends (sample_db_long 14) 14 (by decide) (by decide)).2 (by decide)
  ⟨heights, h1, h2, h3, h4⟩

/-- C29: on a non-empty chain of height `sz` (fewer than 2^63 blocks, `fuel` of
at least `sz`) the heights sampled by `get_short_chain_history` before the
final genesis entry are `sz - d` for the back-offsets `d` = 1, ..., 11, 13, 17,
25, ... (the gap doubles from 2 on) that are below `sz`, in this order; the
heights are strictly decreasing, every one of the 11 most recent heights that
exists is present, and the list has at most `12 + log2 sz` entries. -/
theorem get_short_chain_history_offsets (db : BlockchainDB) (fuel : Nat)
    (hne : 0 < db.height) (hsz : db.height ≤ 9223372036854775808) (hfuel : db.height ≤ fuel) :
    ∃ n, (∀ k, k < n ↔ short_history_back_offset k < db.height)
      ∧ get_short_chain_history db fuel []
        = some (((List.range n).map (fun k => db.height - short_history_back_offset k)
            ++ [0]).map db.get_block_hash_from_height)
      ∧ (∀ k, k ≤ 10 → short_history_back_offset k = k + 1)
      ∧ (∀ k, 10 ≤ k →
          short_history_back_offset (k + 1) = short_history_back_offset k + 2 ^ (k - 9))
      ∧ List.Pairwise (fun a b => b < a)
          ((List.range n).map (fun k => db.height - short_history_back_offset k) ++ [0])
      ∧ (∀ d, 1 ≤ d → d ≤ 11 → d < db.height →
          db.height - d ∈ (List.range n).map (fun k => db.height - short_history_back_offset k))
      ∧ n + 1 ≤ 12 + Nat.log2 db.height := by
  obtain ⟨n, hn, hres⟩ := get_short_chain_history_eq db fuel [] hne hsz hfuel
  refine ⟨n, hn, ?_, ?_, ?_, ?_, ?_, ?_⟩
  · rw [hres]; simp
  · intro k hk
    unfold short_history_back_offset
    rw [if_pos hk]
  · intro k hk
    rw [short_history_back_offset_succ, if_neg (by omega)]
  · rw [List.pairwise_append]
    refine ⟨?_, List.pairwise_singleton _ _, ?_⟩
    · rw [List.pairwise_map]
      have hr : List.Pairwise (fun a b => a < b) (List.range n) := List.pairwise_lt_range n
      refine hr.imp_of_mem ?_
      intro a b ha hb hab
      have h1 := (hn a).1 (List.mem_range.1 ha)
      have h2 := (hn b).1 (List.mem_range.1 hb)
      have h3 := short_history_back_offset_strictMono hab
      omega
    · intro a ha b hb
      obtain ⟨k, hk, rfl⟩ := List.mem_map.1 ha
      have := (hn k).1 (List.mem_range.1 hk)
      simp only [List.mem_singleton] at hb
      omega
  · intro d hd1 hd11 hds
    refine List.mem_map.2 ⟨d - 1, List.mem_range.2 ((hn (d - 1)).2 ?_), ?_⟩
    · unfold short_history_back_offset
      rw [if_pos (by omega)]
      omega
    · unfold short_history_back_offset
      rw [if_pos (by omega)]
      congr 1
      omega
  · by_cases h11 : n ≤ 11
    · omega
    · have hlast := (hn (n - 1)).1 (by omega)
      unfold short_history_back_offset at hlast
      rw [if_neg (by omega)] at hlast
      have hpow : 2 ^ (n - 10) ≤ db.height := by
        rw [show n - 1 - 9 = n - 10 by omega] at hlast
        omega
      have := (Nat.le_log2 (by omega)).2 hpow
      omega

theorem get_short_chain_history_offsets_witness :
    ∃ n, get_short_chain_history (sample_db_long 14) 14 []
      = some (((List.range n).map (fun k => (sample_db_long 14).height
          - short_history_back_offset k) ++ [0]).map
            (sample_db_long 14).get_block_hash_from_height)
      ∧ n + 1 ≤ 12 + Nat.log2 (sample_db_long 14).height :=
  let ⟨n, _, h2, _, _, _, _, h7⟩ :=
    get_short_chain_history_offsets (sample_db_long 14) 14 (by decide) (by decide) (by decide)
  ⟨n, h2, h7⟩

/-- C38: on a non-empty chain (fewer than 2^63 blocks, `fuel` of at least the
chain height) whose store finds the hash stored at height `h` at height `h`,
the list produced by `get_short_chain_history` makes
`find_blockchain_supplement` return true with `starter_offset` set to the tip
height. -/
theorem find_blockchain_supplement_of_short_chain_history (db : BlockchainDB)
    (fuel starter_offset : Nat)
    (hne : 0 < db.height) (hsz : db.height ≤ 9223372036854775808) (hfuel : db.height ≤ fuel)
    (hunique : ∀ h, h < db.height → db.get_block_height (db.get_block_hash_from_height h) = h) :
    ∃ ids, get_short_chain_history db fuel [] = some ids
      ∧ find_blockchain_supplement db ids starter_offset = (true, db.height - 1) := by
  obtain ⟨n, hn, hres⟩ := get_short_chain_history_eq db fuel [] hne hsz hfuel
  refine ⟨_, hres, ?_⟩
  have hhead : ∃ rest, [] ++ (List.range n).map (fun k =>
      db.get_block_hash_from_height (db.height - short_history_back_offset k))
      ++ [db.get_block_hash_from_height 0]
      = db.get_block_hash_from_height (db.height - 1) :: rest := by
    cases n with
    | zero =>
      have h1 : ¬ short_history_back_offset 0 < db.height := fun h => by
        have := (hn 0).2 h; omega
      have e0 : short_history_back_offset 0 = 1 := rfl
      have : db.height - 1 = 0 := by omega
      exact ⟨[], by simp [this]⟩
    | succ m =>
      have e0 : short_history_back_offset 0 = 1 := rfl
      exact ⟨_, by simp [List.range_succ_eq_map, e0]; rfl⟩
  obtain ⟨rest, hrest⟩ := hhead
  have hlast : ([] ++ (List.range n).map (fun k =>
      db.get_block_hash_from_height (db.height - short_history_back_offset k))
      ++ [db.get_block_hash_from_height 0]).getLast?
      = some (db.get_block_hash_from_height 0) := by simp
  unfold find_blockchain_supplement
  rw [hrest] at hlast ⊢
  rw [if_neg (by simp)]
  simp only
  rw [if_neg (not_not.2 hlast)]
  have hex := get_block_hash_from_height_exists db (db.height - 1) (by omega)
  rw [List.find?_cons_of_pos _ hex]
  simp only
  rw [hunique _ (by omega)]

theorem find_blockchain_supplement_of_short_chain_history_witness :
    ∃ ids, get_short_chain_history (sample_db_long 14) 14 [] = some ids
      ∧ find_blockchain_supplement (sample_db_long 14) ids 0 = (true, 13) :=
  find_blockchain_supplement_of_short_chain_history (sample_db_long 14) 14 0
    (by decide) (by decide) (by decide) (by decide)

/-! ## C31: the full-block supplement -/

/-- The loop of the full-block `find_blockchain_supplement` when every stored
block parses with its transactions present: it succeeds and pushes the entries
of `n` consecutive heights, where `n` is cut by the tip, by `max_count` and by
the size cap once three entries are there. -/
theorem find_blockchain_supplement_loop_spec (env : Env) (db : BlockchainDB)
    (total_height max_count : Nat)
    (hfound : ∀ i, i < total_height → supplement_entry_found env db i = true) :
    ∀ (fuel i count size : Nat) (blocks : List (List Nat × List (List Nat))),
      total_height - i ≤ fuel →
      ∃ n, find_blockchain_supplement_loop env db total_height max_count fuel i count size blocks
          = (true, blocks ++ (List.range' i n).map (supplement_entry env db))
        ∧ i + n ≤ max i total_height
        ∧ count + n ≤ max count max_count
        ∧ (∀ j, j < n → supplement_size env db i size j < FIND_BLOCKCHAIN_SUPPLEMENT_MAX_SIZE
            ∨ count + j < 3)
        ∧ (i + n < total_height → count + n < max_count →
            FIND_BLOCKCHAIN_SUPPLEMENT_MAX_SIZE ≤ supplement_size env db i size n
              ∧ 3 ≤ count + n) := by
  intro fuel
  induction fuel with
  | zero =>
    intro i count size blocks hfuel
    refine ⟨0, by simp [find_blockchain_supplement_loop], by omega, by omega, ?_, ?_⟩
    · intro j hj; omega
    · intro h; omega
  | succ fuel ih =>
    intro i count size blocks hfuel
    by_cases hc : (decide (i < total_height) && decide (count < max_count)
        && (decide (size < FIND_BLOCKCHAIN_SUPPLEMENT_MAX_SIZE) || decide (count < 3))) = true
    · have hc2 := hc
      simp only [Bool.and_eq_true, Bool.or_eq_true, decide_eq_true_eq] at hc2
      obtain ⟨⟨hi, hcount⟩, hsize⟩ := hc2
      have hf := hfound i hi
      unfold supplement_entry_found at hf
      cases hp : env.parse_and_validate_block_from_blob (env.get_block_blob_from_height db i) with
      | none => rw [hp] at hf; cases hf
      | some b =>
        rw [hp] at hf
        have hmis : (get_transactions_blobs env db b.tx_hashes [] []).2.length = 0 := by
          simpa using hf
        have hentry : supplement_entry env db i
            = (env.get_block_blob_from_height db i,
                (get_transactions_blobs env db b.tx_hashes [] []).1) := by
          unfold supplement_entry
          simp only [hp]
        obtain ⟨n, hrun, hn1, hn2, hn3, hn4⟩ := ih (i + 1) (count + 1)
          ((get_transactions_blobs env db b.tx_hashes [] []).1.foldl
            (fun s t => add64 s t.length)
            (add64 size (env.get_block_blob_from_height db i).length))
          (blocks ++ [(env.get_block_blob_from_height db i,
            (get_transactions_blobs env db b.tx_hashes [] []).1)]) (by omega)
        refine ⟨n + 1, ?_, by omega, by omega, ?_, ?_⟩
        · unfold find_blockchain_supplement_loop
          rw [if_pos hc]
          simp only [hp]
          rw [if_neg (not_not.2 hmis), hrun, List.range'_succ, List.map_cons, hentry]
          simp
        · intro j hj
          cases j with
          | zero =>
            rcases hsize with h | h
            · left; exact h
            · right; omega
          | succ j =>
            have := hn3 j (by omega)
            unfold supplement_size
            rw [hentry]
            simp only
            rcases this with h | h
            · left; exact h
            · right; omega
        · intro h1 h2
          have := hn4 (by omega) (by omega)
          unfold supplement_size
          rw [hentry]
          simp only
          exact ⟨this.1, by omega⟩
    · refine ⟨0, ?_, by omega, by omega, ?_, ?_⟩
      · unfold find_blockchain_supplement_loop
        rw [if_neg hc]
        simp
      · intro j hj; omega
      · intro h1 h2
        simp only [Bool.and_eq_true, Bool.or_eq_true, decide_eq_true_eq, not_and, not_or] at hc
        have := hc ⟨by omega, by omega⟩
        unfold supplement_size
        omega

theorem find_blockchain_supplement_lt (db : BlockchainDB) (qblock_ids : List crypto.hash)
    (starter_offset s : Nat)
    (h : find_blockchain_supplement db qblock_ids starter_offset = (true, s)) :
    s < db.height := by
  unfold find_blockchain_supplement at h
  split at h
  · cases h
  · simp only at h
    split at h
    · cases h
    · split at h
      · cases h
      · rename_i x hx
        have hp := List.find?_some hx
        simp only [Prod.mk.injEq, true_and] at h
        rw [← h]
        unfold BlockchainDB.get_block_height BlockchainDB.height
        apply List.findIdx_lt_length_of_exists
        unfold BlockchainDB.block_exists at hp
        simpa using hp

/-- A call of the full-block `find_blockchain_supplement` with `max_count` 2 on
a chain that holds 13 blocks from the start height: it succeeds and returns 2
blocks, fewer than 3. -/
theorem find_blockchain_supplement_blocks_max_count_two :
    (find_blockchain_supplement_blocks sample_env (sample_db_long 14) 1 [] [] 0 0 2).ok = true
    ∧ (find_blockchain_supplement_blocks sample_env (sample_db_long 14) 1 [] [] 0 0 2).start_height
        = 1
    ∧ 3 ≤ (sample_db_long 14).height - 1
    ∧ (find_blockchain_supplement_blocks sample_env (sample_db_long 14) 1 [] [] 0 0 2).blocks.length
        = 2 := by
  decide

/-- C31 (amended): when every stored block parses with its transactions
present and the start height `s` is found (a requested height below the chain
height, or the split point of `qblock_ids`), the full-block
`find_blockchain_supplement` returns true and appends the entries of `n`
consecutive main-chain heights from `s`, with `n ≤ max_count` and
`s + n ≤ height`; an entry is added only while the accumulated size is below
100 MB or fewer than 3 entries were added, the loop stops short of the tip and
of `max_count` only once the size has reached 100 MB with at least 3 entries,
and so at least `min (3, max_count, height - s)` entries are returned. -/
theorem find_blockchain_supplement_blocks_spec (env : Env) (db : BlockchainDB)
    (req_start_block : Nat) (qblock_ids : List crypto.hash)
    (blocks : List (List Nat × List (List Nat))) (total_height start_height max_count s : Nat)
    (hfound : ∀ i, i < db.height → supplement_entry_found env db i = true)
    (hstart : (0 < req_start_block ∧ req_start_block < db.height ∧ s = req_start_block)
      ∨ (req_start_block = 0
          ∧ find_blockchain_supplement db qblock_ids start_height = (true, s))) :
    ∃ n, find_blockchain_supplement_blocks env db req_start_block qblock_ids blocks total_height
          start_height max_count
        = { ok := true, blocks := blocks ++ (List.range' s n).map (supplement_entry env db),
            total_height := db.height, start_height := s }
      ∧ n ≤ max_count
      ∧ s + n ≤ db.height
      ∧ (∀ j, j < n → supplement_size env db s 0 j < FIND_BLOCKCHAIN_SUPPLEMENT_MAX_SIZE ∨ j < 3)
      ∧ (s + n < db.height → n < max_count →
          FIND_BLOCKCHAIN_SUPPLEMENT_MAX_SIZE ≤ supplement_size env db s 0 n ∧ 3 ≤ n)
      ∧ min 3 (min max_count (db.height - s)) ≤ n := by
  have hs : s < db.height := by
    rcases hstart with ⟨_, h2, h3⟩ | ⟨_, h2⟩
    · omega
    · exact find_blockchain_supplement_lt db qblock_ids start_height s h2
  have hphase : (if req_start_block > 0 then
        if req_start_block ≥ db.height then none else some req_start_block
      else
        if !(find_blockchain_supplement db qblock_ids start_height).1 then none
        else some (find_blockchain_supplement db qblock_ids start_height).2) = some s := by
    rcases hstart with ⟨h1, h2, h3⟩ | ⟨h1, h2⟩
    · rw [if_pos h1, if_neg (by omega), h3]
    · rw [if_neg (by omega), h2]
      rfl
  obtain ⟨n, hrun, hn1, hn2, hn3, hn4⟩ := find_blockchain_supplement_loop_spec env db db.height
    max_count hfound (db.height - s) s 0 0 blocks (le_refl _)
  refine ⟨n, ?_, by omega, by omega, ?_, ?_, ?_⟩
  · unfold find_blockchain_supplement_blocks
    simp only [hphase, hrun]
  · intro j hj
    rcases hn3 j hj with h | h
    · left; exact h
    · right; omega
  · intro h1 h2
    have := hn4 h1 (by omega)
    exact ⟨this.1, by omega⟩
  · by_cases h1 : s + n < db.height
    · by_cases h2 : n < max_count
      · have := hn4 h1 (by omega)
        omega
      · omega
    · omega

theorem find_blockchain_supplement_blocks_spec_witness :
    ∃ n, find_blockchain_supplement_blocks sample_env (sample_db_long 14) 1 [] [] 0 0 5
        = { ok := true,
            blocks := [] ++ (List.range' 1 n).map (supplement_entry sample_env (sample_db_long 14)),
            total_height := (sample_db_long 14).height, start_height := 1 }
      ∧ min 3 (min 5 ((sample_db_long 14).height - 1)) ≤ n :=
  let ⟨n, h1, _, _, _, _, h6⟩ :=
    find_blockchain_supplement_blocks_spec sample_env (sample_db_long 14) 1 [] [] 0 0 5 1
      (by decide) (Or.inl ⟨by decide, by decide, rfl⟩)
  ⟨n, h1, h6⟩

/-! ## C32: the future-time and Poisson checks of a reorganisation -/

theorem poisson_checks_eq (env : Env) (db : BlockchainDB) (alt_chain_size high_timestamp : Nat) :
    ∀ (remaining i : Nat) (low_block : crypto.hash) (failed_checks : Nat),
      poisson_checks env db alt_chain_size high_timestamp remaining i low_block failed_checks
        = (probed_predecessors db remaining low_block).map (fun l =>
            (failed_checks + poisson_failed_checks env alt_chain_size high_timestamp i l,
              i + l.length)) := by
  intro remaining
  induction remaining with
  | zero =>
    intro i low_block failed_checks
    simp [poisson_checks, probed_predecessors, poisson_failed_checks]
  | succ remaining ih =>
    intro i low_block failed_checks
    unfold poisson_checks probed_predecessors
    by_cases hnull : low_block = crypto.null_hash
    · rw [if_pos hnull, if_pos hnull]
      simp [poisson_failed_checks]
    · rw [if_neg hnull, if_neg hnull]
      cases hh : db.get_block_header low_block with
      | none => rfl
      | some bhd =>
        simp only
        by_cases h1 : bhd.bl.timestamp ≥ high_timestamp
        · rw [if_pos h1, ih]
          cases probed_predecessors db remaining bhd.bl.prev_id with
          | none => rfl
          | some l =>
            simp only [Option.map_some', poisson_failed_checks, List.length_cons]
            rw [if_pos (Or.inl h1)]
            congr 2 <;> omega
        · rw [if_neg h1]
          by_cases h2 : env.poisson_ln_below_reject (high_timestamp - bhd.bl.timestamp)
              (add64 alt_chain_size i) = true
          · rw [if_pos h2, ih]
            cases probed_predecessors db remaining bhd.bl.prev_id with
            | none => rfl
            | some l =>
              simp only [Option.map_some', poisson_failed_checks, List.length_cons]
              rw [if_pos (Or.inr h2)]
              congr 2 <;> omega
          · rw [if_neg h2, ih]
            cases probed_predecessors db remaining bhd.bl.prev_id with
            | none => rfl
            | some l =>
              simp only [Option.map_some', poisson_failed_checks, List.length_cons]
              rw [if_neg (by rintro (h | h); exact h1 h; exact h2 h)]
              congr 2 <;> omega

theorem foldl_max_timestamp_ge (l : List alt_entry) (init : Nat) :
    init ≤ l.foldl
      (fun high e => if high < e.2.bl.timestamp then e.2.bl.timestamp else high) init := by
  induction l generalizing init with
  | nil => exact le_refl _
  | cons e rest ih =>
    simp only [List.foldl_cons]
    refine le_trans ?_ (ih _)
    split <;> omega

theorem alt_chain_high_timestamp_ge_back (env : Env) (db : BlockchainDB)
    (alt_chain : List alt_entry) (back : alt_entry) (h : alt_chain.getLast? = some back) :
    back.2.bl.timestamp ≤ alt_chain_high_timestamp env db alt_chain := by
  unfold alt_chain_high_timestamp
  rw [h]
  simp only
  split
  · exact foldl_max_timestamp_ge _ _
  · exact le_refl _

/-- A reorganisation onto ten alternative blocks that the checks reject
although the tip of the alternative chain is not beyond the future-time limit
and no Poisson test is below the reject threshold: the only probed predecessor,
the genesis block, has a timestamp that is not below the highest timestamp of
the alternative chain. -/
theorem switch_to_alternative_blockchain_rejects_equal_timestamps :
    sample_alt_chain_same_time.length ≥ sample_env.POISSON_CHECK_TRIGGER
    ∧ (∀ e ∈ sample_alt_chain_same_time, ¬ e.2.bl.timestamp
        > add64 sample_env.get_adjusted_time sample_env.BLOCK_FUTURE_TIME_LIMIT_V3)
    ∧ (∀ delta_t k, sample_env.poisson_ln_below_reject delta_t k = false)
    ∧ switch_to_alternative_blockchain sample_env sample_apply_alt_chain sample_chain_with_alt
        sample_alt_chain_same_time false
      = (call_outcome.returned false, sample_chain_with_alt) := by
  refine ⟨by decide, by decide, fun _ _ => rfl, by decide⟩

/-- C32 (amended): for an alternative chain of at least `POISSON_CHECK_TRIGGER`
blocks that connects to the main chain, with the probed headers `probed` read
without a store error, `switch_to_alternative_blockchain` returns false with
nothing popped when the highest timestamp of the alternative chain (its tip's
timestamp once `FORK_V4_DIFFICULTY` is active) exceeds adjusted time plus
`BLOCK_FUTURE_TIME_LIMIT_V3`, or when strictly more than half of the probed
predecessors have a timestamp not below that highest timestamp or a Poisson
test below the reject threshold; otherwise it goes on to apply the chain. A tip
timestamp beyond the limit is always rejected. -/
theorem switch_to_alternative_blockchain_checks (env : Env) (apply_alt_chain : switch_fn)
    (st : Blockchain) (alt_chain : List alt_entry) (discard_disconnected_chain : Bool)
    (front : alt_entry) (probed : List db_block)
    (hlen : alt_chain.length ≥ env.POISSON_CHECK_TRIGGER)
    (hfront : alt_chain.head? = some front)
    (hconnect : st.m_db.block_exists front.2.bl.prev_id = true)
    (hprobed : probed_predecessors st.m_db env.POISSON_CHECK_DEPTH front.2.bl.prev_id
      = some probed) :
    switch_to_alternative_blockchain env apply_alt_chain st alt_chain discard_disconnected_chain
      = (if alt_chain_high_timestamp env st.m_db alt_chain
            > add64 env.get_adjusted_time env.BLOCK_FUTURE_TIME_LIMIT_V3
          ∨ probed.length < 2 * poisson_failed_checks env alt_chain.length
              (alt_chain_high_timestamp env st.m_db alt_chain) 1 probed then
          (call_outcome.returned false, { st with m_timestamps_and_difficulties_height := 0 })
        else
          apply_alt_chain { st with m_timestamps_and_difficulties_height := 0 } alt_chain
            discard_disconnected_chain)
    ∧ probed.length ≤ env.POISSON_CHECK_DEPTH
    ∧ (∀ back, alt_chain.getLast? = some back →
        back.2.bl.timestamp > add64 env.get_adjusted_time env.BLOCK_FUTURE_TIME_LIMIT_V3 →
        switch_to_alternative_blockchain env apply_alt_chain st alt_chain
            discard_disconnected_chain
          = (call_outcome.returned false,
              { st with m_timestamps_and_difficulties_height := 0 })) := by
  have hmain : switch_to_alternative_blockchain env apply_alt_chain st alt_chain
      discard_disconnected_chain
      = (if alt_chain_high_timestamp env st.m_db alt_chain
            > add64 env.get_adjusted_time env.BLOCK_FUTURE_TIME_LIMIT_V3
          ∨ probed.length < 2 * poisson_failed_checks env alt_chain.length
              (alt_chain_high_timestamp env st.m_db alt_chain) 1 probed then
          (call_outcome.returned false, { st with m_timestamps_and_difficulties_height := 0 })
        else
          apply_alt_chain { st with m_timestamps_and_difficulties_height := 0 } alt_chain
            discard_disconnected_chain) := by
    unfold switch_to_alternative_blockchain
    simp only [hfront]
    rw [if_neg (by simp [hconnect]), if_pos hlen]
    by_cases hftl : alt_chain_high_timestamp env st.m_db alt_chain
        > add64 env.get_adjusted_time env.BLOCK_FUTURE_TIME_LIMIT_V3
    · rw [if_pos hftl, if_pos (Or.inl hftl)]
    · rw [if_neg hftl, poisson_checks_eq, hprobed]
      simp only [Option.map_some', Nat.zero_add, Nat.add_sub_cancel_left]
      by_cases hp : poisson_failed_checks env alt_chain.length
          (alt_chain_high_timestamp env st.m_db alt_chain) 1 probed > probed.length / 2
      · rw [if_pos hp, if_pos (Or.inr (by omega))]
      · rw [if_neg hp, if_neg (by rintro (h | h); exact hftl h; omega)]
  refine ⟨hmain, ?_, ?_⟩
  · have : ∀ (n : Nat) (h : crypto.hash) (l : List db_block),
        probed_predecessors st.m_db n h = some l → l.length ≤ n := by
      intro n
      induction n with
      | zero =>
        intro h l hl
        simp only [probed_predecessors, Option.some.injEq] at hl
        rw [← hl]; exact le_refl _
      | succ n ih =>
        intro h l hl
        unfold probed_predecessors at hl
        split at hl
        · simp only [Option.some.injEq] at hl
          rw [← hl]; exact Nat.zero_le _
        · split at hl
          · cases hl
          · rename_i bhd _
            cases hr : probed_predecessors st.m_db n bhd.bl.prev_id with
            | none => rw [hr] at hl; cases hl
            | some l2 =>
              rw [hr] at hl
              simp only [Option.map_some', Option.some.injEq] at hl
              rw [← hl]
              have := ih _ _ hr
              simp only [List.length_cons]
              omega
    exact this _ _ _ hprobed
  · intro back hback hts
    rw [hmain, if_pos (Or.inl ?_)]
    exact Nat.lt_of_lt_of_le hts (alt_chain_high_timestamp_ge_back env st.m_db alt_chain back hback)

theorem switch_to_alternative_blockchain_checks_witness :
    switch_to_alternative_blockchain sample_env sample_apply_alt_chain sample_chain_with_alt
        sample_alt_chain_same_time false
      = (call_outcome.returned false,
          { sample_chain_with_alt with m_timestamps_and_difficulties_height := 0 }) :=
  (switch_to_alternative_blockchain_checks sample_env sample_apply_alt_chain
    sample_chain_with_alt sample_alt_chain_same_time false
    (201, { bl := { sample_block 201 100 1 [] [] with timestamp := 1500000000 },
            height := 1, block_cumulative_size := 0, cumulative_difficulty := 14,
            already_generated_coins := 0 })
    [{ bl := sample_block 100 0 0 [] [], id := 100, block_size := 11,
       cumulative_difficulty := 7, already_generated_coins := 0, txs := [] }]
    (by decide) (by decide) (by decide) (by decide)).1.trans (by decide)

/-! ## C26: the mix-ring and key-images written by `expand_transaction_2` -/

theorem vin_key_images_length : ∀ (vin : List txin_v) (kis : List crypto.key_image),
    vin_key_images vin = some kis → kis.length = vin.length
  | [], kis, h => by
    simp only [vin_key_images, Option.some.injEq] at h
    rw [← h]
    rfl
  | txin_v.txin_to_key _ _ k :: rest, kis, h => by
    unfold vin_key_images at h
    cases hr : vin_key_images rest with
    | none => rw [hr] at h; cases h
    | some ks =>
      rw [hr] at h
      simp only [Option.map_some', Option.some.injEq] at h
      rw [← h]
      simp [vin_key_images_length rest ks hr]
  | txin_v.txin_gen _ :: _, _, h => by simp [vin_key_images] at h
  | txin_v.txin_to_script :: _, _, h => by simp [vin_key_images] at h
  | txin_v.txin_to_scripthash :: _, _, h => by simp [vin_key_images] at h

theorem vin_key_images_get : ∀ (vin : List txin_v) (kis : List crypto.key_image),
    vin_key_images vin = some kis → ∀ n, n < vin.length →
      ∃ amount key_offsets, vin.get? n = some (txin_v.txin_to_key amount key_offsets (kis.getD n 0))
  | [], _, _, n, hn => by simp at hn
  | txin_v.txin_to_key a ko k :: rest, kis, h, n, hn => by
    unfold vin_key_images at h
    cases hr : vin_key_images rest with
    | none => rw [hr] at h; cases h
    | some ks =>
      rw [hr] at h
      simp only [Option.map_some', Option.some.injEq] at h
      rw [← h]
      cases n with
      | zero => exact ⟨a, ko, rfl⟩
      | succ n =>
        simp only [List.length_cons, Nat.add_lt_add_iff_right] at hn
        obtain ⟨a2, ko2, h2⟩ := vin_key_images_get rest ks hr n hn
        exact ⟨a2, ko2, by simpa using h2⟩
  | txin_v.txin_gen _ :: _, _, h, _, _ => by simp [vin_key_images] at h
  | txin_v.txin_to_script :: _, _, h, _, _ => by simp [vin_key_images] at h
  | txin_v.txin_to_scripthash :: _, _, h, _, _ => by simp [vin_key_images] at h

theorem filterMap_column (m : Nat) : ∀ (pubkeys : List (List ctkey)),
    (∀ row ∈ pubkeys, m < row.length) →
    (pubkeys.filterMap (fun row => row.get? m)).length = pubkeys.length
    ∧ ∀ n, (pubkeys.filterMap (fun row => row.get? m)).get? n = ring_entry pubkeys n m
  | [], _ => ⟨rfl, fun n => by simp [ring_entry]⟩
  | row :: rest, h => by
    have hrow : m < row.length := h row (List.mem_cons_self _ _)
    obtain ⟨ih1, ih2⟩ := filterMap_column m rest (fun r hr => h r (List.mem_cons_of_mem _ hr))
    have hget : row.get? m = some (row.get ⟨m, hrow⟩) := List.get?_eq_get hrow
    have hcons : (row :: rest).filterMap (fun row => row.get? m)
        = row.get ⟨m, hrow⟩ :: rest.filterMap (fun row => row.get? m) := by
      simp only [List.filterMap_cons, hget]
    rw [hcons]
    refine ⟨by rw [List.length_cons, List.length_cons, ih1], ?_⟩
    intro n
    cases n with
    | zero => simp [ring_entry, hget]
    | succ n =>
      have := ih2 n
      simp only [ring_entry, List.get?_cons_succ] at this ⊢
      exact this

/-- C26: for a version 2 or 3 transaction whose `I ≥ 1` inputs are all key
inputs with rings of one length `L ≥ 1`, `expand_transaction_2` succeeds and
sets the message to the prefix hash; for `RCTTypeFull` the mix-ring has `L`
rows of length `I` with `mixRing[m][n] = pubkeys[n][m]` and there is a single
MLSAG whose `II[n]` is the key-image of input `n`; for `RCTTypeSimple` and
`RCTTypeBulletproof` (with one MLSAG slot per input) the mix-ring is `pubkeys`
unchanged and MLSAG `n` carries exactly the key-image of input `n`. -/
theorem expand_transaction_2_spec (tx : transaction) (tx_prefix_hash : crypto.hash)
    (pubkeys : List (List ctkey)) (L : Nat) (kis : List crypto.key_image)
    (hversion : tx.version = 2 ∨ tx.version = 3)
    (hinputs : pubkeys.length = tx.vin.length) (hI : 0 < tx.vin.length)
    (hL : 0 < L) (hrings : ∀ row ∈ pubkeys, row.length = L)
    (hkeys : vin_key_images tx.vin = some kis) :
    (tx.rct_signatures.type = RCTType.RCTTypeFull →
      ∃ tx1, expand_transaction_2 tx tx_prefix_hash pubkeys = some tx1
        ∧ tx1.rct_signatures.message = tx_prefix_hash
        ∧ tx1.rct_signatures.mixRing.length = L
        ∧ (∀ row ∈ tx1.rct_signatures.mixRing, row.length = tx.vin.length)
        ∧ (∀ n m, n < tx.vin.length → m < L →
            ring_entry tx1.rct_signatures.mixRing m n = ring_entry pubkeys n m
            ∧ (ring_entry pubkeys n m).isSome = true)
        ∧ tx1.rct_signatures.MGs = [{ II := kis }]
        ∧ (∀ n, n < tx.vin.length → kis.get? n = vin_k_image tx n))
    ∧ ((tx.rct_signatures.type = RCTType.RCTTypeSimple
          ∨ tx.rct_signatures.type = RCTType.RCTTypeBulletproof) →
        tx.rct_signatures.MGs.length = tx.vin.length →
      ∃ tx1, expand_transaction_2 tx tx_prefix_hash pubkeys = some tx1
        ∧ tx1.rct_signatures.message = tx_prefix_hash
        ∧ tx1.rct_signatures.mixRing = pubkeys
        ∧ tx1.rct_signatures.MGs.length = tx.vin.length
        ∧ (∀ n, n < tx.vin.length →
            ∃ k, vin_k_image tx n = some k
              ∧ tx1.rct_signatures.MGs.get? n = some { II := [k] })) := by
  have hklen := vin_key_images_length tx.vin kis hkeys
  have hkget : ∀ n, n < tx.vin.length → kis.get? n = vin_k_image tx n
      ∧ vin_k_image tx n = some (kis.getD n 0) := by
    intro n hn
    obtain ⟨a, ko, hg⟩ := vin_key_images_get tx.vin kis hkeys n hn
    unfold vin_k_image
    rw [hg]
    simp only [and_true]
    rw [List.get?_eq_getElem?, List.getD_eq_getElem?_getD, List.getElem?_eq_getElem (by omega)]
    simp
  obtain ⟨first, others, hpk⟩ : ∃ first others, pubkeys = first :: others := by
    cases hp : pubkeys with
    | nil => rw [hp] at hinputs; simp at hinputs; omega
    | cons a b => exact ⟨a, b, rfl⟩
  have hfirst : first.length = L := hrings first (by rw [hpk]; exact List.mem_cons_self _ _)
  have hne : first.isEmpty = false := by
    cases first with
    | nil => simp at hfirst; omega
    | cons a b => rfl
  constructor
  · intro htype
    have hany : pubkeys.any (fun row => decide (row.length > first.length)) = false := by
      rw [List.any_eq_false]
      intro row hrow
      have := hrings row hrow
      simp only [decide_eq_true_eq]
      omega
    have hcol : ∀ m, m < L → (pubkeys.filterMap (fun row => row.get? m)).length = pubkeys.length
        ∧ ∀ n, (pubkeys.filterMap (fun row => row.get? m)).get? n = ring_entry pubkeys n m :=
      fun m hm => filterMap_column m pubkeys (fun row hrow => by rw [hrings row hrow]; exact hm)
    refine ⟨{ tx with rct_signatures :=
        { type := tx.rct_signatures.type, message := tx_prefix_hash,
          mixRing := (List.range first.length).map
            (fun m => pubkeys.filterMap (fun row => row.get? m)),
          MGs := [{ II := kis }], bulletproofs := tx.rct_signatures.bulletproofs } },
      ?_, rfl, ?_, ?_, ?_, rfl, fun n hn => (hkget n hn).1⟩
    · unfold expand_transaction_2
      rw [if_neg (not_not.2 hversion)]
      simp only [htype]
      subst hpk
      simp only [hne, hany, hkeys]
      rfl
    · simp [hfirst]
    · intro row hrow
      simp only [List.mem_map, List.mem_range] at hrow
      obtain ⟨m, hm, rfl⟩ := hrow
      rw [(hcol m (by omega)).1, hinputs]
    · intro n m hn hm
      constructor
      · simp only [ring_entry]
        rw [List.get?_eq_getElem?, List.getElem?_map,
          List.getElem?_range (by omega)]
        simp only [Option.map_some']
        have := (hcol m hm).2 n
        simp only [ring_entry] at this
        exact this
      · unfold ring_entry
        have hn2 : n < pubkeys.length := by omega
        rw [List.get?_eq_get hn2]
        simp only
        have hrow := hrings _ (List.get_mem pubkeys n hn2)
        rw [List.get?_eq_get (by omega)]
        rfl
  · intro htype hmgs
    refine ⟨{ tx with rct_signatures :=
        { type := tx.rct_signatures.type, message := tx_prefix_hash,
          mixRing := pubkeys,
          MGs := kis.map (fun k => { II := [k] }),
          bulletproofs := tx.rct_signatures.bulletproofs } },
      ?_, rfl, rfl, by simp [hklen], ?_⟩
    · unfold expand_transaction_2
      rw [if_neg (not_not.2 hversion)]
      subst hpk
      rcases htype with ht | ht <;>
        simp only [ht, hne, hmgs, hkeys] <;> simp
    · intro n hn
      refine ⟨kis.getD n 0, (hkget n hn).2, ?_⟩
      simp only
      rw [List.get?_eq_getElem?, List.getElem?_map, List.getElem?_eq_getElem (by omega)]
      simp [List.getD_eq_getElem?_getD, List.getElem?_eq_getElem (show n < kis.length by omega)]

theorem expand_transaction_2_spec_witness :
    ∃ tx1, expand_transaction_2 (sample_rct_tx RCTType.RCTTypeFull) 99 sample_pubkeys = some tx1
      ∧ tx1.rct_signatures.mixRing.length = 3
      ∧ tx1.rct_signatures.MGs = [{ II := [7, 5] }] :=
  let ⟨tx1, h1, _, h3, _, _, h6, _⟩ :=
    (expand_transaction_2_spec (sample_rct_tx RCTType.RCTTypeFull) 99 sample_pubkeys 3 [7, 5]
      (by decide) (by decide) (by decide) (by decide) (by decide) (by decide)).1 rfl
  ⟨tx1, h1, h3, h6⟩

/-! ## C24, C25, C39: the output scan -/

theorem relative_output_offsets_to_absolute_from_length (prev : Nat) (l : List Nat) :
    (relative_output_offsets_to_absolute_from prev l).length = l.length := by
  induction l generalizing prev with
  | nil => rfl
  | cons x rest ih => simp [relative_output_offsets_to_absolute_from, ih]

theorem relative_output_offsets_to_absolute_length (l : List Nat) :
    (relative_output_offsets_to_absolute l).length = l.length := by
  cases l with
  | nil => rfl
  | cons x rest =>
    simp [relative_output_offsets_to_absolute, relative_output_offsets_to_absolute_from_length]

/-- The visiting loop with the visitor of `check_tx_input`: when it succeeds,
the records it read are those of `scan_outputs_read`, every one of them is
unlocked, one key per record was pushed, and the pointee was raised by the
height of the record at position `total - 1` only. -/
theorem scan_outputs_visit_spec (env : Env) (db : BlockchainDB) (outputs : List output_data_t)
    (total : Nat) :
    ∀ (offsets : List Nat) (count : Nat) (keys : List ctkey) (pmax : Option Nat)
      (keys1 : List ctkey) (pmax1 : Option Nat),
      count + offsets.length = total →
      scan_outputs_visit env db (outputs_visitor env db) outputs total offsets count keys pmax
        = some (keys1, pmax1) →
      ∃ ring, scan_outputs_read env db outputs offsets count = some ring
        ∧ ring.length = offsets.length
        ∧ (∀ o ∈ ring, is_tx_spendtime_unlocked env db o.unlock_time = true)
        ∧ keys1 = keys ++ ring.map (fun o => { dest := o.pubkey, mask := o.commitment })
        ∧ pmax1 = (match ring.getLast? with
            | none => pmax
            | some o => pmax.map (fun p => if p < o.height then o.height else p)) := by
  intro offsets
  induction offsets with
  | nil =>
    intro count keys pmax keys1 pmax1 _ h
    simp only [scan_outputs_visit, Option.some.injEq, Prod.mk.injEq] at h
    exact ⟨[], rfl, rfl, by simp, by simp [h.1], by simp [h.2]⟩
  | cons i rest ih =>
    intro count keys pmax keys1 pmax1 hcount h
    unfold scan_outputs_visit at h
    unfold scan_outputs_read
    cases ho : (if count < outputs.length then outputs.get? count
        else env.get_output_key db 0 i) with
    | none => rw [ho] at h; cases h
    | some o =>
      rw [ho] at h
      simp only at h
      unfold outputs_visitor at h
      by_cases hu : is_tx_spendtime_unlocked env db o.unlock_time = true
      · simp only [hu, Bool.not_true, Bool.false_eq_true, ↓reduceIte] at h
        simp only [List.length_cons] at hcount
        obtain ⟨ring, hr1, hr2, hr3, hr4, hr5⟩ := ih (count + 1) _ _ keys1 pmax1 (by omega) h
        refine ⟨o :: ring, by simp [hr1], by simp [hr2], ?_, by simp [hr4], ?_⟩
        · intro x hx
          rcases List.mem_cons.1 hx with rfl | hx
          · exact hu
          · exact hr3 x hx
        · rw [hr5]
          cases ring with
          | nil =>
            simp only [List.length_nil] at hr2
            have : rest = [] := List.length_eq_zero.1 hr2.symm
            subst this
            simp only [List.length_nil, Nat.add_zero] at hcount
            simp [hcount]
          | cons a l =>
            have hlen : count + 1 ≠ total := by
              simp only [List.length_cons] at hr2
              omega
            simp [hlen, List.getLast?_cons_cons]
      · simp only [hu, Bool.not_false, ↓reduceIte] at h
        cases h

theorem scan_outputs_visit_env_congr {σ : Type} (env1 env2 : Env) (db : BlockchainDB)
    (h1 : env1.get_output_key = env2.get_output_key)
    (handle_output : σ → Nat → crypto.public_key → Nat → Option σ)
    (outputs : List output_data_t) (total : Nat) :
    ∀ (offsets : List Nat) (count : Nat) (vis : σ) (pmax : Option Nat),
      scan_outputs_visit env1 db handle_output outputs total offsets count vis pmax
        = scan_outputs_visit env2 db handle_output outputs total offsets count vis pmax := by
  intro offsets
  induction offsets with
  | nil => intro count vis pmax; rfl
  | cons i rest ih =>
    intro count vis pmax
    unfold scan_outputs_visit
    rw [h1]
    cases (if count < outputs.length then outputs.get? count else env2.get_output_key db 0 i) with
    | none => rfl
    | some o =>
      simp only
      cases handle_output vis o.unlock_time o.pubkey o.commitment with
      | none => rfl
      | some vis1 => simp only [ih]

/-- The method `check_tx_input` reads the environment only through the two
output lookups of the store and the unlock delta. -/
theorem check_tx_input_env_congr (env1 env2 : Env)
    (h1 : env1.get_output_key = env2.get_output_key)
    (h2 : env1.get_output_keys = env2.get_output_keys)
    (h3 : env1.CRYPTONOTE_LOCKED_TX_ALLOWED_DELTA_BLOCKS
      = env2.CRYPTONOTE_LOCKED_TX_ALLOWED_DELTA_BLOCKS)
    (table : List (crypto.hash × List (crypto.key_image × List output_data_t)))
    (db : BlockchainDB) (tx_version : Nat) (key_offsets : List Nat) (k_image : crypto.key_image)
    (tx_prefix_hash : crypto.hash) (sig_size : Nat) (pmax : Option Nat) :
    check_tx_input env1 table db tx_version key_offsets k_image tx_prefix_hash sig_size pmax
      = check_tx_input env2 table db tx_version key_offsets k_image tx_prefix_hash sig_size
          pmax := by
  have hv : outputs_visitor env1 db = outputs_visitor env2 db := by
    funext keys u p c
    unfold outputs_visitor is_tx_spendtime_unlocked
    rw [h3]
  have hp : scan_outputs_prefetch env1 table db tx_prefix_hash k_image
      (relative_output_offsets_to_absolute key_offsets)
      = scan_outputs_prefetch env2 table db tx_prefix_hash k_image
        (relative_output_offsets_to_absolute key_offsets) := by
    unfold scan_outputs_prefetch
    rw [h2]
  unfold check_tx_input scan_outputkeys_for_indexes
  rw [hv]
  simp only [hp]
  by_cases hk : key_offsets.length = 0
  · simp only [hk, ↓reduceIte]
  · simp only [hk, ↓reduceIte]
    cases scan_outputs_prefetch env2 table db tx_prefix_hash k_image
        (relative_output_offsets_to_absolute key_offsets) with
    | none => rfl
    | some outputs =>
      simp only
      rw [scan_outputs_visit_env_congr env1 env2 db h1]

theorem sample_env_scan_link (db : BlockchainDB) (tx_version amount : Nat)
    (key_offsets : List Nat) (k_image : crypto.key_image) (tx_prefix_hash : crypto.hash)
    (sig : rctSig) (pmax : Option Nat) :
    sample_env_scan.check_tx_input db tx_version
        (txin_v.txin_to_key amount key_offsets k_image) tx_prefix_hash sig pmax
      = check_tx_input sample_env_scan [] db tx_version key_offsets k_image tx_prefix_hash 0
          pmax :=
  check_tx_input_env_congr sample_env sample_env_scan rfl rfl rfl [] db tx_version key_offsets
    k_image tx_prefix_hash 0 pmax

theorem scan_outputs_read_length (env : Env) (db : BlockchainDB) (outputs : List output_data_t) :
    ∀ (offsets : List Nat) (count : Nat) (ring : List output_data_t),
      scan_outputs_read env db outputs offsets count = some ring → ring.length = offsets.length := by
  intro offsets
  induction offsets with
  | nil =>
    intro count ring h
    simp only [scan_outputs_read, Option.some.injEq] at h
    rw [← h]
    rfl
  | cons i rest ih =>
    intro count ring h
    unfold scan_outputs_read at h
    cases ho : (if count < outputs.length then outputs.get? count
        else env.get_output_key db 0 i) with
    | none => rw [ho] at h; cases h
    | some o =>
      rw [ho] at h
      simp only at h
      cases hr : scan_outputs_read env db outputs rest (count + 1) with
      | none => rw [hr] at h; cases h
      | some l =>
        rw [hr] at h
        simp only [Option.map_some', Option.some.injEq] at h
        rw [← h]
        simp [ih _ _ hr]

/-- What a successful `check_tx_input` has established: the ring that the scan
read has one record per key offset, every record is unlocked, the output keys
are the keys and commitments of the ring, and the pointee was raised by the
height of the last record of the ring only. -/
theorem check_tx_input_spec (env : Env)
    (table : List (crypto.hash × List (crypto.key_image × List output_data_t)))
    (db : BlockchainDB) (tx_version : Nat) (key_offsets : List Nat) (k_image : crypto.key_image)
    (tx_prefix_hash : crypto.hash) (sig_size : Nat) (pmax : Option Nat)
    (keys : List ctkey) (pmax1 : Option Nat)
    (h : check_tx_input env table db tx_version key_offsets k_image tx_prefix_hash sig_size pmax
      = some (keys, pmax1)) :
    ∃ ring, scanned_ring env table db tx_prefix_hash key_offsets k_image = some ring
      ∧ key_offsets.length = ring.length
      ∧ ring ≠ []
      ∧ (∀ o ∈ ring, is_tx_spendtime_unlocked env db o.unlock_time = true)
      ∧ keys = ring.map (fun o => { dest := o.pubkey, mask := o.commitment })
      ∧ pmax1 = pmax.map (fun p => max p (last_height ring)) := by
  unfold check_tx_input scan_outputkeys_for_indexes at h
  by_cases hk : key_offsets.length = 0
  · simp [hk] at h
  · simp only [hk, ↓reduceIte] at h
    cases hp : scan_outputs_prefetch env table db tx_prefix_hash k_image
        (relative_output_offsets_to_absolute key_offsets) with
    | none => simp [hp] at h
    | some outputs =>
      simp only [hp] at h
      cases hv : scan_outputs_visit env db (outputs_visitor env db) outputs
          (relative_output_offsets_to_absolute key_offsets).length
          (relative_output_offsets_to_absolute key_offsets) 0 [] pmax with
      | none => simp [hv] at h
      | some r =>
        obtain ⟨keys2, pmax2⟩ := r
        simp only [hv] at h
        obtain ⟨ring, hr1, hr2, hr3, hr4, hr5⟩ := scan_outputs_visit_spec env db outputs _ _ 0 []
          pmax keys2 pmax2 (by omega) hv
        split at h
        · cases h
        · split at h
          · cases h
          · simp only [Option.some.injEq, Prod.mk.injEq] at h
            obtain ⟨rfl, rfl⟩ := h
            rw [relative_output_offsets_to_absolute_length] at hr2
            have hne : ring ≠ [] := by
              intro he
              rw [he] at hr2
              simp at hr2
              omega
            refine ⟨ring, ?_, hr2.symm, hne, hr3, by simpa using hr4, ?_⟩
            · unfold scanned_ring
              simp only [hp, hr1]
            · rw [hr5]
              unfold last_height
              cases hl : ring.getLast? with
              | none =>
                rw [List.getLast?_eq_none_iff] at hl
                exact absurd hl hne
              | some o =>
                simp only
                congr 1
                funext p
                split <;> omega

theorem check_tx_inputs_loop_rings (env : Env)
    (table : List (crypto.hash × List (crypto.key_image × List output_data_t)))
    (db : BlockchainDB) (tx : transaction) (tx_prefix_hash : crypto.hash)
    (hlink : ∀ tx_version amount key_offsets k_image sig pmax,
      env.check_tx_input db tx_version (txin_v.txin_to_key amount key_offsets k_image)
          tx_prefix_hash sig pmax
        = check_tx_input env table db tx_version key_offsets k_image tx_prefix_hash 0 pmax) :
    ∀ (vin : List txin_v) (tvc : tx_verification_context) (pubkeys : List (List ctkey))
      (pmax : Option Nat) (ctable : List (crypto.hash × List (crypto.key_image × Bool)))
      (pubkeys1 : List (List ctkey)) (pmax1 : Option Nat),
      check_tx_inputs_loop env db tx tx_prefix_hash vin tvc pubkeys pmax ctable
        = inputs_loop_result.passed pubkeys1 pmax1 →
      ∃ rings, List.Forall₂ (input_ring env table db tx_prefix_hash) vin rings
        ∧ (∀ ring ∈ rings, ring ≠ []
            ∧ ∀ o ∈ ring, is_tx_spendtime_unlocked env db o.unlock_time = true)
        ∧ pmax1 = pmax.map (fun p =>
            rings.foldl (fun acc ring => max acc (last_height ring)) p) := by
  intro vin
  induction vin with
  | nil =>
    intro tvc pubkeys pmax ctable pubkeys1 pmax1 h
    simp only [check_tx_inputs_loop, inputs_loop_result.passed.injEq] at h
    refine ⟨[], List.Forall₂.nil, by simp, ?_⟩
    rw [← h.2]
    cases pmax <;> rfl
  | cons txin rest ih =>
    intro tvc pubkeys pmax ctable pubkeys1 pmax1 h
    cases txin with
    | txin_to_key amount key_offsets k_image =>
      unfold check_tx_inputs_loop at h
      split at h
      · cases h
      · split at h
        · cases h
        · rw [hlink] at h
          cases hc : check_tx_input env table db tx.version key_offsets k_image tx_prefix_hash 0
              pmax with
          | none => simp [hc] at h
          | some r =>
            obtain ⟨keys, pmax2⟩ := r
            simp only [hc] at h
            obtain ⟨ring, hr1, hr2, hr3, hr4, _, hr6⟩ := check_tx_input_spec env table db _ _ _ _
              _ _ _ _ hc
            obtain ⟨rings, hf, hall, hp⟩ := ih _ _ _ _ _ _ h
            refine ⟨ring :: rings, List.Forall₂.cons ⟨hr2, hr1⟩ hf, ?_, ?_⟩
            · intro x hx
              rcases List.mem_cons.1 hx with rfl | hx
              · exact ⟨hr3, hr4⟩
              · exact hall x hx
            · rw [hp, hr6]
              cases pmax <;> rfl
    | txin_gen height => simp [check_tx_inputs_loop] at h
    | txin_to_script => simp [check_tx_inputs_loop] at h
    | txin_to_scripthash => simp [check_tx_inputs_loop] at h

theorem check_tx_inputs_ok_loop (env : Env) (db : BlockchainDB)
    (table : List (crypto.hash × List (crypto.key_image × Bool))) (tx : transaction)
    (tvc : tx_verification_context) (pmax : Option Nat)
    (h : (check_tx_inputs env db table tx tvc pmax).ok = true) :
    ∃ pubkeys pmax1,
      check_tx_inputs_loop env db tx (env.get_transaction_prefix_hash tx) tx.vin tvc []
          (pmax.map (fun _ => 0))
          (check_txin_table_emplace table (env.get_transaction_prefix_hash tx))
        = inputs_loop_result.passed pubkeys pmax1
      ∧ (check_tx_inputs env db table tx tvc pmax).pmax_used_block_height = pmax1 := by
  have hrules := check_tx_inputs_ok_rules env db table tx tvc pmax h
  unfold check_tx_inputs at h ⊢
  simp only [hrules] at h ⊢
  cases hl : check_tx_inputs_loop env db tx (env.get_transaction_prefix_hash tx) tx.vin tvc []
      (pmax.map (fun _ => 0))
      (check_txin_table_emplace table (env.get_transaction_prefix_hash tx)) with
  | failed t p c =>
    rw [hl] at h
    cases h
  | passed pubkeys pmax1 =>
    rw [hl] at h
    simp only at h ⊢
    refine ⟨pubkeys, pmax1, rfl, ?_⟩
    cases he : env.expand_transaction_2 tx (env.get_transaction_prefix_hash tx) pubkeys with
    | none => rfl
    | some tx1 => rfl

theorem foldl_max_ge_acc (l : List Nat) (acc : Nat) : acc ≤ l.foldl max acc := by
  induction l generalizing acc with
  | nil => exact le_refl _
  | cons x rest ih => exact le_trans (le_max_left _ _) (ih _)

theorem foldl_max_ge_mem (l : List Nat) (acc x : Nat) (hx : x ∈ l) : x ≤ l.foldl max acc := by
  induction l generalizing acc with
  | nil => cases hx
  | cons y rest ih =>
    rcases List.mem_cons.1 hx with rfl | h
    · exact le_trans (le_max_right _ _) (foldl_max_ge_acc _ _)
    · exact ih _ h

theorem foldl_max_le (l : List Nat) (acc b : Nat) (hacc : acc ≤ b) (hl : ∀ x ∈ l, x ≤ b) :
    l.foldl max acc ≤ b := by
  induction l generalizing acc with
  | nil => exact hacc
  | cons y rest ih =>
    exact ih _ (max_le hacc (hl y (List.mem_cons_self _ _)))
      (fun x hx => hl x (List.mem_cons_of_mem _ hx))

theorem last_height_mem (ring : List output_data_t) (hne : ring ≠ []) :
    last_height ring ∈ ring.map (fun o => o.height) := by
  unfold last_height
  cases hl : ring.getLast? with
  | none => rw [List.getLast?_eq_none_iff] at hl; exact absurd hl hne
  | some o => exact List.mem_map.2 ⟨o, List.mem_of_getLast?_eq_some hl, rfl⟩

theorem foldl_last_height_eq (rings : List (List output_data_t)) :
    ∀ acc : Nat, (∀ ring ∈ rings, ring ≠ []) →
      (∀ ring ∈ rings, ∀ o ∈ ring, o.height ≤ last_height ring) →
      rings.foldl (fun acc ring => max acc (last_height ring)) acc
        = (rings.flatten.map (fun o => o.height)).foldl max acc := by
  induction rings with
  | nil => intro acc _ _; rfl
  | cons ring rest ih =>
    intro acc hne hmono
    simp only [List.foldl_cons, List.flatten_cons, List.map_append, List.foldl_append]
    have hring : (ring.map (fun o => o.height)).foldl max acc = max acc (last_height ring) := by
      apply le_antisymm
      · apply foldl_max_le _ _ _ (le_max_left _ _)
        intro x hx
        obtain ⟨o, ho, rfl⟩ := List.mem_map.1 hx
        exact le_trans (hmono ring (List.mem_cons_self _ _) o ho) (le_max_right _ _)
      · apply max_le (foldl_max_ge_acc _ _)
        exact foldl_max_ge_mem _ _ _ (last_height_mem ring (hne ring (List.mem_cons_self _ _)))
    rw [hring]
    exact ih _ (fun r hr => hne r (List.mem_cons_of_mem _ hr))
      (fun r hr => hmono r (List.mem_cons_of_mem _ hr))

/-- C24, the failing input: an accepted transaction whose reported height is
below the height of one of its ring members. The key offsets 5 and 2^64 - 3
name the outputs 5 and 2 (the second sum wraps in 64 bits), found in the
blocks 5 and 2, and `check_tx_inputs` reports 2, where the comment above the
method (lines 2712-2714) announces the highest block that holds an output used
as input. -/
theorem check_tx_inputs_max_used_below_ring_member :
    (check_tx_inputs sample_env_scan (sample_db_long 14) [] sample_wrap_tx fresh_tvc
        (some 0)).ok = true
    ∧ (check_tx_inputs sample_env_scan (sample_db_long 14) [] sample_wrap_tx fresh_tvc
        (some 0)).pmax_used_block_height = some 2
    ∧ scanned_ring sample_env_scan [] (sample_db_long 14)
        (sample_env_scan.get_transaction_prefix_hash sample_wrap_tx)
        [5, 18446744073709551613] 7
      = some [{ pubkey := 1005, unlock_time := 0, height := 5, commitment := 5 },
              { pubkey := 1002, unlock_time := 0, height := 2, commitment := 2 }] := by
  decide

/-- C24: what `check_tx_inputs` reports. When `check_tx_input` is the method of
this file and `check_tx_inputs` succeeds with a place to report, the reported
height is the largest, over the inputs, of the block height of the output named
by the last ring member of the input (`scan_outputkeys_for_indexes` raises the
value at the last absolute offset only, lines 291-294); it is the largest block
height over all ring members of all inputs when in every ring no member is in a
higher block than the last, which a wrap of the 64-bit sum of the key offsets
breaks. -/
theorem check_tx_inputs_max_used_block_height (env : Env)
    (table : List (crypto.hash × List (crypto.key_image × List output_data_t)))
    (db : BlockchainDB) (ctable : List (crypto.hash × List (crypto.key_image × Bool)))
    (tx : transaction) (tvc : tx_verification_context) (reported : Nat)
    (hlink : ∀ tx_version amount key_offsets k_image sig pmax,
      env.check_tx_input db tx_version (txin_v.txin_to_key amount key_offsets k_image)
          (env.get_transaction_prefix_hash tx) sig pmax
        = check_tx_input env table db tx_version key_offsets k_image
            (env.get_transaction_prefix_hash tx) 0 pmax)
    (hok : (check_tx_inputs env db ctable tx tvc (some reported)).ok = true) :
    ∃ rings, List.Forall₂ (input_ring env table db (env.get_transaction_prefix_hash tx))
          tx.vin rings
      ∧ (check_tx_inputs env db ctable tx tvc (some reported)).pmax_used_block_height
          = some (rings.foldl (fun acc ring => max acc (last_height ring)) 0)
      ∧ ((∀ ring ∈ rings, ∀ o ∈ ring, o.height ≤ last_height ring) →
          (check_tx_inputs env db ctable tx tvc (some reported)).pmax_used_block_height
            = some ((rings.flatten.map (fun o => o.height)).foldl max 0)) := by
  obtain ⟨pubkeys, pmax1, hloop, hp⟩ := check_tx_inputs_ok_loop env db ctable tx tvc _ hok
  obtain ⟨rings, hf, hall, hpm⟩ := check_tx_inputs_loop_rings env table db tx _ hlink _ _ _ _ _
    _ _ hloop
  refine ⟨rings, hf, ?_, ?_⟩
  · rw [hp, hpm]; rfl
  · intro hmono
    rw [hp, hpm]
    simp only [Option.map_some']
    rw [foldl_last_height_eq rings 0 (fun r hr => (hall r hr).1) hmono]

/-- Witness for `check_tx_inputs_max_used_block_height`: on a chain of 14 blocks
the ring of the only input names the outputs 2, 3 and 7, found in the blocks 2,
3 and 7; the transaction is accepted and the reported height is the one of the
last ring member, 7, the largest over the ring. -/
theorem check_tx_inputs_max_used_block_height_witness :
    ∃ rings, List.Forall₂ (input_ring sample_env_scan [] (sample_db_long 14)
          (sample_env_scan.get_transaction_prefix_hash sample_three_member_tx))
          sample_three_member_tx.vin rings
      ∧ (check_tx_inputs sample_env_scan (sample_db_long 14) [] sample_three_member_tx fresh_tvc
          (some 0)).pmax_used_block_height
          = some (rings.foldl (fun acc ring => max acc (last_height ring)) 0)
      ∧ (check_tx_inputs sample_env_scan (sample_db_long 14) [] sample_three_member_tx fresh_tvc
          (some 0)).pmax_used_block_height = some 7 :=
  let ⟨rings, h1, h2, _⟩ :=
    check_tx_inputs_max_used_block_height sample_env_scan [] (sample_db_long 14) []
      sample_three_member_tx fresh_tvc 0
      (fun tx_version amount key_offsets k_image sig pmax =>
        sample_env_scan_link (sample_db_long 14) tx_version amount key_offsets k_image _ sig pmax)
      (by decide)
  ⟨rings, h1, h2, by decide⟩

/-- An accepted transaction with a ring member younger than the default
spendable age: on a chain of 14 blocks the only ring member of the input is
output 13, in block 13, and `CRYPTONOTE_DEFAULT_TX_SPENDABLE_AGE` is 10. -/
theorem check_tx_inputs_accepts_young_ring_member :
    (check_tx_inputs sample_env_scan (sample_db_long 14) [] sample_recent_tx fresh_tvc
        none).ok = true
    ∧ scanned_ring sample_env_scan [] (sample_db_long 14)
        (sample_env_scan.get_transaction_prefix_hash sample_recent_tx) [13] 7
      = some [{ pubkey := 1013, unlock_time := 0, height := 13, commitment := 13 }]
    ∧ ¬ (13 + sample_env_scan.CRYPTONOTE_DEFAULT_TX_SPENDABLE_AGE
          ≤ (sample_db_long 14).height) := by
  decide

/-- C25 (amended): when `check_tx_input` is the method of this file, every
transaction accepted by `check_tx_inputs` has only key inputs, and for each of
them the scan read one output record per key offset (from the store under
amount 0 when the scan table has no entry for the input), each with an unlock
time satisfied at the current tip (`is_tx_spendtime_unlocked`). -/
theorem check_tx_inputs_ring_members (env : Env)
    (table : List (crypto.hash × List (crypto.key_image × List output_data_t)))
    (db : BlockchainDB) (ctable : List (crypto.hash × List (crypto.key_image × Bool)))
    (tx : transaction) (tvc : tx_verification_context) (pmax : Option Nat)
    (hlink : ∀ tx_version amount key_offsets k_image sig pmax,
      env.check_tx_input db tx_version (txin_v.txin_to_key amount key_offsets k_image)
          (env.get_transaction_prefix_hash tx) sig pmax
        = check_tx_input env table db tx_version key_offsets k_image
            (env.get_transaction_prefix_hash tx) 0 pmax)
    (hok : (check_tx_inputs env db ctable tx tvc pmax).ok = true) :
    ∃ rings, List.Forall₂ (input_ring env table db (env.get_transaction_prefix_hash tx))
          tx.vin rings
      ∧ (∀ ring ∈ rings, ring ≠ []
          ∧ ∀ o ∈ ring, is_tx_spendtime_unlocked env db o.unlock_time = true)
      ∧ (∀ amount key_offsets k_image ring,
          txin_v.txin_to_key amount key_offsets k_image ∈ tx.vin →
          scan_table_find table (env.get_transaction_prefix_hash tx) k_image = none →
          scanned_ring env table db (env.get_transaction_prefix_hash tx) key_offsets k_image
            = some ring →
          env.get_output_keys db 0 (relative_output_offsets_to_absolute key_offsets)
            = some ring) := by
  obtain ⟨pubkeys, pmax1, hloop, _⟩ := check_tx_inputs_ok_loop env db ctable tx tvc _ hok
  obtain ⟨rings, hf, hall, _⟩ := check_tx_inputs_loop_rings env table db tx _ hlink _ _ _ _ _
    _ _ hloop
  refine ⟨rings, hf, hall, ?_⟩
  intro amount key_offsets k_image ring _ hmiss hring
  unfold scanned_ring scan_outputs_prefetch at hring
  rw [hmiss] at hring
  simp only at hring
  cases hg : env.get_output_keys db 0 (relative_output_offsets_to_absolute key_offsets) with
  | none => simp [hg] at hring
  | some outputs =>
    simp only [hg] at hring
    by_cases hlen : (relative_output_offsets_to_absolute key_offsets).length = outputs.length
    · simp only [hlen, ne_eq, not_true_eq_false, ↓reduceIte] at hring
      have : ∀ (offsets : List Nat) (count : Nat) (l : List output_data_t),
          count + offsets.length = outputs.length →
          scan_outputs_read env db outputs offsets count = some l →
          l = outputs.drop count := by
        intro offsets
        induction offsets with
        | nil =>
          intro count l hc hl
          simp only [scan_outputs_read, Option.some.injEq] at hl
          simp only [List.length_nil, Nat.add_zero] at hc
          rw [← hl, hc, List.drop_length]
        | cons i rest ih =>
          intro count l hc hl
          simp only [List.length_cons] at hc
          unfold scan_outputs_read at hl
          have hlt : count < outputs.length := by omega
          rw [if_pos hlt, List.get?_eq_get hlt] at hl
          simp only at hl
          cases hr : scan_outputs_read env db outputs rest (count + 1) with
          | none => rw [hr] at hl; cases hl
          | some l2 =>
            rw [hr] at hl
            simp only [Option.map_some', Option.some.injEq] at hl
            rw [← hl, ih (count + 1) l2 (by omega) hr]
            exact (List.drop_eq_getElem_cons hlt).symm
      rw [this _ 0 ring (by omega) hring, List.drop_zero]
    · simp only [ne_eq, hlen, not_false_eq_true, ↓reduceIte] at hring
      cases hring

theorem check_tx_inputs_ring_members_witness :
    ∃ rings, List.Forall₂ (input_ring sample_env_scan [] (sample_db_long 14)
          (sample_env_scan.get_transaction_prefix_hash sample_recent_tx))
          sample_recent_tx.vin rings
      ∧ (∀ ring ∈ rings, ring ≠ []
          ∧ ∀ o ∈ ring,
            is_tx_spendtime_unlocked sample_env_scan (sample_db_long 14) o.unlock_time = true) :=
  let ⟨rings, h1, h2, _⟩ :=
    check_tx_inputs_ring_members sample_env_scan [] (sample_db_long 14) []
      sample_recent_tx fresh_tvc none
      (fun tx_version amount key_offsets k_image sig pmax =>
        sample_env_scan_link (sample_db_long 14) tx_version amount key_offsets k_image _ sig pmax)
      (by decide)
  ⟨rings, h1, h2⟩

/-- C39: a prepared batch on which the scan-table path and the direct lookup
differ. The batch holds one transaction whose two key inputs carry the same
key-image; the duplicate test of the first pass reads an entry that is still
empty, so the batch is not refused, and the second pass keeps the ring of the
first input under the shared key-image. For the second input
`scan_outputkeys_for_indexes` then reads output 1 from the table where the
direct lookup reads output 2, and `check_tx_input` collects another key. -/
theorem prepare_scan_table_duplicate_key_image :
    prepare_scan_table sample_env_scan (sample_db_long 14) [some sample_twin_tx]
      = some [(11, [(7, [{ pubkey := 1001, unlock_time := 0, height := 1, commitment := 1 }])])]
    ∧ scanned_ring sample_env_scan
        [(11, [(7, [{ pubkey := 1001, unlock_time := 0, height := 1, commitment := 1 }])])]
        (sample_db_long 14) 11 [2] 7
      = some [{ pubkey := 1001, unlock_time := 0, height := 1, commitment := 1 }]
    ∧ scanned_ring sample_env_scan [] (sample_db_long 14) 11 [2] 7
      = some [{ pubkey := 1002, unlock_time := 0, height := 2, commitment := 2 }]
    ∧ check_tx_input sample_env_scan
        [(11, [(7, [{ pubkey := 1001, unlock_time := 0, height := 1, commitment := 1 }])])]
        (sample_db_long 14) 3 [2] 7 11 0 none
      = some ([{ dest := 1001, mask := 1 }], none)
    ∧ check_tx_input sample_env_scan [] (sample_db_long 14) 3 [2] 7 11 0 none
      = some ([{ dest := 1002, mask := 2 }], none) := by
  decide

/-! ## C37 and C33: rolling back a failed reorganisation -/

theorem update_next_cumulative_size_limit_frame (env : Env) (st : Blockchain) :
    (update_next_cumulative_size_limit env st).m_db = st.m_db
    ∧ (update_next_cumulative_size_limit env st).m_alternative_chains = st.m_alternative_chains
    ∧ (update_next_cumulative_size_limit env st).m_invalid_blocks = st.m_invalid_blocks
    ∧ (update_next_cumulative_size_limit env st).m_tx_pool = st.m_tx_pool :=
  ⟨rfl, rfl, rfl, rfl⟩

theorem pop_block_from_blockchain_spec (env : Env) (st : Blockchain) :
    (st.m_db.m_blocks = [] → pop_block_from_blockchain env st = none)
    ∧ (∀ r, st.m_db.m_blocks.getLast? = some r →
        ∃ st1, pop_block_from_blockchain env st = some (r.bl, st1)
          ∧ st1.m_db.m_blocks = st.m_db.m_blocks.dropLast
          ∧ st1.m_alternative_chains = st.m_alternative_chains
          ∧ st1.m_invalid_blocks = st.m_invalid_blocks) := by
  constructor
  · intro h
    unfold pop_block_from_blockchain BlockchainDB.pop_block
    simp [h]
  · intro r hr
    unfold pop_block_from_blockchain BlockchainDB.pop_block
    simp only [hr]
    exact ⟨_, rfl, rfl, rfl, rfl⟩

theorem pop_blocks_until_spec (env : Env) (rollback_height : Nat) :
    ∀ (fuel : Nat) (st : Blockchain), st.m_db.height = rollback_height + fuel →
      ∃ st1, pop_blocks_until env rollback_height fuel st = some st1
        ∧ st1.m_db.m_blocks = st.m_db.m_blocks.take rollback_height
        ∧ st1.m_alternative_chains = st.m_alternative_chains
        ∧ st1.m_invalid_blocks = st.m_invalid_blocks := by
  intro fuel
  induction fuel with
  | zero =>
    intro st h
    refine ⟨st, rfl, ?_, rfl, rfl⟩
    unfold BlockchainDB.height at h
    rw [List.take_of_length_le (by omega)]
  | succ fuel ih =>
    intro st h
    unfold pop_blocks_until
    rw [if_pos (by omega)]
    have hne : st.m_db.m_blocks ≠ [] := by
      intro he
      unfold BlockchainDB.height at h
      rw [he] at h
      simp only [List.length_nil] at h
      omega
    obtain ⟨st1, hp, hb, ha, hi⟩ := (pop_block_from_blockchain_spec env st).2 _
      (List.getLast?_eq_getLast _ hne)
    rw [hp]
    simp only
    have hh : st1.m_db.height = rollback_height + fuel := by
      unfold BlockchainDB.height at h ⊢
      rw [hb, List.length_dropLast]
      omega
    obtain ⟨st2, hq, hb2, ha2, hi2⟩ := ih st1 hh
    refine ⟨st2, hq, ?_, ha2.trans ha, hi2.trans hi⟩
    rw [hb2, hb, List.dropLast_eq_take, List.take_take]
    unfold BlockchainDB.height at h
    congr 1
    omega

/-- A block that `handle_block_to_main_chain` adds under a context without
`m_verifivation_failed` becomes the new last record of the store; the
alternative index is left as it was whatever the outcome. -/
theorem handle_block_to_main_chain_appends (env : Env) (st : Blockchain) (bl : block)
    (id : crypto.hash) (bvc : block_verification_context) :
    (handle_block_to_main_chain env st bl id bvc).st.m_alternative_chains
        = st.m_alternative_chains
    ∧ (∀ e, (handle_block_to_main_chain env st bl id bvc).outcome ≠ call_outcome.threw e)
    ∧ ((handle_block_to_main_chain env st bl id bvc).outcome = call_outcome.returned false →
        (handle_block_to_main_chain env st bl id bvc).st.m_db = st.m_db)
    ∧ ((handle_block_to_main_chain env st bl id bvc).outcome = call_outcome.returned true →
        bvc.m_verifivation_failed = false →
        ∃ r : db_block,
          (handle_block_to_main_chain env st bl id bvc).st.m_db.m_blocks
            = st.m_db.m_blocks ++ [r] ∧ r.bl = bl) := by
  unfold handle_block_to_main_chain
  cases hchk : handle_block_to_main_chain_checks env st bl id bvc with
  | done st1 bvc1 =>
    obtain ⟨h1, h2, _⟩ := (handle_block_to_main_chain_checks_spec env st bl id bvc).1 _ _ hchk
    refine ⟨h2, ?_, fun _ => h1, ?_⟩
    · intro e h; cases h
    · intro h; cases h
  | collected d st2 txs f s =>
    obtain ⟨h1, h2, _⟩ :=
      (handle_block_to_main_chain_checks_spec env st bl id bvc).2 _ _ _ _ _ hchk
    obtain ⟨c1, c2, c3⟩ := commit_block_spec env bl bvc d st2 txs f s
    refine ⟨(commit_block_frame env bl bvc d st2 txs f s).1.trans h2, c1, ?_, ?_⟩
    · intro h
      exact (c2 h).1.trans h1
    · intro h hb
      obtain ⟨r, hr1, hr2, _⟩ := (c3 h).2 hb
      exact ⟨r, by rw [hr1, h1], hr2⟩

theorem rollback_readd_spec (env : Env) :
    ∀ (original_chain : List block) (st : Blockchain),
      ((rollback_readd env original_chain st).2.m_alternative_chains = st.m_alternative_chains)
      ∧ (∀ e, (rollback_readd env original_chain st).1 ≠ call_outcome.threw e)
      ∧ ((rollback_readd env original_chain st).1 = call_outcome.returned true →
          ∃ rs : List db_block,
            (rollback_readd env original_chain st).2.m_db.m_blocks = st.m_db.m_blocks ++ rs
            ∧ rs.map (fun r => r.bl) = original_chain) := by
  intro original_chain
  induction original_chain with
  | nil =>
    intro st
    refine ⟨rfl, ?_, fun _ => ⟨[], by simp [rollback_readd], rfl⟩⟩
    intro e h; cases h
  | cons bl rest ih =>
    intro st
    obtain ⟨f1, f2, f3, f4⟩ := handle_block_to_main_chain_appends env st bl
      (env.get_block_hash bl) fresh_bvc
    unfold rollback_readd
    simp only
    cases ho : (handle_block_to_main_chain env st bl (env.get_block_hash bl) fresh_bvc).outcome with
    | threw e => exact absurd ho (f2 e)
    | returned b =>
      cases b with
      | false =>
        simp only
        refine ⟨f1, ?_, ?_⟩
        · intro e h; cases h
        · intro h; cases h
      | true =>
        simp only
        by_cases hadd : (handle_block_to_main_chain env st bl (env.get_block_hash bl)
            fresh_bvc).bvc.m_added_to_main_chain = true
        · rw [if_pos hadd]
          obtain ⟨i1, i2, i3⟩ := ih (handle_block_to_main_chain env st bl (env.get_block_hash bl)
            fresh_bvc).st
          refine ⟨i1.trans f1, i2, ?_⟩
          intro h
          obtain ⟨rs, hrs1, hrs2⟩ := i3 h
          obtain ⟨r, hr1, hr2⟩ := f4 ho rfl
          refine ⟨r :: rs, ?_, by simp [hr2, hrs2]⟩
          rw [hrs1, hr1]
          simp
        · rw [if_neg hadd]
          refine ⟨f1, ?_, ?_⟩
          · intro e h; cases h
          · intro h; cases h

/-- What `rollback_blockchain_switching` leaves: the alternative index is as
it was, no exception leaves the method, and when the rollback height is not
above the chain height and the method returns true the store holds the first
`rollback_height` records followed by one record per block of the original
chain, in order. -/
theorem rollback_blockchain_switching_frame (env : Env) (st : Blockchain)
    (original_chain : List block) (rollback_height : Nat) :
    (rollback_blockchain_switching env st original_chain rollback_height).2.m_alternative_chains
        = st.m_alternative_chains
    ∧ (∀ e, (rollback_blockchain_switching env st original_chain rollback_height).1
        ≠ call_outcome.threw e)
    ∧ (rollback_height ≤ st.m_db.height →
        (rollback_blockchain_switching env st original_chain rollback_height).1
          = call_outcome.returned true →
        ∃ rs : List db_block,
          (rollback_blockchain_switching env st original_chain rollback_height).2.m_db.m_blocks
            = st.m_db.m_blocks.take rollback_height ++ rs
          ∧ rs.map (fun r => r.bl) = original_chain) := by
  unfold rollback_blockchain_switching
  by_cases h : rollback_height > st.m_db.height
  · rw [if_pos h]
    refine ⟨rfl, ?_, ?_⟩
    · intro e hc; cases hc
    · intro hle; omega
  · rw [if_neg h]
    simp only
    obtain ⟨st1, hp, hb, ha, _⟩ := pop_blocks_until_spec env rollback_height
      (st.m_db.height - rollback_height)
      { st with m_timestamps_and_difficulties_height := 0 }
      (by simp only; omega)
    rw [hp]
    simp only
    obtain ⟨r1, r2, r3⟩ := rollback_readd_spec env original_chain st1
    refine ⟨r1.trans ha, r2, ?_⟩
    intro _ hret
    obtain ⟨rs, hrs1, hrs2⟩ := r3 hret
    exact ⟨rs, by rw [hrs1, hb], hrs2⟩

/-- C37: `rollback_blockchain_switching` returns true, and leaves the state as
it is, when the rollback height is greater than the chain height (its comment
announces a failure there). When the rollback height is not greater and the
method returns true, the chain was popped back to `rollback_height` and the
saved blocks were added again in order, so the final height is
`rollback_height` plus their number; the method never throws. -/
theorem rollback_blockchain_switching_spec (env : Env) (st : Blockchain)
    (original_chain : List block) (rollback_height : Nat) :
    (rollback_height > st.m_db.height →
      rollback_blockchain_switching env st original_chain rollback_height
        = (call_outcome.returned true, st))
    ∧ (rollback_height ≤ st.m_db.height →
        (rollback_blockchain_switching env st original_chain rollback_height).1
          = call_outcome.returned true →
        ∃ rs : List db_block,
          (rollback_blockchain_switching env st original_chain rollback_height).2.m_db.m_blocks
            = st.m_db.m_blocks.take rollback_height ++ rs
          ∧ rs.map (fun r => r.bl) = original_chain
          ∧ (rollback_blockchain_switching env st original_chain rollback_height).2.m_db.height
            = rollback_height + original_chain.length)
    ∧ (∀ e, (rollback_blockchain_switching env st original_chain rollback_height).1
        ≠ call_outcome.threw e) := by
  obtain ⟨_, f2, f3⟩ := rollback_blockchain_switching_frame env st original_chain rollback_height
  refine ⟨?_, ?_, f2⟩
  · intro h
    unfold rollback_blockchain_switching
    rw [if_pos h]
  · intro hle hret
    obtain ⟨rs, hrs1, hrs2⟩ := f3 hle hret
    refine ⟨rs, hrs1, hrs2, ?_⟩
    unfold BlockchainDB.height at hle ⊢
    rw [hrs1, List.length_append, List.length_take, ← hrs2, List.length_map]
    omega

theorem rollback_blockchain_switching_spec_witness :
    rollback_blockchain_switching sample_env sample_chain [] 3
      = (call_outcome.returned true, sample_chain) :=
  (rollback_blockchain_switching_spec sample_env sample_chain [] 3).1 (by decide)

theorem pop_to_parent_spec (env : Env) (prev_id : crypto.hash) :
    ∀ (fuel : Nat) (st : Blockchain) (disconnected_chain : List block),
      (pop_to_parent env prev_id fuel st disconnected_chain).1.m_alternative_chains
          = st.m_alternative_chains
      ∧ ∃ n, n ≤ st.m_db.height
          ∧ (pop_to_parent env prev_id fuel st disconnected_chain).1.m_db.m_blocks
              = st.m_db.m_blocks.take n
          ∧ ∀ d, (pop_to_parent env prev_id fuel st disconnected_chain).2 = some d →
              d = (st.m_db.m_blocks.drop n).map (fun r => r.bl) ++ disconnected_chain := by
  intro fuel
  induction fuel with
  | zero =>
    intro st disc
    refine ⟨rfl, st.m_db.height, le_refl _, ?_, ?_⟩
    · unfold BlockchainDB.height
      simp [pop_to_parent]
    · intro d hd
      simp only [pop_to_parent, Option.some.injEq] at hd
      unfold BlockchainDB.height
      simp [hd]
  | succ fuel ih =>
    intro st disc
    unfold pop_to_parent
    by_cases htop : st.m_db.top_block_hash ≠ prev_id
    · rw [if_pos htop]
      cases hl : st.m_db.m_blocks.getLast? with
      | none =>
        have hnil : st.m_db.m_blocks = [] := List.getLast?_eq_none_iff.1 hl
        rw [(pop_block_from_blockchain_spec env st).1 hnil]
        refine ⟨rfl, 0, Nat.zero_le _, by simp [hnil], ?_⟩
        intro d hd
        cases hd
      | some r =>
        obtain ⟨st1, hp, hb, ha, _⟩ := (pop_block_from_blockchain_spec env st).2 r hl
        rw [hp]
        simp only
        obtain ⟨i1, n, hn, i2, i3⟩ := ih st1 (r.bl :: disc)
        have hlen : st1.m_db.height + 1 = st.m_db.height := by
          unfold BlockchainDB.height
          rw [hb, List.length_dropLast]
          have : st.m_db.m_blocks ≠ [] := by
            intro he; rw [he] at hl; cases hl
          have := List.length_pos.2 this
          omega
        refine ⟨i1.trans ha, n, by omega, ?_, ?_⟩
        · rw [i2, hb, List.dropLast_eq_take, List.take_take]
          unfold BlockchainDB.height at hlen hn
          congr 1
          omega
        · intro d hd
          rw [i3 d hd, hb]
          obtain ⟨ys, hys⟩ := List.getLast?_eq_some_iff.1 hl
          unfold BlockchainDB.height at hn
          rw [hb, hys, List.dropLast_concat] at hn
          rw [hys, List.dropLast_concat, List.drop_append_of_le_length hn]
          simp
    · rw [if_neg htop]
      refine ⟨rfl, st.m_db.height, le_refl _, ?_, ?_⟩
      · unfold BlockchainDB.height; simp
      · intro d hd
        simp only [Option.some.injEq] at hd
        unfold BlockchainDB.height
        simp [hd]

theorem handle_block_to_main_chain_added (env : Env) (st : Blockchain) (bl : block)
    (id : crypto.hash) (bvc : block_verification_context)
    (h : (handle_block_to_main_chain env st bl id bvc).outcome = call_outcome.returned true) :
    (handle_block_to_main_chain env st bl id bvc).bvc.m_added_to_main_chain = true := by
  unfold handle_block_to_main_chain at h ⊢
  cases hchk : handle_block_to_main_chain_checks env st bl id bvc with
  | done st1 bvc1 => simp [hchk] at h
  | collected d st2 txs f s =>
    simp only [hchk] at h ⊢
    unfold commit_block at h ⊢
    dsimp only at h ⊢
    cases hv : (validate_miner_transaction env st2.m_db bl s f bvc.m_partial_block_reward).ok
    · simp [hv] at h
    · cases hb : bvc.m_verifivation_failed
      · simp only [hv, hb, Bool.not_true, Bool.false_eq_true, if_false, Bool.not_false,
          if_true] at h ⊢
        cases ha : st2.m_db.add_block env bl s
            (if st2.m_db.height ≠ 0 then
              add64 d (st2.m_db.get_block_cumulative_difficulty (st2.m_db.height - 1))
            else d)
            (next_generated_coins env (tip_generated_coins st2.m_db)
              (validate_miner_transaction env st2.m_db bl s f
                bvc.m_partial_block_reward).base_reward) txs with
        | ok db1 => simp [ha]
        | error e =>
          rw [ha] at h
          cases e <;> simp at h
      · simp [hv, hb]

theorem connect_alt_chain_failed (env : Env) :
    ∀ (chain : List alt_entry) (st st2 : Blockchain) (offender : alt_entry)
      (later : List alt_entry),
      connect_alt_chain env chain st = connect_result.failed st2 offender later →
      ∃ (before : List alt_entry) (rs : List db_block),
        chain = before ++ offender :: later
        ∧ st2.m_db.m_blocks = st.m_db.m_blocks ++ rs
        ∧ rs.length = before.length
        ∧ st2.m_alternative_chains = st.m_alternative_chains := by
  intro chain
  induction chain with
  | nil =>
    intro st st2 offender later h
    simp [connect_alt_chain] at h
  | cons ch_ent rest ih =>
    intro st st2 offender later h
    obtain ⟨f1, f2, f3, f4⟩ := handle_block_to_main_chain_appends env st ch_ent.2.bl
      (env.get_block_hash ch_ent.2.bl) fresh_bvc
    unfold connect_alt_chain at h
    simp only at h
    cases ho : (handle_block_to_main_chain env st ch_ent.2.bl (env.get_block_hash ch_ent.2.bl)
        fresh_bvc).outcome with
    | threw e => exact absurd ho (f2 e)
    | returned ok =>
      rw [ho] at h
      simp only at h
      cases ok with
      | false =>
        simp only [Bool.not_false, Bool.true_or, if_true, connect_result.failed.injEq] at h
        obtain ⟨h1, h2, h3⟩ := h
        subst h2 h3
        refine ⟨[], [], rfl, ?_, rfl, ?_⟩
        · rw [← h1, f3 ho]; simp
        · rw [← h1, f1]
      | true =>
        have hadd := handle_block_to_main_chain_added env st ch_ent.2.bl
          (env.get_block_hash ch_ent.2.bl) fresh_bvc ho
        simp only [hadd, Bool.not_true, Bool.or_self, Bool.false_eq_true, if_false] at h
        obtain ⟨before, rs, h1, h2, h3, h4⟩ := ih _ _ _ _ h
        obtain ⟨r, hr, _⟩ := f4 ho rfl
        refine ⟨ch_ent :: before, r :: rs, by rw [h1]; rfl, ?_, by simp [h3], h4.trans f1⟩
        rw [h2, hr]
        simp

theorem add_block_as_invalid_entry_spec (st : Blockchain) (bei : block_extended_info)
    (h : crypto.hash) :
    (add_block_as_invalid_entry st bei h).m_db = st.m_db
    ∧ (add_block_as_invalid_entry st bei h).m_alternative_chains = st.m_alternative_chains
    ∧ (add_block_as_invalid_entry st bei h).m_invalid_blocks.any (fun e => e.1 == h) = true
    ∧ (∀ k, st.m_invalid_blocks.any (fun e => e.1 == k) = true →
        (add_block_as_invalid_entry st bei h).m_invalid_blocks.any (fun e => e.1 == k) = true) := by
  unfold add_block_as_invalid_entry
  by_cases hc : st.m_invalid_blocks.any (fun e => e.1 == h) = true
  · rw [if_pos hc]
    exact ⟨rfl, rfl, hc, fun _ hk => hk⟩
  · rw [if_neg hc]
    refine ⟨rfl, rfl, by simp, ?_⟩
    intro k hk
    simp only [List.any_append, Bool.or_eq_true]
    exact Or.inl hk

theorem orphan_later_spec :
    ∀ (later : List alt_entry) (st : Blockchain),
      (orphan_later later st).m_db = st.m_db
      ∧ (orphan_later later st).m_alternative_chains
          = st.m_alternative_chains.filter (fun x => !(later.any (fun e => e.1 == x.1)))
      ∧ (∀ e ∈ later, (orphan_later later st).m_invalid_blocks.any (fun x => x.1 == e.1) = true)
      ∧ (∀ k, st.m_invalid_blocks.any (fun e => e.1 == k) = true →
          (orphan_later later st).m_invalid_blocks.any (fun e => e.1 == k) = true) := by
  intro later
  induction later with
  | nil =>
    intro st
    refine ⟨rfl, by simp [orphan_later], ?_, fun _ hk => hk⟩
    intro e he; cases he
  | cons e rest ih =>
    intro st
    obtain ⟨a1, a2, a3, a4⟩ := add_block_as_invalid_entry_spec st e.2 e.1
    unfold orphan_later
    simp only
    obtain ⟨i1, i2, i3, i4⟩ := ih
      { add_block_as_invalid_entry st e.2 e.1 with
        m_alternative_chains :=
          alt_index_erase (add_block_as_invalid_entry st e.2 e.1).m_alternative_chains e.1 }
    refine ⟨i1.trans a1, ?_, ?_, ?_⟩
    · rw [i2]
      simp only
      rw [a2]
      unfold alt_index_erase
      rw [List.filter_filter]
      congr 1
      funext x
      simp only [List.any_cons, Bool.not_or, beq_iff_eq]
      rw [Bool.and_comm]
      congr 2
      simp only [Bool.beq_eq_decide_eq]
      congr 1
      exact propext ⟨fun h => h.symm, fun h => h.symm⟩
    · intro x hx
      rcases List.mem_cons.1 hx with rfl | hx
      · exact i4 _ a3
      · exact i3 x hx
    · intro k hk
      exact i4 k (a4 k hk)

/-- C33, the failing input: a reorganisation whose second alternative block
fails, with a pool that refuses the transaction of the popped main-chain block.
The call returns false, but the rollback cannot add block 102 again (the
assertion of line 914, `PANIC! failed to add (again) block...`, fails and its
result is ignored at line 1057), and the main chain is left at the blocks 100
and 101, not at the original blocks 100, 101 and 102 that the comments of lines
884-886 and 1048-1049 announce. -/
theorem switch_apply_failed_rollback_incomplete :
    sample_chain_reorg.m_db.m_blocks.map (fun r => r.id) = [100, 101, 102]
    ∧ (switch_apply sample_env_pool_refuses sample_apply_alt_chain sample_chain_reorg
        sample_alt_chain_bad_second false).map (fun r => r.1)
        = some (call_outcome.returned false)
    ∧ (switch_apply sample_env_pool_refuses sample_apply_alt_chain sample_chain_reorg
        sample_alt_chain_bad_second false).map
          (fun r => r.2.m_db.m_blocks.map (fun b => b.id)) = some [100, 101]
    ∧ (switch_apply sample_env_pool_refuses sample_apply_alt_chain sample_chain_reorg
        sample_alt_chain_bad_second false).map
          (fun r => r.2.m_invalid_blocks.map (fun e => e.1)) = some [302, 303]
    ∧ (switch_apply sample_env_pool_refuses sample_apply_alt_chain sample_chain_reorg
        sample_alt_chain_bad_second false).map
          (fun r => r.2.m_alternative_chains.map (fun e => e.1)) = some [301] := by
  decide

/-- C33: what a failed connection leaves. When the pop loop of
`switch_to_alternative_blockchain` has ended at the parent of the alternative
chain and the block of `offender` is the first alternative block that is not
added, the call returns false; the store is the one
`rollback_blockchain_switching` leaves, whose result is ignored: the main chain
holds the blocks of the original chain again when that method returns true, and
not otherwise; the hash of the offending block and the key of every later entry
are in the invalid index; the alternative index is the one of the start without
the entries keyed like the offending or a later entry, so every other entry is
still there. -/
theorem switch_apply_failed (env : Env) (nested : switch_fn) (st : Blockchain)
    (alt_chain : List alt_entry) (discard_disconnected_chain : Bool) (front : alt_entry)
    (st1 st2 : Blockchain) (disconnected_chain : List block) (offender : alt_entry)
    (later : List alt_entry)
    (hfront : alt_chain.head? = some front)
    (hpop : pop_to_parent env front.2.bl.prev_id (st.m_db.height + 1) st []
      = (st1, some disconnected_chain))
    (hfail : connect_alt_chain env alt_chain st1 = connect_result.failed st2 offender later) :
    ∃ (final : Blockchain) (before : List alt_entry),
      switch_apply env nested st alt_chain discard_disconnected_chain
        = some (call_outcome.returned false, final)
      ∧ alt_chain = before ++ offender :: later
      ∧ final.m_db
        = (rollback_blockchain_switching env st2 disconnected_chain st1.m_db.height).2.m_db
      ∧ ((rollback_blockchain_switching env st2 disconnected_chain st1.m_db.height).1
            = call_outcome.returned true →
          final.m_db.m_blocks.map (fun r => r.bl) = st.m_db.m_blocks.map (fun r => r.bl))
      ∧ final.m_invalid_blocks.any (fun x => x.1 == env.get_block_hash offender.2.bl) = true
      ∧ (∀ e ∈ later, final.m_invalid_blocks.any (fun x => x.1 == e.1) = true)
      ∧ final.m_alternative_chains
        = st.m_alternative_chains.filter
            (fun x => !((offender :: later).any (fun e => e.1 == x.1)))
      ∧ (∀ e ∈ offender :: later, ∀ x ∈ final.m_alternative_chains, x.1 ≠ e.1)
      ∧ (∀ x ∈ st.m_alternative_chains, (∀ e ∈ offender :: later, e.1 ≠ x.1) →
          x ∈ final.m_alternative_chains) := by
  obtain ⟨p1, n, hn, p2, p3⟩ := pop_to_parent_spec env front.2.bl.prev_id (st.m_db.height + 1)
    st []
  rw [hpop] at p1 p2 p3
  simp only at p1 p2 p3
  have hdisc := p3 disconnected_chain rfl
  obtain ⟨before, rs, c1, c2, c3, c4⟩ := connect_alt_chain_failed env alt_chain st1 st2 offender
    later hfail
  obtain ⟨r1, r2, r3⟩ := rollback_blockchain_switching_frame env st2 disconnected_chain
    st1.m_db.height
  have hst1 : st1.m_db.height = n := by
    unfold BlockchainDB.height at hn ⊢
    rw [p2, List.length_take]
    omega
  cases hrb : (rollback_blockchain_switching env st2 disconnected_chain st1.m_db.height).1 with
  | threw e => exact absurd hrb (r2 e)
  | returned b =>
    obtain ⟨a1, a2, a3, a4⟩ := add_block_as_invalid_entry_spec
      (rollback_blockchain_switching env st2 disconnected_chain st1.m_db.height).2 offender.2
      (env.get_block_hash offender.2.bl)
    obtain ⟨o1, o2, o3, o4⟩ := orphan_later_spec later
      { add_block_as_invalid_entry
          (rollback_blockchain_switching env st2 disconnected_chain st1.m_db.height).2
          offender.2 (env.get_block_hash offender.2.bl) with
        m_alternative_chains := alt_index_erase
          (add_block_as_invalid_entry
            (rollback_blockchain_switching env st2 disconnected_chain st1.m_db.height).2
            offender.2 (env.get_block_hash offender.2.bl)).m_alternative_chains offender.1 }
    have halt : (orphan_later later
        { add_block_as_invalid_entry
            (rollback_blockchain_switching env st2 disconnected_chain st1.m_db.height).2
            offender.2 (env.get_block_hash offender.2.bl) with
          m_alternative_chains := alt_index_erase
            (add_block_as_invalid_entry
              (rollback_blockchain_switching env st2 disconnected_chain st1.m_db.height).2
              offender.2 (env.get_block_hash offender.2.bl)).m_alternative_chains
            offender.1 }).m_alternative_chains
        = st.m_alternative_chains.filter
            (fun x => !((offender :: later).any (fun e => e.1 == x.1))) := by
      rw [o2]
      simp only
      rw [a2, r1, c4, p1]
      unfold alt_index_erase
      rw [List.filter_filter]
      congr 1
      funext x
      simp only [List.any_cons, Bool.not_or, beq_iff_eq]
      rw [Bool.and_comm]
      congr 2
      simp only [Bool.beq_eq_decide_eq]
      congr 1
      exact propext ⟨fun h => h.symm, fun h => h.symm⟩
    refine ⟨_, before, ?_, c1, ?_, ?_, ?_, o3, halt, ?_, ?_⟩
    · unfold switch_apply
      simp only [hfront, hpop, hfail, hrb]
    · exact o1.trans a1
    · intro hret
      have hle : st1.m_db.height ≤ st2.m_db.height := by
        unfold BlockchainDB.height
        rw [c2, List.length_append]
        omega
      obtain ⟨rs2, q1, q2⟩ := r3 hle (hrb.trans hret)
      rw [o1, a1, q1, c2]
      have ht : (st1.m_db.m_blocks ++ rs).take st1.m_db.height = st1.m_db.m_blocks := by
        unfold BlockchainDB.height
        rw [List.take_left']
        rfl
      rw [ht, List.map_append, q2, hdisc, p2, List.append_nil, ← List.map_append,
        List.take_append_drop]
    · exact o4 _ a3
    · intro e he x hx heq
      rw [halt, List.mem_filter] at hx
      have := hx.2
      simp only [Bool.not_eq_true', List.any_eq_false, beq_iff_eq] at this
      exact this e he heq.symm
    · intro x hx hk
      rw [halt, List.mem_filter]
      refine ⟨hx, ?_⟩
      simp only [Bool.not_eq_true', List.any_eq_false, beq_iff_eq]
      intro e he
      exact hk e he

theorem switch_apply_failed_witness :
    ∃ (final : Blockchain),
      switch_apply sample_env sample_apply_alt_chain sample_chain_reorg
          sample_alt_chain_bad_second false
        = some (call_outcome.returned false, final)
      ∧ final.m_db.m_blocks.map (fun r => r.bl)
        = sample_chain_reorg.m_db.m_blocks.map (fun r => r.bl) :=
  let ⟨final, _, h1, _, _, h4, _⟩ :=
    switch_apply_failed sample_env sample_apply_alt_chain sample_chain_reorg
      sample_alt_chain_bad_second false
      (301, { bl := sample_block 301 101 2 [⟨100, txout_target_v.txout_to_key 9⟩] [],
              height := 2, block_cumulative_size := 0, cumulative_difficulty := 30,
              already_generated_coins := 0 })
      (pop_to_parent sample_env 101 4 sample_chain_reorg []).1
      (handle_block_to_main_chain sample_env
        (handle_block_to_main_chain sample_env
          (pop_to_parent sample_env 101 4 sample_chain_reorg []).1
          (sample_block 301 101 2 [⟨100, txout_target_v.txout_to_key 9⟩] []) 301 fresh_bvc).st
        (sample_block 302 301 7 [⟨100, txout_target_v.txout_to_key 9⟩] []) 302 fresh_bvc).st
      [sample_block_with_tx]
      (302, { bl := sample_block 302 301 7 [⟨100, txout_target_v.txout_to_key 9⟩] [],
              height := 3, block_cumulative_size := 0, cumulative_difficulty := 37,
              already_generated_coins := 0 })
      [(303, { bl := sample_block 303 302 4 [⟨100, txout_target_v.txout_to_key 9⟩] [],
               height := 4, block_cumulative_size := 0, cumulative_difficulty := 44,
               already_generated_coins := 0 })]
      (by decide) (by decide) (by decide)
  ⟨final, h1, h4 (by decide)⟩

/-! ## C36 and C40: `prevalidate_block_hashes` -/

theorem getD_set_eq (l : List crypto.hash) (i j : Nat) (v : crypto.hash) :
    (l.set i v).getD j crypto.null_hash
      = if i = j ∧ i < l.length then v else l.getD j crypto.null_hash := by
  simp only [List.getD_eq_getElem?_getD, List.getElem?_set]
  by_cases h : i = j
  · subst h
    by_cases h2 : i < l.length
    · simp [h2]
    · simp [h2]
      rw [List.getElem?_eq_none (by omega)]
      rfl
  · simp [h]

theorem prevalidate_write_group_spec (env : Env) (m_blocks_hash_of_hashes : List crypto.hash)
    (data : List crypto.hash) (first_index n : Nat) (init : List crypto.hash)
    (hvalid : group_valid env m_blocks_hash_of_hashes data first_index n) :
    ∀ (remaining i : Nat) (check : List crypto.hash),
      n * env.HASH_OF_HASHES_STEP ≤ i →
      i + remaining ≤ n * env.HASH_OF_HASHES_STEP + env.HASH_OF_HASHES_STEP →
      hash_check_changes env m_blocks_hash_of_hashes data first_index init check →
      hash_check_changes env m_blocks_hash_of_hashes data first_index init
        (prevalidate_write_group data (first_index * env.HASH_OF_HASHES_STEP) remaining i
          check).2 := by
  intro remaining
  induction remaining with
  | zero => intro i check _ _ h; exact h
  | succ remaining ih =>
    intro i check hlo hhi h
    unfold prevalidate_write_group
    by_cases hc : ¬ (check.getD i crypto.null_hash = crypto.null_hash
        ∨ check.getD i crypto.null_hash
          = data.getD (i - first_index * env.HASH_OF_HASHES_STEP) crypto.null_hash)
    · rw [if_pos hc]
      exact h
    · rw [if_neg hc]
      apply ih (i + 1) _ (by omega) (by omega)
      refine ⟨by rw [List.length_set]; exact h.1, ?_⟩
      intro j hj
      rw [getD_set_eq] at hj ⊢
      by_cases hij : i = j ∧ i < check.length
      · rw [if_pos hij] at hj ⊢
        obtain ⟨rfl, _⟩ := hij
        have hdiv : i / env.HASH_OF_HASHES_STEP = n := by
          apply Nat.div_eq_of_lt_le
          · exact hlo
          · rw [Nat.succ_mul]; omega
        refine ⟨?_, by rw [hdiv]; exact hvalid, rfl⟩
        by_contra hinit
        by_cases hsame : check.getD i crypto.null_hash = init.getD i crypto.null_hash
        · have hc2 := not_not.1 hc
          rcases hc2 with h0 | h0
          · exact hinit (hsame ▸ h0)
          · exact hj (h0 ▸ hsame)
        · have := (h.2 i hsame).1
          exact hinit this
      · rw [if_neg hij] at hj ⊢
        exact h.2 j hj

theorem prevalidate_groups_changes (env : Env) (m_blocks_hash_of_hashes : List crypto.hash)
    (data : List crypto.hash) (first_index hashes_size : Nat) (init : List crypto.hash) :
    ∀ (remaining n usable : Nat) (check : List crypto.hash),
      first_index ≤ n →
      hash_check_changes env m_blocks_hash_of_hashes data first_index init check →
      hash_check_changes env m_blocks_hash_of_hashes data first_index init
        (prevalidate_groups env m_blocks_hash_of_hashes data first_index hashes_size remaining n
          usable check).2 := by
  intro remaining
  induction remaining with
  | zero => intro n usable check _ h; exact h
  | succ remaining ih =>
    intro n usable check hn h
    unfold prevalidate_groups
    simp only
    by_cases h1 : n < m_blocks_hash_of_hashes.length
    · rw [if_pos h1]
      by_cases h2 : data.length
          < (n - first_index) * env.HASH_OF_HASHES_STEP + env.HASH_OF_HASHES_STEP
      · rw [if_pos h2]; exact h
      · rw [if_neg h2]
        by_cases h3 : env.cn_fast_hash
            ((data.drop ((n - first_index) * env.HASH_OF_HASHES_STEP)).take
              env.HASH_OF_HASHES_STEP) ≠ m_blocks_hash_of_hashes.getD n crypto.null_hash
        · rw [if_pos h3]; exact h
        · rw [if_neg h3]
          have hvalid : group_valid env m_blocks_hash_of_hashes data first_index n :=
            ⟨hn, h1, by omega, not_not.1 h3⟩
          have hw := prevalidate_write_group_spec env m_blocks_hash_of_hashes data first_index n
            init hvalid env.HASH_OF_HASHES_STEP (n * env.HASH_OF_HASHES_STEP) check
            (le_refl _) (le_refl _) h
          cases hr : prevalidate_write_group data (first_index * env.HASH_OF_HASHES_STEP)
              env.HASH_OF_HASHES_STEP (n * env.HASH_OF_HASHES_STEP) check with
          | mk ok check1 =>
            rw [hr] at hw
            cases ok with
            | false => exact hw
            | true => exact ih _ _ _ (by omega) hw
    · rw [if_neg h1]
      exact ih _ _ _ (by omega) h

theorem prevalidate_data_getD (env : Env) (db : BlockchainDB) (height : Nat)
    (hashes : List crypto.hash) (j : Nat) (hpos : 0 < env.HASH_OF_HASHES_STEP) :
    (prevalidate_data env db height hashes).2.getD j crypto.null_hash
      = if (prevalidate_data env db height hashes).1 * env.HASH_OF_HASHES_STEP + j < height then
          db.get_block_hash_from_height
            ((prevalidate_data env db height hashes).1 * env.HASH_OF_HASHES_STEP + j)
        else
          hashes.getD ((prevalidate_data env db height hashes).1 * env.HASH_OF_HASHES_STEP + j
            - height) crypto.null_hash := by
  have hdm := Nat.div_add_mod height env.HASH_OF_HASHES_STEP
  have hmul : height / env.HASH_OF_HASHES_STEP * env.HASH_OF_HASHES_STEP
      = env.HASH_OF_HASHES_STEP * (height / env.HASH_OF_HASHES_STEP) := Nat.mul_comm _ _
  unfold prevalidate_data
  simp only
  by_cases hc : decide (height > db.height) = true ∧ height % env.HASH_OF_HASHES_STEP ≠ 0
  · rw [if_pos hc]
    simp only
    have hlt := Nat.mod_lt height hpos
    rw [Nat.add_mul, Nat.one_mul, hmul]
    rw [if_neg (by omega)]
    simp only [List.getD_eq_getElem?_getD, List.getElem?_drop]
    congr 2
    omega
  · rw [if_neg hc]
    simp only
    rw [hmul]
    by_cases hj : env.HASH_OF_HASHES_STEP * (height / env.HASH_OF_HASHES_STEP) + j < height
    · rw [if_pos hj]
      simp only [List.getD_eq_getElem?_getD]
      rw [List.getElem?_append_left (by simp; omega)]
      rw [List.getElem?_map, List.getElem?_range' _ _ (by omega)]
      simp
    · rw [if_neg hj]
      simp only [List.getD_eq_getElem?_getD]
      rw [List.getElem?_append_right (by simp; omega)]
      simp only [List.length_map, List.length_range']
      congr 2
      omega

/-- C36: `prevalidate_block_hashes` changes an entry `i` of
`m_blocks_hash_check` only where the entry was null, the aligned group of
`HASH_OF_HASHES_STEP` hashes that contains height `i` is complete in `data`
and its fast-hash equals `m_blocks_hash_of_hashes[i / HASH_OF_HASHES_STEP]`,
and the value written is the hash of `data` for height `i`: the chain's hash
below `height`, the candidate `hashes[i - height]` from `height` on. An entry
that is set keeps its value, and the size of the table and the store are left
as they were. -/
theorem prevalidate_block_hashes_writes (env : Env) (m_blocks_hash_of_hashes : List crypto.hash)
    (st : Blockchain) (height : Nat) (hashes : List crypto.hash)
    (hstep : 0 < env.HASH_OF_HASHES_STEP) :
    (prevalidate_block_hashes env m_blocks_hash_of_hashes st height
        hashes).2.m_blocks_hash_check.length = st.m_blocks_hash_check.length
    ∧ (prevalidate_block_hashes env m_blocks_hash_of_hashes st height hashes).2.m_db = st.m_db
    ∧ (∀ i,
        (prevalidate_block_hashes env m_blocks_hash_of_hashes st height
            hashes).2.m_blocks_hash_check.getD i crypto.null_hash
          ≠ st.m_blocks_hash_check.getD i crypto.null_hash →
        st.m_blocks_hash_check.getD i crypto.null_hash = crypto.null_hash
        ∧ group_valid env m_blocks_hash_of_hashes
            (prevalidate_data env st.m_db height hashes).2
            (prevalidate_data env st.m_db height hashes).1 (i / env.HASH_OF_HASHES_STEP)
        ∧ (prevalidate_block_hashes env m_blocks_hash_of_hashes st height
            hashes).2.m_blocks_hash_check.getD i crypto.null_hash
          = (if i < height then st.m_db.get_block_hash_from_height i
              else hashes.getD (i - height) crypto.null_hash))
    ∧ (∀ i, st.m_blocks_hash_check.getD i crypto.null_hash ≠ crypto.null_hash →
        (prevalidate_block_hashes env m_blocks_hash_of_hashes st height
            hashes).2.m_blocks_hash_check.getD i crypto.null_hash
          = st.m_blocks_hash_check.getD i crypto.null_hash) := by
  have hinit : hash_check_changes env m_blocks_hash_of_hashes
      (prevalidate_data env st.m_db height hashes).2
      (prevalidate_data env st.m_db height hashes).1 st.m_blocks_hash_check
      st.m_blocks_hash_check := ⟨rfl, fun i hi => absurd rfl hi⟩
  have hmain : hash_check_changes env m_blocks_hash_of_hashes
      (prevalidate_data env st.m_db height hashes).2
      (prevalidate_data env st.m_db height hashes).1 st.m_blocks_hash_check
      (prevalidate_block_hashes env m_blocks_hash_of_hashes st height
        hashes).2.m_blocks_hash_check
      ∧ (prevalidate_block_hashes env m_blocks_hash_of_hashes st height hashes).2.m_db
        = st.m_db := by
    unfold prevalidate_block_hashes
    simp only
    split
    · exact ⟨hinit, rfl⟩
    · split
      · exact ⟨hinit, rfl⟩
      · split
        · exact ⟨hinit, rfl⟩
        · have hg := prevalidate_groups_changes env m_blocks_hash_of_hashes
            (prevalidate_data env st.m_db height hashes).2
            (prevalidate_data env st.m_db height hashes).1 hashes.length
            st.m_blocks_hash_check
            (sub64 (add64 height hashes.length) 1 / env.HASH_OF_HASHES_STEP + 1
              - (prevalidate_data env st.m_db height hashes).1)
            (prevalidate_data env st.m_db height hashes).1
            (sub64 (mul64 (prevalidate_data env st.m_db height hashes).1
              env.HASH_OF_HASHES_STEP) height)
            st.m_blocks_hash_check (le_refl _) hinit
          split
          · exact ⟨hg, rfl⟩
          · split
            · exact ⟨hg, rfl⟩
            · exact ⟨hg, rfl⟩
  obtain ⟨⟨hlen, hch⟩, hdb⟩ := hmain
  refine ⟨hlen, hdb, ?_, ?_⟩
  · intro i hi
    obtain ⟨h1, h2, h3⟩ := hch i hi
    refine ⟨h1, h2, ?_⟩
    rw [h3, prevalidate_data_getD _ _ _ _ _ hstep]
    have hle : (prevalidate_data env st.m_db height hashes).1 * env.HASH_OF_HASHES_STEP ≤ i := by
      have hv := h2.1
      have := Nat.div_mul_le_self i env.HASH_OF_HASHES_STEP
      exact le_trans (Nat.mul_le_mul_right _ hv) this
    rw [Nat.add_sub_cancel' hle]
  · intro i hi
    by_contra hne
    exact hi (hch i hne).1

theorem prevalidate_block_hashes_writes_witness :
    sample_chain_hash_check.m_blocks_hash_check.getD 1 crypto.null_hash = crypto.null_hash
    ∧ group_valid sample_env sample_hash_of_hashes
        (prevalidate_data sample_env sample_chain_hash_check.m_db 0 [100, 101, 102, 103]).2
        (prevalidate_data sample_env sample_chain_hash_check.m_db 0 [100, 101, 102, 103]).1
        (1 / sample_env.HASH_OF_HASHES_STEP)
    ∧ (prevalidate_block_hashes sample_env sample_hash_of_hashes sample_chain_hash_check 0
          [100, 101, 102, 103]).2.m_blocks_hash_check.getD 1 crypto.null_hash
        = (if 1 < 0 then sample_chain_hash_check.m_db.get_block_hash_from_height 1
            else [100, 101, 102, 103].getD (1 - 0) crypto.null_hash) :=
  (prevalidate_block_hashes_writes sample_env sample_hash_of_hashes sample_chain_hash_check 0
    [100, 101, 102, 103] (by decide)).2.2.1 1 (by decide)

theorem sub64_of_le (a b : Nat) (hab : b ≤ a) (ha : a < UINT64_RANGE) : sub64 a b = a - b := by
  unfold sub64 UINT64_RANGE at *
  omega

theorem sub64_of_lt (a b : Nat) (hab : a < b) (hb : b < UINT64_RANGE) :
    sub64 a b = UINT64_RANGE - (b - a) := by
  unfold sub64 UINT64_RANGE at *
  omega

theorem prevalidate_groups_usable (env : Env) (m_blocks_hash_of_hashes : List crypto.hash)
    (data : List crypto.hash) (first_index hashes_size : Nat)
    (hfit : hashes_size + env.HASH_OF_HASHES_STEP < UINT64_RANGE) :
    ∀ (remaining n usable : Nat) (check : List crypto.hash),
      usable_state env m_blocks_hash_of_hashes data first_index hashes_size n usable →
      ∀ u, (prevalidate_groups env m_blocks_hash_of_hashes data first_index hashes_size remaining
          n usable check).1 = some u →
        u ≤ hashes_size ∨ (UINT64_RANGE - 1) / 2 ≤ u := by
  have hexit : ∀ n usable,
      usable_state env m_blocks_hash_of_hashes data first_index hashes_size n usable →
      usable ≤ hashes_size ∨ (UINT64_RANGE - 1) / 2 ≤ usable := by
    intro n usable h
    rcases h with ⟨_, h2, h3⟩ | ⟨_, _, h3, _⟩ | ⟨_, h2⟩
    · left; omega
    · right; exact h3
    · left; exact h2
  intro remaining
  induction remaining with
  | zero =>
    intro n usable check h u hu
    simp only [prevalidate_groups, Option.some.injEq] at hu
    rw [← hu]
    exact hexit n usable h
  | succ remaining ih =>
    intro n usable check h u hu
    unfold prevalidate_groups at hu
    simp only at hu
    by_cases h1 : n < m_blocks_hash_of_hashes.length
    · rw [if_pos h1] at hu
      by_cases h2 : data.length
          < (n - first_index) * env.HASH_OF_HASHES_STEP + env.HASH_OF_HASHES_STEP
      · rw [if_pos h2] at hu
        simp only [Option.some.injEq] at hu
        rw [← hu]
        exact hexit n usable h
      · rw [if_neg h2] at hu
        by_cases h3 : env.cn_fast_hash
            ((data.drop ((n - first_index) * env.HASH_OF_HASHES_STEP)).take
              env.HASH_OF_HASHES_STEP) ≠ m_blocks_hash_of_hashes.getD n crypto.null_hash
        · rw [if_pos h3] at hu
          simp only [Option.some.injEq] at hu
          rw [← hu]
          exact hexit n usable h
        · rw [if_neg h3] at hu
          cases hr : prevalidate_write_group data (first_index * env.HASH_OF_HASHES_STEP)
              env.HASH_OF_HASHES_STEP (n * env.HASH_OF_HASHES_STEP) check with
          | mk ok check1 =>
            rw [hr] at hu
            cases ok with
            | false => simp at hu
            | true =>
              simp only at hu
              refine ih (n + 1) _ check1 ?_ u hu
              rcases h with ⟨e1, e2, e3⟩ | ⟨g1, g2, g3, g4⟩ | ⟨c1, _⟩
              · left
                have hk : (n + 1 - first_index) * env.HASH_OF_HASHES_STEP
                    = (n - first_index) * env.HASH_OF_HASHES_STEP + env.HASH_OF_HASHES_STEP := by
                  rw [show n + 1 - first_index = (n - first_index) + 1 by omega, Nat.succ_mul]
                have hadd : add64 usable env.HASH_OF_HASHES_STEP
                    = usable + env.HASH_OF_HASHES_STEP := by
                  apply add64_of_lt
                  omega
                rw [hk, hadd]
                exact ⟨by omega, by omega, by omega⟩
              · left
                subst g1
                have hk : (n + 1 - n) * env.HASH_OF_HASHES_STEP = env.HASH_OF_HASHES_STEP := by
                  rw [show n + 1 - n = 1 by omega, Nat.one_mul]
                rw [hk]
                rw [Nat.sub_self, Nat.zero_mul, Nat.zero_add] at h2
                exact ⟨by omega, by omega, g4⟩
              · omega
    · rw [if_neg h1] at hu
      refine ih (n + 1) _ check ?_ u hu
      right; right
      refine ⟨by omega, ?_⟩
      split
      · exact le_refl _
      · omega

theorem prevalidate_initial_state (env : Env) (m_blocks_hash_of_hashes : List crypto.hash)
    (db : BlockchainDB) (height : Nat) (hashes : List crypto.hash)
    (hstep : 0 < env.HASH_OF_HASHES_STEP)
    (hfit : height + hashes.length + 2 * env.HASH_OF_HASHES_STEP < UINT64_RANGE)
    (hrange : height < m_blocks_hash_of_hashes.length * env.HASH_OF_HASHES_STEP)
    (hearly : ¬ (height / env.HASH_OF_HASHES_STEP
        = sub64 (add64 height hashes.length) 1 / env.HASH_OF_HASHES_STEP
      ∧ hashes.length < env.HASH_OF_HASHES_STEP
      ∧ add64 height hashes.length % env.HASH_OF_HASHES_STEP ≠ 0)) :
    usable_state env m_blocks_hash_of_hashes (prevalidate_data env db height hashes).2
      (prevalidate_data env db height hashes).1 hashes.length
      (prevalidate_data env db height hashes).1
      (sub64 (mul64 (prevalidate_data env db height hashes).1 env.HASH_OF_HASHES_STEP)
        height) := by
  have hdm := Nat.div_add_mod height env.HASH_OF_HASHES_STEP
  have hlt := Nat.mod_lt height hstep
  have hmul : height / env.HASH_OF_HASHES_STEP * env.HASH_OF_HASHES_STEP
      = env.HASH_OF_HASHES_STEP * (height / env.HASH_OF_HASHES_STEP) := Nat.mul_comm _ _
  have hR : UINT64_RANGE = 18446744073709551616 := rfl
  unfold prevalidate_data
  simp only
  by_cases hc : decide (height > db.height) = true ∧ height % env.HASH_OF_HASHES_STEP ≠ 0
  · rw [if_pos hc]
    simp only
    have hprod : (height / env.HASH_OF_HASHES_STEP + 1) * env.HASH_OF_HASHES_STEP
        = env.HASH_OF_HASHES_STEP * (height / env.HASH_OF_HASHES_STEP)
          + env.HASH_OF_HASHES_STEP := by
      rw [Nat.add_mul, Nat.one_mul, hmul]
    have hpop : env.HASH_OF_HASHES_STEP - height % env.HASH_OF_HASHES_STEP ≤ hashes.length := by
      by_contra hlt2
      apply hearly
      have hadd : add64 height hashes.length = height + hashes.length :=
        add64_of_lt _ _ (by omega)
      have hsub : sub64 (height + hashes.length) 1 = height + hashes.length - 1 :=
        sub64_of_le _ _ (by omega) (by omega)
      rw [hadd, hsub]
      refine ⟨?_, by omega, ?_⟩
      · symm
        apply Nat.div_eq_of_lt_le
        · rw [hmul]; omega
        · rw [hprod]; omega
      · have : height + hashes.length
            = env.HASH_OF_HASHES_STEP * (height / env.HASH_OF_HASHES_STEP)
              + (height % env.HASH_OF_HASHES_STEP + hashes.length) := by omega
        rw [this, Nat.mul_add_mod, Nat.mod_eq_of_lt (by omega)]
        omega
    rw [mul64_of_lt _ _ (by rw [hprod]; omega), hprod, sub64_of_le _ _ (by omega) (by omega)]
    left
    refine ⟨le_refl _, by simp, ?_⟩
    simp only [List.length_drop, Nat.sub_self, Nat.zero_mul, Nat.add_zero]
    omega
  · rw [if_neg hc]
    simp only
    rw [mul64_of_lt _ _ (by rw [hmul]; omega), hmul]
    by_cases hr : height % env.HASH_OF_HASHES_STEP = 0
    · rw [sub64_of_le _ _ (by omega) (by omega)]
      left
      refine ⟨le_refl _, by simp, ?_⟩
      simp only [List.length_append, List.length_map, List.length_range', Nat.sub_self,
        Nat.zero_mul, Nat.add_zero]
      omega
    · rw [sub64_of_lt _ _ (by omega) (by omega)]
      right; left
      refine ⟨rfl, ?_, by omega, ?_⟩
      · apply Nat.div_lt_of_lt_mul
        rw [Nat.mul_comm]
        exact hrange
      · simp only [List.length_append, List.length_map, List.length_range']
        unfold add64
        rw [hR]
        omega

/-- C40: when the sums of the height, the number of candidates and two group
sizes fit in 64 bits, `prevalidate_block_hashes` returns at most
`hashes.size ()`, although its counter starts as the wrapped difference
`first_index * HASH_OF_HASHES_STEP - height`; it returns `hashes.size ()`, and
changes nothing, when the height is at or beyond the precomputed range or the
check table is empty; and whenever the group loop ends with a counter of
`(2^64 - 1) / 2` or more (a wrapped negative value), it returns 0. -/
theorem prevalidate_block_hashes_count (env : Env) (m_blocks_hash_of_hashes : List crypto.hash)
    (st : Blockchain) (height : Nat) (hashes : List crypto.hash)
    (hstep : 0 < env.HASH_OF_HASHES_STEP)
    (hfit : height + hashes.length + 2 * env.HASH_OF_HASHES_STEP < UINT64_RANGE) :
    (prevalidate_block_hashes env m_blocks_hash_of_hashes st height hashes).1 ≤ hashes.length
    ∧ (height ≥ m_blocks_hash_of_hashes.length * env.HASH_OF_HASHES_STEP →
        prevalidate_block_hashes env m_blocks_hash_of_hashes st height hashes
          = (hashes.length, st))
    ∧ (st.m_blocks_hash_check = [] →
        prevalidate_block_hashes env m_blocks_hash_of_hashes st height hashes
          = (hashes.length, st))
    ∧ (∀ u, height < m_blocks_hash_of_hashes.length * env.HASH_OF_HASHES_STEP →
        st.m_blocks_hash_check ≠ [] →
        ¬ (height / env.HASH_OF_HASHES_STEP
            = sub64 (add64 height hashes.length) 1 / env.HASH_OF_HASHES_STEP
          ∧ hashes.length < env.HASH_OF_HASHES_STEP
          ∧ add64 height hashes.length % env.HASH_OF_HASHES_STEP ≠ 0) →
        (prevalidate_groups env m_blocks_hash_of_hashes
            (prevalidate_data env st.m_db height hashes).2
            (prevalidate_data env st.m_db height hashes).1 hashes.length
            (sub64 (add64 height hashes.length) 1 / env.HASH_OF_HASHES_STEP + 1
              - (prevalidate_data env st.m_db height hashes).1)
            (prevalidate_data env st.m_db height hashes).1
            (sub64 (mul64 (prevalidate_data env st.m_db height hashes).1
              env.HASH_OF_HASHES_STEP) height)
            st.m_blocks_hash_check).1 = some u →
        (UINT64_RANGE - 1) / 2 ≤ u →
        (prevalidate_block_hashes env m_blocks_hash_of_hashes st height hashes).1 = 0) := by
  refine ⟨?_, ?_, ?_, ?_⟩
  · unfold prevalidate_block_hashes
    simp only
    split
    · exact le_refl _
    · rename_i hrange
      split
      · exact le_refl _
      · split
        · exact le_refl _
        · rename_i hearly
          have hinit := prevalidate_initial_state env m_blocks_hash_of_hashes st.m_db height hashes
            hstep hfit (by omega) hearly
          have hu := prevalidate_groups_usable env m_blocks_hash_of_hashes
            (prevalidate_data env st.m_db height hashes).2
            (prevalidate_data env st.m_db height hashes).1 hashes.length (by omega)
            (sub64 (add64 height hashes.length) 1 / env.HASH_OF_HASHES_STEP + 1
              - (prevalidate_data env st.m_db height hashes).1)
            (prevalidate_data env st.m_db height hashes).1 _ st.m_blocks_hash_check hinit
          split
          · exact Nat.zero_le _
          · rename_i u hsome
            split
            · rename_i hlt
              simp only
              rcases hu u hsome with h | h
              · exact h
              · omega
            · exact Nat.zero_le _
  · intro h
    unfold prevalidate_block_hashes
    simp only
    rw [if_pos h]
  · intro h
    unfold prevalidate_block_hashes
    simp only
    split
    · rfl
    · rw [h]
      rfl
  · intro u h1 h2 h3 hsome hwrap
    unfold prevalidate_block_hashes
    simp only
    rw [if_neg (by omega)]
    have hne : st.m_blocks_hash_check.isEmpty = false := by
      cases hc : st.m_blocks_hash_check with
      | nil => exact absurd hc h2
      | cons a b => rfl
    simp only [hne, Bool.false_eq_true, if_false]
    rw [if_neg h3]
    simp only [hsome]
    rw [if_neg (by omega)]

theorem prevalidate_block_hashes_count_witness :
    (prevalidate_block_hashes sample_env sample_hash_of_hashes sample_chain_hash_check_two 2
      [202, 203, 204, 205, 206, 207]).1 = 0 :=
  (prevalidate_block_hashes_count sample_env sample_hash_of_hashes sample_chain_hash_check_two 2
    [202, 203, 204, 205, 206, 207] (by decide) (by decide)).2.2.2 18446744073709551614
    (by decide) (by decide) (by decide) (by decide) (by decide)

/-! ## C12: the tip and the alternative index across reorganisations -/

/-- A reorganisation that goes ahead and leaves a lower tip. With a pool that
refuses what is handed back, `add_new_block` receives the genesis block, block
101, block 102 carrying transaction 11 (cumulative difficulty 21), then the
alternative block 301 on block 101, which reaches 21 like the tip and is
recorded, then block 302 on block 301, which reaches 28. The switch pops block
102 and connects block 301; block 302 names a transaction that the pool does
not hold and is not added. The rollback cannot add block 102 again: the main
chain ends at the blocks 100 and 101 with 14 at its tip, below the 21 kept for
block 301 in the alternative index. -/
theorem add_new_block_rolled_back_reorganization_tip_below_alt :
    (run_blocks sample_env_pool_refuses
        (switch_to_alternative_blockchain sample_env_pool_refuses
          (sample_apply_switch sample_env_pool_refuses))
        sample_fresh_chain_with_pool
        [sample_block 100 0 0 [] [], sample_block 101 100 1 [] [], sample_block_with_tx,
         sample_block 301 101 2 [] [], sample_block 302 301 3 [] [99]]).map
      (fun st => (st.m_db.m_blocks.map (fun r => (r.id, r.cumulative_difficulty)),
        st.m_alternative_chains.map (fun e => (e.1, e.2.cumulative_difficulty)),
        st.m_invalid_blocks.map (fun e => e.1), tip_dominates st))
      = some ([(100, 7), (101, 14)], [(301, 21)], [302], false) := by
  decide

end cryptonote
